import Mathlib

/-!
# Object-tree extension of the PDF library: embedding and properties

The development follows `platform/shared/pdfium_internal_access.cpp` (the object
serializer `ObjectToPdfString`) and `platform/shared/pdfium_object_info.cpp` (the
tree store `CreateTreeNode` / `AddChildNode`, the queue-driven walker
`BuildObjectTreeWithQueue` and the entry point `PdfiumEx_BuildObjectTree`).

Conventions of the embedding:

* a pointer to a tree node is an index into a heap, the list of the nodes allocated so far in
  allocation order; a nullable pointer is an `Option`;
* `malloc` and `realloc` are taken to succeed;
* a `std::string` and a `char*` are both a `String`, one character for each byte; handing a
  `std::string` to C code through `c_str()` keeps the characters before the first NUL;
* the values held by an array, a dictionary or a stream are never null pointers;
* object numbers are `uint32_t` values on which no arithmetic is done: they are natural numbers;
  `int` values (`depth`, `max_depth`) are integers, and none of the additions made on them can
  leave the range of `int`.
-/

namespace PdfiumEx

/-! ## The document object model handed out by the parser -/

/-- A finite `float` value: the number `mant / 2 ^ scale`.  Every finite binary32 value has
this form. -/
structure FloatValue where
  mant : Int
  scale : Nat

/-- The parser's object, by `GetType()`.  `kNumber` carries what `GetNumber()` returns,
`kString` and `kName` what `GetString()` returns, `kReference` what `GetRefObjNum()` returns,
`kStream` what `GetDict()` returns; `kOther` is a type tag outside the enumeration. -/
inductive CPDF_Object where
  | kBoolean (value : Bool)
  | kNumber (num : FloatValue)
  | kString (str : String)
  | kName (str : String)
  | kArray (elems : List CPDF_Object)
  | kDictionary (entries : List (String × CPDF_Object))
  | kReference (ref_obj_num : Nat)
  | kStream (dict : CPDF_Object)
  | kNullobj
  | kOther

/-- An object resolved by number: its value and its `GetGenNum()`. -/
structure IndirectObject where
  value : CPDF_Object
  gen_num : Nat

/-- The document: `GetOrParseIndirectObject`. -/
structure CPDF_Document where
  GetOrParseIndirectObject : Nat → Option IndirectObject

/-- A dictionary with its identity (`GetObjNum()`, `GetGenNum()`), as `CPDF_Page::GetDict()`
returns it. -/
structure CPDF_Dictionary where
  entries : List (String × CPDF_Object)
  obj_num : Nat
  gen_num : Nat

/-- The page: `GetDict()`, which may be null. -/
structure CPDF_Page where
  GetDict : Option CPDF_Dictionary

/-! ## C strings and stream output -/

/-- The characters a C string function sees in a buffer: those before the first NUL. -/
def c_str (s : String) : String :=
  String.mk (s.data.takeWhile (fun c => c != Char.ofNat 0))

/-- Length of a C string. -/
def strlen (s : String) : Nat :=
  (c_str s).length

def INT_MIN : Int := -2147483648

def INT_MAX : Int := 2147483647

/-- Conversion `static_cast<int>(num)`: truncation toward zero.  For a value outside the range
of `int` the conversion is undefined in C++; the embedding returns `INT_MIN` there, the result
of the x86 conversion instruction. -/
def static_cast_int (num : FloatValue) : Int :=
  let t := Int.tdiv num.mant (2 ^ num.scale)
  if INT_MIN ≤ t ∧ t ≤ INT_MAX then t else INT_MIN

/-- Comparison `num == i` of a float with an `int`.  The `int` is converted to `float` first;
for the two values the serializer compares (`i` the truncation of `num`, or `INT_MIN`) that
conversion is exact, so the comparison is that of the exact values. -/
def float_eq_int (num : FloatValue) (i : Int) : Bool :=
  num.mant == i * 2 ^ num.scale

/-- The value of `num` in hundredths, without its sign, rounded to the nearest integer, ties
to even: the rounding of the C library's `%.2f`. -/
def roundedHundredths (num : FloatValue) : Nat :=
  let n := num.mant.natAbs * 100
  let d := 2 ^ num.scale
  if 2 * (n % d) > d ∨ (2 * (n % d) = d ∧ n / d % 2 = 1) then n / d + 1 else n / d

/-- Output of `oss << std::fixed << std::setprecision(2) << num`: the sign, the integer part,
a point and two fractional digits. -/
def stream_fixed_2 (num : FloatValue) : String :=
  let h := roundedHundredths num
  (if num.mant < 0 then "-" else "") ++ toString (h / 100) ++ "."
    ++ toString (h % 100 / 10) ++ toString (h % 10)

/-! ## The object serializer (`pdfium_internal_access.cpp`) -/

mutual
/-- The serializer on a non-null object: the body of `ObjectToPdfString` after the null
check. -/
def ObjectToPdfString.obj (obj : CPDF_Object) (depth : Int) : String :=
  if depth > 10 then "null" else
  match obj with
  | .kBoolean value => if value then "true" else "false"
  | .kNumber num =>
      if float_eq_int num (static_cast_int num) then toString (static_cast_int num)
      else stream_fixed_2 num
  | .kString str => "(" ++ c_str str ++ ")"
  | .kName str => "/" ++ c_str str
  | .kArray elems => "[ " ++ ObjectToPdfString.elems elems depth 0 ++ " ]"
  | .kDictionary entries => "<< " ++ ObjectToPdfString.entries entries depth ++ ">>"
  | .kReference ref_obj_num => toString ref_obj_num ++ " 0 R"
  | .kStream dict =>
      ObjectToPdfString.obj dict (depth + 1) ++ " stream\n" ++ "<< stream data >>\nendstream"
  | .kNullobj => "null"
  | .kOther => "unknown"
/-- The loop over the elements of an array, from index `i` on. -/
def ObjectToPdfString.elems (elems : List CPDF_Object) (depth : Int) (i : Nat) : String :=
  match elems with
  | [] => ""
  | e :: rest =>
      (if i > 0 then " " else "") ++ ObjectToPdfString.obj e (depth + 1)
        ++ ObjectToPdfString.elems rest depth (i + 1)
/-- The loop over the entries of a dictionary. -/
def ObjectToPdfString.entries (entries : List (String × CPDF_Object)) (depth : Int) : String :=
  match entries with
  | [] => ""
  | (key, value) :: rest =>
      "/" ++ c_str key ++ " " ++ ObjectToPdfString.obj value (depth + 1) ++ " "
        ++ ObjectToPdfString.entries rest depth
end

/-- Function `ObjectToPdfString(obj, depth)`; `none` is the null pointer. -/
def ObjectToPdfString (obj : Option CPDF_Object) (depth : Int) : String :=
  match obj with
  | none => "null"
  | some o => ObjectToPdfString.obj o depth

mutual
/-- The deepest chain of nested recursive calls that `ObjectToPdfString(obj, depth)` makes
below itself: 0 when the call returns without recursing. -/
def ObjectToPdfString.nesting (obj : CPDF_Object) (depth : Int) : Nat :=
  if depth > 10 then 0 else
  match obj with
  | .kArray elems => ObjectToPdfString.nestingElems elems depth
  | .kDictionary entries => ObjectToPdfString.nestingEntries entries depth
  | .kStream dict => 1 + ObjectToPdfString.nesting dict (depth + 1)
  | _ => 0
/-- The same for the calls made by the loop over the elements of an array. -/
def ObjectToPdfString.nestingElems (elems : List CPDF_Object) (depth : Int) : Nat :=
  match elems with
  | [] => 0
  | e :: rest =>
      max (1 + ObjectToPdfString.nesting e (depth + 1))
        (ObjectToPdfString.nestingElems rest depth)
/-- The same for the calls made by the loop over the entries of a dictionary. -/
def ObjectToPdfString.nestingEntries (entries : List (String × CPDF_Object)) (depth : Int) :
    Nat :=
  match entries with
  | [] => 0
  | (_, value) :: rest =>
      max (1 + ObjectToPdfString.nesting value (depth + 1))
        (ObjectToPdfString.nestingEntries rest depth)
end

/-! ## The tree store (`pdfium_object_info.cpp`) -/

/-- The node record `PDFIUM_EX_OBJECT_TREE_NODE`.  `children` holds the slots of the child
buffer written so far, each a pointer; `raw_content` is `none` for a null pointer. -/
structure PDFIUM_EX_OBJECT_TREE_NODE where
  obj_num : Nat
  gen_num : Nat
  raw_content : Option String
  content_length : Nat
  children : List Nat
  child_count : Nat
  max_children : Nat
  depth : Int

/-- The nodes allocated so far; a node pointer is an index into this list. -/
abbrev Heap := List PDFIUM_EX_OBJECT_TREE_NODE

/-- The record that `CreateTreeNode` fills in: no child, capacity 50, a copy of the content. -/
def newTreeNode (obj_num gen_num : Nat) (content : Option String) (depth : Int) :
    PDFIUM_EX_OBJECT_TREE_NODE :=
  { obj_num := obj_num
    gen_num := gen_num
    raw_content := content.map c_str
    content_length := match content with
      | some s => strlen s
      | none => 0
    children := []
    child_count := 0
    max_children := 50
    depth := depth }

/-- Function `CreateTreeNode`: allocates a node; returns the pointer to it and the heap that
holds it. -/
def CreateTreeNode (heap : Heap) (obj_num gen_num : Nat) (content : Option String)
    (depth : Int) : Nat × Heap :=
  (heap.length, heap ++ [newTreeNode obj_num gen_num content depth])

/-- What `AddChildNode` does to the record of the parent: doubles the capacity of a full child
buffer, then stores the child in slot `child_count` and counts it. -/
def attachChild (node : PDFIUM_EX_OBJECT_TREE_NODE) (child : Nat) :
    PDFIUM_EX_OBJECT_TREE_NODE :=
  { node with
    max_children :=
      if node.child_count ≥ node.max_children then node.max_children * 2
      else node.max_children
    children := node.children ++ [child]
    child_count := node.child_count + 1 }

/-- Function `AddChildNode` on the node behind `parent`. -/
def AddChildNode (heap : Heap) (parent child : Nat) : Heap :=
  match heap[parent]? with
  | none => heap
  | some node => heap.set parent (attachChild node child)

/-- Function `PdfiumEx_GetRawObjectContent`: the serialized object `obj_num`, or null when the
document is null, the object does not resolve or its generation number is not `gen_num`. -/
def PdfiumEx_GetRawObjectContent (document : Option CPDF_Document) (obj_num gen_num : Nat) :
    Option String :=
  match document with
  | none => none
  | some pDoc =>
      match pDoc.GetOrParseIndirectObject obj_num with
      | none => none
      | some obj =>
          if obj.gen_num ≠ gen_num then none
          else some (c_str (ObjectToPdfString (some obj.value) 0))

/-! ## The walker (`BuildObjectTreeWithQueue`) -/

/-- The push of a reference target onto `ref_obj_nums`, guarded by
`ref_num > 0 && ref_num != current_obj_num`. -/
def pushRef (current_obj_num ref_num : Nat) (ref_obj_nums : List Nat) : List Nat :=
  if ref_num > 0 ∧ ref_num ≠ current_obj_num then ref_obj_nums ++ [ref_num] else ref_obj_nums

/-- The loop over an array value, `for (i = 0; i < arr->size() && i < 100; ++i)`, from index
`i` on. -/
def scanArray (current_obj_num : Nat) :
    List CPDF_Object → Nat → List Nat → List Nat
  | [], _, ref_obj_nums => ref_obj_nums
  | arr_obj :: rest, i, ref_obj_nums =>
      if i < 100 then
        match arr_obj with
        | .kReference ref_num =>
            scanArray current_obj_num rest (i + 1) (pushRef current_obj_num ref_num ref_obj_nums)
        | _ => scanArray current_obj_num rest (i + 1) ref_obj_nums
      else ref_obj_nums

/-- The loop over a dictionary value, which stops once `ref_obj_nums` holds 1000000
numbers. -/
def scanSubDict (current_obj_num : Nat) :
    List (String × CPDF_Object) → List Nat → List Nat
  | [], ref_obj_nums => ref_obj_nums
  | (_, sub_obj) :: rest, ref_obj_nums =>
      if ref_obj_nums.length ≥ 1000000 then ref_obj_nums
      else
        match sub_obj with
        | .kReference ref_num =>
            scanSubDict current_obj_num rest (pushRef current_obj_num ref_num ref_obj_nums)
        | _ => scanSubDict current_obj_num rest ref_obj_nums

/-- The loop over the entries of the dictionary of object `current_obj_num`, whose node has
depth `depth`: collects `ref_obj_nums`. -/
def collectRefs (current_obj_num : Nat) (depth : Int) :
    List (String × CPDF_Object) → List Nat → List Nat
  | [], ref_obj_nums => ref_obj_nums
  | (_, value) :: rest, ref_obj_nums =>
      match value with
      | .kReference ref_num =>
          collectRefs current_obj_num depth rest (pushRef current_obj_num ref_num ref_obj_nums)
      | .kArray elems =>
          collectRefs current_obj_num depth rest (scanArray current_obj_num elems 0 ref_obj_nums)
      | .kDictionary sub_dict =>
          if depth < 1000000 then
            collectRefs current_obj_num depth rest
              (scanSubDict current_obj_num sub_dict ref_obj_nums)
          else collectRefs current_obj_num depth rest ref_obj_nums
      | _ => collectRefs current_obj_num depth rest ref_obj_nums

/-- The variables of `BuildObjectTreeWithQueue`: the heap the nodes live in, the queue of
⟨object number, parent node⟩, the map from object number to node, and the counter. -/
structure WalkState where
  heap : Heap
  analysis_queue : List (Nat × Option Nat)
  object_tree_map : List (Nat × Option Nat)
  processed_count : Nat

/-- The loop `for (uint32_t ref_obj_num : ref_obj_nums)` that creates the children of
`current_node`. -/
def createChildren (document : Option CPDF_Document) (max_depth : Int) (current_node : Nat) :
    List Nat → WalkState → WalkState
  | [], st => st
  | ref_obj_num :: rest, st =>
      if (st.object_tree_map.lookup ref_obj_num).isSome then
        createChildren document max_depth current_node rest st
      else
        match st.heap[current_node]? with
        | none => st
        | some node =>
            if node.child_count ≥ 1000000 then st
            else
              match PdfiumEx_GetRawObjectContent document ref_obj_num 0 with
              | none => createChildren document max_depth current_node rest st
              | some content_str =>
                  if strlen content_str = 0 then
                    createChildren document max_depth current_node rest st
                  else
                    let created :=
                      CreateTreeNode st.heap ref_obj_num 0 (some content_str) (node.depth + 1)
                    let child := created.1
                    createChildren document max_depth current_node rest
                      { st with
                        heap := AddChildNode created.2 current_node child
                        object_tree_map := (ref_obj_num, some child) :: st.object_tree_map
                        analysis_queue :=
                          if node.depth + 1 < max_depth then
                            st.analysis_queue ++ [(ref_obj_num, some current_node)]
                          else st.analysis_queue }

/-- The lookup `object_tree_map[key]`, which enters a null pointer for a missing key. -/
def mapIndex (object_tree_map : List (Nat × Option Nat)) (key : Nat) :
    Option Nat × List (Nat × Option Nat) :=
  match object_tree_map.lookup key with
  | some node => (node, object_tree_map)
  | none => (none, (key, none) :: object_tree_map)

/-- The `while` loop; `budget` is `1000000 - processed_count`. -/
def walkLoop (document : Option CPDF_Document) (pDoc : CPDF_Document) (max_depth : Int) :
    Nat → WalkState → WalkState
  | 0, st => st
  | budget + 1, st =>
      match st.analysis_queue with
      | [] => st
      | current :: queue =>
          let current_obj_num := current.1
          let found := mapIndex st.object_tree_map current_obj_num
          let st1 : WalkState :=
            { st with
              processed_count := st.processed_count + 1
              analysis_queue := queue
              object_tree_map := found.2 }
          match found.1 with
          | none => walkLoop document pDoc max_depth budget st1
          | some current_node =>
              match st1.heap[current_node]? with
              | none => walkLoop document pDoc max_depth budget st1
              | some node =>
                  if node.depth ≥ max_depth then walkLoop document pDoc max_depth budget st1
                  else
                    match pDoc.GetOrParseIndirectObject current_obj_num with
                    | some ⟨.kDictionary dict, _⟩ =>
                        walkLoop document pDoc max_depth budget
                          (createChildren document max_depth current_node
                            (collectRefs current_obj_num node.depth dict []) st1)
                    | _ => walkLoop document pDoc max_depth budget st1

/-- The state in which `BuildObjectTreeWithQueue` leaves its variables. -/
def BuildObjectTreeWithQueue.run (document : Option CPDF_Document) (heap : Heap)
    (root : Option Nat) (max_depth : Int) : WalkState :=
  let idle : WalkState :=
    { heap := heap, analysis_queue := [], object_tree_map := [], processed_count := 0 }
  match document, root with
  | some pDoc, some root_ptr =>
      match heap[root_ptr]? with
      | none => idle
      | some root_node =>
          walkLoop document pDoc max_depth 1000000
            { heap := heap
              analysis_queue := [(root_node.obj_num, none)]
              object_tree_map := [(root_node.obj_num, some root_ptr)]
              processed_count := 0 }
  | _, _ => idle

/-- Function `BuildObjectTreeWithQueue`: the heap after the walk. -/
def BuildObjectTreeWithQueue (document : Option CPDF_Document) (heap : Heap)
    (root : Option Nat) (max_depth : Int) : Heap :=
  (BuildObjectTreeWithQueue.run document heap root max_depth).heap

/-- Function `PdfiumEx_BuildObjectTree`: the pointer to the root with the heap it points
into, or `none` for the null pointer. -/
def PdfiumEx_BuildObjectTree (document : Option CPDF_Document) (page : Option CPDF_Page)
    (max_depth : Int) : Option (Nat × Heap) :=
  match document, page with
  | some _, some pPage =>
      let max_depth := if max_depth ≤ 0 ∨ max_depth > 1000000 then 1000000 else max_depth
      match pPage.GetDict with
      | none => none
      | some page_dict =>
          let page_obj_num := page_dict.obj_num
          let page_gen_num := page_dict.gen_num
          if page_obj_num = 0 then none
          else
            let page_content := ObjectToPdfString (some (.kDictionary page_dict.entries)) 0
            if page_content.isEmpty then none
            else
              let created := CreateTreeNode [] page_obj_num page_gen_num (some page_content) 0
              some (created.1, BuildObjectTreeWithQueue document created.2 (some created.1)
                max_depth)
  | _, _ => none

/-! ## The tree a caller sees behind a root pointer -/

/-- A node record together with the subtrees behind its first `child_count` child pointers. -/
inductive ObjectTree where
  | node (fields : PDFIUM_EX_OBJECT_TREE_NODE) (children : List ObjectTree)

/-- The record of the root of a tree. -/
def ObjectTree.fields : ObjectTree → PDFIUM_EX_OBJECT_TREE_NODE
  | .node fields _ => fields

/-- The subtrees of the children of the root of a tree. -/
def ObjectTree.children : ObjectTree → List ObjectTree
  | .node _ children => children

mutual
/-- All the nodes of a tree, each as the subtree it roots, in pre-order. -/
def ObjectTree.subtrees : ObjectTree → List ObjectTree
  | .node fields children => .node fields children :: ObjectTree.subtreesOfList children
/-- The nodes of a list of trees. -/
def ObjectTree.subtreesOfList : List ObjectTree → List ObjectTree
  | [] => []
  | t :: rest => t.subtrees ++ ObjectTree.subtreesOfList rest
end

/-- The list of the values of a list of options, when none is missing. -/
def allSome {α : Type} : List (Option α) → Option (List α)
  | [] => some []
  | none :: _ => none
  | some a :: rest => (allSome rest).map (fun l => a :: l)

/-- Follows the child pointers from `ptr`, as `PdfiumEx_ReleaseObjectTree` does (`children[i]`
for `i < child_count`), down to `fuel` levels; `none` when a pointer is dangling or the levels
do not suffice. -/
def readTree (heap : Heap) : Nat → Nat → Option ObjectTree
  | 0, _ => none
  | fuel + 1, ptr =>
      match heap[ptr]? with
      | none => none
      | some node =>
          (allSome ((node.children.take node.child_count).map (readTree heap fuel))).map
            (fun children => ObjectTree.node node children)

/-- The tree behind a result of `PdfiumEx_BuildObjectTree`. -/
def treeOf (result : Nat × Heap) : Option ObjectTree :=
  readTree result.2 result.2.length result.1

/-- The object numbers of the nodes of a tree, in pre-order. -/
def ObjectTree.objNums (t : ObjectTree) : List Nat :=
  t.subtrees.map (fun s => s.fields.obj_num)

/-! ## Definitions used to state the properties of the serializer -/

mutual
/-- The object with every value that lies `levels` or more container levels below its top
replaced by the null object. -/
def cutBelow (obj : CPDF_Object) (levels : Nat) : CPDF_Object :=
  match levels with
  | 0 => .kNullobj
  | k + 1 =>
      match obj with
      | .kArray elems => .kArray (cutBelowElems elems k)
      | .kDictionary entries => .kDictionary (cutBelowEntries entries k)
      | .kStream dict => .kStream (cutBelow dict k)
      | .kBoolean value => .kBoolean value
      | .kNumber num => .kNumber num
      | .kString str => .kString str
      | .kName str => .kName str
      | .kReference ref_obj_num => .kReference ref_obj_num
      | .kNullobj => .kNullobj
      | .kOther => .kOther
/-- The elements of an array, each cut at `levels`. -/
def cutBelowElems (elems : List CPDF_Object) (levels : Nat) : List CPDF_Object :=
  match elems with
  | [] => []
  | e :: rest => cutBelow e levels :: cutBelowElems rest levels
/-- The entries of a dictionary, each value cut at `levels`. -/
def cutBelowEntries (entries : List (String × CPDF_Object)) (levels : Nat) :
    List (String × CPDF_Object) :=
  match entries with
  | [] => []
  | (key, value) :: rest => (key, cutBelow value levels) :: cutBelowEntries rest levels
end

/-- The string holds no NUL character. -/
def NoNul (s : String) : Prop :=
  ∀ c ∈ s.data, c ≠ Char.ofNat 0

/-! ## Definitions used to state the properties of the walker -/

/-- The depth bound in force for the argument `max_depth`: out-of-range values are replaced
by 1000000. -/
def clampedDepth (max_depth : Int) : Int :=
  if 1 ≤ max_depth ∧ max_depth ≤ 1000000 then max_depth else 1000000

/-- The pointers that `readTree` follows from `ptr`, in pre-order. -/
def readPtrs (heap : Heap) : Nat → Nat → List Nat
  | 0, _ => []
  | fuel + 1, ptr =>
      match heap[ptr]? with
      | none => []
      | some node => ptr :: (node.children.take node.child_count).flatMap (readPtrs heap fuel)

/-- Shape of the heap of a tree under construction, with depth bound `D`: the child count is
the number of slots written; child pointers point forward, to nodes one level deeper; no node
is the child of two nodes or twice the child of one; every node but the first has a parent;
object numbers identify nodes; depths lie between 0 and `D`. -/
structure HeapWF (heap : Heap) (D : Int) : Prop where
  counts : ∀ (p : Nat) (n : PDFIUM_EX_OBJECT_TREE_NODE), heap[p]? = some n →
    n.child_count = n.children.length
  forward : ∀ (p : Nat) (n : PDFIUM_EX_OBJECT_TREE_NODE) (c : Nat), heap[p]? = some n →
    c ∈ n.children → p < c ∧ c < heap.length
  child_depth : ∀ (p : Nat) (n : PDFIUM_EX_OBJECT_TREE_NODE) (c : Nat)
    (m : PDFIUM_EX_OBJECT_TREE_NODE), heap[p]? = some n → c ∈ n.children →
    heap[c]? = some m → m.depth = n.depth + 1
  parent_unique : ∀ (p q : Nat) (n m : PDFIUM_EX_OBJECT_TREE_NODE) (c : Nat),
    heap[p]? = some n → heap[q]? = some m → c ∈ n.children → c ∈ m.children → p = q
  children_nodup : ∀ (p : Nat) (n : PDFIUM_EX_OBJECT_TREE_NODE), heap[p]? = some n →
    n.children.Nodup
  has_parent : ∀ c : Nat, 0 < c → c < heap.length →
    ∃ (p : Nat) (n : PDFIUM_EX_OBJECT_TREE_NODE), heap[p]? = some n ∧ c ∈ n.children
  obj_inj : ∀ (p q : Nat) (n m : PDFIUM_EX_OBJECT_TREE_NODE), heap[p]? = some n →
    heap[q]? = some m → n.obj_num = m.obj_num → p = q
  depth_range : ∀ (p : Nat) (n : PDFIUM_EX_OBJECT_TREE_NODE), heap[p]? = some n →
    0 ≤ n.depth ∧ n.depth ≤ D

/-- The second heap keeps every node of the first, with the fields that `CreateTreeNode` set:
only the child buffer of a node may have grown. -/
def HeapExt (heap heap2 : Heap) : Prop :=
  ∀ (p : Nat) (n : PDFIUM_EX_OBJECT_TREE_NODE), heap[p]? = some n →
    ∃ n2 : PDFIUM_EX_OBJECT_TREE_NODE, heap2[p]? = some n2 ∧ n2.obj_num = n.obj_num ∧
      n2.gen_num = n.gen_num ∧ n2.raw_content = n.raw_content ∧
      n2.content_length = n.content_length ∧ n2.depth = n.depth

/-- What holds of the variables of `BuildObjectTreeWithQueue` between two steps, for
`max_depth = D`: the heap is well formed, the map sends exactly the object numbers of the
nodes to their nodes, and every queued object number is in the map. -/
structure WalkInv (st : WalkState) (D : Int) : Prop where
  wf : HeapWF st.heap D
  map_sound : ∀ (k : Nat) (v : Option Nat), st.object_tree_map.lookup k = some v →
    ∃ (p : Nat) (n : PDFIUM_EX_OBJECT_TREE_NODE),
      v = some p ∧ st.heap[p]? = some n ∧ n.obj_num = k
  map_complete : ∀ (p : Nat) (n : PDFIUM_EX_OBJECT_TREE_NODE), st.heap[p]? = some n →
    st.object_tree_map.lookup n.obj_num = some (some p)
  queue_known : ∀ e ∈ st.analysis_queue, (st.object_tree_map.lookup e.1).isSome = true

/-- Every queued object number is mapped to a node allocated at position `bound` or later. -/
def QueueFrom (st : WalkState) (bound : Nat) : Prop :=
  ∀ e ∈ st.analysis_queue, ∃ p : Nat, st.object_tree_map.lookup e.1 = some (some p) ∧ bound ≤ p

/-- The capacity of a child buffer of capacity `cap` holding `count` children after `k`
further calls of `AddChildNode`. -/
def capacityAfter (count cap : Nat) : Nat → Nat
  | 0 => cap
  | k + 1 => capacityAfter (count + 1) (if count ≥ cap then cap * 2 else cap) k

/-- The targets of the references among a list of values. -/
def refTargets (values : List CPDF_Object) : List Nat :=
  values.filterMap (fun value =>
    match value with
    | .kReference ref_obj_num => some ref_obj_num
    | _ => none)

/-- The objects that a dictionary references, in the words of the growth-correctness claim:
the targets of its reference values, of all the reference elements of its array values and of
the reference values of its nested dictionaries. -/
def referencedObjects (entries : List (String × CPDF_Object)) : List Nat :=
  entries.flatMap (fun entry =>
    match entry.2 with
    | .kReference ref_obj_num => [ref_obj_num]
    | .kArray elems => refTargets elems
    | .kDictionary sub_dict => refTargets (sub_dict.map (fun sub => sub.2))
    | _ => [])

/-! ## Documents used as instances -/

/-- The document of the end-to-end scenario: object 5 is a dictionary referencing the objects
6 and 7, object 6 a dictionary referencing object 8, object 7 the number 42, object 8 a
dictionary that references object 9; all of generation 0. -/
def scenarioDoc : CPDF_Document :=
  { GetOrParseIndirectObject := fun n =>
      if n = 5 then some ⟨.kDictionary [("Contents", .kReference 6), ("Rotate", .kReference 7)], 0⟩
      else if n = 6 then some ⟨.kDictionary [("Next", .kReference 8)], 0⟩
      else if n = 7 then some ⟨.kNumber ⟨42, 0⟩, 0⟩
      else if n = 8 then some ⟨.kDictionary [("Deeper", .kReference 9)], 0⟩
      else if n = 9 then some ⟨.kNullobj, 0⟩
      else none }

/-- The page of `scenarioDoc` whose dictionary is object 5. -/
def scenarioPage : CPDF_Page :=
  { GetDict := some
      { entries := [("Contents", .kReference 6), ("Rotate", .kReference 7)]
        obj_num := 5
        gen_num := 0 } }

/-- A document whose references repeat and close a cycle: object 1 references object 2 twice
directly and once more from an array, objects 2 and 3 reference object 1 back. -/
def cyclicDoc : CPDF_Document :=
  { GetOrParseIndirectObject := fun n =>
      if n = 1 then
        some ⟨.kDictionary [("A", .kReference 2), ("B", .kReference 2),
          ("C", .kArray [.kReference 3, .kReference 2])], 0⟩
      else if n = 2 then some ⟨.kDictionary [("P", .kReference 1), ("Q", .kReference 3)], 0⟩
      else if n = 3 then some ⟨.kDictionary [("R", .kReference 1), ("S", .kReference 3)], 0⟩
      else none }

/-- The page of `cyclicDoc` whose dictionary is object 1. -/
def cyclicPage : CPDF_Page :=
  { GetDict := some
      { entries := [("A", .kReference 2), ("B", .kReference 2),
          ("C", .kArray [.kReference 3, .kReference 2])]
        obj_num := 1
        gen_num := 0 } }

/-- A document whose page dictionary, object 5, references a single object, the number 3
stored as object 7. -/
def scalarRefDoc : CPDF_Document :=
  { GetOrParseIndirectObject := fun n =>
      if n = 5 then some ⟨.kDictionary [("A", .kReference 7)], 0⟩
      else if n = 7 then some ⟨.kNumber ⟨3, 0⟩, 0⟩
      else none }

/-- The page of `scalarRefDoc` whose dictionary is object 5. -/
def scalarRefPage : CPDF_Page :=
  { GetDict := some { entries := [("A", .kReference 7)], obj_num := 5, gen_num := 0 } }

/-- A document whose page dictionary, object 5, references object 9, which does not resolve,
and object 7, which resolves with generation 2. -/
def staleRefDoc : CPDF_Document :=
  { GetOrParseIndirectObject := fun n =>
      if n = 5 then some ⟨.kDictionary [("A", .kReference 9), ("B", .kReference 7)], 0⟩
      else if n = 7 then some ⟨.kDictionary [("C", .kReference 5)], 2⟩
      else none }

/-- The page of `staleRefDoc` whose dictionary is object 5. -/
def staleRefPage : CPDF_Page :=
  { GetDict := some
      { entries := [("A", .kReference 9), ("B", .kReference 7)], obj_num := 5, gen_num := 0 } }

/-- The entries of a page dictionary that holds 120 reference values, under the keys `K100`
to `K219`, to the objects 2 to 121. -/
def wideEntries : List (String × CPDF_Object) :=
  (List.range 120).map (fun i => ("K" ++ toString (i + 100), CPDF_Object.kReference (i + 2)))

/-- A document whose page dictionary is object 1 with the entries `wideEntries`; each of the
objects 2 to 121 is an empty dictionary of generation 0. -/
def wideDoc : CPDF_Document :=
  { GetOrParseIndirectObject := fun n =>
      if n = 1 then some ⟨.kDictionary wideEntries, 0⟩
      else if 2 ≤ n ∧ n ≤ 121 then some ⟨.kDictionary [], 0⟩
      else none }

/-- The page of `wideDoc` whose dictionary is object 1. -/
def widePage : CPDF_Page :=
  { GetDict := some { entries := wideEntries, obj_num := 1, gen_num := 0 } }

/-- The entries of a page dictionary that holds one array of 120 references, to the objects
2 to 121. -/
def annotsEntries : List (String × CPDF_Object) :=
  [("Annots", .kArray ((List.range 120).map (fun i => CPDF_Object.kReference (i + 2))))]

/-- A document whose page dictionary is object 1 with the entries `annotsEntries`; each of the
objects 2 to 121 is an empty dictionary of generation 0. -/
def annotsDoc : CPDF_Document :=
  { GetOrParseIndirectObject := fun n =>
      if n = 1 then some ⟨.kDictionary annotsEntries, 0⟩
      else if 2 ≤ n ∧ n ≤ 121 then some ⟨.kDictionary [], 0⟩
      else none }

/-- The page of `annotsDoc` whose dictionary is object 1. -/
def annotsPage : CPDF_Page :=
  { GetDict := some { entries := annotsEntries, obj_num := 1, gen_num := 0 } }

/-- The entries of a dictionary with 10000 array values of 100 references to object 7 each,
followed by a nested dictionary whose only value is a reference to object 5. -/
def cappedEntries : List (String × CPDF_Object) :=
  (List.range 10000).map
      (fun i => ("A" ++ toString (i + 10000), CPDF_Object.kArray
        (List.replicate 100 (.kReference 7))))
    ++ [("Z", .kDictionary [("A", .kReference 5)])]

/-- The bounds that the child buffer of a node keeps: the count (never negative, a natural
number here) is within the capacity, and the capacity is 50 doubled some number of times. -/
def ChildBufferOK (node : PDFIUM_EX_OBJECT_TREE_NODE) : Prop :=
  node.child_count ≤ node.max_children ∧ ∃ k : Nat, node.max_children = 50 * 2 ^ k

/-! ## The page queries that fill a caller's buffer (`pdfium_object_info.cpp`) -/

/-- The caller's array `obj_nums`, cell by cell; the caller provides at least `max_count`
cells. -/
abbrev ObjNumBuffer := Nat → Nat

/-- The loop `for (i = 0; i < array->size() && count < max_count; ++i)` that both page queries
run over an array: the target of each reference element is stored at `obj_nums[count++]`. -/
def storeArrayRefs (max_count : Int) :
    List CPDF_Object → Nat → ObjNumBuffer → Nat × ObjNumBuffer
  | [], count, obj_nums => (count, obj_nums)
  | elem :: rest, count, obj_nums =>
      if (count : Int) < max_count then
        match elem with
        | .kReference ref_obj_num =>
            storeArrayRefs max_count rest (count + 1) (Function.update obj_nums count ref_obj_num)
        | _ => storeArrayRefs max_count rest count obj_nums
      else (count, obj_nums)

/-- Function `PdfiumEx_GetPageContentStreamObjects`: the count returned and the buffer as the
call leaves it. -/
def PdfiumEx_GetPageContentStreamObjects (page : Option CPDF_Page)
    (obj_nums : Option ObjNumBuffer) (max_count : Int) : Int × Option ObjNumBuffer :=
  match page, obj_nums with
  | some pPage, some buffer =>
      if max_count ≤ 0 then (0, obj_nums)
      else
        match pPage.GetDict with
        | none => (0, obj_nums)
        | some page_dict =>
            match page_dict.entries.lookup "Contents" with
            | none => (0, obj_nums)
            | some contents_obj =>
                match contents_obj with
                | .kReference ref_obj_num =>
                    if (0 : Int) < max_count then
                      (1, some (Function.update buffer 0 ref_obj_num))
                    else (0, obj_nums)
                | .kArray contents_array =>
                    let stored := storeArrayRefs max_count contents_array 0 buffer
                    ((stored.1 : Int), some stored.2)
                | _ => (0, obj_nums)
  | _, _ => (0, obj_nums)

/-- The loop over the entries of a nested dictionary in `PdfiumEx_GetPageReferencedObjects`,
left by `break` once `count >= max_count`. -/
def storeSubDictRefs (max_count : Int) :
    List (String × CPDF_Object) → Nat → ObjNumBuffer → Nat × ObjNumBuffer
  | [], count, obj_nums => (count, obj_nums)
  | (_, sub_obj) :: rest, count, obj_nums =>
      if (count : Int) ≥ max_count then (count, obj_nums)
      else
        match sub_obj with
        | .kReference ref_obj_num =>
            storeSubDictRefs max_count rest (count + 1)
              (Function.update obj_nums count ref_obj_num)
        | _ => storeSubDictRefs max_count rest count obj_nums

/-- The loop over the entries of the page dictionary in `PdfiumEx_GetPageReferencedObjects`,
left by `break` once `count >= max_count`. -/
def storePageRefs (max_count : Int) :
    List (String × CPDF_Object) → Nat → ObjNumBuffer → Nat × ObjNumBuffer
  | [], count, obj_nums => (count, obj_nums)
  | (_, obj) :: rest, count, obj_nums =>
      if (count : Int) ≥ max_count then (count, obj_nums)
      else
        match obj with
        | .kReference ref_obj_num =>
            storePageRefs max_count rest (count + 1) (Function.update obj_nums count ref_obj_num)
        | .kArray arr =>
            let stored := storeArrayRefs max_count arr count obj_nums
            storePageRefs max_count rest stored.1 stored.2
        | .kDictionary sub_dict =>
            let stored := storeSubDictRefs max_count sub_dict count obj_nums
            storePageRefs max_count rest stored.1 stored.2
        | _ => storePageRefs max_count rest count obj_nums

/-- Function `PdfiumEx_GetPageReferencedObjects`: the count returned and the buffer as the
call leaves it. -/
def PdfiumEx_GetPageReferencedObjects (page : Option CPDF_Page)
    (obj_nums : Option ObjNumBuffer) (max_count : Int) : Int × Option ObjNumBuffer :=
  match page, obj_nums with
  | some pPage, some buffer =>
      if max_count ≤ 0 then (0, obj_nums)
      else
        match pPage.GetDict with
        | none => (0, obj_nums)
        | some page_dict =>
            let stored := storePageRefs max_count page_dict.entries 0 buffer
            ((stored.1 : Int), some stored.2)
  | _, _ => (0, obj_nums)

/-- The buffer that holds the numbers `values` in its first cells and is `buffer`
elsewhere. -/
def written (buffer : ObjNumBuffer) (values : List Nat) : ObjNumBuffer :=
  fun i => (values[i]?).getD (buffer i)

/-- The first `count` cells of a buffer. -/
def firstCells (buffer : ObjNumBuffer) (count : Nat) : List Nat :=
  (List.range count).map buffer

/-- A page whose /Contents is an array of the references 4, 5 and 6 with a number between
them, and whose dictionary also holds a reference and a nested dictionary. -/
def contentsPage : CPDF_Page :=
  { GetDict := some
      { entries := [("Contents", .kArray [.kReference 4, .kNumber ⟨1, 0⟩, .kReference 5,
            .kReference 6]),
          ("Parent", .kReference 2),
          ("Resources", .kDictionary [("Font", .kReference 9), ("X", .kArray [.kReference 8])])]
        obj_num := 3
        gen_num := 0 } }

/-- The numbers that the dictionary of a page references, in the order of its entries; none
for a null page or a page without dictionary. -/
def pageReferences (page : Option CPDF_Page) : List Nat :=
  match page with
  | none => []
  | some pPage =>
      match pPage.GetDict with
      | none => []
      | some page_dict => referencedObjects page_dict.entries

/-! ## The release of a tree (`PdfiumEx_ReleaseObjectTree`) -/

/-- The list without the repetitions of its elements: each number where it first occurs. -/
def firstOccurrences : List Nat → List Nat
  | [] => []
  | a :: rest => a :: (firstOccurrences rest).filter (fun b => decide (b ≠ a))

/-- A reference for which the children loop creates a node when it meets it: the object
number is not yet a key of `object_tree_map` and `PdfiumEx_GetRawObjectContent` returns
content for it with generation 0. -/
def creatable (document : Option CPDF_Document) (object_tree_map : List (Nat × Option Nat))
    (ref_obj_num : Nat) : Bool :=
  !(object_tree_map.lookup ref_obj_num).isSome &&
    (match PdfiumEx_GetRawObjectContent document ref_obj_num 0 with
      | some content_str => decide (strlen content_str ≠ 0)
      | none => false)

/-- The object numbers of the children that an expansion is to create from the reference list
`refs`, with room for `room` more children: the first occurrences of the creatable references,
in the order of the list, cut after `room` of them. -/
def expectedChildren (document : Option CPDF_Document)
    (object_tree_map : List (Nat × Option Nat)) (room : Nat) (refs : List Nat) : List Nat :=
  (firstOccurrences (refs.filter (creatable document object_tree_map))).take room

/-- The variables of the walk after a node has been created, attached under node
`current_node` of depth `depth`, entered in the map and, below the depth bound, queued, for
each of the object numbers of a list in turn. -/
def attachCreated (document : Option CPDF_Document) (max_depth : Int) (current_node : Nat)
    (depth : Int) : List Nat → WalkState → WalkState
  | [], st => st
  | ref_obj_num :: rest, st =>
      attachCreated document max_depth current_node depth rest
        { heap := AddChildNode
            (st.heap ++ [newTreeNode ref_obj_num 0
              (PdfiumEx_GetRawObjectContent document ref_obj_num 0) (depth + 1)])
            current_node st.heap.length
          analysis_queue :=
            if depth + 1 < max_depth then st.analysis_queue ++ [(ref_obj_num, some current_node)]
            else st.analysis_queue
          object_tree_map := (ref_obj_num, some st.heap.length) :: st.object_tree_map
          processed_count := st.processed_count }

/-- The entries of a page dictionary that holds 1000001 reference values, under the keys
`K1000000` to `K2000000`, to the objects 2 to 1000002. -/
def manyRefsEntries : List (String × CPDF_Object) :=
  (List.range 1000001).map
    (fun i => ("K" ++ toString (i + 1000000), CPDF_Object.kReference (i + 2)))

/-- A document whose page dictionary is object 1 with the entries `manyRefsEntries`; each of
the objects 2 to 1000002 is a null object of generation 0. -/
def manyRefsDoc : CPDF_Document :=
  { GetOrParseIndirectObject := fun n =>
      if n = 1 then some ⟨.kDictionary manyRefsEntries, 0⟩
      else if 2 ≤ n ∧ n ≤ 1000002 then some ⟨.kNullobj, 0⟩
      else none }

/-- The page of `manyRefsDoc` whose dictionary is object 1. -/
def manyRefsPage : CPDF_Page :=
  { GetDict := some { entries := manyRefsEntries, obj_num := 1, gen_num := 0 } }

/-- Every parent-child link of the heap is a reference that the walker collects: the parent
resolves to a dictionary, and the object number of the child is in the reference list of that
dictionary. -/
def EdgesCollected (pDoc : CPDF_Document) (heap : Heap) : Prop :=
  ∀ (p : Nat) (n : PDFIUM_EX_OBJECT_TREE_NODE) (c : Nat) (m : PDFIUM_EX_OBJECT_TREE_NODE),
    heap[p]? = some n → c ∈ n.children → heap[c]? = some m →
    ∃ (dict : List (String × CPDF_Object)) (gen : Nat),
      pDoc.GetOrParseIndirectObject n.obj_num = some ⟨.kDictionary dict, gen⟩ ∧
      m.obj_num ∈ collectRefs n.obj_num n.depth dict []

/-- A document whose page dictionary, object 5 of generation 2, references object 6, a
dictionary of generation 0 that references object 5 back. -/
def rootGenDoc : CPDF_Document :=
  { GetOrParseIndirectObject := fun n =>
      if n = 5 then some ⟨.kDictionary [("A", .kReference 6)], 2⟩
      else if n = 6 then some ⟨.kDictionary [("P", .kReference 5)], 0⟩
      else none }

/-- The page of `rootGenDoc` whose dictionary is object 5, of generation 2. -/
def rootGenPage : CPDF_Page :=
  { GetDict := some { entries := [("A", .kReference 6)], obj_num := 5, gen_num := 2 } }

/-! ## Page objects and the object-mapping cache (`advanced_object_mapper.cpp`) -/

/-- The value of `num` in tenths, without its sign, rounded to the nearest integer, ties to
even: the rounding of the C library's `%.1f`. -/
def roundedTenths (num : FloatValue) : Nat :=
  let n := num.mant.natAbs * 10
  let d := 2 ^ num.scale
  if 2 * (n % d) > d ∨ (2 * (n % d) = d ∧ n / d % 2 = 1) then n / d + 1 else n / d

/-- Output of `oss << std::fixed << std::setprecision(1) << num`: the sign, the integer part,
a point and one fractional digit. -/
def stream_fixed_1 (num : FloatValue) : String :=
  let t := roundedTenths num
  (if num.mant < 0 then "-" else "") ++ toString (t / 10) ++ "." ++ toString (t % 10)

/-- The kinds of page object, `CPDF_PageObject::Type`. -/
inductive PageObjectType where
  | kText
  | kPath
  | kImage
  | kShading
  | kForm
  deriving DecidableEq

/-- A rectangle of floats, `CFX_FloatRect`. -/
structure CFX_FloatRect where
  left : FloatValue
  bottom : FloatValue
  right : FloatValue
  top : FloatValue

/-- A transformation matrix, `CFX_Matrix`. -/
structure CFX_Matrix where
  a : FloatValue
  b : FloatValue
  c : FloatValue
  d : FloatValue
  e : FloatValue
  f : FloatValue

/-- What the code reads of a page object: its address, which keys the cache, its type, its
rectangle and its original matrix. -/
structure CPDF_PageObject where
  address : Nat
  GetType : PageObjectType
  GetRect : CFX_FloatRect
  original_matrix : CFX_Matrix

/-- The record `PDFIUM_EX_OBJECT_INFO`; `obj_type` is kept as the type of the page object,
`raw_dict_content` is `none` for a null pointer. -/
structure PDFIUM_EX_OBJECT_INFO where
  obj_num : Nat
  gen_num : Nat
  obj_type : PageObjectType
  raw_dict_content : Option String
  dict_length : Nat
  is_indirect : Int
  has_stream : Int

/-- An entry of the cache, `ObjectMapping`. -/
structure ObjectMapping where
  obj_num : Nat
  gen_num : Nat
  pdf_object : Option CPDF_Object

/-- The global `g_object_mapping_cache`, keyed by the address of the page object; it is empty
when the program starts. -/
abbrev ObjectMappingCache := List (Nat × ObjectMapping)

/-- Function `ClearObjectMappingCache`. -/
def ClearObjectMappingCache (_ : ObjectMappingCache) : ObjectMappingCache := []

/-- Function `AnalyzePageContentStreams`, as far as the cache goes: it collects the numbers of
the content streams in a local vector and leaves the cache as it is. -/
def AnalyzePageContentStreams (page : Option CPDF_Page) (cache : ObjectMappingCache) :
    ObjectMappingCache :=
  match page with
  | none => cache
  | some pPage =>
      match pPage.GetDict with
      | none => cache
      | some page_dict =>
          match page_dict.entries.lookup "Contents" with
          | none => cache
          | some contents_obj =>
              let _content_stream_nums : List Nat :=
                match contents_obj with
                | .kReference ref_obj_num => [ref_obj_num]
                | .kArray contents_array => refTargets contents_array
                | _ => []
              cache

/-- Function `AnalyzePageResources`, as far as the cache goes: it reads the font and XObject
resources and leaves the cache as it is. -/
def AnalyzePageResources (page : Option CPDF_Page) (cache : ObjectMappingCache) :
    ObjectMappingCache :=
  match page with
  | none => cache
  | some pPage =>
      match pPage.GetDict with
      | none => cache
      | some _ => cache

/-- Function `GetAdvancedPageObjectMapping`: the object found for the page object, and the
cache after the call. -/
def GetAdvancedPageObjectMapping (cache : ObjectMappingCache)
    (page_obj : Option CPDF_PageObject) (page : Option CPDF_Page) :
    Option CPDF_Object × ObjectMappingCache :=
  match page_obj, page with
  | some pPageObj, some _ =>
      match cache.lookup pPageObj.address with
      | some it => (it.pdf_object, cache)
      | none =>
          let cache1 := AnalyzePageResources page (AnalyzePageContentStreams page cache)
          match cache1.lookup pPageObj.address with
          | some it => (it.pdf_object, cache1)
          | none => (none, cache1)
  | _, _ => (none, cache)

/-- The text `/Type ...` that both info functions write for the type of a page object. -/
def typeText (type : PageObjectType) : String :=
  match type with
  | .kText => "/Type /Text "
  | .kPath => "/Type /Path "
  | .kImage => "/Type /XObject /Subtype /Image "
  | .kShading => "/Type /Shading "
  | .kForm => "/Type /XObject /Subtype /Form "

/-- Function `PdfiumEx_GetPageObjectInfo`. -/
def PdfiumEx_GetPageObjectInfo (page_object : Option CPDF_PageObject) :
    Option PDFIUM_EX_OBJECT_INFO :=
  match page_object with
  | none => none
  | some pPageObj =>
      let bbox := pPageObj.GetRect
      let matrix := pPageObj.original_matrix
      let dict_str :=
        typeText pPageObj.GetType
          ++ "/BBox [ " ++ stream_fixed_1 bbox.left ++ " " ++ stream_fixed_1 bbox.bottom ++ " "
          ++ stream_fixed_1 bbox.right ++ " " ++ stream_fixed_1 bbox.top ++ " ] "
          ++ "/Matrix [ " ++ stream_fixed_2 matrix.a ++ " " ++ stream_fixed_2 matrix.b ++ " "
          ++ stream_fixed_2 matrix.c ++ " " ++ stream_fixed_2 matrix.d ++ " "
          ++ stream_fixed_2 matrix.e ++ " " ++ stream_fixed_2 matrix.f ++ " ] "
      some
        { obj_num := 0
          gen_num := 0
          obj_type := pPageObj.GetType
          raw_dict_content := some (c_str dict_str)
          dict_length := dict_str.length
          is_indirect := 0
          has_stream := 0 }

/-- Function `PdfiumEx_GetPageObjectInfoEx`: the record returned and the cache after the
call; `GetDocument` is the document of the page. -/
def PdfiumEx_GetPageObjectInfoEx (cache : ObjectMappingCache) (GetDocument : Option CPDF_Document)
    (page : Option CPDF_Page) (page_object : Option CPDF_PageObject) :
    Option PDFIUM_EX_OBJECT_INFO × ObjectMappingCache :=
  match page, page_object with
  | some _, some pPageObj =>
      let found := GetAdvancedPageObjectMapping cache page_object page
      match found.1 with
      | some (.kReference ref_obj_num) =>
          let real_obj :=
            match GetDocument with
            | none => none
            | some doc => doc.GetOrParseIndirectObject ref_obj_num
          (some
            { obj_num := ref_obj_num
              gen_num := 0
              obj_type := pPageObj.GetType
              raw_dict_content :=
                real_obj.map (fun o => c_str (ObjectToPdfString (some o.value) 0))
              dict_length :=
                match real_obj with
                | some o => (ObjectToPdfString (some o.value) 0).length
                | none => 0
              is_indirect := 1
              has_stream :=
                match real_obj with
                | some ⟨.kStream _, _⟩ => 1
                | _ => 0 }, found.2)
      | _ =>
          let bbox := pPageObj.GetRect
          let matrix := pPageObj.original_matrix
          let dict_str :=
            typeText pPageObj.GetType
              ++ "/BBox [ " ++ stream_fixed_1 bbox.left ++ " " ++ stream_fixed_1 bbox.bottom
              ++ " " ++ stream_fixed_1 bbox.right ++ " " ++ stream_fixed_1 bbox.top ++ " ] "
              ++ "/Matrix [ " ++ stream_fixed_2 matrix.a ++ " " ++ stream_fixed_2 matrix.b
              ++ " " ++ stream_fixed_2 matrix.c ++ " " ++ stream_fixed_2 matrix.d ++ " "
              ++ stream_fixed_2 matrix.e ++ " " ++ stream_fixed_2 matrix.f ++ " "
          (some
            { obj_num := 0
              gen_num := 0
              obj_type := pPageObj.GetType
              raw_dict_content := some (c_str dict_str)
              dict_length := dict_str.length
              is_indirect := 0
              has_stream := 0 }, found.2)
  | _, _ => (none, cache)

/-- The calls through which the program reaches the cache. -/
inductive CacheCall where
  | ClearObjectMappingCache
  | AnalyzePageContentStreams (page : Option CPDF_Page)
  | AnalyzePageResources (page : Option CPDF_Page)
  | GetAdvancedPageObjectMapping (page_obj : Option CPDF_PageObject) (page : Option CPDF_Page)
  | PdfiumEx_GetPageObjectInfoEx (GetDocument : Option CPDF_Document) (page : Option CPDF_Page)
      (page_object : Option CPDF_PageObject)

/-- The cache after a call. -/
def CacheCall.run (call : CacheCall) (cache : ObjectMappingCache) : ObjectMappingCache :=
  match call with
  | .ClearObjectMappingCache => PdfiumEx.ClearObjectMappingCache cache
  | .AnalyzePageContentStreams page => PdfiumEx.AnalyzePageContentStreams page cache
  | .AnalyzePageResources page => PdfiumEx.AnalyzePageResources page cache
  | .GetAdvancedPageObjectMapping page_obj page =>
      (PdfiumEx.GetAdvancedPageObjectMapping cache page_obj page).2
  | .PdfiumEx_GetPageObjectInfoEx GetDocument page page_object =>
      (PdfiumEx.PdfiumEx_GetPageObjectInfoEx cache GetDocument page page_object).2

/-- The cache after a sequence of calls made on the cache of a program that has just
started. -/
def cacheAfter (calls : List CacheCall) : ObjectMappingCache :=
  calls.foldl (fun cache call => call.run cache) []

/-- A text object with an empty rectangle and the identity matrix, at address 16. -/
def plainTextObject : CPDF_PageObject :=
  { address := 16
    GetType := .kText
    GetRect := { left := ⟨0, 0⟩, bottom := ⟨0, 0⟩, right := ⟨0, 0⟩, top := ⟨0, 0⟩ }
    original_matrix :=
      { a := ⟨1, 0⟩, b := ⟨0, 0⟩, c := ⟨0, 0⟩, d := ⟨1, 0⟩, e := ⟨0, 0⟩, f := ⟨0, 0⟩ } }

/-! ## The image hit test (`pdf_utils.cpp`) -/

/-- The four corners of a quadrilateral, `FS_QUADPOINTSF`; the coordinates are the exact
values of the floats. -/
structure FS_QUADPOINTSF where
  x1 : ℚ
  y1 : ℚ
  x2 : ℚ
  y2 : ℚ
  x3 : ℚ
  y3 : ℚ
  x4 : ℚ
  y4 : ℚ

/-- What the hit test reads of a page object: the result of `FPDFPageObj_GetType` and the
quadrilateral that `FPDFPageObj_GetRotatedBounds` returns, `none` when that call fails. -/
structure FPDF_PAGEOBJECT where
  FPDFPageObj_GetType : Int
  FPDFPageObj_GetRotatedBounds : Option FS_QUADPOINTSF

/-- The constant `FPDF_PAGEOBJ_IMAGE` of the public header of the PDF library. -/
def FPDF_PAGEOBJ_IMAGE : Int := 3

/-- The record `PdfHitImageResult`; `imageObj` is the index of the object hit on its page, or
`none` for a null pointer. -/
structure PdfHitImageResult where
  imageObj : Option Nat
  minx : ℚ
  miny : ℚ
  maxx : ℚ
  maxy : ℚ

/-- The loop `for (int i = count - 1; i >= 0; --i)` of `PdfHitImageAt`, over the objects of
index below the length of `objects`, from the last one down. -/
def hitLoop (toFloat : ℚ → ℚ) (px py tolerancePx : ℚ) :
    List (Option FPDF_PAGEOBJECT) → PdfHitImageResult
  | [] => { imageObj := none, minx := 0, miny := 0, maxx := 0, maxy := 0 }
  | obj :: below =>
      match obj with
      | none => hitLoop toFloat px py tolerancePx below
      | some o =>
          if o.FPDFPageObj_GetType ≠ FPDF_PAGEOBJ_IMAGE then
            hitLoop toFloat px py tolerancePx below
          else
            match o.FPDFPageObj_GetRotatedBounds with
            | none => hitLoop toFloat px py tolerancePx below
            | some qp =>
                let minx := toFloat (min (min qp.x1 qp.x2) (min qp.x3 qp.x4) - tolerancePx)
                let maxx := toFloat (max (max qp.x1 qp.x2) (max qp.x3 qp.x4) + tolerancePx)
                let miny := toFloat (min (min qp.y1 qp.y2) (min qp.y3 qp.y4) - tolerancePx)
                let maxy := toFloat (max (max qp.y1 qp.y2) (max qp.y3 qp.y4) + tolerancePx)
                if px ≥ minx ∧ px ≤ maxx ∧ py ≥ miny ∧ py ≤ maxy then
                  { imageObj := some below.length
                    minx := minx, miny := miny, maxx := maxx, maxy := maxy }
                else hitLoop toFloat px py tolerancePx below

/-- Function `PdfHitImageAt`.  The page is the list of its objects, `none` for a null page;
`toFloat` is the rounding of a real value to `float` and `toDouble` the rounding to
`double`. -/
def PdfHitImageAt (toFloat toDouble : ℚ → ℚ) (page : Option (List (Option FPDF_PAGEOBJECT)))
    (pageX pageY pageHeight tolerancePx : ℚ) : PdfHitImageResult :=
  match page with
  | none => { imageObj := none, minx := 0, miny := 0, maxx := 0, maxy := 0 }
  | some objects =>
      let px := toFloat pageX
      let py := toFloat (toDouble (pageHeight - pageY))
      hitLoop toFloat px py tolerancePx objects.reverse

/-- A page of one object, an image whose rotated bounds are the square with the corners
(0, 0), (10, 0), (10, 10) and (0, 10). -/
def squareImagePage : List (Option FPDF_PAGEOBJECT) :=
  [some
    { FPDFPageObj_GetType := 3
      FPDFPageObj_GetRotatedBounds := some
        { x1 := 0, y1 := 0, x2 := 10, y2 := 0, x3 := 10, y3 := 10, x4 := 0, y4 := 10 } }]

/-- The object numbers in `pushed` are those pushed onto the queue so far, in the order of the
pushes, none of them twice: the first `processed_count` of them have been dequeued, the others
are the keys of the queue, and each of them is a key of the map. -/
def PushedOnce (st : WalkState) (pushed : List Nat) : Prop :=
  pushed.Nodup ∧ st.processed_count ≤ pushed.length ∧
    st.analysis_queue.map (fun e => e.1) = pushed.drop st.processed_count ∧
    ∀ k ∈ pushed, (st.object_tree_map.lookup k).isSome = true

/-- The heap holds a node for object `k`, of depth `d`. -/
def HasNode (heap : Heap) (k : Nat) (d : Int) : Prop :=
  ∃ (p : Nat) (n : PDFIUM_EX_OBJECT_TREE_NODE), heap[p]? = some n ∧ n.obj_num = k ∧ n.depth = d

/-- The reference list that the walker extracts from object `u` when it expands the node of
`u`: the list collected from the dictionary that `u` resolves to, and no reference when `u`
does not resolve to a dictionary. The nesting guard `depth < 1000000` of the collection holds
for every node that is expanded, so it is taken at depth 0. -/
def refsOf (pDoc : CPDF_Document) (u : Nat) : List Nat :=
  match pDoc.GetOrParseIndirectObject u with
  | some ⟨.kDictionary dict, _⟩ => collectRefs u 0 dict []
  | _ => []

/-- An edge of the reference graph: `v` is in the reference list extracted from `u`, and `v`
resolves to an object of generation 0. -/
def Edge (pDoc : CPDF_Document) (u v : Nat) : Prop :=
  v ∈ refsOf pDoc u ∧ ∃ obj, pDoc.GetOrParseIndirectObject v = some obj ∧ obj.gen_num = 0

/-- There is a path of `k` edges of the reference graph from `root` to the object. -/
inductive Reach (pDoc : CPDF_Document) (root : Nat) : Nat → Nat → Prop
  | start : Reach pDoc root 0 root
  | step {k u v : Nat} : Reach pDoc root k u → Edge pDoc u v → Reach pDoc root (k + 1) v

/-- What the breadth-first order maintains, for `max_depth = D`: the queued nodes are in
order of depth; no node is more than one level deeper than a queued node; and every node above
the depth bound is still queued, or holds 1000000 children, or has a node, at most one level
deeper than itself, for every edge that leaves its object. -/
structure BfsInv (pDoc : CPDF_Document) (D : Int) (st : WalkState) : Prop where
  sorted : st.analysis_queue.Pairwise (fun a b => ∀ da db : Int,
    HasNode st.heap a.1 da → HasNode st.heap b.1 db → da ≤ db)
  near : ∀ (p : Nat) (n : PDFIUM_EX_OBJECT_TREE_NODE), st.heap[p]? = some n →
    ∀ e ∈ st.analysis_queue, ∀ de : Int, HasNode st.heap e.1 de → n.depth ≤ de + 1
  done : ∀ (p : Nat) (n : PDFIUM_EX_OBJECT_TREE_NODE), st.heap[p]? = some n → n.depth < D →
    (∃ e ∈ st.analysis_queue, e.1 = n.obj_num) ∨ 1000000 ≤ n.child_count ∨
      ∀ v, Edge pDoc n.obj_num v → ∃ d : Int, HasNode st.heap v d ∧ d ≤ n.depth + 1

/-- The object numbers of the nodes above the depth bound `D`, in the order in which the nodes
were created. -/
def queueOrder (D : Int) (heap : Heap) : List Nat :=
  (heap.filter (fun n => decide (n.depth < D))).map (fun n => n.obj_num)

/-- What the first-in first-out queue maintains, for `max_depth = D`: the queue holds the
nodes above the depth bound in the order of their creation, less the first `processed_count`
of them, which have been dequeued; a node two levels or more above the bound has fewer
children than there are such nodes; and a child is in the reference list of no node that was
created before its parent, lies above the depth bound and holds fewer than 1000000
children. -/
structure OrderInv (pDoc : CPDF_Document) (D : Int) (st : WalkState) : Prop where
  queue_eq : st.analysis_queue.map (fun e => e.1)
    = (queueOrder D st.heap).drop st.processed_count
  count_le : st.processed_count ≤ (queueOrder D st.heap).length
  increasing : st.analysis_queue.Pairwise (fun a b =>
    ∀ (pa pb : Nat) (na nb : PDFIUM_EX_OBJECT_TREE_NODE),
      st.heap[pa]? = some na → na.obj_num = a.1 → st.heap[pb]? = some nb → nb.obj_num = b.1 →
      pa < pb)
  few : ∀ (p : Nat) (n : PDFIUM_EX_OBJECT_TREE_NODE), st.heap[p]? = some n →
    n.depth + 1 < D → n.child_count + 1 ≤ (queueOrder D st.heap).length
  first : ∀ (p c q : Nat) (n m nq : PDFIUM_EX_OBJECT_TREE_NODE),
    st.heap[p]? = some n → c ∈ n.children → st.heap[c]? = some m →
    q < p → st.heap[q]? = some nq → nq.depth < D → nq.child_count < 1000000 →
    m.obj_num ∉ refsOf pDoc nq.obj_num

/-- The entries of a dictionary that holds 1000001 reference values, under the keys
`K1000000` to `K2000000`, to the objects 4 to 1000004. -/
def siblingEntries : List (String × CPDF_Object) :=
  (List.range 1000001).map
    (fun i => ("K" ++ toString (i + 1000000), CPDF_Object.kReference (i + 4)))

/-- A document whose page dictionary, object 1, references the objects 2 and 3: object 2 is a
dictionary with the entries `siblingEntries`, object 3 a dictionary that references object
1000004, the last object that object 2 references; each of the objects 4 to 1000004 is a null
object; all of generation 0. -/
def siblingsDoc : CPDF_Document :=
  { GetOrParseIndirectObject := fun n =>
      if n = 1 then some ⟨.kDictionary [("A", .kReference 2), ("B", .kReference 3)], 0⟩
      else if n = 2 then some ⟨.kDictionary siblingEntries, 0⟩
      else if n = 3 then some ⟨.kDictionary [("C", .kReference 1000004)], 0⟩
      else if 4 ≤ n ∧ n ≤ 1000004 then some ⟨.kNullobj, 0⟩
      else none }

/-- The page of `siblingsDoc` whose dictionary is object 1. -/
def siblingsPage : CPDF_Page :=
  { GetDict := some
      { entries := [("A", .kReference 2), ("B", .kReference 3)], obj_num := 1, gen_num := 0 } }

/-- The condition of the hit test on one page object, for the point `(px, py)`: the object is
an image whose rotated bounds are available, and the point lies in the box from the least to
the greatest corner coordinates of these bounds, expanded by `tolerancePx` on every side, the
sides being rounded to `float`. -/
def boundsContain (toFloat : ℚ → ℚ) (tolerancePx px py : ℚ) :
    Option FPDF_PAGEOBJECT → Prop
  | none => False
  | some o =>
      o.FPDFPageObj_GetType = FPDF_PAGEOBJ_IMAGE ∧
      match o.FPDFPageObj_GetRotatedBounds with
      | none => False
      | some qp =>
          toFloat (min (min qp.x1 qp.x2) (min qp.x3 qp.x4) - tolerancePx) ≤ px ∧
          px ≤ toFloat (max (max qp.x1 qp.x2) (max qp.x3 qp.x4) + tolerancePx) ∧
          toFloat (min (min qp.y1 qp.y2) (min qp.y3 qp.y4) - tolerancePx) ≤ py ∧
          py ≤ toFloat (max (max qp.y1 qp.y2) (max qp.y3 qp.y4) + tolerancePx)

/-! ## Properties of the serializer -/

theorem toDigitsCore_isDigit (fuel : Nat) :
    ∀ (n : Nat) (ds : List Char), (∀ c ∈ ds, c.isDigit = true) →
      ∀ c ∈ Nat.toDigitsCore 10 fuel n ds, c.isDigit = true := by
  induction fuel with
  | zero => intro n ds h c hc; simpa [Nat.toDigitsCore] using h c hc
  | succ f ih =>
    intro n ds h c hc
    have hd : (Nat.digitChar (n % 10)).isDigit = true := by
      have : n % 10 < 10 := Nat.mod_lt _ (by decide)
      interval_cases (n % 10) <;> decide
    have hds : ∀ c ∈ Nat.digitChar (n % 10) :: ds, c.isDigit = true := by
      intro c hc
      rcases List.mem_cons.1 hc with rfl | hc
      · exact hd
      · exact h c hc
    simp only [Nat.toDigitsCore] at hc
    split at hc
    · exact hds c hc
    · exact ih _ _ hds c hc

theorem repr_isDigit (n : Nat) : ∀ c ∈ (toString n).data, c.isDigit = true := by
  intro c hc
  have : (toString n).data = Nat.toDigits 10 n := rfl
  rw [this] at hc
  exact toDigitsCore_isDigit _ _ _ (by simp) c hc

theorem repr_digit (d : Nat) (h : d < 10) : (toString d).data = [Nat.digitChar d] := by
  interval_cases d <;> rfl



theorem int_repr_chars (i : Int) :
    ∀ c ∈ (toString i).data, c = '-' ∨ c.isDigit = true := by
  intro c hc
  cases i with
  | ofNat m => exact Or.inr (repr_isDigit m c hc)
  | negSucc m =>
    have : (toString (Int.negSucc m)).data = '-' :: (toString (m.succ)).data := rfl
    rw [this] at hc
    rcases List.mem_cons.1 hc with rfl | hc
    · exact Or.inl rfl
    · exact Or.inr (repr_isDigit _ c hc)

theorem static_cast_int_of_integral (num : FloatValue) (i : Int)
    (hlo : INT_MIN ≤ i) (hhi : i ≤ INT_MAX) (hval : num.mant = i * 2 ^ num.scale) :
    static_cast_int num = i := by
  have hpos : (2 : Int) ^ num.scale ≠ 0 := pow_ne_zero _ (by norm_num)
  have : Int.tdiv num.mant (2 ^ num.scale) = i := by
    rw [hval]; exact Int.mul_tdiv_cancel _ hpos
  simp [static_cast_int, this, hlo, hhi]

theorem float_eq_int_false (num : FloatValue) (i : Int)
    (h : ¬ (2 : Int) ^ num.scale ∣ num.mant) : float_eq_int num i = false := by
  simp only [float_eq_int, beq_eq_false_iff_ne, ne_eq]
  intro he
  exact h ⟨i, by rw [he, mul_comm]⟩

theorem roundedHundredths_near (num : FloatValue) :
    2 * (roundedHundredths num * 2 ^ num.scale) ≤ 2 * (num.mant.natAbs * 100) + 2 ^ num.scale ∧
    2 * (num.mant.natAbs * 100) ≤ 2 * (roundedHundredths num * 2 ^ num.scale) + 2 ^ num.scale := by
  have hd : 0 < 2 ^ num.scale := Nat.pos_pow_of_pos _ (by norm_num)
  have hdm := Nat.div_add_mod (num.mant.natAbs * 100) (2 ^ num.scale)
  have hlt := Nat.mod_lt (num.mant.natAbs * 100) hd
  unfold roundedHundredths
  simp only []
  generalize num.mant.natAbs * 100 = n at *
  generalize 2 ^ num.scale = d at *
  generalize hq : n / d = q at *
  generalize hr : n % d = r at *
  have e1 : (q + 1) * d = d * q + d := by ring
  have e2 : q * d = d * q := by ring
  split_ifs with h
  · rw [e1]
    generalize d * q = z at *
    omega
  · rw [e2]
    generalize d * q = z at *
    omega

theorem stream_fixed_2_data (num : FloatValue) :
    (stream_fixed_2 num).data =
      (if num.mant < 0 then ['-'] else []) ++ (toString (roundedHundredths num / 100)).data
        ++ ['.', Nat.digitChar (roundedHundredths num % 100 / 10),
            Nat.digitChar (roundedHundredths num % 10)] := by
  have h1 := repr_digit (roundedHundredths num % 100 / 10) (by omega)
  have h2 := repr_digit (roundedHundredths num % 10) (by omega)
  unfold stream_fixed_2
  simp only [String.data_append]
  rw [h1, h2]
  split_ifs <;> simp

/-- C9: on a number object the serializer prints an integral value within the range of `int`
as its decimal integer, whose characters are a sign or digits (no fractional part), and
prints every non-integral value as sign, integer digits, a point and exactly two fractional
digits, the value rounded to the nearest hundredth; the number 3 gives "3" and 3.5 gives
"3.50". -/
theorem C9_number_formatting :
    (∀ (num : FloatValue) (i depth : Int), depth ≤ 10 → INT_MIN ≤ i → i ≤ INT_MAX →
        num.mant = i * 2 ^ num.scale →
        ObjectToPdfString (some (.kNumber num)) depth = toString i ∧
          ∀ c ∈ (toString i).data, c = '-' ∨ c.isDigit = true) ∧
    (∀ (num : FloatValue) (depth : Int), depth ≤ 10 → ¬ (2 : Int) ^ num.scale ∣ num.mant →
        ∃ (h : Nat) (d1 d2 : Char),
          (ObjectToPdfString (some (.kNumber num)) depth).data =
            (if num.mant < 0 then ['-'] else []) ++ (toString (h / 100)).data ++ ['.', d1, d2] ∧
          (∀ c ∈ (toString (h / 100)).data, c.isDigit = true) ∧
          d1 = Nat.digitChar (h % 100 / 10) ∧ d2 = Nat.digitChar (h % 10) ∧
          d1.isDigit = true ∧ d2.isDigit = true ∧
          2 * (h * 2 ^ num.scale) ≤ 2 * (num.mant.natAbs * 100) + 2 ^ num.scale ∧
          2 * (num.mant.natAbs * 100) ≤ 2 * (h * 2 ^ num.scale) + 2 ^ num.scale) ∧
    ObjectToPdfString (some (.kNumber ⟨3, 0⟩)) 0 = "3" ∧
    ObjectToPdfString (some (.kNumber ⟨7, 1⟩)) 0 = "3.50" := by
  refine ⟨?_, ?_, by decide, by decide⟩
  · intro num i depth hd hlo hhi hval
    refine ⟨?_, int_repr_chars i⟩
    have hc := static_cast_int_of_integral num i hlo hhi hval
    have hnd : ¬ depth > 10 := by omega
    simp [ObjectToPdfString, ObjectToPdfString.obj, hnd, hc, float_eq_int, hval]
  · intro num depth hd hni
    have hnd : ¬ depth > 10 := by omega
    have hf := float_eq_int_false num (static_cast_int num) hni
    have hdig : ∀ k, k < 10 → (Nat.digitChar k).isDigit = true := by
      intro k hk
      interval_cases k <;> decide
    refine ⟨roundedHundredths num, _, _, ?_, repr_isDigit _, rfl, rfl,
      hdig _ (by omega), hdig _ (by omega), (roundedHundredths_near num).1,
      (roundedHundredths_near num).2⟩
    simp only [ObjectToPdfString, ObjectToPdfString.obj, hnd, hf, if_false]
    exact stream_fixed_2_data num

/-- Instances of C9: the value -3, stored as -12/4, is printed as "-3" at depth 2, and the
value 2.25 at depth 4 is printed with exactly two fractional digits. -/
theorem C9_number_formatting_witness :
    (ObjectToPdfString (some (.kNumber ⟨-12, 2⟩)) 2 = toString (-3 : Int) ∧
      ∀ c ∈ (toString (-3 : Int)).data, c = '-' ∨ c.isDigit = true) ∧
    ∃ (h : Nat) (d1 d2 : Char),
      (ObjectToPdfString (some (.kNumber ⟨9, 2⟩)) 4).data =
        (if (9 : Int) < 0 then ['-'] else []) ++ (toString (h / 100)).data ++ ['.', d1, d2] ∧
      (∀ c ∈ (toString (h / 100)).data, c.isDigit = true) ∧
      d1 = Nat.digitChar (h % 100 / 10) ∧ d2 = Nat.digitChar (h % 10) ∧
      d1.isDigit = true ∧ d2.isDigit = true ∧
      2 * (h * 2 ^ 2) ≤ 2 * ((9 : Int).natAbs * 100) + 2 ^ 2 ∧
      2 * ((9 : Int).natAbs * 100) ≤ 2 * (h * 2 ^ 2) + 2 ^ 2 :=
  ⟨C9_number_formatting.1 ⟨-12, 2⟩ (-3) 2 (by decide) (by decide) (by decide) (by decide),
   C9_number_formatting.2.1 ⟨9, 2⟩ 4 (by decide) (by decide)⟩

mutual
theorem obj_cutBelow : ∀ (obj : CPDF_Object) (levels : Nat) (depth : Int),
    11 ≤ depth + levels →
    ObjectToPdfString.obj (cutBelow obj levels) depth = ObjectToPdfString.obj obj depth
  | obj, 0, depth, h => by
      have hd : depth > 10 := by omega
      unfold ObjectToPdfString.obj
      simp [hd]
  | .kArray elems, k + 1, depth, h => by
      have ih := elems_cutBelow elems k depth 0 (by push_cast at h; omega)
      simp only [cutBelow]
      unfold ObjectToPdfString.obj
      simp only [ih]
  | .kDictionary entries, k + 1, depth, h => by
      have ih := entries_cutBelow entries k depth (by push_cast at h; omega)
      simp only [cutBelow]
      unfold ObjectToPdfString.obj
      simp only [ih]
  | .kStream dict, k + 1, depth, h => by
      have ih := obj_cutBelow dict k (depth + 1) (by push_cast at h; omega)
      simp only [cutBelow]
      unfold ObjectToPdfString.obj
      simp only [ih]
  | .kBoolean _, k + 1, depth, h => by simp only [cutBelow]
  | .kNumber _, k + 1, depth, h => by simp only [cutBelow]
  | .kString _, k + 1, depth, h => by simp only [cutBelow]
  | .kName _, k + 1, depth, h => by simp only [cutBelow]
  | .kReference _, k + 1, depth, h => by simp only [cutBelow]
  | .kNullobj, k + 1, depth, h => by simp only [cutBelow]
  | .kOther, k + 1, depth, h => by simp only [cutBelow]
theorem elems_cutBelow : ∀ (elems : List CPDF_Object) (levels : Nat) (depth : Int) (i : Nat),
    11 ≤ depth + 1 + levels →
    ObjectToPdfString.elems (cutBelowElems elems levels) depth i
      = ObjectToPdfString.elems elems depth i
  | [], levels, depth, i, h => by simp only [cutBelowElems]
  | e :: rest, levels, depth, i, h => by
      have ih1 := obj_cutBelow e levels (depth + 1) h
      have ih2 := elems_cutBelow rest levels depth (i + 1) h
      simp only [cutBelowElems]
      unfold ObjectToPdfString.elems
      simp only [ih1, ih2]
theorem entries_cutBelow : ∀ (entries : List (String × CPDF_Object)) (levels : Nat)
    (depth : Int), 11 ≤ depth + 1 + levels →
    ObjectToPdfString.entries (cutBelowEntries entries levels) depth
      = ObjectToPdfString.entries entries depth
  | [], levels, depth, h => by simp only [cutBelowEntries]
  | (key, value) :: rest, levels, depth, h => by
      have ih1 := obj_cutBelow value levels (depth + 1) h
      have ih2 := entries_cutBelow rest levels depth h
      simp only [cutBelowEntries]
      unfold ObjectToPdfString.entries
      simp only [ih1, ih2]
end

mutual
theorem nesting_le : ∀ (obj : CPDF_Object) (depth : Int) (bound : Nat),
    11 ≤ depth + bound → ObjectToPdfString.nesting obj depth ≤ bound
  | .kArray elems, depth, bound, h => by
      unfold ObjectToPdfString.nesting
      split
      · omega
      · rename_i hd
        exact nestingElems_le elems depth bound hd h
  | .kDictionary entries, depth, bound, h => by
      unfold ObjectToPdfString.nesting
      split
      · omega
      · rename_i hd
        exact nestingEntries_le entries depth bound hd h
  | .kStream dict, depth, bound, h => by
      unfold ObjectToPdfString.nesting
      split
      · omega
      · rename_i hd
        cases bound with
        | zero => push_cast at h; omega
        | succ b =>
          have := nesting_le dict (depth + 1) b (by push_cast at h; omega)
          simp only []
          omega
  | .kBoolean _, depth, bound, h => by unfold ObjectToPdfString.nesting; split <;> simp
  | .kNumber _, depth, bound, h => by unfold ObjectToPdfString.nesting; split <;> simp
  | .kString _, depth, bound, h => by unfold ObjectToPdfString.nesting; split <;> simp
  | .kName _, depth, bound, h => by unfold ObjectToPdfString.nesting; split <;> simp
  | .kReference _, depth, bound, h => by unfold ObjectToPdfString.nesting; split <;> simp
  | .kNullobj, depth, bound, h => by unfold ObjectToPdfString.nesting; split <;> simp
  | .kOther, depth, bound, h => by unfold ObjectToPdfString.nesting; split <;> simp
theorem nestingElems_le : ∀ (elems : List CPDF_Object) (depth : Int) (bound : Nat),
    ¬ depth > 10 → 11 ≤ depth + bound → ObjectToPdfString.nestingElems elems depth ≤ bound
  | [], depth, bound, hd, h => by unfold ObjectToPdfString.nestingElems; omega
  | e :: rest, depth, bound, hd, h => by
      unfold ObjectToPdfString.nestingElems
      cases bound with
      | zero => push_cast at h; omega
      | succ b =>
        have h1 := nesting_le e (depth + 1) b (by push_cast at h; omega)
        have h2 := nestingElems_le rest depth (b + 1) hd h
        simp only [max_le_iff]
        omega
theorem nestingEntries_le : ∀ (entries : List (String × CPDF_Object)) (depth : Int)
    (bound : Nat), ¬ depth > 10 → 11 ≤ depth + bound →
    ObjectToPdfString.nestingEntries entries depth ≤ bound
  | [], depth, bound, hd, h => by unfold ObjectToPdfString.nestingEntries; omega
  | (key, value) :: rest, depth, bound, hd, h => by
      unfold ObjectToPdfString.nestingEntries
      cases bound with
      | zero => push_cast at h; omega
      | succ b =>
        have h1 := nesting_le value (depth + 1) b (by push_cast at h; omega)
        have h2 := nestingEntries_le rest depth (b + 1) hd h
        simp only [max_le_iff]
        omega
end

/-- C10: for every object, null or not, and every depth above 10 the serializer returns
exactly "null" and makes no recursive call; so, from depth 0, the output is that of the object
with every value 11 or more container levels down replaced by null, and the chain of nested
recursive calls is at most 11 long. -/
theorem C10_depth_cutoff :
    (∀ (obj : Option CPDF_Object) (depth : Int), depth > 10 →
        ObjectToPdfString obj depth = "null") ∧
    (∀ (o : CPDF_Object) (depth : Int), depth > 10 → ObjectToPdfString.nesting o depth = 0) ∧
    (∀ o : CPDF_Object,
        ObjectToPdfString (some o) 0 = ObjectToPdfString (some (cutBelow o 11)) 0) ∧
    (∀ o : CPDF_Object, ObjectToPdfString.nesting o 0 ≤ 11) := by
  refine ⟨?_, ?_, ?_, ?_⟩
  · intro obj depth hd
    cases obj with
    | none => rfl
    | some o =>
      simp only [ObjectToPdfString]
      unfold ObjectToPdfString.obj
      simp [hd]
  · intro o depth hd
    unfold ObjectToPdfString.nesting
    simp [hd]
  · intro o
    simp only [ObjectToPdfString]
    exact (obj_cutBelow o 11 0 (by norm_num)).symm
  · intro o
    exact nesting_le o 0 11 (by norm_num)

/-- Instance of C10: an array serialized at depth 11 is "null", with no recursive call. -/
theorem C10_depth_cutoff_witness :
    ObjectToPdfString (some (.kArray [.kReference 4, .kOther])) 11 = "null" ∧
    ObjectToPdfString.nesting (.kArray [.kReference 4, .kOther]) 11 = 0 :=
  ⟨C10_depth_cutoff.1 (some (.kArray [.kReference 4, .kOther])) 11 (by decide),
   C10_depth_cutoff.2.1 (.kArray [.kReference 4, .kOther]) 11 (by decide)⟩


/-! ## Reading a tree off a well-formed heap -/

theorem allSome_map_iff {α β : Type} (f : α → Option β) :
    ∀ (l : List α) (ys : List β),
      allSome (l.map f) = some ys ↔ List.Forall₂ (fun x y => f x = some y) l ys := by
  intro l
  induction l with
  | nil =>
    intro ys
    cases ys <;> simp [allSome]
  | cons x xs ih =>
    intro ys
    cases hx : f x with
    | none =>
      simp only [List.map_cons, hx, allSome]
      constructor
      · intro h; cases h
      · intro h
        cases h with
        | cons h1 _ => rw [hx] at h1; cases h1
    | some y =>
      simp only [List.map_cons, hx, allSome]
      constructor
      · intro h
        cases hr : allSome (xs.map f) with
        | none => rw [hr] at h; cases h
        | some zs =>
          rw [hr] at h
          simp only [Option.map_some', Option.some.injEq] at h
          subst h
          exact List.Forall₂.cons hx ((ih zs).1 hr)
      · intro h
        cases h with
        | cons h1 h2 =>
          rw [hx] at h1
          cases h1
          rw [(ih _).2 h2]
          rfl

theorem forall₂_mem_right {α β : Type} {R : α → β → Prop} {l : List α} {ys : List β}
    (h : List.Forall₂ R l ys) : ∀ y ∈ ys, ∃ x ∈ l, R x y := by
  induction h with
  | nil => intro y hy; cases hy
  | cons h1 _ ih =>
    intro y hy
    rcases List.mem_cons.1 hy with rfl | hy
    · exact ⟨_, List.mem_cons_self _ _, h1⟩
    · obtain ⟨x, hx, hr⟩ := ih y hy
      exact ⟨x, List.mem_cons_of_mem _ hx, hr⟩

theorem subtreesOfList_eq (l : List ObjectTree) :
    ObjectTree.subtreesOfList l = l.flatMap ObjectTree.subtrees := by
  induction l with
  | nil => simp [ObjectTree.subtreesOfList]
  | cons t rest ih => simp [ObjectTree.subtreesOfList, ih]

theorem subtrees_eq (t : ObjectTree) :
    t.subtrees = t :: t.children.flatMap ObjectTree.subtrees := by
  cases t with
  | node fields children =>
    simp [ObjectTree.subtrees, ObjectTree.children, subtreesOfList_eq]

theorem self_mem_subtrees (t : ObjectTree) : t ∈ t.subtrees := by
  rw [subtrees_eq]; exact List.mem_cons_self _ _

theorem readTree_eq_some {heap : Heap} {fuel ptr : Nat} {t : ObjectTree}
    (h : readTree heap fuel ptr = some t) :
    ∃ f, fuel = f + 1 ∧ heap[ptr]? = some t.fields ∧
      List.Forall₂ (fun c s => readTree heap f c = some s)
        (t.fields.children.take t.fields.child_count) t.children := by
  cases fuel with
  | zero => simp [readTree] at h
  | succ f =>
    refine ⟨f, rfl, ?_⟩
    simp only [readTree] at h
    cases hn : heap[ptr]? with
    | none => rw [hn] at h; cases h
    | some node =>
      rw [hn] at h
      simp only [Option.map_eq_some'] at h
      obtain ⟨cs, hcs, rfl⟩ := h
      exact ⟨rfl, (allSome_map_iff _ _ _).1 hcs⟩

theorem readTree_of {heap : Heap} {f ptr : Nat} {node : PDFIUM_EX_OBJECT_TREE_NODE}
    {cs : List ObjectTree} (hn : heap[ptr]? = some node)
    (hcs : List.Forall₂ (fun c s => readTree heap f c = some s)
      (node.children.take node.child_count) cs) :
    readTree heap (f + 1) ptr = some (.node node cs) := by
  simp only [readTree, hn, (allSome_map_iff _ _ _).2 hcs, Option.map_some']

/-- Enough levels give a tree: on a well-formed heap the read from a valid pointer succeeds
as soon as the fuel covers the nodes allocated after it. -/
theorem readTree_isSome {heap : Heap} {D : Int} (wf : HeapWF heap D) :
    ∀ (fuel ptr : Nat), ptr < heap.length → heap.length - ptr ≤ fuel →
      ∃ t, readTree heap fuel ptr = some t := by
  intro fuel
  induction fuel with
  | zero => intro ptr h1 h2; omega
  | succ f ih =>
    intro ptr h1 h2
    obtain ⟨node, hn⟩ : ∃ node, heap[ptr]? = some node :=
      ⟨heap[ptr], List.getElem?_eq_getElem h1⟩
    have hall : ∀ c ∈ node.children.take node.child_count,
        ∃ s, readTree heap f c = some s := by
      intro c hc
      have hf := wf.forward ptr node c hn (List.mem_of_mem_take hc)
      exact ih c hf.2 (by omega)
    have : ∀ l : List Nat, (∀ c ∈ l, ∃ s, readTree heap f c = some s) →
        ∃ cs, List.Forall₂ (fun c s => readTree heap f c = some s) l cs := by
      intro l
      induction l with
      | nil => intro _; exact ⟨[], List.Forall₂.nil⟩
      | cons c rest ihl =>
        intro hl
        obtain ⟨s, hs⟩ := hl c (List.mem_cons_self _ _)
        obtain ⟨cs, hcs⟩ := ihl (fun c hc => hl c (List.mem_cons_of_mem _ hc))
        exact ⟨s :: cs, List.Forall₂.cons hs hcs⟩
    obtain ⟨cs, hcs⟩ := this _ hall
    exact ⟨_, readTree_of hn hcs⟩

/-- Every node of a tree read off a heap is itself the tree read behind some pointer. -/
theorem subtree_is_read {heap : Heap} :
    ∀ (fuel ptr : Nat) (t : ObjectTree), readTree heap fuel ptr = some t →
      ∀ s ∈ t.subtrees, ∃ q f, readTree heap f q = some s := by
  intro fuel
  induction fuel with
  | zero => intro ptr t h; simp [readTree] at h
  | succ f ih =>
    intro ptr t h s hs
    obtain ⟨f', hf, _, hcs⟩ := readTree_eq_some h
    obtain rfl : f = f' := by omega
    rw [subtrees_eq] at hs
    rcases List.mem_cons.1 hs with rfl | hs
    · exact ⟨ptr, f + 1, h⟩
    · obtain ⟨c, hc, hsc⟩ := List.mem_flatMap.1 hs
      obtain ⟨x, _, hx⟩ := forall₂_mem_right hcs c hc
      exact ih x c hx s hsc

/-- The records of the nodes of a tree read off a heap are those behind the pointers
followed. -/
theorem subtrees_fields_eq {heap : Heap} :
    ∀ (fuel ptr : Nat) (t : ObjectTree), readTree heap fuel ptr = some t →
      t.subtrees.map (fun s => some s.fields) = (readPtrs heap fuel ptr).map (fun q => heap[q]?) := by
  intro fuel
  induction fuel with
  | zero => intro ptr t h; simp [readTree] at h
  | succ f ih =>
    intro ptr t h
    obtain ⟨f', hf, hn, hcs⟩ := readTree_eq_some h
    obtain rfl : f = f' := by omega
    have key : ∀ (l : List Nat) (cs : List ObjectTree),
        List.Forall₂ (fun c s => readTree heap f c = some s) l cs →
        (cs.flatMap ObjectTree.subtrees).map (fun s => some s.fields)
          = (l.flatMap (readPtrs heap f)).map (fun q => heap[q]?) := by
      intro l cs hl
      induction hl with
      | nil => simp
      | cons h1 _ ih2 =>
        simp only [List.flatMap_cons, List.map_append, ih2, ih _ _ h1]
    rw [subtrees_eq]
    simp only [readPtrs, hn, List.map_cons, key _ _ hcs]


theorem readPtrs_succ {heap : Heap} {f ptr : Nat} {node : PDFIUM_EX_OBJECT_TREE_NODE}
    (hn : heap[ptr]? = some node) :
    readPtrs heap (f + 1) ptr
      = ptr :: (node.children.take node.child_count).flatMap (readPtrs heap f) := by
  simp only [readPtrs, hn]

theorem readPtrs_cases {heap : Heap} {fuel ptr x : Nat} (hx : x ∈ readPtrs heap fuel ptr) :
    ∃ f node, fuel = f + 1 ∧ heap[ptr]? = some node ∧
      (x = ptr ∨ ∃ c ∈ node.children, x ∈ readPtrs heap f c) := by
  cases fuel with
  | zero => simp [readPtrs] at hx
  | succ f =>
    cases hn : heap[ptr]? with
    | none => simp [readPtrs, hn] at hx
    | some node =>
      rw [readPtrs_succ hn] at hx
      refine ⟨f, node, rfl, rfl, ?_⟩
      rcases List.mem_cons.1 hx with h | h
      · exact Or.inl h
      · obtain ⟨c, hc, hxc⟩ := List.mem_flatMap.1 h
        exact Or.inr ⟨c, List.mem_of_mem_take hc, hxc⟩

theorem readPtrs_ge {heap : Heap} {D : Int} (wf : HeapWF heap D) :
    ∀ (fuel ptr x : Nat), x ∈ readPtrs heap fuel ptr → ptr ≤ x := by
  intro fuel
  induction fuel with
  | zero => intro ptr x hx; simp [readPtrs] at hx
  | succ f ih =>
    intro ptr x hx
    obtain ⟨f', node, hf, hn, h⟩ := readPtrs_cases hx
    obtain rfl : f = f' := by omega
    rcases h with rfl | ⟨c, hc, hxc⟩
    · exact le_refl _
    · have := (wf.forward ptr node c hn hc).1
      have := ih c x hxc
      omega

theorem readPtrs_parent {heap : Heap} {D : Int} (wf : HeapWF heap D) :
    ∀ (fuel ptr x : Nat), x ∈ readPtrs heap fuel ptr → x ≠ ptr →
      ∃ q n, heap[q]? = some n ∧ x ∈ n.children ∧ q ∈ readPtrs heap fuel ptr := by
  intro fuel
  induction fuel with
  | zero => intro ptr x hx; simp [readPtrs] at hx
  | succ f ih =>
    intro ptr x hx hne
    obtain ⟨f', node, hf, hn, h⟩ := readPtrs_cases hx
    obtain rfl : f = f' := by omega
    rcases h with rfl | ⟨c, hc, hxc⟩
    · exact absurd rfl hne
    · have hcount := wf.counts ptr node hn
      have hmem : ∀ y, y ∈ readPtrs heap f c → y ∈ readPtrs heap (f + 1) ptr := by
        intro y hy
        rw [readPtrs_succ hn, hcount, List.take_length]
        exact List.mem_cons_of_mem _ (List.mem_flatMap.2 ⟨c, hc, hy⟩)
      by_cases hxc' : x = c
      · subst hxc'
        refine ⟨ptr, node, hn, hc, ?_⟩
        rw [readPtrs_succ hn]
        exact List.mem_cons_self _ _
      · obtain ⟨q, n, hq, hxn, hqc⟩ := ih c x hxc hxc'
        exact ⟨q, n, hq, hxn, hmem q hqc⟩

theorem readPtrs_overlap {heap : Heap} {D : Int} (wf : HeapWF heap D) (f1 f2 a b : Nat) :
    ∀ x : Nat, x ∈ readPtrs heap f1 a → x ∈ readPtrs heap f2 b →
      a ∈ readPtrs heap f2 b ∨ b ∈ readPtrs heap f1 a := by
  intro x
  induction x using Nat.strong_induction_on with
  | _ x ih =>
    intro ha hb
    by_cases hxa : x = a
    · subst hxa; exact Or.inl hb
    by_cases hxb : x = b
    · subst hxb; exact Or.inr ha
    obtain ⟨q1, n1, hq1, hx1, hqa⟩ := readPtrs_parent wf f1 a x ha hxa
    obtain ⟨q2, n2, hq2, hx2, hqb⟩ := readPtrs_parent wf f2 b x hb hxb
    have hq : q1 = q2 := wf.parent_unique q1 q2 n1 n2 x hq1 hq2 hx1 hx2
    subst hq
    exact ih q1 (wf.forward q1 n1 x hq1 hx1).1 hqa hqb

/-- On a well-formed heap no pointer is followed twice. -/
theorem readPtrs_nodup {heap : Heap} {D : Int} (wf : HeapWF heap D) :
    ∀ (fuel ptr : Nat), (readPtrs heap fuel ptr).Nodup := by
  intro fuel
  induction fuel with
  | zero => intro ptr; simp [readPtrs]
  | succ f ih =>
    intro ptr
    cases hn : heap[ptr]? with
    | none => simp [readPtrs, hn]
    | some node =>
      rw [readPtrs_succ hn, wf.counts ptr node hn, List.take_length]
      refine List.nodup_cons.2 ⟨?_, ?_⟩
      · intro hmem
        obtain ⟨c, hc, hxc⟩ := List.mem_flatMap.1 hmem
        have := (wf.forward ptr node c hn hc).1
        have := readPtrs_ge wf f c ptr hxc
        omega
      · refine List.nodup_flatMap.2 ⟨fun c _ => ih c, ?_⟩
        refine List.Nodup.pairwise_of_forall_ne (wf.children_nodup ptr node hn) ?_
        intro c1 hc1 c2 hc2 hne x hx1 hx2
        have side : ∀ (u v : Nat), u ∈ node.children → v ∈ node.children → u ≠ v →
            u ∈ readPtrs heap f v → False := by
          intro u v hu hv huv huin
          obtain ⟨q, n, hq, hun, hqv⟩ := readPtrs_parent wf f v u huin huv
          have hqp : q = ptr := wf.parent_unique q ptr n node u hq hn hun hu
          have := readPtrs_ge wf f v q hqv
          have := (wf.forward ptr node v hn hv).1
          omega
        rcases readPtrs_overlap wf f f c1 c2 x hx1 hx2 with h | h
        · exact side c1 c2 hc1 hc2 hne h
        · exact side c2 c1 hc2 hc1 (Ne.symm hne) h

theorem readPtrs_valid {heap : Heap} :
    ∀ (fuel ptr x : Nat), x ∈ readPtrs heap fuel ptr → ∃ n, heap[x]? = some n := by
  intro fuel
  induction fuel with
  | zero => intro ptr x hx; simp [readPtrs] at hx
  | succ f ih =>
    intro ptr x hx
    obtain ⟨f', node, hf, hn, h⟩ := readPtrs_cases hx
    obtain rfl : f = f' := by omega
    rcases h with rfl | ⟨c, _, hxc⟩
    · exact ⟨node, hn⟩
    · exact ih c x hxc

/-- No object number occurs twice in a tree read off a well-formed heap. -/
theorem objNums_nodup_of_wf {heap : Heap} {D : Int} (wf : HeapWF heap D) {fuel ptr : Nat}
    {t : ObjectTree} (h : readTree heap fuel ptr = some t) : t.objNums.Nodup := by
  have h1 := subtrees_fields_eq fuel ptr t h
  have h2 : (t.subtrees.map (fun s => some s.fields)).map (Option.map (fun n => n.obj_num))
      = t.objNums.map some := by
    simp [ObjectTree.objNums, List.map_map, Function.comp_def]
  have h3 : ((readPtrs heap fuel ptr).map (fun q => heap[q]?)).map
      (Option.map (fun n => n.obj_num))
      = (readPtrs heap fuel ptr).map (fun q => (heap[q]?).map (fun n => n.obj_num)) := by
    simp [List.map_map, Function.comp_def]
  have h4 : ((readPtrs heap fuel ptr).map
      (fun q => (heap[q]?).map (fun n => n.obj_num))).Nodup := by
    refine List.Nodup.map_on ?_ (readPtrs_nodup wf fuel ptr)
    intro x hx y hy hxy
    obtain ⟨n, hn⟩ := readPtrs_valid fuel ptr x hx
    obtain ⟨m, hm⟩ := readPtrs_valid fuel ptr y hy
    rw [hn, hm] at hxy
    simp only [Option.map_some', Option.some.injEq] at hxy
    exact wf.obj_inj x y n m hn hm hxy
  rw [← h3, ← h1, h2] at h4
  exact List.Nodup.of_map _ h4

/-- In a tree read off a well-formed heap every node has depth between 0 and the bound, and
every child is one level below its parent and carries another object number. -/
theorem tree_depths_of_wf {heap : Heap} {D : Int} (wf : HeapWF heap D) {fuel ptr : Nat}
    {t : ObjectTree} (h : readTree heap fuel ptr = some t) :
    ∀ s ∈ t.subtrees, 0 ≤ s.fields.depth ∧ s.fields.depth ≤ D ∧
      s.children.length = s.fields.child_count ∧
      ∀ c ∈ s.children, c.fields.depth = s.fields.depth + 1 ∧
        c.fields.obj_num ≠ s.fields.obj_num := by
  intro s hs
  obtain ⟨q, f, hq⟩ := subtree_is_read fuel ptr t h s hs
  obtain ⟨f', _, hn, hcs⟩ := readTree_eq_some hq
  have hcount := wf.counts q s.fields hn
  rw [hcount, List.take_length] at hcs
  refine ⟨(wf.depth_range q _ hn).1, (wf.depth_range q _ hn).2, ?_, ?_⟩
  · rw [hcount]; exact hcs.length_eq.symm
  · intro c hc
    obtain ⟨x, hx, hxc⟩ := forall₂_mem_right hcs c hc
    obtain ⟨_, _, hxn, _⟩ := readTree_eq_some hxc
    refine ⟨wf.child_depth q _ x _ hn hx hxn, ?_⟩
    intro heq
    have := wf.obj_inj x q _ _ hxn hn heq
    have := (wf.forward q _ x hn hx).1
    omega

/-! ## The walker keeps the heap well formed -/

theorem HeapExt.refl (heap : Heap) : HeapExt heap heap :=
  fun _ n h => ⟨n, h, rfl, rfl, rfl, rfl, rfl⟩

theorem HeapExt.trans {h1 h2 h3 : Heap} (a : HeapExt h1 h2) (b : HeapExt h2 h3) :
    HeapExt h1 h3 := by
  intro p n hn
  obtain ⟨n2, hn2, e1, e2, e3, e4, e5⟩ := a p n hn
  obtain ⟨n3, hn3, g1, g2, g3, g4, g5⟩ := b p n2 hn2
  exact ⟨n3, hn3, g1.trans e1, g2.trans e2, g3.trans e3, g4.trans e4, g5.trans e5⟩

theorem addChild_get {heap : Heap} {i : Nat} {node : PDFIUM_EX_OBJECT_TREE_NODE}
    (hi : heap[i]? = some node) (nn : PDFIUM_EX_OBJECT_TREE_NODE) (p : Nat) :
    (AddChildNode (heap ++ [nn]) i heap.length)[p]? =
      if p = i then some (attachChild node heap.length)
      else if p = heap.length then some nn else heap[p]? := by
  have hlt : i < heap.length := (List.getElem?_eq_some.1 hi).1
  have h1 : (heap ++ [nn])[i]? = some node := by
    rw [List.getElem?_append_left hlt]; exact hi
  simp only [AddChildNode, h1, List.getElem?_set, List.length_append, List.length_singleton]
  by_cases hp : p = i
  · subst hp
    simp [Nat.lt_succ_of_lt hlt]
  · have : ¬ i = p := fun h => hp h.symm
    simp only [this, hp, if_false]
    by_cases hp2 : p = heap.length
    · subst hp2; simp
    · simp only [hp2, if_false]
      by_cases hp3 : p < heap.length
      · exact List.getElem?_append_left hp3
      · rw [List.getElem?_eq_none (by simp; omega), List.getElem?_eq_none (by omega)]

theorem addChild_node {heap : Heap} {i : Nat} {node : PDFIUM_EX_OBJECT_TREE_NODE}
    (hi : heap[i]? = some node) (nn : PDFIUM_EX_OBJECT_TREE_NODE) {p : Nat}
    {n : PDFIUM_EX_OBJECT_TREE_NODE}
    (hp : (AddChildNode (heap ++ [nn]) i heap.length)[p]? = some n) :
    (p = heap.length ∧ n = nn) ∨
      ∃ n0, heap[p]? = some n0 ∧ n.obj_num = n0.obj_num ∧ n.gen_num = n0.gen_num ∧
        n.raw_content = n0.raw_content ∧ n.content_length = n0.content_length ∧
        n.depth = n0.depth ∧
        ((p = i ∧ n0 = node ∧ n = attachChild node heap.length) ∨ (p ≠ i ∧ n = n0)) := by
  rw [addChild_get hi] at hp
  split_ifs at hp with h1 h2
  · subst h1
    cases hp
    exact Or.inr ⟨node, hi, rfl, rfl, rfl, rfl, rfl, Or.inl ⟨rfl, rfl, rfl⟩⟩
  · cases hp
    exact Or.inl ⟨h2, rfl⟩
  · exact Or.inr ⟨n, hp, rfl, rfl, rfl, rfl, rfl, Or.inr ⟨h1, rfl⟩⟩

theorem addChild_children {heap : Heap} {i : Nat} {node : PDFIUM_EX_OBJECT_TREE_NODE}
    (hi : heap[i]? = some node) {nn : PDFIUM_EX_OBJECT_TREE_NODE} (hnn : nn.children = [])
    {p c : Nat} {n : PDFIUM_EX_OBJECT_TREE_NODE}
    (hp : (AddChildNode (heap ++ [nn]) i heap.length)[p]? = some n) (hc : c ∈ n.children) :
    (p = i ∧ c = heap.length ∧ n.depth = node.depth) ∨
      ∃ n0, heap[p]? = some n0 ∧ c ∈ n0.children ∧ n.depth = n0.depth := by
  rcases addChild_node hi nn hp with ⟨_, rfl⟩ | ⟨n0, h0, _, _, _, _, hd, h | h⟩
  · rw [hnn] at hc; cases hc
  · obtain ⟨rfl, rfl, rfl⟩ := h
    simp only [attachChild, List.mem_append, List.mem_singleton] at hc
    rcases hc with hc | hc
    · exact Or.inr ⟨n0, h0, hc, rfl⟩
    · exact Or.inl ⟨rfl, hc, rfl⟩
  · obtain ⟨_, rfl⟩ := h
    exact Or.inr ⟨n, h0, hc, rfl⟩

theorem addChild_ext {heap : Heap} {i : Nat} {node : PDFIUM_EX_OBJECT_TREE_NODE}
    (hi : heap[i]? = some node) (nn : PDFIUM_EX_OBJECT_TREE_NODE) :
    HeapExt heap (AddChildNode (heap ++ [nn]) i heap.length) := by
  intro p n hn
  have hlt : p < heap.length := (List.getElem?_eq_some.1 hn).1
  rw [addChild_get hi]
  by_cases hp : p = i
  · subst hp
    obtain rfl : node = n := by rw [hi] at hn; exact Option.some.inj hn
    exact ⟨attachChild node heap.length, by simp, rfl, rfl, rfl, rfl, rfl⟩
  · have : p ≠ heap.length := by omega
    exact ⟨n, by simp [hp, this, hn], rfl, rfl, rfl, rfl, rfl⟩

theorem addChild_wf {heap : Heap} {D : Int} (wf : HeapWF heap D) {i : Nat}
    {node : PDFIUM_EX_OBJECT_TREE_NODE} (hi : heap[i]? = some node) (hd : node.depth < D)
    (obj_num gen_num : Nat) (content : Option String)
    (hfresh : ∀ (p : Nat) (n : PDFIUM_EX_OBJECT_TREE_NODE), heap[p]? = some n →
      n.obj_num ≠ obj_num) :
    HeapWF (AddChildNode (heap ++ [newTreeNode obj_num gen_num content (node.depth + 1)]) i
      heap.length) D := by
  have hlt : i < heap.length := (List.getElem?_eq_some.1 hi).1
  have hnn : (newTreeNode obj_num gen_num content (node.depth + 1)).children = [] := rfl
  have hlen : (AddChildNode (heap ++ [newTreeNode obj_num gen_num content (node.depth + 1)]) i
      heap.length).length = heap.length + 1 := by
    have h1 : (heap ++ [newTreeNode obj_num gen_num content (node.depth + 1)])[i]?
        = some node := by
      rw [List.getElem?_append_left hlt]; exact hi
    simp [AddChildNode, h1]
  constructor
  · intro p n hp
    rcases addChild_node hi _ hp with ⟨_, rfl⟩ | ⟨n0, h0, _, _, _, _, _, h | h⟩
    · rfl
    · obtain ⟨rfl, rfl, rfl⟩ := h
      simp [attachChild, wf.counts p n0 h0]
    · obtain ⟨_, rfl⟩ := h
      exact wf.counts p n h0
  · intro p n c hp hc
    rw [hlen]
    rcases addChild_children hi hnn hp hc with ⟨rfl, rfl, _⟩ | ⟨n0, h0, hc0, _⟩
    · omega
    · have := wf.forward p n0 c h0 hc0
      omega
  · intro p n c m hp hc hm
    rcases addChild_children hi hnn hp hc with ⟨rfl, rfl, hdn⟩ | ⟨n0, h0, hc0, hdn⟩
    · rcases addChild_node hi _ hm with ⟨_, rfl⟩ | ⟨m0, hm0, _⟩
      · rw [hdn]; rfl
      · have := (List.getElem?_eq_some.1 hm0).1
        omega
    · have hf := wf.forward p n0 c h0 hc0
      rcases addChild_node hi _ hm with ⟨hc', _⟩ | ⟨m0, hm0, _, _, _, _, hdm, _⟩
      · omega
      · rw [hdm, hdn]
        exact wf.child_depth p n0 c m0 h0 hc0 hm0
  · intro p q n m c hp hq hcn hcm
    rcases addChild_children hi hnn hp hcn with ⟨rfl, rfl, _⟩ | ⟨n0, h0, hc0, _⟩
    · rcases addChild_children hi hnn hq hcm with ⟨rfl, _, _⟩ | ⟨m0, hm0, hcm0, _⟩
      · rfl
      · have := wf.forward q m0 _ hm0 hcm0
        omega
    · rcases addChild_children hi hnn hq hcm with ⟨rfl, rfl, _⟩ | ⟨m0, hm0, hcm0, _⟩
      · have := wf.forward p n0 _ h0 hc0
        omega
      · exact wf.parent_unique p q n0 m0 c h0 hm0 hc0 hcm0
  · intro p n hp
    rcases addChild_node hi _ hp with ⟨_, rfl⟩ | ⟨n0, h0, _, _, _, _, _, h | h⟩
    · simp [newTreeNode]
    · obtain ⟨rfl, rfl, rfl⟩ := h
      simp only [attachChild]
      refine List.Nodup.append (wf.children_nodup p n0 h0) (List.nodup_singleton _) ?_
      intro x hx hx'
      rw [List.mem_singleton] at hx'
      subst hx'
      have := wf.forward p n0 _ h0 hx
      omega
    · obtain ⟨_, rfl⟩ := h
      exact wf.children_nodup p n h0
  · intro c hc0 hcl
    rw [hlen] at hcl
    by_cases hcj : c = heap.length
    · subst hcj
      refine ⟨i, attachChild node heap.length, ?_, ?_⟩
      · rw [addChild_get hi]; simp
      · simp [attachChild]
    · obtain ⟨p, n, hp, hcn⟩ := wf.has_parent c hc0 (by omega)
      by_cases hpi : p = i
      · subst hpi
        rw [hi] at hp
        cases hp
        refine ⟨p, attachChild node heap.length, ?_, ?_⟩
        · rw [addChild_get hi]; simp
        · simp [attachChild, hcn]
      · refine ⟨p, n, ?_, hcn⟩
        have : p ≠ heap.length := by
          have := (List.getElem?_eq_some.1 hp).1
          omega
        rw [addChild_get hi]
        simp [hpi, this, hp]
  · intro p q n m hp hq he
    rcases addChild_node hi _ hp with ⟨rfl, rfl⟩ | ⟨n0, h0, hon, _⟩
    · rcases addChild_node hi _ hq with ⟨rfl, _⟩ | ⟨m0, hm0, hom, _⟩
      · rfl
      · exact absurd (by rw [← hom, ← he]; rfl) (hfresh q m0 hm0)
    · rcases addChild_node hi _ hq with ⟨rfl, rfl⟩ | ⟨m0, hm0, hom, _⟩
      · exact absurd (by rw [← hon, he]; rfl) (hfresh p n0 h0)
      · exact wf.obj_inj p q n0 m0 h0 hm0 (by rw [← hon, ← hom, he])
  · intro p n hp
    rcases addChild_node hi _ hp with ⟨_, rfl⟩ | ⟨n0, h0, _, _, _, _, hdn, _⟩
    · have := wf.depth_range i node hi
      simp only [newTreeNode]
      omega
    · rw [hdn]
      exact wf.depth_range p n0 h0

theorem lookup_cons_nat {β : Type} (k k2 : Nat) (v : β) (m : List (Nat × β)) :
    List.lookup k ((k2, v) :: m) = if k = k2 then some v else List.lookup k m := by
  rw [List.lookup_cons]
  by_cases h : k = k2
  · simp [h]
  · have : (k == k2) = false := by simpa using h
    simp [h, this]

theorem addChild_inv {st : WalkState} {D : Int} (inv : WalkInv st D) {i : Nat}
    {node : PDFIUM_EX_OBJECT_TREE_NODE} (hi : st.heap[i]? = some node) (hd : node.depth < D)
    {ref : Nat} (hnew : (st.object_tree_map.lookup ref).isSome = false)
    (content : Option String) (queue : List (Nat × Option Nat))
    (hq : ∀ e ∈ queue, e ∈ st.analysis_queue ∨ e.1 = ref) (count : Nat) :
    WalkInv
      { heap := AddChildNode (CreateTreeNode st.heap ref 0 content (node.depth + 1)).2 i
          (CreateTreeNode st.heap ref 0 content (node.depth + 1)).1
        object_tree_map :=
          (ref, some (CreateTreeNode st.heap ref 0 content (node.depth + 1)).1)
            :: st.object_tree_map
        analysis_queue := queue
        processed_count := count } D := by
  have hfresh : ∀ (p : Nat) (n : PDFIUM_EX_OBJECT_TREE_NODE), st.heap[p]? = some n →
      n.obj_num ≠ ref := by
    intro p n hp he
    have := inv.map_complete p n hp
    rw [he] at this
    rw [this] at hnew
    cases hnew
  simp only [CreateTreeNode]
  constructor
  · exact addChild_wf inv.wf hi hd ref 0 content hfresh
  · intro k v hk
    simp only [lookup_cons_nat] at hk
    split_ifs at hk with hkr
    · cases hk
      subst hkr
      refine ⟨st.heap.length, newTreeNode k 0 content (node.depth + 1), rfl, ?_, rfl⟩
      show (AddChildNode _ i st.heap.length)[st.heap.length]? = _
      rw [addChild_get hi]
      have : st.heap.length ≠ i := by
        have := (List.getElem?_eq_some.1 hi).1
        omega
      simp [this]
    · obtain ⟨p, n, hv, hp, hn⟩ := inv.map_sound k v hk
      obtain ⟨n2, hp2, ho, _⟩ := addChild_ext hi (newTreeNode ref 0 content (node.depth + 1)) p n hp
      exact ⟨p, n2, hv, hp2, ho.trans hn⟩
  · intro p n hp
    simp only [lookup_cons_nat]
    rcases addChild_node hi _ hp with ⟨rfl, rfl⟩ | ⟨n0, h0, hon, _⟩
    · simp [newTreeNode]
    · have hne : n.obj_num ≠ ref := by rw [hon]; exact hfresh p n0 h0
      simp only [hne, if_false]
      rw [hon]
      exact inv.map_complete p n0 h0
  · intro e he
    simp only [lookup_cons_nat]
    rcases hq e he with h | h
    · have := inv.queue_known e h
      split_ifs <;> simp [this]
    · simp [h]

theorem createChildren_inv (document : Option CPDF_Document) (D : Int) (i : Nat) :
    ∀ (refs : List Nat) (st : WalkState), WalkInv st D →
      (∀ node, st.heap[i]? = some node → node.depth < D) →
      WalkInv (createChildren document D i refs st) D ∧
        HeapExt st.heap (createChildren document D i refs st).heap := by
  intro refs
  induction refs with
  | nil => intro st inv _; exact ⟨inv, HeapExt.refl _⟩
  | cons ref rest ih =>
    intro st inv hdepth
    unfold createChildren
    by_cases hseen : (st.object_tree_map.lookup ref).isSome = true
    · rw [if_pos hseen]
      exact ih st inv hdepth
    · rw [if_neg hseen]
      cases hi : st.heap[i]? with
      | none => exact ⟨inv, HeapExt.refl _⟩
      | some node =>
        simp only []
        by_cases hfull : node.child_count ≥ 1000000
        · rw [if_pos hfull]
          exact ⟨inv, HeapExt.refl _⟩
        · rw [if_neg hfull]
          cases hc : PdfiumEx_GetRawObjectContent document ref 0 with
          | none => exact ih st inv hdepth
          | some content_str =>
            simp only []
            by_cases hempty : strlen content_str = 0
            · rw [if_pos hempty]
              exact ih st inv hdepth
            · rw [if_neg hempty]
              have hd := hdepth node hi
              have hnew : (st.object_tree_map.lookup ref).isSome = false := by
                simpa only [Bool.not_eq_true] using hseen
              have inv2 := addChild_inv inv hi hd hnew (some content_str)
                (if node.depth + 1 < D then st.analysis_queue ++ [(ref, some i)]
                  else st.analysis_queue)
                (by
                  intro e he
                  split_ifs at he
                  · rcases List.mem_append.1 he with h | h
                    · exact Or.inl h
                    · rw [List.mem_singleton] at h
                      subst h
                      exact Or.inr rfl
                  · exact Or.inl he) st.processed_count
              have hext := addChild_ext hi (newTreeNode ref 0 (some content_str) (node.depth + 1))
              have hdepth2 : ∀ node2,
                  (AddChildNode (CreateTreeNode st.heap ref 0 (some content_str)
                    (node.depth + 1)).2 i (CreateTreeNode st.heap ref 0 (some content_str)
                    (node.depth + 1)).1)[i]? = some node2 → node2.depth < D := by
                intro node2 h2
                simp only [CreateTreeNode] at h2
                rw [addChild_get hi] at h2
                simp only [if_true] at h2
                cases h2
                exact hd
              obtain ⟨r1, r2⟩ := ih _ inv2 hdepth2
              exact ⟨r1, HeapExt.trans hext r2⟩

theorem walkLoop_inv (document : Option CPDF_Document) (pDoc : CPDF_Document) (D : Int) :
    ∀ (budget : Nat) (st : WalkState), WalkInv st D →
      WalkInv (walkLoop document pDoc D budget st) D ∧
        HeapExt st.heap (walkLoop document pDoc D budget st).heap := by
  intro budget
  induction budget with
  | zero => intro st inv; exact ⟨inv, HeapExt.refl _⟩
  | succ b ih =>
    intro st inv
    unfold walkLoop
    cases hq : st.analysis_queue with
    | nil => exact ⟨inv, HeapExt.refl _⟩
    | cons current queue =>
      simp only []
      have hknown := inv.queue_known current (by rw [hq]; exact List.mem_cons_self _ _)
      obtain ⟨v, hv⟩ := Option.isSome_iff_exists.1 hknown
      have hfound : mapIndex st.object_tree_map current.1 = (v, st.object_tree_map) := by
        simp only [mapIndex, hv]
      rw [hfound]
      have inv1 : WalkInv
          { st with
            processed_count := st.processed_count + 1
            analysis_queue := queue
            object_tree_map := st.object_tree_map } D :=
        { wf := inv.wf
          map_sound := inv.map_sound
          map_complete := inv.map_complete
          queue_known := fun e he => inv.queue_known e (by
            rw [hq]; exact List.mem_cons_of_mem _ he) }
      cases v with
      | none => exact ih _ inv1
      | some current_node =>
        simp only []
        cases hn : st.heap[current_node]? with
        | none => exact ih _ inv1
        | some node =>
          simp only []
          split_ifs with hdeep
          · exact ih _ inv1
          · split
            · rename_i dict gen hres
              have hdepth : ∀ node2, st.heap[current_node]? = some node2 → node2.depth < D := by
                intro node2 h2
                rw [hn] at h2
                cases h2
                omega
              obtain ⟨r1, r2⟩ := createChildren_inv document D current_node
                (collectRefs current.1 node.depth dict []) _ inv1 hdepth
              obtain ⟨r3, r4⟩ := ih _ r1
              exact ⟨r3, HeapExt.trans r2 r4⟩
            · exact ih _ inv1

/-! ## The serializer's output is a C string -/

theorem NoNul.append {a b : String} (ha : NoNul a) (hb : NoNul b) : NoNul (a ++ b) := by
  intro c hc
  rw [String.data_append] at hc
  rcases List.mem_append.1 hc with h | h
  · exact ha c h
  · exact hb c h

theorem noNul_c_str (s : String) : NoNul (c_str s) := by
  intro c hc
  have := List.mem_takeWhile_imp hc
  simpa using this

theorem c_str_of_noNul {s : String} (h : NoNul s) : c_str s = s := by
  have : s.data.takeWhile (fun c => c != Char.ofNat 0) = s.data := by
    rw [List.takeWhile_eq_self_iff]
    intro c hc
    simpa using h c hc
  simp only [c_str, this]

theorem noNul_of_isDigit {s : String} (h : ∀ c ∈ s.data, c.isDigit = true) : NoNul s := by
  intro c hc he
  have := h c hc
  rw [he] at this
  exact absurd this (by decide)

theorem noNul_nat (n : Nat) : NoNul (toString n) :=
  noNul_of_isDigit (repr_isDigit n)

theorem noNul_int (i : Int) : NoNul (toString i) := by
  intro c hc he
  rcases int_repr_chars i c hc with h | h
  · rw [he] at h; exact absurd h (by decide)
  · rw [he] at h; exact absurd h (by decide)

theorem noNul_stream_fixed_2 (num : FloatValue) : NoNul (stream_fixed_2 num) := by
  unfold stream_fixed_2
  simp only []
  refine NoNul.append (NoNul.append (NoNul.append (NoNul.append ?_ (noNul_nat _)) ?_)
    (noNul_nat _)) (noNul_nat _)
  · split_ifs
    · intro c hc; simp at hc; subst hc; decide
    · intro c hc; simp at hc
  · intro c hc; simp at hc; subst hc; decide

theorem noNul_lit (s : String) (h : s.data.all (fun c => c != Char.ofNat 0) = true) :
    NoNul s := by
  intro c hc
  have := List.all_eq_true.1 h c hc
  simpa using this

mutual
theorem noNul_obj : ∀ (obj : CPDF_Object) (depth : Int),
    NoNul (ObjectToPdfString.obj obj depth)
  | .kBoolean value, depth => by
      unfold ObjectToPdfString.obj
      split
      · exact noNul_lit _ (by decide)
      · cases value
        · exact noNul_lit "false" (by decide)
        · exact noNul_lit "true" (by decide)
  | .kNumber num, depth => by
      unfold ObjectToPdfString.obj
      split
      · exact noNul_lit _ (by decide)
      · simp only []
        split
        · exact noNul_int _
        · exact noNul_stream_fixed_2 _
  | .kString str, depth => by
      unfold ObjectToPdfString.obj
      split
      · exact noNul_lit _ (by decide)
      · exact NoNul.append (NoNul.append (noNul_lit _ (by decide)) (noNul_c_str _))
          (noNul_lit _ (by decide))
  | .kName str, depth => by
      unfold ObjectToPdfString.obj
      split
      · exact noNul_lit _ (by decide)
      · exact NoNul.append (noNul_lit _ (by decide)) (noNul_c_str _)
  | .kArray elems, depth => by
      unfold ObjectToPdfString.obj
      split
      · exact noNul_lit _ (by decide)
      · exact NoNul.append (NoNul.append (noNul_lit _ (by decide)) (noNul_elems elems depth 0))
          (noNul_lit _ (by decide))
  | .kDictionary entries, depth => by
      unfold ObjectToPdfString.obj
      split
      · exact noNul_lit _ (by decide)
      · exact NoNul.append (NoNul.append (noNul_lit _ (by decide)) (noNul_entries entries depth))
          (noNul_lit _ (by decide))
  | .kReference ref_obj_num, depth => by
      unfold ObjectToPdfString.obj
      split
      · exact noNul_lit _ (by decide)
      · exact NoNul.append (noNul_nat _) (noNul_lit _ (by decide))
  | .kStream dict, depth => by
      unfold ObjectToPdfString.obj
      split
      · exact noNul_lit _ (by decide)
      · exact NoNul.append (NoNul.append (noNul_obj dict (depth + 1)) (noNul_lit _ (by decide)))
          (noNul_lit _ (by decide))
  | .kNullobj, depth => by
      unfold ObjectToPdfString.obj
      split
      · exact noNul_lit _ (by decide)
      · exact noNul_lit "null" (by decide)
  | .kOther, depth => by
      unfold ObjectToPdfString.obj
      split
      · exact noNul_lit _ (by decide)
      · exact noNul_lit "unknown" (by decide)
theorem noNul_elems : ∀ (elems : List CPDF_Object) (depth : Int) (i : Nat),
    NoNul (ObjectToPdfString.elems elems depth i)
  | [], depth, i => by
      unfold ObjectToPdfString.elems
      exact noNul_lit _ (by decide)
  | e :: rest, depth, i => by
      unfold ObjectToPdfString.elems
      refine NoNul.append (NoNul.append ?_ (noNul_obj e (depth + 1)))
        (noNul_elems rest depth (i + 1))
      split <;> exact noNul_lit _ (by decide)
theorem noNul_entries : ∀ (entries : List (String × CPDF_Object)) (depth : Int),
    NoNul (ObjectToPdfString.entries entries depth)
  | [], depth => by
      unfold ObjectToPdfString.entries
      exact noNul_lit _ (by decide)
  | (key, value) :: rest, depth => by
      unfold ObjectToPdfString.entries
      exact NoNul.append (NoNul.append (NoNul.append (NoNul.append (NoNul.append
        (noNul_lit _ (by decide)) (noNul_c_str _)) (noNul_lit _ (by decide)))
        (noNul_obj value (depth + 1))) (noNul_lit _ (by decide)))
        (noNul_entries rest depth)
end

/-- Handing the serializer's output to C code loses nothing: it holds no NUL. -/
theorem c_str_ObjectToPdfString (obj : Option CPDF_Object) (depth : Int) :
    c_str (ObjectToPdfString obj depth) = ObjectToPdfString obj depth := by
  apply c_str_of_noNul
  cases obj with
  | none => exact noNul_lit "null" (by decide)
  | some o => exact noNul_obj o depth

/-! ## What `PdfiumEx_BuildObjectTree` returns -/

theorem clamp_eq (max_depth : Int) :
    (if max_depth ≤ 0 ∨ max_depth > 1000000 then 1000000 else max_depth)
      = clampedDepth max_depth := by
  unfold clampedDepth
  split_ifs <;> omega

theorem clampedDepth_range (max_depth : Int) :
    1 ≤ clampedDepth max_depth ∧ clampedDepth max_depth ≤ 1000000 := by
  unfold clampedDepth
  split_ifs <;> omega

theorem singleton_get {α : Type} {a n : α} {p : Nat} (h : [a][p]? = some n) :
    p = 0 ∧ n = a := by
  cases p with
  | zero => simp at h; exact ⟨rfl, h.symm⟩
  | succ k => simp at h

theorem initial_inv (root : PDFIUM_EX_OBJECT_TREE_NODE) (hc : root.children = [])
    (hcount : root.child_count = 0) (hd : root.depth = 0) (D : Int) (hD : 0 ≤ D) :
    WalkInv
      { heap := [root]
        analysis_queue := [(root.obj_num, none)]
        object_tree_map := [(root.obj_num, some 0)]
        processed_count := 0 } D := by
  refine ⟨⟨?_, ?_, ?_, ?_, ?_, ?_, ?_, ?_⟩, ?_, ?_, ?_⟩
  · intro p n h
    obtain ⟨_, rfl⟩ := singleton_get h
    rw [hc, hcount]; rfl
  · intro p n c h hcn
    obtain ⟨_, rfl⟩ := singleton_get h
    rw [hc] at hcn; cases hcn
  · intro p n c m h hcn
    obtain ⟨_, rfl⟩ := singleton_get h
    rw [hc] at hcn; cases hcn
  · intro p q n m c h1 h2 _ _
    rw [(singleton_get h1).1, (singleton_get h2).1]
  · intro p n h
    obtain ⟨_, rfl⟩ := singleton_get h
    rw [hc]; exact List.nodup_nil
  · intro c h0 h1
    simp at h1
    omega
  · intro p q n m h1 h2 _
    rw [(singleton_get h1).1, (singleton_get h2).1]
  · intro p n h
    obtain ⟨_, rfl⟩ := singleton_get h
    rw [hd]
    exact ⟨le_refl _, hD⟩
  · intro k v h
    simp only [lookup_cons_nat, List.lookup_nil] at h
    split_ifs at h with hk
    cases h
    exact ⟨0, root, rfl, rfl, hk.symm⟩
  · intro p n h
    obtain ⟨rfl, rfl⟩ := singleton_get h
    simp [lookup_cons_nat]
  · intro e he
    simp only [List.mem_singleton] at he
    subst he
    simp [lookup_cons_nat]

/-- The walk from a fresh root leaves a well-formed heap that still holds the root. -/
theorem run_inv (pDoc : CPDF_Document) (root : PDFIUM_EX_OBJECT_TREE_NODE)
    (hc : root.children = []) (hcount : root.child_count = 0) (hd : root.depth = 0)
    (D : Int) (hD : 0 ≤ D) :
    WalkInv (BuildObjectTreeWithQueue.run (some pDoc) [root] (some 0) D) D ∧
      HeapExt [root] (BuildObjectTreeWithQueue.run (some pDoc) [root] (some 0) D).heap := by
  have h0 : ([root] : Heap)[0]? = some root := rfl
  simp only [BuildObjectTreeWithQueue.run, h0]
  exact walkLoop_inv (some pDoc) pDoc D 1000000 _ (initial_inv root hc hcount hd D hD)

/-- The result of `PdfiumEx_BuildObjectTree` on a document and a page that has a dictionary. -/
theorem build_eq (pDoc : CPDF_Document) (pPage : CPDF_Page) (page_dict : CPDF_Dictionary)
    (hdict : pPage.GetDict = some page_dict) (max_depth : Int) :
    PdfiumEx_BuildObjectTree (some pDoc) (some pPage) max_depth =
      if page_dict.obj_num = 0 ∨
          (ObjectToPdfString (some (.kDictionary page_dict.entries)) 0).isEmpty = true then none
      else some (0, BuildObjectTreeWithQueue (some pDoc)
        [newTreeNode page_dict.obj_num page_dict.gen_num
          (some (ObjectToPdfString (some (.kDictionary page_dict.entries)) 0)) 0] (some 0)
        (clampedDepth max_depth)) := by
  simp only [PdfiumEx_BuildObjectTree, hdict, clamp_eq, CreateTreeNode, List.length_nil,
    List.nil_append]
  by_cases h1 : page_dict.obj_num = 0
  · simp [h1]
  · by_cases h2 : (ObjectToPdfString (some (.kDictionary page_dict.entries)) 0).isEmpty = true
    · simp [h1, h2]
    · simp [h1, h2]

/-- Every result of `PdfiumEx_BuildObjectTree` comes from a document and a page with a
dictionary of non-zero object number; its root pointer is the first node of a heap that is
well formed for the clamped depth and whose first node carries the identity, content and depth
0 given to the root. -/
theorem build_result {document : Option CPDF_Document} {page : Option CPDF_Page}
    {max_depth : Int} {r : Nat × Heap}
    (h : PdfiumEx_BuildObjectTree document page max_depth = some r) :
    ∃ (pDoc : CPDF_Document) (pPage : CPDF_Page) (page_dict : CPDF_Dictionary)
      (root : PDFIUM_EX_OBJECT_TREE_NODE),
      document = some pDoc ∧ page = some pPage ∧ pPage.GetDict = some page_dict ∧
      page_dict.obj_num ≠ 0 ∧ r.1 = 0 ∧ HeapWF r.2 (clampedDepth max_depth) ∧
      r.2[0]? = some root ∧ root.obj_num = page_dict.obj_num ∧
      root.gen_num = page_dict.gen_num ∧ root.depth = 0 ∧
      root.raw_content = some (ObjectToPdfString (some (.kDictionary page_dict.entries)) 0) ∧
      root.content_length = (ObjectToPdfString (some (.kDictionary page_dict.entries)) 0).length
      := by
  cases document with
  | none => simp [PdfiumEx_BuildObjectTree] at h
  | some pDoc =>
    cases page with
    | none => simp [PdfiumEx_BuildObjectTree] at h
    | some pPage =>
      cases hdict : pPage.GetDict with
      | none => simp [PdfiumEx_BuildObjectTree, hdict] at h
      | some page_dict =>
        rw [build_eq pDoc pPage page_dict hdict] at h
        split_ifs at h with hbad
        have hnz : page_dict.obj_num ≠ 0 := fun h0 => hbad (Or.inl h0)
        obtain rfl := Option.some.inj h
        have hD := clampedDepth_range max_depth
        obtain ⟨inv, ext⟩ := run_inv pDoc
          (newTreeNode page_dict.obj_num page_dict.gen_num
            (some (ObjectToPdfString (some (.kDictionary page_dict.entries)) 0)) 0)
          rfl rfl rfl (clampedDepth max_depth) (by omega)
        obtain ⟨root, hroot, e1, e2, e3, e4, e5⟩ := ext 0
          (newTreeNode page_dict.obj_num page_dict.gen_num
            (some (ObjectToPdfString (some (.kDictionary page_dict.entries)) 0)) 0) rfl
        refine ⟨pDoc, pPage, page_dict, root, rfl, rfl, hdict, hnz, rfl, inv.wf, hroot, e1, e2,
          e5, ?_, ?_⟩
        · rw [e3]
          simp only [newTreeNode, Option.map_some', c_str_ObjectToPdfString]
        · rw [e4]
          simp only [newTreeNode, strlen, c_str_ObjectToPdfString]

/-- A result of `PdfiumEx_BuildObjectTree` can be read as a tree, whose root is the first
node of the heap. -/
theorem build_tree {document : Option CPDF_Document} {page : Option CPDF_Page}
    {max_depth : Int} {r : Nat × Heap}
    (h : PdfiumEx_BuildObjectTree document page max_depth = some r) :
    ∃ t, treeOf r = some t ∧ r.2[0]? = some t.fields := by
  obtain ⟨_, _, _, root, _, _, _, _, h1, wf, hroot, _⟩ := build_result h
  have hlen : 0 < r.2.length := (List.getElem?_eq_some.1 hroot).1
  obtain ⟨t, ht⟩ := readTree_isSome wf r.2.length 0 hlen (by omega)
  refine ⟨t, ?_, ?_⟩
  · simp only [treeOf, h1]; exact ht
  · obtain ⟨_, _, hf, _⟩ := readTree_eq_some ht
    exact hf

/-! ## The claims on built trees -/

/-- C1: in every tree that `PdfiumEx_BuildObjectTree` returns, no object number occurs on more
than one node, the root included, whatever the references of the document (repeated, shared or
cyclic). -/
theorem C1_no_duplicate_object_numbers (document : Option CPDF_Document)
    (page : Option CPDF_Page) (max_depth : Int) (r : Nat × Heap)
    (h : PdfiumEx_BuildObjectTree document page max_depth = some r) :
    ∃ t, treeOf r = some t ∧ t.objNums.Nodup := by
  obtain ⟨_, _, _, _, _, _, _, _, _, wf, _⟩ := build_result h
  obtain ⟨t, ht, _⟩ := build_tree h
  exact ⟨t, ht, objNums_nodup_of_wf wf ht⟩

/-- Instance of C1: a document with repeated and cyclic references. -/
theorem C1_no_duplicate_object_numbers_witness :
    ∃ r, PdfiumEx_BuildObjectTree (some cyclicDoc) (some cyclicPage) 5 = some r ∧
      ∃ t, treeOf r = some t ∧ t.objNums.Nodup :=
  ⟨_, rfl, C1_no_duplicate_object_numbers (some cyclicDoc) (some cyclicPage) 5 _ rfl⟩

/-- C2: in every tree returned for the depth argument `d`, with `D = d` when
`1 ≤ d ≤ 1000000` and `D = 1000000` otherwise, the root has depth 0, every child has its
parent's depth plus one, and no node is deeper than `D`. -/
theorem C2_depth_bound (document : Option CPDF_Document) (page : Option CPDF_Page)
    (d : Int) (r : Nat × Heap) (h : PdfiumEx_BuildObjectTree document page d = some r) :
    ∃ t, treeOf r = some t ∧ t.fields.depth = 0 ∧
      ∀ s ∈ t.subtrees,
        s.fields.depth ≤ (if 1 ≤ d ∧ d ≤ 1000000 then d else 1000000) ∧
        ∀ c ∈ s.children, c.fields.depth = s.fields.depth + 1 := by
  obtain ⟨_, _, _, root, _, _, _, _, h1, wf, hroot, _, _, hd, _⟩ := build_result h
  obtain ⟨t, ht, hf⟩ := build_tree h
  refine ⟨t, ht, ?_, ?_⟩
  · rw [hroot] at hf
    rw [← Option.some.inj hf]
    exact hd
  · intro s hs
    obtain ⟨_, h2, _, h4⟩ := tree_depths_of_wf wf ht s hs
    exact ⟨h2, fun c hc => (h4 c hc).1⟩

/-- Instance of C2: the cyclic document, built with depth argument 1. -/
theorem C2_depth_bound_witness :
    ∃ r, PdfiumEx_BuildObjectTree (some cyclicDoc) (some cyclicPage) 1 = some r ∧
      ∃ t, treeOf r = some t ∧ t.fields.depth = 0 ∧
        ∀ s ∈ t.subtrees,
          s.fields.depth ≤ (if (1 : Int) ≤ 1 ∧ (1 : Int) ≤ 1000000 then 1 else 1000000) ∧
          ∀ c ∈ s.children, c.fields.depth = s.fields.depth + 1 :=
  ⟨_, rfl, C2_depth_bound (some cyclicDoc) (some cyclicPage) 1 _ rfl⟩

theorem pushRef_mem {current ref x : Nat} {acc : List Nat}
    (hx : x ∈ pushRef current ref acc) : x ∈ acc ∨ (x = ref ∧ 0 < x ∧ x ≠ current) := by
  unfold pushRef at hx
  split_ifs at hx with h
  · rcases List.mem_append.1 hx with h1 | h1
    · exact Or.inl h1
    · rw [List.mem_singleton] at h1
      subst h1
      exact Or.inr ⟨rfl, h.1, h.2⟩
  · exact Or.inl hx

theorem scanArray_mem (current : Nat) :
    ∀ (elems : List CPDF_Object) (i : Nat) (acc : List Nat) (x : Nat),
      x ∈ scanArray current elems i acc → x ∈ acc ∨ (0 < x ∧ x ≠ current) := by
  intro elems
  induction elems with
  | nil => intro i acc x hx; exact Or.inl (by simpa [scanArray] using hx)
  | cons e rest ih =>
    intro i acc x hx
    unfold scanArray at hx
    split_ifs at hx with hi
    · split at hx
      · rcases ih _ _ _ hx with h | h
        · rcases pushRef_mem h with h1 | h1
          · exact Or.inl h1
          · exact Or.inr h1.2
        · exact Or.inr h
      · exact ih _ _ _ hx
    · exact Or.inl hx

theorem scanSubDict_mem (current : Nat) :
    ∀ (entries : List (String × CPDF_Object)) (acc : List Nat) (x : Nat),
      x ∈ scanSubDict current entries acc → x ∈ acc ∨ (0 < x ∧ x ≠ current) := by
  intro entries
  induction entries with
  | nil => intro acc x hx; exact Or.inl (by simpa [scanSubDict] using hx)
  | cons e rest ih =>
    intro acc x hx
    obtain ⟨key, value⟩ := e
    unfold scanSubDict at hx
    split_ifs at hx with hi
    · exact Or.inl hx
    · split at hx
      · rcases ih _ _ hx with h | h
        · rcases pushRef_mem h with h1 | h1
          · exact Or.inl h1
          · exact Or.inr h1.2
        · exact Or.inr h
      · exact ih _ _ hx

/-- Every number that `collectRefs` adds is non-zero and differs from the object scanned. -/
theorem collectRefs_mem (current : Nat) (depth : Int) :
    ∀ (entries : List (String × CPDF_Object)) (acc : List Nat) (x : Nat),
      x ∈ collectRefs current depth entries acc → x ∈ acc ∨ (0 < x ∧ x ≠ current) := by
  intro entries
  induction entries with
  | nil => intro acc x hx; exact Or.inl (by simpa [collectRefs] using hx)
  | cons e rest ih =>
    intro acc x hx
    obtain ⟨key, value⟩ := e
    unfold collectRefs at hx
    split at hx
    · rcases ih _ _ hx with h | h
      · rcases pushRef_mem h with h1 | h1
        · exact Or.inl h1
        · exact Or.inr h1.2
      · exact Or.inr h
    · rcases ih _ _ hx with h | h
      · exact scanArray_mem current _ _ _ _ h
      · exact Or.inr h
    · split_ifs at hx
      · rcases ih _ _ hx with h | h
        · exact scanSubDict_mem current _ _ _ h
        · exact Or.inr h
      · exact ih _ _ hx
    · exact ih _ _ hx

/-- C3: in every built tree no node has a child with its own object number, and the reference
list collected for object `n` (from reference values, array elements and the values of nested
dictionaries) never contains `n`. -/
theorem C3_no_self_loop :
    (∀ (document : Option CPDF_Document) (page : Option CPDF_Page) (max_depth : Int)
        (r : Nat × Heap), PdfiumEx_BuildObjectTree document page max_depth = some r →
        ∃ t, treeOf r = some t ∧
          ∀ s ∈ t.subtrees, ∀ c ∈ s.children, c.fields.obj_num ≠ s.fields.obj_num) ∧
    (∀ (n : Nat) (depth : Int) (entries : List (String × CPDF_Object)),
        n ∉ collectRefs n depth entries []) := by
  constructor
  · intro document page max_depth r h
    obtain ⟨_, _, _, _, _, _, _, _, _, wf, _⟩ := build_result h
    obtain ⟨t, ht, _⟩ := build_tree h
    exact ⟨t, ht, fun s hs c hc => ((tree_depths_of_wf wf ht s hs).2.2.2 c hc).2⟩
  · intro n depth entries hn
    rcases collectRefs_mem n depth entries [] n hn with h | h
    · cases h
    · exact h.2 rfl

/-- Instance of C3: the cyclic document, in which object 3 references itself. -/
theorem C3_no_self_loop_witness :
    ∃ r, PdfiumEx_BuildObjectTree (some cyclicDoc) (some cyclicPage) 0 = some r ∧
      ∃ t, treeOf r = some t ∧
        ∀ s ∈ t.subtrees, ∀ c ∈ s.children, c.fields.obj_num ≠ s.fields.obj_num :=
  ⟨_, rfl, C3_no_self_loop.1 (some cyclicDoc) (some cyclicPage) 0 _ rfl⟩

theorem build_out_of_range (document : Option CPDF_Document) (page : Option CPDF_Page)
    (max_depth : Int) (h : max_depth ≤ 0 ∨ max_depth > 1000000) :
    PdfiumEx_BuildObjectTree document page max_depth
      = PdfiumEx_BuildObjectTree document page 1000000 := by
  have e1 : (if max_depth ≤ 0 ∨ max_depth > 1000000 then (1000000 : Int) else max_depth)
      = 1000000 := if_pos h
  have e2 : (if (1000000 : Int) ≤ 0 ∨ (1000000 : Int) > 1000000 then (1000000 : Int)
      else 1000000) = 1000000 := by simp
  simp only [PdfiumEx_BuildObjectTree, e1, e2]

/-- C8: a depth argument that is not positive or exceeds 1000000 gives the result of the call
with 1000000, for every document and page: the out-of-range value is replaced, it does not
make the build fail. -/
theorem C8_out_of_range_depth (document : Option CPDF_Document) (page : Option CPDF_Page)
    (max_depth : Int) (h : max_depth ≤ 0 ∨ max_depth > 1000000) :
    PdfiumEx_BuildObjectTree document page max_depth
      = PdfiumEx_BuildObjectTree document page 1000000 :=
  build_out_of_range document page max_depth h

/-- Instance of C8: the depth argument -3 on the cyclic document. -/
theorem C8_out_of_range_depth_witness :
    PdfiumEx_BuildObjectTree (some cyclicDoc) (some cyclicPage) (-3)
      = PdfiumEx_BuildObjectTree (some cyclicDoc) (some cyclicPage) 1000000 :=
  C8_out_of_range_depth (some cyclicDoc) (some cyclicPage) (-3) (Or.inl (by decide))

/-- C5: for a document and a page with a dictionary, `PdfiumEx_BuildObjectTree` returns null
when the object number of the page dictionary is 0 or its serialized content is empty;
otherwise it returns a tree whose root carries the object number and generation number of
the page dictionary, depth 0 and the serialized content, so the tree has at least its root
node. -/
theorem C5_root_validity (pDoc : CPDF_Document) (pPage : CPDF_Page)
    (page_dict : CPDF_Dictionary) (hdict : pPage.GetDict = some page_dict) (max_depth : Int) :
    ((page_dict.obj_num = 0 ∨
        (ObjectToPdfString (some (.kDictionary page_dict.entries)) 0).isEmpty = true) →
      PdfiumEx_BuildObjectTree (some pDoc) (some pPage) max_depth = none) ∧
    (¬ (page_dict.obj_num = 0 ∨
        (ObjectToPdfString (some (.kDictionary page_dict.entries)) 0).isEmpty = true) →
      ∃ r t, PdfiumEx_BuildObjectTree (some pDoc) (some pPage) max_depth = some r ∧
        treeOf r = some t ∧ t.fields.obj_num = page_dict.obj_num ∧
        t.fields.gen_num = page_dict.gen_num ∧ t.fields.depth = 0 ∧
        t.fields.raw_content
          = some (ObjectToPdfString (some (.kDictionary page_dict.entries)) 0) ∧
        t.fields.content_length
          = (ObjectToPdfString (some (.kDictionary page_dict.entries)) 0).length ∧
        t ∈ t.subtrees ∧ 1 ≤ t.subtrees.length) := by
  constructor
  · intro hbad
    rw [build_eq pDoc pPage page_dict hdict, if_pos hbad]
  · intro hok
    have hb := build_eq pDoc pPage page_dict hdict max_depth
    rw [if_neg hok] at hb
    obtain ⟨_, pPage2, page_dict2, root, _, hp, hd2, _, _, _, hroot, e1, e2, e3, e4, e5⟩ :=
      build_result hb
    obtain rfl : pPage = pPage2 := Option.some.inj hp
    obtain rfl : page_dict = page_dict2 := by
      rw [hdict] at hd2; exact Option.some.inj hd2
    obtain ⟨t, ht, hf⟩ := build_tree hb
    have hrt : root = t.fields := by
      rw [hroot] at hf; exact Option.some.inj hf
    subst hrt
    refine ⟨_, t, hb, ht, e1, e2, e3, e4, e5, self_mem_subtrees t, ?_⟩
    exact List.length_pos_of_mem (self_mem_subtrees t)

/-- Instances of C5: a page dictionary with object number 0 gives null; the page of the
cyclic document, whose dictionary is object 1, gives a tree rooted at object 1. -/
theorem C5_root_validity_witness :
    PdfiumEx_BuildObjectTree (some cyclicDoc)
      (some { GetDict := some { entries := [("A", .kReference 2)], obj_num := 0, gen_num := 0 } })
      7 = none ∧
    ∃ r t, PdfiumEx_BuildObjectTree (some cyclicDoc) (some cyclicPage) 7 = some r ∧
      treeOf r = some t ∧ t.fields.obj_num = 1 ∧ t.fields.gen_num = 0 ∧ t.fields.depth = 0 ∧
      t.fields.raw_content = some "<< /A 2 0 R /B 2 0 R /C [ 3 0 R 2 0 R ] >>" ∧
      t.fields.content_length = "<< /A 2 0 R /B 2 0 R /C [ 3 0 R 2 0 R ] >>".length ∧
      t ∈ t.subtrees ∧ 1 ≤ t.subtrees.length :=
  ⟨(C5_root_validity cyclicDoc
      { GetDict := some { entries := [("A", .kReference 2)], obj_num := 0, gen_num := 0 } }
      { entries := [("A", .kReference 2)], obj_num := 0, gen_num := 0 } rfl 7).1 (Or.inl rfl),
   (C5_root_validity cyclicDoc cyclicPage
      { entries := [("A", .kReference 2), ("B", .kReference 2),
          ("C", .kArray [.kReference 3, .kReference 2])]
        obj_num := 1
        gen_num := 0 } rfl 7).2 (by decide)⟩

/-! ## The serializer's output is never empty -/

theorem toDigitsCore_length_ge (fuel : Nat) :
    ∀ (n : Nat) (ds : List Char), ds.length ≤ (Nat.toDigitsCore 10 fuel n ds).length := by
  induction fuel with
  | zero => intro n ds; simp [Nat.toDigitsCore]
  | succ f ih =>
    intro n ds
    simp only [Nat.toDigitsCore]
    split
    · simp
    · have := ih (n / 10) (Nat.digitChar (n % 10) :: ds)
      simp only [List.length_cons] at this
      omega

theorem nat_repr_length_pos (n : Nat) : 0 < (toString n).length := by
  have h1 : (toString n).length = (Nat.toDigits 10 n).length := rfl
  rw [h1]
  show 0 < (Nat.toDigitsCore 10 (n + 1) n []).length
  simp only [Nat.toDigitsCore]
  split
  · simp
  · have := toDigitsCore_length_ge n (n / 10) [Nat.digitChar (n % 10)]
    simp only [List.length_singleton] at this
    omega

theorem int_repr_length_pos (i : Int) : 0 < (toString i).length := by
  cases i with
  | ofNat m => exact nat_repr_length_pos m
  | negSucc m =>
    have : toString (Int.negSucc m) = "-" ++ toString (m.succ) := rfl
    rw [this, String.length_append]
    have := nat_repr_length_pos m.succ
    omega

/-- The serializer returns at least one character, for every object and depth. -/
theorem ObjectToPdfString_length_pos (obj : Option CPDF_Object) (depth : Int) :
    0 < (ObjectToPdfString obj depth).length := by
  cases obj with
  | none => exact (by decide : 0 < "null".length)
  | some o =>
    simp only [ObjectToPdfString]
    unfold ObjectToPdfString.obj
    split
    · decide
    · cases o with
      | kBoolean value =>
        cases value
        · exact (by decide : 0 < "false".length)
        · exact (by decide : 0 < "true".length)
      | kNumber num =>
        simp only []
        split
        · exact int_repr_length_pos _
        · unfold stream_fixed_2
          simp only [String.length_append]
          have : ".".length = 1 := rfl
          omega
      | kString str =>
        simp only [String.length_append]
        have : "(".length = 1 := rfl
        omega
      | kName str =>
        simp only [String.length_append]
        have : "/".length = 1 := rfl
        omega
      | kArray elems =>
        simp only [String.length_append]
        have : "[ ".length = 2 := rfl
        omega
      | kDictionary entries =>
        simp only [String.length_append]
        have : "<< ".length = 3 := rfl
        omega
      | kReference n =>
        simp only [String.length_append]
        have : " 0 R".length = 4 := rfl
        omega
      | kStream dict =>
        simp only [String.length_append]
        have : " stream\n".length = 8 := rfl
        omega
      | kNullobj => exact (by decide : 0 < "null".length)
      | kOther => exact (by decide : 0 < "unknown".length)

/-- What `PdfiumEx_GetRawObjectContent` returns for generation 0 on an object that resolves
with generation 0: its serialization, which is not the empty C string. -/
theorem rawContent_of_resolved {pDoc : CPDF_Document} {n : Nat} {obj : IndirectObject}
    (hres : pDoc.GetOrParseIndirectObject n = some obj) (hgen : obj.gen_num = 0) :
    PdfiumEx_GetRawObjectContent (some pDoc) n 0 = some (ObjectToPdfString (some obj.value) 0) ∧
      strlen (ObjectToPdfString (some obj.value) 0) ≠ 0 := by
  constructor
  · simp only [PdfiumEx_GetRawObjectContent, hres, hgen, c_str_ObjectToPdfString]
    simp
  · have := ObjectToPdfString_length_pos (some obj.value) 0
    simp only [strlen, c_str_ObjectToPdfString]
    omega

/-- When `PdfiumEx_GetRawObjectContent` returns null for generation 0: the object does not
resolve, or not with generation 0. -/
theorem rawContent_none {pDoc : CPDF_Document} {n : Nat}
    (h : ∀ obj, pDoc.GetOrParseIndirectObject n = some obj → obj.gen_num ≠ 0) :
    PdfiumEx_GetRawObjectContent (some pDoc) n 0 = none := by
  simp only [PdfiumEx_GetRawObjectContent]
  cases hres : pDoc.GetOrParseIndirectObject n with
  | none => rfl
  | some obj => simp [h obj hres]

/-! ## A root none of whose references resolves -/

theorem walkLoop_nil (document : Option CPDF_Document) (pDoc : CPDF_Document) (D : Int)
    (budget : Nat) (st : WalkState) (h : st.analysis_queue = []) :
    walkLoop document pDoc D budget st = st := by
  cases budget with
  | zero => rfl
  | succ b => simp only [walkLoop, h]

theorem createChildren_skip (document : Option CPDF_Document) (D : Int) (i : Nat) :
    ∀ (refs : List Nat) (st : WalkState),
      (∀ ref ∈ refs, (st.object_tree_map.lookup ref).isSome = true ∨
        PdfiumEx_GetRawObjectContent document ref 0 = none) →
      createChildren document D i refs st = st := by
  intro refs
  induction refs with
  | nil => intro st _; rfl
  | cons ref rest ih =>
    intro st h
    have hrest := ih st (fun r hr => h r (List.mem_cons_of_mem _ hr))
    unfold createChildren
    rcases h ref (List.mem_cons_self _ _) with h1 | h1
    · rw [if_pos h1]; exact hrest
    · by_cases hseen : (st.object_tree_map.lookup ref).isSome = true
      · rw [if_pos hseen]; exact hrest
      · rw [if_neg hseen]
        cases hi : st.heap[i]? with
        | none => rfl
        | some node =>
          simp only []
          by_cases hfull : node.child_count ≥ 1000000
          · rw [if_pos hfull]
          · rw [if_neg hfull, h1]
            exact hrest

/-- One turn of the loop on a queued object whose node may be expanded and which resolves to
a dictionary. -/
theorem walkLoop_expand (document : Option CPDF_Document) (pDoc : CPDF_Document) (D : Int)
    (budget : Nat) (st : WalkState) (current : Nat × Option Nat)
    (queue : List (Nat × Option Nat)) (current_node : Nat)
    (node : PDFIUM_EX_OBJECT_TREE_NODE) (dict : List (String × CPDF_Object)) (gen : Nat)
    (hq : st.analysis_queue = current :: queue)
    (hmap : st.object_tree_map.lookup current.1 = some (some current_node))
    (hnode : st.heap[current_node]? = some node) (hdepth : node.depth < D)
    (hres : pDoc.GetOrParseIndirectObject current.1 = some ⟨.kDictionary dict, gen⟩) :
    walkLoop document pDoc D (budget + 1) st =
      walkLoop document pDoc D budget
        (createChildren document D current_node (collectRefs current.1 node.depth dict [])
          { st with processed_count := st.processed_count + 1, analysis_queue := queue }) := by
  have hidx : mapIndex st.object_tree_map current.1 = (some current_node, st.object_tree_map) := by
    simp only [mapIndex, hmap]
  have hd : ¬ node.depth ≥ D := by omega
  rw [walkLoop]
  simp only [hq, hidx, hnode, if_neg hd, hres]

/-- One turn of the loop on a queued object whose node is at the depth bound, or which does
not resolve to a dictionary: the entry is dropped. -/
theorem walkLoop_leaf (document : Option CPDF_Document) (pDoc : CPDF_Document) (D : Int)
    (budget : Nat) (st : WalkState) (current : Nat × Option Nat)
    (queue : List (Nat × Option Nat)) (current_node : Nat)
    (node : PDFIUM_EX_OBJECT_TREE_NODE)
    (hq : st.analysis_queue = current :: queue)
    (hmap : st.object_tree_map.lookup current.1 = some (some current_node))
    (hnode : st.heap[current_node]? = some node)
    (hleaf : node.depth ≥ D ∨ ∀ dict gen,
      pDoc.GetOrParseIndirectObject current.1 ≠ some ⟨.kDictionary dict, gen⟩) :
    walkLoop document pDoc D (budget + 1) st =
      walkLoop document pDoc D budget
        { st with processed_count := st.processed_count + 1, analysis_queue := queue } := by
  have hidx : mapIndex st.object_tree_map current.1 = (some current_node, st.object_tree_map) := by
    simp only [mapIndex, hmap]
  rw [walkLoop]
  simp only [hq, hidx, hnode]
  by_cases hd : node.depth ≥ D
  · rw [if_pos hd]
  · rw [if_neg hd]
    rcases hleaf with h | h
    · exact absurd h hd
    · split
      · rename_i dict gen hres
        exact absurd hres (h dict gen)
      · rfl

/-- The walk from a fresh root allocates nothing when no reference collected from the root
resolves with generation 0. -/
theorem walk_single (pDoc : CPDF_Document) (n g : Nat) (content : Option String) (D : Int)
    (hD : 1 ≤ D)
    (hrefs : ∀ (dict : List (String × CPDF_Object)) (gen : Nat),
      pDoc.GetOrParseIndirectObject n = some ⟨.kDictionary dict, gen⟩ →
      ∀ ref ∈ collectRefs n 0 dict [], ∀ obj,
        pDoc.GetOrParseIndirectObject ref = some obj → obj.gen_num ≠ 0) :
    BuildObjectTreeWithQueue (some pDoc) [newTreeNode n g content 0] (some 0) D
      = [newTreeNode n g content 0] := by
  have h0 : ([newTreeNode n g content 0] : Heap)[0]? = some (newTreeNode n g content 0) := rfl
  simp only [BuildObjectTreeWithQueue, BuildObjectTreeWithQueue.run, h0]
  by_cases hdict : ∃ dict gen, pDoc.GetOrParseIndirectObject n = some ⟨.kDictionary dict, gen⟩
  · obtain ⟨dict, gen, hres⟩ := hdict
    rw [walkLoop_expand (some pDoc) pDoc D 999999 _ (n, none) [] 0 (newTreeNode n g content 0)
      dict gen rfl (by simp [newTreeNode, lookup_cons_nat]) h0
      (by simp only [newTreeNode]; omega) hres]
    rw [createChildren_skip, walkLoop_nil _ _ _ _ _ rfl]
    intro ref href
    right
    exact rawContent_none (hrefs dict gen hres ref href)
  · rw [walkLoop_leaf (some pDoc) pDoc D 999999 _ (n, none) [] 0 (newTreeNode n g content 0)
      rfl (by simp [newTreeNode, lookup_cons_nat]) h0
      (Or.inr (fun dict gen h => hdict ⟨dict, gen, h⟩))]
    rw [walkLoop_nil _ _ _ _ _ rfl]

/-- C6, amended: for a page root with non-zero object number and non-empty content,
`max_depth = 0` is clamped (the result is that of `max_depth = 1000000`) and the tree is the
root alone, with `child_count` 0, whenever none of the references collected from the root
dictionary resolves with generation number 0, to a dictionary or to anything else. -/
theorem C6_single_node (pDoc : CPDF_Document) (pPage : CPDF_Page)
    (page_dict : CPDF_Dictionary) (hdict : pPage.GetDict = some page_dict)
    (hnum : page_dict.obj_num ≠ 0)
    (hcontent : ¬ (ObjectToPdfString (some (.kDictionary page_dict.entries)) 0).isEmpty = true)
    (hrefs : ∀ (dict : List (String × CPDF_Object)) (gen : Nat),
      pDoc.GetOrParseIndirectObject page_dict.obj_num = some ⟨.kDictionary dict, gen⟩ →
      ∀ ref ∈ collectRefs page_dict.obj_num 0 dict [], ∀ obj,
        pDoc.GetOrParseIndirectObject ref = some obj → obj.gen_num ≠ 0) :
    PdfiumEx_BuildObjectTree (some pDoc) (some pPage) 0
      = PdfiumEx_BuildObjectTree (some pDoc) (some pPage) 1000000 ∧
    ∃ r t, PdfiumEx_BuildObjectTree (some pDoc) (some pPage) 0 = some r ∧
      treeOf r = some t ∧ t.fields.obj_num = page_dict.obj_num ∧ t.children = [] ∧
      t.fields.child_count = 0 ∧ t.subtrees.length = 1 := by
  refine ⟨build_out_of_range _ _ 0 (Or.inl (le_refl _)), ?_⟩
  have hb := build_eq pDoc pPage page_dict hdict 0
  have hok : ¬ (page_dict.obj_num = 0 ∨
      (ObjectToPdfString (some (.kDictionary page_dict.entries)) 0).isEmpty = true) := by
    rintro (h | h)
    · exact hnum h
    · exact hcontent h
  rw [if_neg hok, walk_single pDoc _ _ _ _ (clampedDepth_range 0).1 hrefs] at hb
  refine ⟨_, .node (newTreeNode page_dict.obj_num page_dict.gen_num
    (some (ObjectToPdfString (some (.kDictionary page_dict.entries)) 0)) 0) [], hb, ?_,
    rfl, rfl, rfl, rfl⟩
  simp only [treeOf, List.length_singleton]
  exact readTree_of (f := 0) rfl List.Forall₂.nil

/-- Instance of the amended C6: the root references an object that does not resolve and one
that resolves with generation 2. -/
theorem C6_single_node_witness :
    PdfiumEx_BuildObjectTree (some staleRefDoc) (some staleRefPage) 0
      = PdfiumEx_BuildObjectTree (some staleRefDoc) (some staleRefPage) 1000000 ∧
    ∃ r t, PdfiumEx_BuildObjectTree (some staleRefDoc) (some staleRefPage) 0 = some r ∧
      treeOf r = some t ∧ t.fields.obj_num = 5 ∧ t.children = [] ∧
      t.fields.child_count = 0 ∧ t.subtrees.length = 1 :=
  C6_single_node staleRefDoc staleRefPage
    { entries := [("A", .kReference 9), ("B", .kReference 7)], obj_num := 5, gen_num := 0 }
    rfl (by decide) (by decide) (by
      intro dict gen hres ref href obj hobj
      have hd : dict = [("A", .kReference 9), ("B", .kReference 7)] := by
        simp [staleRefDoc] at hres
        exact hres.1.symm
      subst hd
      have hr : ref = 9 ∨ ref = 7 := by
        simpa [collectRefs, pushRef] using href
      rcases hr with rfl | rfl
      · simp [staleRefDoc] at hobj
      · simp [staleRefDoc] at hobj
        rw [← hobj]
        decide)

/-- C6 as stated fails: the root of `scalarRefDoc` has non-zero object number and non-empty
content, the one object it references resolves to a number, not to a dictionary, and yet the
tree built with `max_depth = 0` has two nodes, the root having one child. -/
theorem C6_counterexample :
    (5 : Nat) ≠ 0 ∧
    ¬ (ObjectToPdfString (some (.kDictionary [("A", .kReference 7)])) 0).isEmpty = true ∧
    (∀ ref ∈ collectRefs 5 0 [("A", .kReference 7)] [], ∀ obj,
      scalarRefDoc.GetOrParseIndirectObject ref = some obj →
      ∀ dict, obj.value ≠ .kDictionary dict) ∧
    ∃ r t, PdfiumEx_BuildObjectTree (some scalarRefDoc) (some scalarRefPage) 0 = some r ∧
      treeOf r = some t ∧ t.fields.child_count = 1 ∧ t.objNums = [5, 7] ∧
      t.subtrees.length = 2 := by
  refine ⟨by decide, by decide, ?_, _, _, rfl, rfl, rfl, rfl, rfl⟩
  intro ref href obj hobj dict
  have hr : ref = 7 := by simpa [collectRefs, pushRef] using href
  subst hr
  simp [scalarRefDoc] at hobj
  rw [← hobj]
  intro h
  cases h

/-! ## The children that one expansion attaches, and nodes that are left alone -/

theorem foldl_attachChild (cs : List Nat) :
    ∀ node : PDFIUM_EX_OBJECT_TREE_NODE,
      (cs.foldl attachChild node).child_count = node.child_count + cs.length ∧
      (cs.foldl attachChild node).children = node.children ++ cs ∧
      (cs.foldl attachChild node).max_children
        = capacityAfter node.child_count node.max_children cs.length ∧
      (cs.foldl attachChild node).obj_num = node.obj_num ∧
      (cs.foldl attachChild node).depth = node.depth := by
  induction cs with
  | nil => intro node; simp [capacityAfter]
  | cons c rest ih =>
    intro node
    obtain ⟨h1, h2, h3, h4, h5⟩ := ih (attachChild node c)
    simp only [List.foldl_cons, h1, h2, h3, h4, h5]
    refine ⟨?_, ?_, ?_, rfl, rfl⟩
    · simp only [attachChild, List.length_cons]; omega
    · simp [attachChild]
    · simp only [attachChild, List.length_cons, capacityAfter]

theorem filter_fresh_card (seen seen2 : Nat → Bool) (ref : Nat) (rest : List Nat)
    (href : seen ref = false) (h2 : ∀ r, seen2 r = (decide (r = ref) || seen r)) :
    ((ref :: rest).toFinset.filter (fun r => seen r = false)).card
      = (rest.toFinset.filter (fun r => seen2 r = false)).card + 1 := by
  have e1 : (ref :: rest).toFinset.filter (fun r => seen r = false)
      = insert ref (rest.toFinset.filter (fun r => seen2 r = false)) := by
    ext x
    simp only [List.toFinset_cons, Finset.mem_filter, Finset.mem_insert, List.mem_toFinset, h2]
    by_cases hx : x = ref
    · subst hx; simp [href]
    · simp [hx]
  rw [e1, Finset.card_insert_of_not_mem]
  simp [h2]

theorem filter_seen_card (seen : Nat → Bool) (ref : Nat) (rest : List Nat)
    (href : seen ref = true) :
    ((ref :: rest).toFinset.filter (fun r => seen r = false)).card
      = (rest.toFinset.filter (fun r => seen r = false)).card := by
  congr 1
  ext x
  simp only [List.toFinset_cons, Finset.mem_filter, Finset.mem_insert, List.mem_toFinset]
  constructor
  · rintro ⟨h | h, hx⟩
    · subst h; rw [href] at hx; cases hx
    · exact ⟨h, hx⟩
  · rintro ⟨h, hx⟩
    exact ⟨Or.inr h, hx⟩

/-- The loop that creates children attaches one child for every distinct reference that is
not in the map yet, in the order met, when all references resolve with generation 0 and the
limit of 1000000 children is not reached. -/
theorem createChildren_attach (pDoc : CPDF_Document) (D : Int) (i : Nat) :
    ∀ (refs : List Nat) (st : WalkState) (node : PDFIUM_EX_OBJECT_TREE_NODE),
      st.heap[i]? = some node →
      (∀ ref ∈ refs, ∃ obj, pDoc.GetOrParseIndirectObject ref = some obj ∧ obj.gen_num = 0) →
      node.child_count + (refs.toFinset.filter
        (fun r => (st.object_tree_map.lookup r).isSome = false)).card ≤ 1000000 →
      ∃ cs : List Nat,
        cs.length = (refs.toFinset.filter
          (fun r => (st.object_tree_map.lookup r).isSome = false)).card ∧
        (createChildren (some pDoc) D i refs st).heap[i]? = some (cs.foldl attachChild node) := by
  intro refs
  induction refs with
  | nil => intro st node hi _ _; exact ⟨[], by simp, by simpa [createChildren] using hi⟩
  | cons ref rest ih =>
    intro st node hi hvalid hbound
    have hvalid2 : ∀ r ∈ rest,
        ∃ obj, pDoc.GetOrParseIndirectObject r = some obj ∧ obj.gen_num = 0 :=
      fun r hr => hvalid r (List.mem_cons_of_mem _ hr)
    unfold createChildren
    by_cases hseen : (st.object_tree_map.lookup ref).isSome = true
    · rw [if_pos hseen]
      have hc : ((ref :: rest).toFinset.filter
          (fun r => (st.object_tree_map.lookup r).isSome = false)).card
          = (rest.toFinset.filter
            (fun r => (st.object_tree_map.lookup r).isSome = false)).card :=
        filter_seen_card (fun r => (st.object_tree_map.lookup r).isSome) ref rest hseen
      rw [hc] at hbound ⊢
      exact ih st node hi hvalid2 hbound
    · rw [if_neg hseen]
      have hnew : (st.object_tree_map.lookup ref).isSome = false := by
        simpa only [Bool.not_eq_true] using hseen
      have hc : ((ref :: rest).toFinset.filter
          (fun r => (st.object_tree_map.lookup r).isSome = false)).card
          = (rest.toFinset.filter (fun r =>
              (((ref, some st.heap.length) :: st.object_tree_map).lookup r).isSome
                = false)).card + 1 :=
        filter_fresh_card (fun r => (st.object_tree_map.lookup r).isSome)
        (fun r => (((ref, some st.heap.length) :: st.object_tree_map).lookup r).isSome)
        ref rest hnew (by
          intro r
          simp only [lookup_cons_nat]
          by_cases hr : r = ref
          · simp [hr]
          · simp [hr])
      rw [hc] at hbound ⊢
      obtain ⟨obj, hres, hgen⟩ := hvalid ref (List.mem_cons_self _ _)
      obtain ⟨hraw, hlen⟩ := rawContent_of_resolved hres hgen
      have hfull : ¬ node.child_count ≥ 1000000 := by omega
      simp only [hi, if_neg hfull, hraw, if_neg hlen, CreateTreeNode]
      have hi2 : (AddChildNode (st.heap ++ [newTreeNode ref 0
          (some (ObjectToPdfString (some obj.value) 0)) (node.depth + 1)]) i st.heap.length)[i]?
          = some (attachChild node st.heap.length) := by
        rw [addChild_get hi]; simp
      obtain ⟨cs, hcs, hheap⟩ := ih
        { heap := AddChildNode (st.heap ++ [newTreeNode ref 0
            (some (ObjectToPdfString (some obj.value) 0)) (node.depth + 1)]) i st.heap.length
          object_tree_map := (ref, some st.heap.length) :: st.object_tree_map
          analysis_queue :=
            if node.depth + 1 < D then st.analysis_queue ++ [(ref, some i)]
            else st.analysis_queue
          processed_count := st.processed_count }
        (attachChild node st.heap.length) hi2 hvalid2 (by
        simp only [attachChild]
        omega)
      exact ⟨st.heap.length :: cs, by simp [hcs], hheap⟩

theorem createChildren_frame (document : Option CPDF_Document) (D : Int) (i : Nat) :
    ∀ (refs : List Nat) (st : WalkState) (bound : Nat),
      bound ≤ st.heap.length → QueueFrom st bound →
      QueueFrom (createChildren document D i refs st) bound ∧
      st.heap.length ≤ (createChildren document D i refs st).heap.length ∧
      ∀ q, q ≠ i → q < st.heap.length →
        (createChildren document D i refs st).heap[q]? = st.heap[q]? := by
  intro refs
  induction refs with
  | nil => intro st bound _ hq; exact ⟨hq, le_refl _, fun _ _ _ => rfl⟩
  | cons ref rest ih =>
    intro st bound hb hq
    unfold createChildren
    by_cases hseen : (st.object_tree_map.lookup ref).isSome = true
    · rw [if_pos hseen]
      exact ih st bound hb hq
    · rw [if_neg hseen]
      cases hi : st.heap[i]? with
      | none => exact ⟨hq, le_refl _, fun _ _ _ => rfl⟩
      | some node =>
        simp only []
        by_cases hfull : node.child_count ≥ 1000000
        · rw [if_pos hfull]
          exact ⟨hq, le_refl _, fun _ _ _ => rfl⟩
        · rw [if_neg hfull]
          cases hc : PdfiumEx_GetRawObjectContent document ref 0 with
          | none => exact ih st bound hb hq
          | some content_str =>
            simp only []
            by_cases hempty : strlen content_str = 0
            · rw [if_pos hempty]
              exact ih st bound hb hq
            · rw [if_neg hempty]
              simp only [CreateTreeNode]
              have hlt : i < st.heap.length := (List.getElem?_eq_some.1 hi).1
              have hlen : (AddChildNode (st.heap ++ [newTreeNode ref 0 (some content_str)
                  (node.depth + 1)]) i st.heap.length).length = st.heap.length + 1 := by
                have h1 : (st.heap ++ [newTreeNode ref 0 (some content_str)
                    (node.depth + 1)])[i]? = some node := by
                  rw [List.getElem?_append_left hlt]; exact hi
                simp [AddChildNode, h1]
              have hnew : (st.object_tree_map.lookup ref).isSome = false := by
                simpa only [Bool.not_eq_true] using hseen
              obtain ⟨r1, r2, r3⟩ := ih
                { heap := AddChildNode (st.heap ++ [newTreeNode ref 0 (some content_str)
                    (node.depth + 1)]) i st.heap.length
                  object_tree_map := (ref, some st.heap.length) :: st.object_tree_map
                  analysis_queue :=
                    if node.depth + 1 < D then st.analysis_queue ++ [(ref, some i)]
                    else st.analysis_queue
                  processed_count := st.processed_count } bound
                (by simp only [hlen]; omega)
                (by
                  intro e he
                  simp only [lookup_cons_nat]
                  have hold : e ∈ st.analysis_queue → ∃ p,
                      (if e.1 = ref then some (some st.heap.length)
                        else st.object_tree_map.lookup e.1) = some (some p) ∧ bound ≤ p := by
                    intro h
                    obtain ⟨p, hp, hbp⟩ := hq e h
                    have hne : e.1 ≠ ref := by
                      intro heq
                      rw [← heq, hp] at hnew
                      cases hnew
                    exact ⟨p, by simp [hne, hp], hbp⟩
                  split_ifs at he
                  · rcases List.mem_append.1 he with h | h
                    · exact hold h
                    · rw [List.mem_singleton] at h
                      subst h
                      exact ⟨st.heap.length, by simp, hb⟩
                  · exact hold he)
              refine ⟨r1, ?_, ?_⟩
              · simp only [hlen] at r2; omega
              · intro q hqi hql
                rw [r3 q hqi (by simp only [hlen]; omega), addChild_get hi]
                have : q ≠ st.heap.length := by omega
                simp [hqi, this]

/-- The loop leaves alone every node allocated before all the nodes that are queued. -/
theorem walkLoop_frame (document : Option CPDF_Document) (pDoc : CPDF_Document) (D : Int) :
    ∀ (budget : Nat) (st : WalkState) (bound : Nat),
      bound ≤ st.heap.length → QueueFrom st bound →
      ∀ q, q < bound → (walkLoop document pDoc D budget st).heap[q]? = st.heap[q]? := by
  intro budget
  induction budget with
  | zero => intro st bound _ _ q _; rfl
  | succ b ih =>
    intro st bound hb hq q hqb
    unfold walkLoop
    cases hqueue : st.analysis_queue with
    | nil => rfl
    | cons current queue =>
      simp only []
      obtain ⟨p, hp, hbp⟩ := hq current (by rw [hqueue]; exact List.mem_cons_self _ _)
      have hfound : mapIndex st.object_tree_map current.1 = (some p, st.object_tree_map) := by
        simp only [mapIndex, hp]
      rw [hfound]
      have hq1 : QueueFrom
          { st with
            processed_count := st.processed_count + 1
            analysis_queue := queue
            object_tree_map := st.object_tree_map } bound :=
        fun e he => hq e (by rw [hqueue]; exact List.mem_cons_of_mem _ he)
      simp only []
      cases hn : st.heap[p]? with
      | none => exact ih { st with
            processed_count := st.processed_count + 1
            analysis_queue := queue
            object_tree_map := st.object_tree_map } bound hb hq1 q hqb
      | some node =>
        simp only []
        by_cases hdeep : node.depth ≥ D
        · rw [if_pos hdeep]
          exact ih { st with
            processed_count := st.processed_count + 1
            analysis_queue := queue
            object_tree_map := st.object_tree_map } bound hb hq1 q hqb
        · rw [if_neg hdeep]
          split
          · rename_i dict gen hres
            obtain ⟨r1, r2, r3⟩ := createChildren_frame document D p
              (collectRefs current.1 node.depth dict [])
              { st with
                processed_count := st.processed_count + 1
                analysis_queue := queue
                object_tree_map := st.object_tree_map } bound hb hq1
            rw [ih _ bound (le_trans hb r2) r1 q hqb]
            exact r3 q (by omega) (by simp only []; omega)
          · exact ih { st with
              processed_count := st.processed_count + 1
              analysis_queue := queue
              object_tree_map := st.object_tree_map } bound hb hq1 q hqb

/-! ## Growth of the child buffer of the root -/

theorem content_not_empty (obj : Option CPDF_Object) (depth : Int) :
    ¬ (ObjectToPdfString obj depth).isEmpty = true := by
  intro h
  have h1 := (String.isEmpty_iff _).1 h
  have h2 := ObjectToPdfString_length_pos obj depth
  rw [h1] at h2
  exact absurd h2 (by decide)

set_option maxRecDepth 100000 in
theorem capacityAfter_120 : capacityAfter 0 50 120 = 200 := by
  decide

/-- C7, amended: when the reference list that the walker collects from the root dictionary
(reference values, the first 100 elements of each array value, the reference values of each
nested dictionary) holds exactly 120 distinct object numbers, each resolving with generation
0, the root of the built tree has exactly 120 children and its child capacity has doubled
twice, to 200. -/
theorem C7_growth (pDoc : CPDF_Document) (pPage : CPDF_Page) (page_dict : CPDF_Dictionary)
    (hdict : pPage.GetDict = some page_dict) (hnum : page_dict.obj_num ≠ 0)
    (dict : List (String × CPDF_Object)) (gen : Nat)
    (hres : pDoc.GetOrParseIndirectObject page_dict.obj_num = some ⟨.kDictionary dict, gen⟩)
    (hcount : (collectRefs page_dict.obj_num 0 dict []).toFinset.card = 120)
    (hvalid : ∀ ref ∈ collectRefs page_dict.obj_num 0 dict [],
      ∃ obj, pDoc.GetOrParseIndirectObject ref = some obj ∧ obj.gen_num = 0)
    (max_depth : Int) :
    ∃ r t, PdfiumEx_BuildObjectTree (some pDoc) (some pPage) max_depth = some r ∧
      treeOf r = some t ∧ t.children.length = 120 ∧ t.fields.child_count = 120 ∧
      t.fields.max_children = 200 ∧ t.fields.max_children > 50 := by
  have hb := build_eq pDoc pPage page_dict hdict max_depth
  have hok : ¬ (page_dict.obj_num = 0 ∨
      (ObjectToPdfString (some (.kDictionary page_dict.entries)) 0).isEmpty = true) := by
    rintro (h | h)
    · exact hnum h
    · exact content_not_empty _ _ h
  rw [if_neg hok] at hb
  generalize hroot : newTreeNode page_dict.obj_num page_dict.gen_num
    (some (ObjectToPdfString (some (.kDictionary page_dict.entries)) 0)) 0 = root at hb
  obtain ⟨_, _, _, _, _, _, _, _, _, wf, _⟩ := build_result hb
  obtain ⟨t, ht, hf⟩ := build_tree hb
  have hD := (clampedDepth_range max_depth).1
  have hr1 : root.obj_num = page_dict.obj_num := by rw [← hroot]; rfl
  have hr2 : root.depth = 0 := by rw [← hroot]; rfl
  have hr3 : root.child_count = 0 := by rw [← hroot]; rfl
  have hr4 : root.max_children = 50 := by rw [← hroot]; rfl
  have h0 : ([root] : Heap)[0]? = some root := rfl
  have hfresh : (collectRefs page_dict.obj_num 0 dict []).toFinset.filter
      (fun r => (List.lookup r [(root.obj_num, some 0)]).isSome = false)
      = (collectRefs page_dict.obj_num 0 dict []).toFinset := by
    apply Finset.filter_true_of_mem
    intro r hr
    have hne : r ≠ root.obj_num := by
      rw [hr1]
      rcases collectRefs_mem _ _ _ _ _ (List.mem_toFinset.1 hr) with h | h
      · cases h
      · exact h.2
    simp [lookup_cons_nat, hne]
  obtain ⟨cs, hcs, hheap⟩ := createChildren_attach pDoc (clampedDepth max_depth) 0
    (collectRefs page_dict.obj_num 0 dict [])
    { heap := [root]
      analysis_queue := []
      object_tree_map := [(root.obj_num, some 0)]
      processed_count := 0 + 1 } root h0 hvalid (by
      simp only [hfresh, hcount, hr3]
      norm_num)
  simp only [hfresh, hcount] at hcs
  obtain ⟨q1, q2, _⟩ := createChildren_frame (some pDoc) (clampedDepth max_depth) 0
    (collectRefs page_dict.obj_num 0 dict [])
    { heap := [root]
      analysis_queue := []
      object_tree_map := [(root.obj_num, some 0)]
      processed_count := 0 + 1 } 1 (le_refl _) (fun e he => by cases he)
  have hfinal : (BuildObjectTreeWithQueue (some pDoc) [root] (some 0)
      (clampedDepth max_depth))[0]? = some (cs.foldl attachChild root) := by
    simp only [BuildObjectTreeWithQueue, BuildObjectTreeWithQueue.run, h0]
    rw [walkLoop_expand (some pDoc) pDoc _ 999999 _ (root.obj_num, none) [] 0 root dict gen
      rfl (by simp [lookup_cons_nat]) h0 (by rw [hr2]; omega) (by rw [hr1]; exact hres)]
    simp only [hr1, hr2]
    rw [walkLoop_frame (some pDoc) pDoc _ 999999 _ 1 (by simpa [hr1] using q2)
      (by simpa [hr1] using q1) 0 (by norm_num)]
    simpa [hr1] using hheap
  have htf : t.fields = cs.foldl attachChild root := by
    rw [hfinal] at hf
    exact (Option.some.inj hf).symm
  obtain ⟨f1, _, f3, _, _⟩ := foldl_attachChild cs root
  have hlen := (tree_depths_of_wf wf ht t (self_mem_subtrees t)).2.2.1
  have hcap := capacityAfter_120
  refine ⟨_, t, hb, ht, ?_, ?_, ?_, ?_⟩
  · rw [hlen, htf, f1, hr3, hcs]
  · rw [htf, f1, hr3, hcs]
  · rw [htf, f3, hr3, hr4, hcs, hcap]
  · rw [htf, f3, hr3, hr4, hcs, hcap]
    norm_num

set_option maxRecDepth 100000 in
/-- Instance of the amended C7: a root dictionary with 120 reference values, to the objects 2
to 121. -/
theorem C7_growth_witness :
    ∃ r t, PdfiumEx_BuildObjectTree (some wideDoc) (some widePage) 3 = some r ∧
      treeOf r = some t ∧ t.children.length = 120 ∧ t.fields.child_count = 120 ∧
      t.fields.max_children = 200 ∧ t.fields.max_children > 50 :=
  C7_growth wideDoc widePage { entries := wideEntries, obj_num := 1, gen_num := 0 } rfl
    (by decide) wideEntries 0 rfl (by decide) (by decide) 3

set_option maxRecDepth 100000 in
/-- C7 as stated fails: the root dictionary of `annotsDoc` references 120 distinct objects,
all in one array, each resolving with generation 0 and none being the root, and the root of
the built tree has 100 children, the array being scanned up to index 99 only. -/
theorem C7_counterexample :
    (referencedObjects annotsEntries).Nodup ∧ (referencedObjects annotsEntries).length = 120 ∧
    (∀ n ∈ referencedObjects annotsEntries, n ≠ 1 ∧
      (annotsDoc.GetOrParseIndirectObject n).map (fun obj => obj.gen_num) = some 0) ∧
    ∃ r t, PdfiumEx_BuildObjectTree (some annotsDoc) (some annotsPage) 1000000 = some r ∧
      treeOf r = some t ∧ t.fields.child_count = 100 ∧ t.children.length = 100 ∧
      t.fields.max_children = 100 := by
  refine ⟨by decide, by decide, by decide, _, _, rfl, rfl, rfl, rfl, rfl⟩

/-! ## The end-to-end scenario -/

/-- One turn of the loop that creates children, on a reference that is not in the map and
resolves with generation 0. -/
theorem createChildren_new (pDoc : CPDF_Document) (D : Int) (i ref : Nat) (rest : List Nat)
    (st : WalkState) (node : PDFIUM_EX_OBJECT_TREE_NODE) (obj : IndirectObject)
    (hnew : st.object_tree_map.lookup ref = none) (hi : st.heap[i]? = some node)
    (hroom : node.child_count < 1000000)
    (hres : pDoc.GetOrParseIndirectObject ref = some obj) (hgen : obj.gen_num = 0) :
    createChildren (some pDoc) D i (ref :: rest) st =
      createChildren (some pDoc) D i rest
        { heap := AddChildNode (st.heap ++ [newTreeNode ref 0
            (some (ObjectToPdfString (some obj.value) 0)) (node.depth + 1)]) i st.heap.length
          object_tree_map := (ref, some st.heap.length) :: st.object_tree_map
          analysis_queue :=
            if node.depth + 1 < D then st.analysis_queue ++ [(ref, some i)]
            else st.analysis_queue
          processed_count := st.processed_count } := by
  obtain ⟨hraw, hlen⟩ := rawContent_of_resolved hres hgen
  have hfull : ¬ node.child_count ≥ 1000000 := by omega
  rw [createChildren]
  simp only [hnew, Option.isSome_none, Bool.false_eq_true, if_false, hi, if_neg hfull, hraw,
    if_neg hlen, CreateTreeNode]

/-- C4: for a document whose page root is object 5, a dictionary from which the references 6
and 7 are collected in this order, object 6 being a dictionary from which the reference 8 is
collected, object 7 not a dictionary, object 8 resolving, all with generation 0,
`PdfiumEx_BuildObjectTree` with `max_depth = 2` returns the root 5 at depth 0 with the
children 6 and 7 at depth 1, node 6 having the single child 8 at depth 2 and the nodes 7 and
8 no child: 4 nodes in all. -/
theorem C4_end_to_end (pDoc : CPDF_Document) (pPage : CPDF_Page) (page_dict : CPDF_Dictionary)
    (d5 d6 : List (String × CPDF_Object)) (o7 o8 : CPDF_Object)
    (hdict : pPage.GetDict = some page_dict) (hnum : page_dict.obj_num = 5)
    (hres5 : pDoc.GetOrParseIndirectObject 5 = some ⟨.kDictionary d5, 0⟩)
    (hrefs5 : collectRefs 5 0 d5 [] = [6, 7])
    (hres6 : pDoc.GetOrParseIndirectObject 6 = some ⟨.kDictionary d6, 0⟩)
    (hrefs6 : collectRefs 6 1 d6 [] = [8])
    (hres7 : pDoc.GetOrParseIndirectObject 7 = some ⟨o7, 0⟩)
    (hscalar : ∀ dict, o7 ≠ .kDictionary dict)
    (hres8 : pDoc.GetOrParseIndirectObject 8 = some ⟨o8, 0⟩) :
    ∃ r t, PdfiumEx_BuildObjectTree (some pDoc) (some pPage) 2 = some r ∧
      treeOf r = some t ∧
      t = .node
        { newTreeNode 5 page_dict.gen_num
            (some (ObjectToPdfString (some (.kDictionary page_dict.entries)) 0)) 0 with
          children := [1, 2], child_count := 2 }
        [.node
          { newTreeNode 6 0 (some (ObjectToPdfString (some (.kDictionary d6)) 0)) 1 with
            children := [3], child_count := 1 }
          [.node (newTreeNode 8 0 (some (ObjectToPdfString (some o8) 0)) 2) []],
         .node (newTreeNode 7 0 (some (ObjectToPdfString (some o7) 0)) 1) []] ∧
      t.objNums = [5, 6, 8, 7] ∧
      t.subtrees.map (fun s => s.fields.depth) = [0, 1, 2, 1] ∧
      t.subtrees.map (fun s => s.children.length) = [2, 1, 0, 0] ∧
      t.subtrees.length = 4 := by
  have hb := build_eq pDoc pPage page_dict hdict 2
  have hok : ¬ (page_dict.obj_num = 0 ∨
      (ObjectToPdfString (some (.kDictionary page_dict.entries)) 0).isEmpty = true) := by
    rintro (h | h)
    · omega
    · exact content_not_empty _ _ h
  have hD : clampedDepth 2 = 2 := by decide
  rw [if_neg hok, hD, hnum] at hb
  have hwalk : BuildObjectTreeWithQueue (some pDoc)
      [newTreeNode 5 page_dict.gen_num
        (some (ObjectToPdfString (some (.kDictionary page_dict.entries)) 0)) 0] (some 0) 2 =
      [{ newTreeNode 5 page_dict.gen_num
          (some (ObjectToPdfString (some (.kDictionary page_dict.entries)) 0)) 0 with
         children := [1, 2], child_count := 2 },
       { newTreeNode 6 0 (some (ObjectToPdfString (some (.kDictionary d6)) 0)) 1 with
         children := [3], child_count := 1 },
       newTreeNode 7 0 (some (ObjectToPdfString (some o7) 0)) 1,
       newTreeNode 8 0 (some (ObjectToPdfString (some o8) 0)) 2] := by
    simp only [BuildObjectTreeWithQueue, BuildObjectTreeWithQueue.run, List.getElem?_cons_zero]
    rw [walkLoop_expand (some pDoc) pDoc 2 999999 _ (5, none) [] 0 ?node1 d5 0
      ?hq1 ?hmap1 ?hnode1 ?hdepth1 hres5]
    case hq1 => rfl
    case hmap1 => rfl
    case hnode1 => exact rfl
    case hdepth1 => norm_num [newTreeNode]
    simp only [newTreeNode, List.getElem_cons_zero, hrefs5]
    rw [createChildren_new pDoc 2 0 6 [7] _ ?node2 ⟨.kDictionary d6, 0⟩
      ?hnew2 ?hi2 ?hroom2 hres6 rfl]
    case hnew2 => rfl
    case hi2 => exact rfl
    case hroom2 => norm_num [newTreeNode]
    norm_num [AddChildNode, attachChild, newTreeNode]
    rw [createChildren_new pDoc 2 0 7 [] _ ?node3 ⟨o7, 0⟩ ?hnew3 ?hi3 ?hroom3 hres7 rfl]
    case hnew3 => rfl
    case hi3 => exact rfl
    case hroom3 => norm_num [newTreeNode]
    norm_num [AddChildNode, attachChild, newTreeNode, createChildren]
    rw [walkLoop_expand (some pDoc) pDoc 2 999998 _ (6, some 0) [(7, some 0)] 1 ?node4 d6 0
      ?hq4 ?hmap4 ?hnode4 ?hdepth4 hres6]
    case hq4 => rfl
    case hmap4 => rfl
    case hnode4 => exact rfl
    case hdepth4 => norm_num [newTreeNode]
    simp only [List.getElem_cons_succ, List.getElem_cons_zero, hrefs6]
    rw [createChildren_new pDoc 2 1 8 [] _ ?node5 ⟨o8, 0⟩ ?hnew5 ?hi5 ?hroom5 hres8 rfl]
    case hnew5 => rfl
    case hi5 => exact rfl
    case hroom5 => norm_num [newTreeNode]
    norm_num [AddChildNode, attachChild, newTreeNode, createChildren]
    rw [walkLoop_leaf (some pDoc) pDoc 2 999997 _ (7, some 0) [] 2 ?node6 ?hq6 ?hmap6 ?hnode6 ?hleaf6]
    case hq6 => rfl
    case hmap6 => rfl
    case hnode6 => exact rfl
    case hleaf6 =>
      right
      intro dict gen h
      rw [hres7] at h
      exact hscalar dict (by injection h with h1; injection h1)
    rw [walkLoop_nil _ _ _ _ _ rfl]
  rw [hwalk] at hb
  refine ⟨_, _, hb, ?_, rfl, rfl, rfl, rfl, rfl⟩
  simp [treeOf, readTree, allSome]

/-- Instance of C4: the document `scenarioDoc`, in which object 8 references a further
object that is not reached at `max_depth = 2`. -/
theorem C4_end_to_end_witness :
    ∃ r t, PdfiumEx_BuildObjectTree (some scenarioDoc) (some scenarioPage) 2 = some r ∧
      treeOf r = some t ∧
      t = .node
        { newTreeNode 5 0 (some "<< /Contents 6 0 R /Rotate 7 0 R >>") 0 with
          children := [1, 2], child_count := 2 }
        [.node
          { newTreeNode 6 0 (some "<< /Next 8 0 R >>") 1 with
            children := [3], child_count := 1 }
          [.node (newTreeNode 8 0 (some "<< /Deeper 9 0 R >>") 2) []],
         .node (newTreeNode 7 0 (some "42") 1) []] ∧
      t.objNums = [5, 6, 8, 7] ∧
      t.subtrees.map (fun s => s.fields.depth) = [0, 1, 2, 1] ∧
      t.subtrees.map (fun s => s.children.length) = [2, 1, 0, 0] ∧
      t.subtrees.length = 4 :=
  C4_end_to_end scenarioDoc scenarioPage
    { entries := [("Contents", .kReference 6), ("Rotate", .kReference 7)]
      obj_num := 5
      gen_num := 0 }
    [("Contents", .kReference 6), ("Rotate", .kReference 7)] [("Next", .kReference 8)]
    (.kNumber ⟨42, 0⟩) (.kDictionary [("Deeper", .kReference 9)])
    rfl rfl rfl rfl rfl rfl rfl (fun dict h => by cases h) rfl

/-! ## Null, unknown and reference objects; the raw content of an object -/

/-- C11, amended: at any depth up to 10 the serializer renders an absent object and a null
object as "null" and a reference as its target object number followed by " 0 R", the
generation of the target playing no part; an object of unknown kind is rendered as
"unknown". -/
theorem C11_null_unknown_reference (depth : Int) (hdepth : depth ≤ 10) :
    ObjectToPdfString none depth = "null" ∧
    ObjectToPdfString (some .kNullobj) depth = "null" ∧
    ObjectToPdfString (some .kOther) depth = "unknown" ∧
    ∀ n : Nat, ObjectToPdfString (some (.kReference n)) depth = toString n ++ " 0 R" := by
  have hd : ¬ depth > 10 := by omega
  refine ⟨rfl, ?_, ?_, ?_⟩
  · simp only [ObjectToPdfString, ObjectToPdfString.obj, hd, if_false]
  · simp only [ObjectToPdfString, ObjectToPdfString.obj, hd, if_false]
  · intro n
    simp only [ObjectToPdfString, ObjectToPdfString.obj, hd, if_false]

/-- Instance of the amended C11, at depth 3; the reference to object 12 is rendered as
"12 0 R". -/
theorem C11_null_unknown_reference_witness :
    ObjectToPdfString none 3 = "null" ∧
    ObjectToPdfString (some .kNullobj) 3 = "null" ∧
    ObjectToPdfString (some .kOther) 3 = "unknown" ∧
    ∀ n : Nat, ObjectToPdfString (some (.kReference n)) 3 = toString n ++ " 0 R" :=
  C11_null_unknown_reference 3 (by decide)

/-- C11 as stated fails: at depth 0 an object of unknown kind is rendered as "unknown", which
is not the null literal. -/
theorem C11_counterexample :
    (0 : Int) ≤ 10 ∧ ObjectToPdfString (some .kOther) 0 = "unknown" ∧
    ObjectToPdfString (some .kOther) 0 ≠ "null" := by
  refine ⟨by decide, by decide, by decide⟩

/-- C12: `PdfiumEx_GetRawObjectContent(document, n, g)` returns null exactly when the document
is null, object `n` does not resolve, or the resolved object has a generation number other
than `g`; in every other case it returns exactly the serialization of object `n` at depth
0. -/
theorem C12_raw_object_content (document : Option CPDF_Document) (n g : Nat) :
    (PdfiumEx_GetRawObjectContent document n g = none ↔
      (document = none ∨
        ∃ pDoc, document = some pDoc ∧
          (pDoc.GetOrParseIndirectObject n = none ∨
            ∃ obj, pDoc.GetOrParseIndirectObject n = some obj ∧ obj.gen_num ≠ g))) ∧
    (∀ pDoc obj, document = some pDoc → pDoc.GetOrParseIndirectObject n = some obj →
      obj.gen_num = g →
      PdfiumEx_GetRawObjectContent document n g
        = some (ObjectToPdfString (some obj.value) 0)) := by
  constructor
  · cases document with
    | none => simp [PdfiumEx_GetRawObjectContent]
    | some pDoc =>
      cases hres : pDoc.GetOrParseIndirectObject n with
      | none => simp [PdfiumEx_GetRawObjectContent, hres]
      | some obj =>
        by_cases hg : obj.gen_num = g
        · simp [PdfiumEx_GetRawObjectContent, hres, hg]
        · simp [PdfiumEx_GetRawObjectContent, hres, hg]
  · intro pDoc obj hdoc hres hg
    subst hdoc
    simp only [PdfiumEx_GetRawObjectContent, hres, hg, c_str_ObjectToPdfString]
    simp

/-- Instance of C12: object 7 of `staleRefDoc`, a dictionary of generation 2, asked for with
generation 2. -/
theorem C12_raw_object_content_witness :
    PdfiumEx_GetRawObjectContent (some staleRefDoc) 7 2
      = some (ObjectToPdfString (some (.kDictionary [("C", .kReference 5)])) 0) :=
  (C12_raw_object_content (some staleRefDoc) 7 2).2 staleRefDoc
    ⟨.kDictionary [("C", .kReference 5)], 2⟩ rfl rfl rfl

/-! ## The scan of an array value and of a nested dictionary -/

theorem refTargets_cons_ref (n : Nat) (rest : List CPDF_Object) :
    refTargets (.kReference n :: rest) = n :: refTargets rest := by
  simp [refTargets]

theorem refTargets_cons_other (e : CPDF_Object) (rest : List CPDF_Object)
    (h : ∀ n, e ≠ .kReference n) : refTargets (e :: rest) = refTargets rest := by
  cases e <;> simp [refTargets] at h ⊢

theorem refTargets_append (l1 l2 : List CPDF_Object) :
    refTargets (l1 ++ l2) = refTargets l1 ++ refTargets l2 := by
  simp [refTargets]

/-- The array loop from index `i` on appends the valid targets of the reference elements among
the next `100 - i` elements. -/
theorem scanArray_eq (current : Nat) : ∀ (elems : List CPDF_Object) (i : Nat) (acc : List Nat),
    scanArray current elems i acc
      = acc ++ (refTargets (elems.take (100 - i))).filter
          (fun r => decide (r > 0 ∧ r ≠ current))
  | [], i, acc => by simp [scanArray, refTargets]
  | e :: rest, i, acc => by
      by_cases hi : i < 100
      · have h100 : 100 - i = (100 - (i + 1)) + 1 := by omega
        rw [h100, List.take_succ_cons]
        cases e with
        | kReference n =>
            rw [refTargets_cons_ref]
            simp only [scanArray, hi, if_true]
            rw [scanArray_eq current rest (i + 1)]
            by_cases hv : n > 0 ∧ n ≠ current
            · simp [pushRef, hv, List.filter_cons]
            · simp [pushRef, hv, List.filter_cons]
        | kBoolean b =>
            rw [refTargets_cons_other _ _ (by intro n; simp)]
            simp only [scanArray, hi, if_true]
            exact scanArray_eq current rest (i + 1) acc
        | kNumber b =>
            rw [refTargets_cons_other _ _ (by intro n; simp)]
            simp only [scanArray, hi, if_true]
            exact scanArray_eq current rest (i + 1) acc
        | kString b =>
            rw [refTargets_cons_other _ _ (by intro n; simp)]
            simp only [scanArray, hi, if_true]
            exact scanArray_eq current rest (i + 1) acc
        | kName b =>
            rw [refTargets_cons_other _ _ (by intro n; simp)]
            simp only [scanArray, hi, if_true]
            exact scanArray_eq current rest (i + 1) acc
        | kArray b =>
            rw [refTargets_cons_other _ _ (by intro n; simp)]
            simp only [scanArray, hi, if_true]
            exact scanArray_eq current rest (i + 1) acc
        | kDictionary b =>
            rw [refTargets_cons_other _ _ (by intro n; simp)]
            simp only [scanArray, hi, if_true]
            exact scanArray_eq current rest (i + 1) acc
        | kStream b =>
            rw [refTargets_cons_other _ _ (by intro n; simp)]
            simp only [scanArray, hi, if_true]
            exact scanArray_eq current rest (i + 1) acc
        | kNullobj =>
            rw [refTargets_cons_other _ _ (by intro n; simp)]
            simp only [scanArray, hi, if_true]
            exact scanArray_eq current rest (i + 1) acc
        | kOther =>
            rw [refTargets_cons_other _ _ (by intro n; simp)]
            simp only [scanArray, hi, if_true]
            exact scanArray_eq current rest (i + 1) acc
      · have h0 : 100 - i = 0 := by omega
        simp [scanArray, hi, h0, refTargets]

/-- The nested-dictionary loop appends the valid targets of the reference values, as far as
the list stays within 1000000 numbers. -/
theorem scanSubDict_eq (current : Nat) :
    ∀ (sub_dict : List (String × CPDF_Object)) (acc : List Nat),
    scanSubDict current sub_dict acc
      = acc ++ ((refTargets (sub_dict.map (fun sub => sub.2))).filter
          (fun r => decide (r > 0 ∧ r ≠ current))).take (1000000 - acc.length)
  | [], acc => by simp [scanSubDict, refTargets]
  | (key, e) :: rest, acc => by
      by_cases hfull : acc.length ≥ 1000000
      · have h0 : 1000000 - acc.length = 0 := by omega
        simp [scanSubDict, hfull, h0]
      · have hroom : 1000000 - acc.length = (1000000 - (acc.length + 1)) + 1 := by omega
        rw [List.map_cons]
        cases e with
        | kReference n =>
            rw [refTargets_cons_ref]
            simp only [scanSubDict, hfull, if_false]
            rw [scanSubDict_eq current rest]
            by_cases hv : n > 0 ∧ n ≠ current
            · have hp : pushRef current n acc = acc ++ [n] := by simp [pushRef, hv]
              rw [hp, List.filter_cons_of_pos (by simpa using hv), hroom, List.take_succ_cons]
              simp
            · have hp : pushRef current n acc = acc := by simp [pushRef, hv]
              rw [hp, List.filter_cons_of_neg (by simpa using hv)]
        | kBoolean b =>
            rw [refTargets_cons_other _ _ (by intro n; simp)]
            simp only [scanSubDict, hfull, if_false]
            exact scanSubDict_eq current rest acc
        | kNumber b =>
            rw [refTargets_cons_other _ _ (by intro n; simp)]
            simp only [scanSubDict, hfull, if_false]
            exact scanSubDict_eq current rest acc
        | kString b =>
            rw [refTargets_cons_other _ _ (by intro n; simp)]
            simp only [scanSubDict, hfull, if_false]
            exact scanSubDict_eq current rest acc
        | kName b =>
            rw [refTargets_cons_other _ _ (by intro n; simp)]
            simp only [scanSubDict, hfull, if_false]
            exact scanSubDict_eq current rest acc
        | kArray b =>
            rw [refTargets_cons_other _ _ (by intro n; simp)]
            simp only [scanSubDict, hfull, if_false]
            exact scanSubDict_eq current rest acc
        | kDictionary b =>
            rw [refTargets_cons_other _ _ (by intro n; simp)]
            simp only [scanSubDict, hfull, if_false]
            exact scanSubDict_eq current rest acc
        | kStream b =>
            rw [refTargets_cons_other _ _ (by intro n; simp)]
            simp only [scanSubDict, hfull, if_false]
            exact scanSubDict_eq current rest acc
        | kNullobj =>
            rw [refTargets_cons_other _ _ (by intro n; simp)]
            simp only [scanSubDict, hfull, if_false]
            exact scanSubDict_eq current rest acc
        | kOther =>
            rw [refTargets_cons_other _ _ (by intro n; simp)]
            simp only [scanSubDict, hfull, if_false]
            exact scanSubDict_eq current rest acc

theorem collectRefs_append (current : Nat) (depth : Int) :
    ∀ (l1 l2 : List (String × CPDF_Object)) (acc : List Nat),
    collectRefs current depth (l1 ++ l2) acc
      = collectRefs current depth l2 (collectRefs current depth l1 acc)
  | [], l2, acc => by simp [collectRefs]
  | (key, e) :: rest, l2, acc => by
      rw [List.cons_append]
      cases e with
      | kDictionary sub =>
          by_cases hd : depth < 1000000
          · simp only [collectRefs, hd, if_true]
            exact collectRefs_append current depth rest l2 _
          · simp only [collectRefs, hd, if_false]
            exact collectRefs_append current depth rest l2 _
      | kReference n =>
          simp only [collectRefs]
          exact collectRefs_append current depth rest l2 _
      | kArray elems =>
          simp only [collectRefs]
          exact collectRefs_append current depth rest l2 _
      | kBoolean b =>
          simp only [collectRefs]
          exact collectRefs_append current depth rest l2 _
      | kNumber b =>
          simp only [collectRefs]
          exact collectRefs_append current depth rest l2 _
      | kString b =>
          simp only [collectRefs]
          exact collectRefs_append current depth rest l2 _
      | kName b =>
          simp only [collectRefs]
          exact collectRefs_append current depth rest l2 _
      | kStream b =>
          simp only [collectRefs]
          exact collectRefs_append current depth rest l2 _
      | kNullobj =>
          simp only [collectRefs]
          exact collectRefs_append current depth rest l2 _
      | kOther =>
          simp only [collectRefs]
          exact collectRefs_append current depth rest l2 _

theorem refTargets_replicate (n r : Nat) :
    refTargets (List.replicate n (.kReference r)) = List.replicate n r := by
  induction n with
  | zero => simp [refTargets]
  | succ n ih => rw [List.replicate_succ, refTargets_cons_ref, ih, List.replicate_succ]

/-- A run of array values, each of 100 references to one object `r`, contributes 100 copies
of `r` for each array. -/
theorem collectRefs_arrays (current : Nat) (depth : Int) (r : Nat) (hr : r > 0 ∧ r ≠ current)
    (key : Nat → String) :
    ∀ (idx : List Nat) (acc : List Nat),
    collectRefs current depth
        (idx.map (fun i => (key i, CPDF_Object.kArray (List.replicate 100 (.kReference r))))) acc
      = acc ++ List.replicate (100 * idx.length) r
  | [], acc => by simp [collectRefs]
  | i :: idx, acc => by
      rw [List.map_cons]
      simp only [collectRefs]
      rw [collectRefs_arrays current depth r hr key idx, scanArray_eq]
      have htake : (List.replicate 100 (CPDF_Object.kReference r)).take (100 - 0)
          = List.replicate 100 (.kReference r) := by
        apply List.take_of_length_le
        rw [List.length_replicate]
      rw [htake, refTargets_replicate]
      have hfilter : (List.replicate 100 r).filter (fun x => decide (x > 0 ∧ x ≠ current))
          = List.replicate 100 r := by
        apply List.filter_eq_self.2
        intro a ha
        rw [List.eq_of_mem_replicate ha]
        simpa using hr
      rw [hfilter, List.append_assoc, ← List.replicate_add]
      congr 2
      rw [List.length_cons]
      omega

/-- C17: the scan of an array value emits, in index order, the target of every reference
element of index below 100 whose target is non-zero and is not the scanned object, and emits
nothing for the elements of index 100 and above, however long the array is; this is what an
array-valued entry contributes to the reference list of a dictionary. -/
theorem C17_array_scan (current : Nat) (elems : List CPDF_Object) (ref_obj_nums : List Nat) :
    scanArray current elems 0 ref_obj_nums
      = ref_obj_nums ++ (refTargets (elems.take 100)).filter
          (fun r => decide (r > 0 ∧ r ≠ current)) ∧
    scanArray current elems 0 ref_obj_nums
      = scanArray current (elems.take 100) 0 ref_obj_nums ∧
    ∀ (depth : Int) (key : String) (rest : List (String × CPDF_Object)),
      collectRefs current depth ((key, .kArray elems) :: rest) ref_obj_nums
        = collectRefs current depth rest
            (ref_obj_nums ++ (refTargets (elems.take 100)).filter
              (fun r => decide (r > 0 ∧ r ≠ current))) := by
  refine ⟨scanArray_eq current elems 0 ref_obj_nums, ?_, ?_⟩
  · rw [scanArray_eq, scanArray_eq]
    simp [List.take_take]
  · intro depth key rest
    simp only [collectRefs]
    rw [scanArray_eq]

/-- C18, amended: the scan of a dictionary-valued entry emits, in enumeration order, the
targets of the nested dictionary's own reference values that are non-zero and are not the
scanned object, as long as the reference list holds fewer than 1000000 numbers: the scan stops
once the list holds 1000000 numbers.  Only the nested dictionary's own values count, so
references inside its arrays or inside dictionaries nested one level further are never
emitted. -/
theorem C18_nested_dictionary_scan (current : Nat) (depth : Int) (hdepth : depth < 1000000)
    (key : String) (sub_dict rest : List (String × CPDF_Object)) (ref_obj_nums : List Nat) :
    scanSubDict current sub_dict ref_obj_nums
      = ref_obj_nums ++ ((refTargets (sub_dict.map (fun sub => sub.2))).filter
          (fun r => decide (r > 0 ∧ r ≠ current))).take (1000000 - ref_obj_nums.length) ∧
    collectRefs current depth ((key, .kDictionary sub_dict) :: rest) ref_obj_nums
      = collectRefs current depth rest
          (ref_obj_nums ++ ((refTargets (sub_dict.map (fun sub => sub.2))).filter
            (fun r => decide (r > 0 ∧ r ≠ current))).take (1000000 - ref_obj_nums.length)) := by
  refine ⟨scanSubDict_eq current sub_dict ref_obj_nums, ?_⟩
  simp only [collectRefs, hdepth, if_true]
  rw [scanSubDict_eq]

/-- Instance of the amended C18: object 1 at depth 0 holds a nested dictionary with the
references 4, 1 (the object itself), 0 and 6, an array holding a reference to 9 and a
dictionary holding a reference to 8; the entry contributes 4 and 6. -/
theorem C18_nested_dictionary_scan_witness :
    (0 : Int) < 1000000 ∧
    collectRefs 1 0 [("Resources", .kDictionary [("F", .kReference 4),
        ("G", .kArray [.kReference 9]), ("H", .kDictionary [("I", .kReference 8)]),
        ("J", .kReference 1), ("K", .kReference 0), ("L", .kReference 6)])] [3]
      = [3, 4, 6] :=
  ⟨by decide,
    (C18_nested_dictionary_scan 1 0 (by decide) "Resources" [("F", .kReference 4),
        ("G", .kArray [.kReference 9]), ("H", .kDictionary [("I", .kReference 8)]),
        ("J", .kReference 1), ("K", .kReference 0), ("L", .kReference 6)] [] [3]).2.trans
      (by decide)⟩

/-- C18 as stated fails: in the dictionary `cappedEntries` of object 1 the nested dictionary
has the reference to object 5 as its own value, and the scan of the entries emits 1000000
times the number 7 and never the number 5. -/
theorem C18_counterexample :
    collectRefs 1 0 cappedEntries [] = List.replicate 1000000 7 ∧
    5 ∉ collectRefs 1 0 cappedEntries [] := by
  have h : collectRefs 1 0 cappedEntries [] = List.replicate 1000000 7 := by
    unfold cappedEntries
    rw [collectRefs_append,
      collectRefs_arrays 1 0 7 (by decide) (fun i => "A" ++ toString (i + 10000))]
    rw [List.length_range, List.nil_append]
    have hmul : 100 * 10000 = 1000000 := by norm_num
    rw [hmul]
    have hlen : (List.replicate 1000000 7).length ≥ 1000000 := by
      rw [List.length_replicate]
    have hdepth : (0 : Int) < 1000000 := by decide
    simp only [collectRefs]
    rw [if_pos hdepth]
    simp only [scanSubDict]
    rw [if_pos hlen]
  refine ⟨h, ?_⟩
  rw [h]
  intro hmem
  have := List.eq_of_mem_replicate hmem
  omega

/-! ## Properties that every step of the walk keeps -/

/-- A property of the variables of the walk that is kept when a child is created under node
`i`, of object number `k`, for a reference taken from `full`, is kept by the whole loop over
the references. -/
theorem createChildren_stable (document : Option CPDF_Document) (D : Int) (i : Nat)
    (P : WalkState → Prop) (k : Nat) (full : List Nat)
    (hadd : ∀ (st : WalkState) (node : PDFIUM_EX_OBJECT_TREE_NODE) (ref : Nat)
      (content_str : String), WalkInv st D → P st → st.heap[i]? = some node →
      node.obj_num = k → node.depth < D →
      (st.object_tree_map.lookup ref).isSome = false → node.child_count < 1000000 →
      PdfiumEx_GetRawObjectContent document ref 0 = some content_str →
      strlen content_str ≠ 0 → ref ∈ full →
      P { heap := AddChildNode
            (st.heap ++ [newTreeNode ref 0 (some content_str) (node.depth + 1)]) i
            st.heap.length
          analysis_queue :=
            if node.depth + 1 < D then st.analysis_queue ++ [(ref, some i)]
            else st.analysis_queue
          object_tree_map := (ref, some st.heap.length) :: st.object_tree_map
          processed_count := st.processed_count }) :
    ∀ (refs : List Nat) (st : WalkState), (∀ r ∈ refs, r ∈ full) → WalkInv st D → P st →
      (∀ node, st.heap[i]? = some node → node.depth < D ∧ node.obj_num = k) →
      P (createChildren document D i refs st) := by
  intro refs
  induction refs with
  | nil => intro st _ _ hP _; exact hP
  | cons ref rest ih =>
    intro st hsub inv hP hnode
    have hsub2 : ∀ r ∈ rest, r ∈ full := fun r hr => hsub r (List.mem_cons_of_mem _ hr)
    unfold createChildren
    by_cases hseen : (st.object_tree_map.lookup ref).isSome = true
    · rw [if_pos hseen]
      exact ih st hsub2 inv hP hnode
    · rw [if_neg hseen]
      cases hi : st.heap[i]? with
      | none => exact hP
      | some node =>
        simp only []
        by_cases hfull : node.child_count ≥ 1000000
        · rw [if_pos hfull]
          exact hP
        · rw [if_neg hfull]
          cases hc : PdfiumEx_GetRawObjectContent document ref 0 with
          | none => exact ih st hsub2 inv hP hnode
          | some content_str =>
            simp only []
            by_cases hempty : strlen content_str = 0
            · rw [if_pos hempty]
              exact ih st hsub2 inv hP hnode
            · rw [if_neg hempty]
              obtain ⟨hd, hk⟩ := hnode node hi
              have hnew : (st.object_tree_map.lookup ref).isSome = false := by
                simpa only [Bool.not_eq_true] using hseen
              have inv2 := addChild_inv inv hi hd hnew (some content_str)
                (if node.depth + 1 < D then st.analysis_queue ++ [(ref, some i)]
                  else st.analysis_queue)
                (by
                  intro e he
                  split_ifs at he
                  · rcases List.mem_append.1 he with h | h
                    · exact Or.inl h
                    · rw [List.mem_singleton] at h
                      subst h
                      exact Or.inr rfl
                  · exact Or.inl he) st.processed_count
              have hP2 := hadd st node ref content_str inv hP hi hk hd hnew (by omega) hc
                hempty (hsub ref (List.mem_cons_self _ _))
              have hnode2 : ∀ node2,
                  (AddChildNode (CreateTreeNode st.heap ref 0 (some content_str)
                    (node.depth + 1)).2 i (CreateTreeNode st.heap ref 0 (some content_str)
                    (node.depth + 1)).1)[i]? = some node2 →
                  node2.depth < D ∧ node2.obj_num = k := by
                intro node2 h2
                simp only [CreateTreeNode] at h2
                rw [addChild_get hi] at h2
                simp only [if_true] at h2
                cases h2
                exact ⟨hd, hk⟩
              exact ih _ hsub2 inv2 hP2 hnode2

/-- A property of the variables of the walk holds after the loop when it holds before, is kept
when an entry leaves the queue without expansion and is kept by the expansion of a node that
resolves to a dictionary. -/
theorem walkLoop_stable (document : Option CPDF_Document) (pDoc : CPDF_Document) (D : Int)
    (P : WalkState → Prop)
    (hskip : ∀ (st : WalkState) (current : Nat × Option Nat) (queue : List (Nat × Option Nat)),
      WalkInv st D → P st → st.analysis_queue = current :: queue →
      P { heap := st.heap
          analysis_queue := queue
          object_tree_map := st.object_tree_map
          processed_count := st.processed_count + 1 })
    (hexpand : ∀ (st : WalkState) (current : Nat × Option Nat)
      (queue : List (Nat × Option Nat)) (i : Nat) (node : PDFIUM_EX_OBJECT_TREE_NODE)
      (dict : List (String × CPDF_Object)) (gen : Nat),
      WalkInv st D → P st → st.analysis_queue = current :: queue →
      st.object_tree_map.lookup current.1 = some (some i) → st.heap[i]? = some node →
      node.obj_num = current.1 → node.depth < D →
      pDoc.GetOrParseIndirectObject current.1 = some ⟨.kDictionary dict, gen⟩ →
      P (createChildren document D i (collectRefs current.1 node.depth dict [])
        { heap := st.heap
          analysis_queue := queue
          object_tree_map := st.object_tree_map
          processed_count := st.processed_count + 1 })) :
    ∀ (budget : Nat) (st : WalkState), WalkInv st D → P st →
      P (walkLoop document pDoc D budget st) := by
  intro budget
  induction budget with
  | zero => intro st _ hP; exact hP
  | succ b ih =>
    intro st inv hP
    unfold walkLoop
    cases hq : st.analysis_queue with
    | nil => exact hP
    | cons current queue =>
      simp only []
      have hknown := inv.queue_known current (by rw [hq]; exact List.mem_cons_self _ _)
      obtain ⟨v, hv⟩ := Option.isSome_iff_exists.1 hknown
      have hfound : mapIndex st.object_tree_map current.1 = (v, st.object_tree_map) := by
        simp only [mapIndex, hv]
      rw [hfound]
      have inv1 : WalkInv
          { st with
            processed_count := st.processed_count + 1
            analysis_queue := queue
            object_tree_map := st.object_tree_map } D :=
        { wf := inv.wf
          map_sound := inv.map_sound
          map_complete := inv.map_complete
          queue_known := fun e he => inv.queue_known e (by
            rw [hq]; exact List.mem_cons_of_mem _ he) }
      have hP1 := hskip st current queue inv hP hq
      cases v with
      | none => exact ih _ inv1 hP1
      | some current_node =>
        simp only []
        cases hn : st.heap[current_node]? with
        | none => exact ih _ inv1 hP1
        | some node =>
          simp only []
          split_ifs with hdeep
          · exact ih _ inv1 hP1
          · split
            · rename_i dict gen hres
              obtain ⟨p, n, hvp, hp, hnk⟩ := inv.map_sound current.1 _ hv
              obtain rfl : current_node = p := Option.some.inj hvp
              obtain rfl : node = n := by rw [hn] at hp; exact Option.some.inj hp
              have hdepth : ∀ node2, st.heap[current_node]? = some node2 → node2.depth < D := by
                intro node2 h2
                rw [hn] at h2
                cases h2
                omega
              obtain ⟨r1, _⟩ := createChildren_inv document D current_node
                (collectRefs current.1 node.depth dict []) _ inv1 hdepth
              exact ih _ r1 (hexpand st current queue current_node node dict gen inv hP hq hv hn
                hnk (by omega) hres)
            · exact ih _ inv1 hP1

/-- A property of the variables of the walk holds after the loop when it holds before, is kept
when an entry leaves the queue and is kept by the creation of a child under a node that
resolves to a dictionary, for one of the references collected from that dictionary. -/
theorem walkLoop_stable_add (document : Option CPDF_Document) (pDoc : CPDF_Document) (D : Int)
    (P : WalkState → Prop)
    (hskip : ∀ (st : WalkState) (current : Nat × Option Nat) (queue : List (Nat × Option Nat)),
      WalkInv st D → P st → st.analysis_queue = current :: queue →
      P { heap := st.heap
          analysis_queue := queue
          object_tree_map := st.object_tree_map
          processed_count := st.processed_count + 1 })
    (hadd : ∀ (st : WalkState) (i : Nat) (node : PDFIUM_EX_OBJECT_TREE_NODE) (ref : Nat)
      (content_str : String) (dict : List (String × CPDF_Object)) (gen : Nat),
      WalkInv st D → P st → st.heap[i]? = some node → node.depth < D →
      (st.object_tree_map.lookup ref).isSome = false → node.child_count < 1000000 →
      PdfiumEx_GetRawObjectContent document ref 0 = some content_str →
      strlen content_str ≠ 0 →
      pDoc.GetOrParseIndirectObject node.obj_num = some ⟨.kDictionary dict, gen⟩ →
      ref ∈ collectRefs node.obj_num node.depth dict [] →
      P { heap := AddChildNode
            (st.heap ++ [newTreeNode ref 0 (some content_str) (node.depth + 1)]) i
            st.heap.length
          analysis_queue :=
            if node.depth + 1 < D then st.analysis_queue ++ [(ref, some i)]
            else st.analysis_queue
          object_tree_map := (ref, some st.heap.length) :: st.object_tree_map
          processed_count := st.processed_count }) :
    ∀ (budget : Nat) (st : WalkState), WalkInv st D → P st →
      P (walkLoop document pDoc D budget st) := by
  apply walkLoop_stable document pDoc D P hskip
  intro st current queue i node dict gen inv hP hq hv hn hnk hd hres
  have inv1 : WalkInv
      { heap := st.heap
        analysis_queue := queue
        object_tree_map := st.object_tree_map
        processed_count := st.processed_count + 1 } D :=
    { wf := inv.wf
      map_sound := inv.map_sound
      map_complete := inv.map_complete
      queue_known := fun e he => inv.queue_known e (by
        rw [hq]; exact List.mem_cons_of_mem _ he) }
  refine createChildren_stable document D i
    (fun s => P s ∧ ∀ node2, s.heap[i]? = some node2 → node2.depth = node.depth)
    current.1 (collectRefs current.1 node.depth dict []) ?_ _ _
    (fun r hr => hr) inv1 ⟨hskip st current queue inv hP hq, ?_⟩ ?_ |>.1
  · intro s node2 ref content_str invs hPs hi2 hk2 hd2 hnew hcount hc hne hmem
    have hdep := hPs.2 node2 hi2
    refine ⟨hadd s i node2 ref content_str dict gen invs hPs.1 hi2 hd2 hnew hcount hc hne
      (by rw [hk2]; exact hres) (by rw [hk2, hdep]; exact hmem), ?_⟩
    intro node3 h3
    rw [addChild_get hi2] at h3
    simp only [if_true] at h3
    cases h3
    exact hdep
  · intro node2 h2
    have h2b : st.heap[i]? = some node2 := h2
    rw [hn] at h2b
    cases h2b
    rfl
  · intro node2 h2
    have h2b : st.heap[i]? = some node2 := h2
    rw [hn] at h2b
    cases h2b
    exact ⟨hd, hnk⟩

/-- A property of single nodes holds of every node after the loop when it holds of every node
before, holds of the nodes that `CreateTreeNode` makes for the children, and is kept when
`AddChildNode` attaches a child to a node that resolves to a dictionary. -/
theorem walkLoop_nodes (document : Option CPDF_Document) (pDoc : CPDF_Document) (D : Int)
    (Q : PDFIUM_EX_OBJECT_TREE_NODE → Prop)
    (hnew : ∀ (ref : Nat) (content_str : String) (d : Int),
      PdfiumEx_GetRawObjectContent document ref 0 = some content_str →
      strlen content_str ≠ 0 → 0 < ref → 0 < d →
      Q (newTreeNode ref 0 (some content_str) d))
    (hattach : ∀ (node : PDFIUM_EX_OBJECT_TREE_NODE) (child : Nat)
      (dict : List (String × CPDF_Object)) (gen : Nat), Q node →
      node.child_count = node.children.length → node.child_count < 1000000 →
      pDoc.GetOrParseIndirectObject node.obj_num = some ⟨.kDictionary dict, gen⟩ →
      Q (attachChild node child)) :
    ∀ (budget : Nat) (st : WalkState), WalkInv st D →
      (∀ (p : Nat) (n : PDFIUM_EX_OBJECT_TREE_NODE), st.heap[p]? = some n → Q n) →
      ∀ (p : Nat) (n : PDFIUM_EX_OBJECT_TREE_NODE),
        (walkLoop document pDoc D budget st).heap[p]? = some n → Q n := by
  apply walkLoop_stable_add document pDoc D
    (fun s => ∀ (p : Nat) (n : PDFIUM_EX_OBJECT_TREE_NODE), s.heap[p]? = some n → Q n)
  · intro st current queue _ hP _
    exact hP
  · intro st i node ref content_str dict gen inv hP hi hd hnewref hcount hc hne hres hmem
    intro p n hp
    have hp2 : (AddChildNode (st.heap ++ [newTreeNode ref 0 (some content_str)
        (node.depth + 1)]) i st.heap.length)[p]? = some n := hp
    rcases addChild_node hi _ hp2 with ⟨_, rfl⟩ | ⟨n0, h0, _, _, _, _, _, h | h⟩
    · have hpos : 0 < ref := by
        rcases collectRefs_mem _ _ _ _ _ hmem with h | h
        · cases h
        · exact h.1
      have hdep := (inv.wf.depth_range i node hi).1
      exact hnew ref content_str (node.depth + 1) hc hne hpos (by omega)
    · obtain ⟨_, rfl, rfl⟩ := h
      exact hattach n0 st.heap.length dict gen (hP i n0 hi) (inv.wf.counts i n0 hi) hcount hres
    · obtain ⟨_, rfl⟩ := h
      exact hP p n h0

/-- A property of single nodes holds of every node of a built tree when it holds of the root
as `CreateTreeNode` makes it and of the nodes made for the children, and is kept when
`AddChildNode` attaches a child to a node that resolves to a dictionary. -/
theorem build_nodes {document : Option CPDF_Document} {page : Option CPDF_Page}
    {max_depth : Int} {r : Nat × Heap}
    (h : PdfiumEx_BuildObjectTree document page max_depth = some r)
    (Q : PDFIUM_EX_OBJECT_TREE_NODE → Prop)
    (hroot : ∀ (obj_num gen_num : Nat) (content : String), 0 < obj_num →
      Q (newTreeNode obj_num gen_num (some content) 0))
    (hnew : ∀ (ref : Nat) (content_str : String) (d : Int),
      PdfiumEx_GetRawObjectContent document ref 0 = some content_str →
      strlen content_str ≠ 0 → 0 < ref → 0 < d →
      Q (newTreeNode ref 0 (some content_str) d))
    (hattach : ∀ (pDoc : CPDF_Document) (node : PDFIUM_EX_OBJECT_TREE_NODE) (child : Nat)
      (dict : List (String × CPDF_Object)) (gen : Nat), document = some pDoc → Q node →
      node.child_count = node.children.length → node.child_count < 1000000 →
      pDoc.GetOrParseIndirectObject node.obj_num = some ⟨.kDictionary dict, gen⟩ →
      Q (attachChild node child)) :
    ∀ (p : Nat) (n : PDFIUM_EX_OBJECT_TREE_NODE), r.2[p]? = some n → Q n := by
  cases document with
  | none => simp [PdfiumEx_BuildObjectTree] at h
  | some pDoc =>
    cases page with
    | none => simp [PdfiumEx_BuildObjectTree] at h
    | some pPage =>
      cases hdict : pPage.GetDict with
      | none => simp [PdfiumEx_BuildObjectTree, hdict] at h
      | some page_dict =>
        rw [build_eq pDoc pPage page_dict hdict] at h
        split_ifs at h with hbad
        have hnz : page_dict.obj_num ≠ 0 := fun h0 => hbad (Or.inl h0)
        obtain rfl := Option.some.inj h
        have hD := clampedDepth_range max_depth
        have h0 : ([newTreeNode page_dict.obj_num page_dict.gen_num
            (some (ObjectToPdfString (some (.kDictionary page_dict.entries)) 0)) 0] : Heap)[0]?
            = some (newTreeNode page_dict.obj_num page_dict.gen_num
            (some (ObjectToPdfString (some (.kDictionary page_dict.entries)) 0)) 0) := rfl
        simp only [BuildObjectTreeWithQueue, BuildObjectTreeWithQueue.run, h0]
        apply walkLoop_nodes (some pDoc) pDoc (clampedDepth max_depth) Q hnew
          (fun node child dict gen => hattach pDoc node child dict gen rfl) 1000000 _
          (initial_inv _ rfl rfl rfl (clampedDepth max_depth) (by omega))
        intro p n hp
        obtain ⟨_, rfl⟩ := singleton_get hp
        exact hroot _ _ _ (Nat.pos_of_ne_zero hnz)

/-- The fields of every node of the tree read from a heap are the fields of a node of the
heap. -/
theorem subtree_fields_in_heap {heap : Heap} {fuel ptr : Nat} {t : ObjectTree}
    (h : readTree heap fuel ptr = some t) :
    ∀ s ∈ t.subtrees, ∃ q : Nat, heap[q]? = some s.fields := by
  intro s hs
  obtain ⟨q, f, hq⟩ := subtree_is_read fuel ptr t h s hs
  obtain ⟨_, _, hn, _⟩ := readTree_eq_some hq
  exact ⟨q, hn⟩

/-! ## Nodes without children, and the child buffer -/

theorem attachChild_bufferOK (node : PDFIUM_EX_OBJECT_TREE_NODE) (child : Nat)
    (h : ChildBufferOK node) :
    ChildBufferOK (attachChild node child) ∧
      (attachChild node child).max_children
        = (if node.child_count = node.max_children then 2 * node.max_children
            else node.max_children) := by
  obtain ⟨hle, k, hk⟩ := h
  have hpos : 0 < node.max_children := by rw [hk]; positivity
  by_cases hfull : node.child_count = node.max_children
  · have hge : node.child_count ≥ node.max_children := by omega
    refine ⟨⟨?_, k + 1, ?_⟩, ?_⟩
    · simp only [attachChild, hge, if_true]; omega
    · simp only [attachChild, hge, if_true]; rw [hk, pow_succ]; ring
    · simp only [attachChild, hge, if_true]; rw [if_pos hfull]; omega
  · have hlt : ¬ node.child_count ≥ node.max_children := by omega
    refine ⟨⟨?_, k, ?_⟩, ?_⟩
    · simp only [attachChild, hlt, if_false]; omega
    · simp only [attachChild, hlt, if_false]; exact hk
    · simp only [attachChild, hlt, if_false]; rw [if_neg hfull]

theorem addChildNode_get {heap : Heap} {parent : Nat} {node : PDFIUM_EX_OBJECT_TREE_NODE}
    (hp : heap[parent]? = some node) (child : Nat) :
    (AddChildNode heap parent child)[parent]? = some (attachChild node child) ∧
      ∀ q : Nat, q ≠ parent → (AddChildNode heap parent child)[q]? = heap[q]? := by
  have hlt : parent < heap.length := (List.getElem?_eq_some.1 hp).1
  simp only [AddChildNode, hp, List.getElem?_set]
  refine ⟨by simp [hlt], ?_⟩
  intro q hq
  have : ¬ parent = q := fun h => hq h.symm
  simp [this]

/-- C19: in every built tree a node whose object number does not resolve to a dictionary
(it does not resolve at all, or resolves to a stream, an array, a scalar or a null) has no
children: only nodes that resolve to dictionaries are expanded. -/
theorem C19_only_dictionaries_expand (pDoc : CPDF_Document) (page : Option CPDF_Page)
    (max_depth : Int) (r : Nat × Heap)
    (h : PdfiumEx_BuildObjectTree (some pDoc) page max_depth = some r) :
    ∃ t, treeOf r = some t ∧
      ∀ s ∈ t.subtrees,
        (∀ (dict : List (String × CPDF_Object)) (gen : Nat),
          pDoc.GetOrParseIndirectObject s.fields.obj_num ≠ some ⟨.kDictionary dict, gen⟩) →
        s.children = [] ∧ s.fields.child_count = 0 := by
  obtain ⟨_, _, _, _, _, _, _, _, h1, wf, _⟩ := build_result h
  obtain ⟨t, ht, _⟩ := build_tree h
  have hread : readTree r.2 r.2.length 0 = some t := by
    simpa only [treeOf, h1] using ht
  have hQ := build_nodes h
    (fun n => n.child_count = 0 ∨ ∃ (dict : List (String × CPDF_Object)) (gen : Nat),
      pDoc.GetOrParseIndirectObject n.obj_num = some ⟨.kDictionary dict, gen⟩)
    (fun _ _ _ _ => Or.inl rfl) (fun _ _ _ _ _ _ _ => Or.inl rfl)
    (fun pDoc2 node child dict gen hdoc _ _ _ hres => by
      cases hdoc
      exact Or.inr ⟨dict, gen, hres⟩)
  refine ⟨t, ht, ?_⟩
  intro s hs hnot
  obtain ⟨q, hq⟩ := subtree_fields_in_heap hread s hs
  obtain ⟨_, _, hlen, _⟩ := tree_depths_of_wf wf hread s hs
  rcases hQ q s.fields hq with h0 | ⟨dict, gen, hres⟩
  · exact ⟨List.length_eq_zero.1 (by rw [hlen, h0]), h0⟩
  · exact absurd hres (hnot dict gen)

/-- Instance of C19: the tree of the end-to-end scenario, where object 7 is a number and
object 9 a null. -/
theorem C19_only_dictionaries_expand_witness :
    ∃ r, PdfiumEx_BuildObjectTree (some scenarioDoc) (some scenarioPage) 5 = some r ∧
      ∃ t, treeOf r = some t ∧
        ∀ s ∈ t.subtrees,
          (∀ (dict : List (String × CPDF_Object)) (gen : Nat),
            scenarioDoc.GetOrParseIndirectObject s.fields.obj_num
              ≠ some ⟨.kDictionary dict, gen⟩) →
          s.children = [] ∧ s.fields.child_count = 0 :=
  ⟨_, rfl, C19_only_dictionaries_expand scenarioDoc (some scenarioPage) 5 _ rfl⟩

/-- C20: `CreateTreeNode` makes every node with child count 0 and child capacity 50; every
call of `AddChildNode` on a node within the bounds (count at most the capacity, capacity 50
times a power of two) keeps the bounds, doubles the capacity exactly when the buffer was full,
raises the count by one and stores the new child last, after the children attached before,
which stay as they were; it leaves the other nodes alone; and every node of a built tree is
within the bounds. -/
theorem C20_child_buffer (document : Option CPDF_Document) (page : Option CPDF_Page)
    (max_depth : Int) :
    (∀ (obj_num gen_num : Nat) (content : Option String) (depth : Int),
      (newTreeNode obj_num gen_num content depth).child_count = 0 ∧
      (newTreeNode obj_num gen_num content depth).max_children = 50 ∧
      (newTreeNode obj_num gen_num content depth).children = []) ∧
    (∀ (node : PDFIUM_EX_OBJECT_TREE_NODE) (child : Nat), ChildBufferOK node →
      ChildBufferOK (attachChild node child) ∧
      (attachChild node child).child_count = node.child_count + 1 ∧
      (attachChild node child).children = node.children ++ [child] ∧
      (attachChild node child).max_children
        = (if node.child_count = node.max_children then 2 * node.max_children
            else node.max_children)) ∧
    (∀ (heap : Heap) (parent child : Nat) (node : PDFIUM_EX_OBJECT_TREE_NODE),
      heap[parent]? = some node →
      (AddChildNode heap parent child)[parent]? = some (attachChild node child) ∧
      ∀ q : Nat, q ≠ parent → (AddChildNode heap parent child)[q]? = heap[q]?) ∧
    (∀ r : Nat × Heap, PdfiumEx_BuildObjectTree document page max_depth = some r →
      ∀ (p : Nat) (n : PDFIUM_EX_OBJECT_TREE_NODE), r.2[p]? = some n →
        ChildBufferOK n ∧ n.child_count = n.children.length) := by
  refine ⟨fun _ _ _ _ => ⟨rfl, rfl, rfl⟩, ?_, ?_, ?_⟩
  · intro node child hok
    exact ⟨(attachChild_bufferOK node child hok).1, rfl, rfl,
      (attachChild_bufferOK node child hok).2⟩
  · intro heap parent child node hp
    exact addChildNode_get hp child
  · intro r h p n hp
    obtain ⟨_, _, _, _, _, _, _, _, _, wf, _⟩ := build_result h
    refine ⟨?_, wf.counts p n hp⟩
    exact build_nodes h ChildBufferOK
      (fun _ _ _ _ => ⟨by simp [newTreeNode], 0, rfl⟩)
      (fun _ _ _ _ _ _ _ => ⟨by simp [newTreeNode], 0, rfl⟩)
      (fun _ node child _ _ _ hok _ _ _ => (attachChild_bufferOK node child hok).1) p n hp

/-- Instance of C20: the nodes of the tree of the end-to-end scenario. -/
theorem C20_child_buffer_witness :
    (ChildBufferOK (newTreeNode 6 0 none 1) ∧
      ChildBufferOK (attachChild (newTreeNode 6 0 none 1) 3) ∧
      (attachChild (newTreeNode 6 0 none 1) 3).child_count = 0 + 1 ∧
      (attachChild (newTreeNode 6 0 none 1) 3).children = [] ++ [3]) ∧
    ∃ r, PdfiumEx_BuildObjectTree (some scenarioDoc) (some scenarioPage) 5 = some r ∧
      ∀ (p : Nat) (n : PDFIUM_EX_OBJECT_TREE_NODE), r.2[p]? = some n →
        ChildBufferOK n ∧ n.child_count = n.children.length :=
  ⟨⟨⟨by decide, 0, rfl⟩,
      ((C20_child_buffer (some scenarioDoc) (some scenarioPage) 5).2.1
        (newTreeNode 6 0 none 1) 3 ⟨by decide, 0, rfl⟩).1,
      ((C20_child_buffer (some scenarioDoc) (some scenarioPage) 5).2.1
        (newTreeNode 6 0 none 1) 3 ⟨by decide, 0, rfl⟩).2.1,
      ((C20_child_buffer (some scenarioDoc) (some scenarioPage) 5).2.1
        (newTreeNode 6 0 none 1) 3 ⟨by decide, 0, rfl⟩).2.2.1⟩,
    _, rfl, (C20_child_buffer (some scenarioDoc) (some scenarioPage) 5).2.2.2 _ rfl⟩

/-! ## The page queries -/

theorem written_update (buffer : ObjNumBuffer) (values : List Nat) (v : Nat) :
    Function.update (written buffer values) values.length v = written buffer (values ++ [v]) := by
  funext i
  by_cases hi : i = values.length
  · subst hi
    simp [written]
  · rw [Function.update_noteq hi]
    simp only [written]
    by_cases hlt : i < values.length
    · rw [List.getElem?_append_left hlt]
    · have h1 : values[i]? = none := List.getElem?_eq_none (by omega)
      have h2 : (values ++ [v])[i]? = none :=
        List.getElem?_eq_none (by simp only [List.length_append, List.length_singleton]; omega)
      rw [h1, h2]

theorem written_nil (buffer : ObjNumBuffer) : written buffer [] = buffer := by
  funext i
  simp [written]

theorem firstCells_written (buffer : ObjNumBuffer) (values : List Nat) :
    firstCells (written buffer values) values.length = values := by
  apply List.ext_getElem
  · simp [firstCells]
  · intro i h1 h2
    simp only [firstCells, List.getElem_map, List.getElem_range, written]
    rw [List.getElem?_eq_getElem h2]
    rfl

theorem written_beyond (buffer : ObjNumBuffer) (values : List Nat) (i : Nat)
    (hi : values.length ≤ i) : written buffer values i = buffer i := by
  simp only [written]
  rw [List.getElem?_eq_none hi]
  rfl

/-- Storing at most `room` further values of `a` and then, in what room is left, values of
`b` stores at most `room` values of `a ++ b`. -/
theorem take_append_room (w a b : List Nat) (cap : Nat) :
    (w ++ a.take (cap - w.length)) ++ b.take (cap - (w ++ a.take (cap - w.length)).length)
      = w ++ (a ++ b).take (cap - w.length) := by
  rw [List.take_append_eq_append_take, List.append_assoc]
  congr 2
  simp only [List.length_append, List.length_take]
  congr 1
  omega

theorem storeArrayRefs_eq (max_count : Int) (buffer : ObjNumBuffer) :
    ∀ (elems : List CPDF_Object) (w : List Nat),
      storeArrayRefs max_count elems w.length (written buffer w)
        = ((w ++ (refTargets elems).take (max_count.toNat - w.length)).length,
            written buffer (w ++ (refTargets elems).take (max_count.toNat - w.length)))
  | [], w => by simp [storeArrayRefs, refTargets]
  | e :: rest, w => by
      by_cases hroom : (w.length : Int) < max_count
      · have hsucc : max_count.toNat - w.length = (max_count.toNat - (w.length + 1)) + 1 := by
          omega
        have ih := storeArrayRefs_eq max_count buffer rest
        cases e with
        | kReference n =>
            simp only [storeArrayRefs, hroom, if_true]
            rw [written_update, ← List.length_singleton n, ← List.length_append, ih,
              refTargets_cons_ref, hsucc, List.take_succ_cons]
            simp
        | kBoolean b =>
            simp only [storeArrayRefs, hroom, if_true]
            rw [ih, refTargets_cons_other _ _ (by intro n; simp)]
        | kNumber b =>
            simp only [storeArrayRefs, hroom, if_true]
            rw [ih, refTargets_cons_other _ _ (by intro n; simp)]
        | kString b =>
            simp only [storeArrayRefs, hroom, if_true]
            rw [ih, refTargets_cons_other _ _ (by intro n; simp)]
        | kName b =>
            simp only [storeArrayRefs, hroom, if_true]
            rw [ih, refTargets_cons_other _ _ (by intro n; simp)]
        | kArray b =>
            simp only [storeArrayRefs, hroom, if_true]
            rw [ih, refTargets_cons_other _ _ (by intro n; simp)]
        | kDictionary b =>
            simp only [storeArrayRefs, hroom, if_true]
            rw [ih, refTargets_cons_other _ _ (by intro n; simp)]
        | kStream b =>
            simp only [storeArrayRefs, hroom, if_true]
            rw [ih, refTargets_cons_other _ _ (by intro n; simp)]
        | kNullobj =>
            simp only [storeArrayRefs, hroom, if_true]
            rw [ih, refTargets_cons_other _ _ (by intro n; simp)]
        | kOther =>
            simp only [storeArrayRefs, hroom, if_true]
            rw [ih, refTargets_cons_other _ _ (by intro n; simp)]
      · have h0 : max_count.toNat - w.length = 0 := by omega
        simp [storeArrayRefs, hroom, h0]

theorem storeSubDictRefs_eq (max_count : Int) (buffer : ObjNumBuffer) :
    ∀ (sub_dict : List (String × CPDF_Object)) (w : List Nat),
      storeSubDictRefs max_count sub_dict w.length (written buffer w)
        = ((w ++ (refTargets (sub_dict.map (fun sub => sub.2))).take
              (max_count.toNat - w.length)).length,
            written buffer (w ++ (refTargets (sub_dict.map (fun sub => sub.2))).take
              (max_count.toNat - w.length)))
  | [], w => by simp [storeSubDictRefs, refTargets]
  | (key, e) :: rest, w => by
      by_cases hfull : (w.length : Int) ≥ max_count
      · have h0 : max_count.toNat - w.length = 0 := by omega
        simp [storeSubDictRefs, hfull, h0]
      · have hsucc : max_count.toNat - w.length = (max_count.toNat - (w.length + 1)) + 1 := by
          omega
        have ih := storeSubDictRefs_eq max_count buffer rest
        rw [List.map_cons]
        cases e with
        | kReference n =>
            simp only [storeSubDictRefs, hfull, if_false]
            rw [written_update, ← List.length_singleton n, ← List.length_append, ih,
              refTargets_cons_ref, hsucc, List.take_succ_cons]
            simp
        | kBoolean b =>
            simp only [storeSubDictRefs, hfull, if_false]
            rw [ih, refTargets_cons_other _ _ (by intro n; simp)]
        | kNumber b =>
            simp only [storeSubDictRefs, hfull, if_false]
            rw [ih, refTargets_cons_other _ _ (by intro n; simp)]
        | kString b =>
            simp only [storeSubDictRefs, hfull, if_false]
            rw [ih, refTargets_cons_other _ _ (by intro n; simp)]
        | kName b =>
            simp only [storeSubDictRefs, hfull, if_false]
            rw [ih, refTargets_cons_other _ _ (by intro n; simp)]
        | kArray b =>
            simp only [storeSubDictRefs, hfull, if_false]
            rw [ih, refTargets_cons_other _ _ (by intro n; simp)]
        | kDictionary b =>
            simp only [storeSubDictRefs, hfull, if_false]
            rw [ih, refTargets_cons_other _ _ (by intro n; simp)]
        | kStream b =>
            simp only [storeSubDictRefs, hfull, if_false]
            rw [ih, refTargets_cons_other _ _ (by intro n; simp)]
        | kNullobj =>
            simp only [storeSubDictRefs, hfull, if_false]
            rw [ih, refTargets_cons_other _ _ (by intro n; simp)]
        | kOther =>
            simp only [storeSubDictRefs, hfull, if_false]
            rw [ih, refTargets_cons_other _ _ (by intro n; simp)]

theorem referencedObjects_cons (key : String) (e : CPDF_Object)
    (rest : List (String × CPDF_Object)) :
    referencedObjects ((key, e) :: rest)
      = (match e with
          | .kReference ref_obj_num => [ref_obj_num]
          | .kArray elems => refTargets elems
          | .kDictionary sub_dict => refTargets (sub_dict.map (fun sub => sub.2))
          | _ => []) ++ referencedObjects rest := by
  cases e <;> simp [referencedObjects]

theorem storePageRefs_eq (max_count : Int) (buffer : ObjNumBuffer) :
    ∀ (entries : List (String × CPDF_Object)) (w : List Nat),
      storePageRefs max_count entries w.length (written buffer w)
        = ((w ++ (referencedObjects entries).take (max_count.toNat - w.length)).length,
            written buffer (w ++ (referencedObjects entries).take (max_count.toNat - w.length)))
  | [], w => by simp [storePageRefs, referencedObjects]
  | (key, e) :: rest, w => by
      by_cases hfull : (w.length : Int) ≥ max_count
      · have h0 : max_count.toNat - w.length = 0 := by omega
        simp [storePageRefs, hfull, h0]
      · have hsucc : max_count.toNat - w.length = (max_count.toNat - (w.length + 1)) + 1 := by
          omega
        have ih := storePageRefs_eq max_count buffer rest
        rw [referencedObjects_cons]
        cases e with
        | kReference n =>
            simp only [storePageRefs, hfull, if_false]
            rw [written_update, ← List.length_singleton n, ← List.length_append, ih,
              List.singleton_append, hsucc, List.take_succ_cons]
            simp
        | kArray elems =>
            simp only [storePageRefs, hfull, if_false]
            rw [storeArrayRefs_eq, ih, take_append_room]
        | kDictionary sub =>
            simp only [storePageRefs, hfull, if_false]
            rw [storeSubDictRefs_eq, ih, take_append_room]
        | kBoolean b =>
            simp only [storePageRefs, hfull, if_false]
            rw [ih, List.nil_append]
        | kNumber b =>
            simp only [storePageRefs, hfull, if_false]
            rw [ih, List.nil_append]
        | kString b =>
            simp only [storePageRefs, hfull, if_false]
            rw [ih, List.nil_append]
        | kName b =>
            simp only [storePageRefs, hfull, if_false]
            rw [ih, List.nil_append]
        | kStream b =>
            simp only [storePageRefs, hfull, if_false]
            rw [ih, List.nil_append]
        | kNullobj =>
            simp only [storePageRefs, hfull, if_false]
            rw [ih, List.nil_append]
        | kOther =>
            simp only [storePageRefs, hfull, if_false]
            rw [ih, List.nil_append]

theorem take_min_length {α : Type} (n : Nat) (l : List α) :
    l.take (min n l.length) = l.take n := by
  rcases le_total n l.length with h | h
  · rw [min_eq_left h]
  · rw [min_eq_right h, List.take_of_length_le h, List.take_of_length_le le_rfl]

/-- The result of `PdfiumEx_GetPageReferencedObjects` on a buffer: the first `max_count`
numbers that the page references are stored in the first cells. -/
theorem pageReferencedObjects_eq (page : Option CPDF_Page) (buffer : ObjNumBuffer)
    (max_count : Int) :
    PdfiumEx_GetPageReferencedObjects page (some buffer) max_count
      = ((((pageReferences page).take max_count.toNat).length : Int),
          some (written buffer ((pageReferences page).take max_count.toNat))) := by
  cases page with
  | none => simp [PdfiumEx_GetPageReferencedObjects, pageReferences, written_nil]
  | some pPage =>
    by_cases hmax : max_count ≤ 0
    · have h0 : max_count.toNat = 0 := by omega
      simp [PdfiumEx_GetPageReferencedObjects, hmax, h0, written_nil]
    · cases hdict : pPage.GetDict with
      | none => simp [PdfiumEx_GetPageReferencedObjects, pageReferences, hdict, hmax, written_nil]
      | some page_dict =>
        have h := storePageRefs_eq max_count buffer page_dict.entries []
        rw [written_nil] at h
        simp only [List.length_nil, List.nil_append, Nat.sub_zero] at h
        simp only [PdfiumEx_GetPageReferencedObjects, pageReferences, hdict, hmax, if_false, h]

/-- C13: `PdfiumEx_GetPageContentStreamObjects(page, obj_nums, max_count)` returns 0 and
leaves the buffer alone when the page or the buffer is null, `max_count <= 0` or the page has
no /Contents entry; when /Contents is a reference it returns 1 and stores the target of the
reference in the first cell; when /Contents is an array it stores the targets of the reference
elements in array order, cut to the first `max_count`, and returns how many it stored; for any
other /Contents value it returns 0. -/
theorem C13_content_stream_objects (page : Option CPDF_Page) (obj_nums : Option ObjNumBuffer)
    (max_count : Int) :
    ((page = none ∨ obj_nums = none ∨ max_count ≤ 0 ∨
        (∀ (pPage : CPDF_Page) (page_dict : CPDF_Dictionary), page = some pPage →
          pPage.GetDict = some page_dict → page_dict.entries.lookup "Contents" = none)) →
      PdfiumEx_GetPageContentStreamObjects page obj_nums max_count = (0, obj_nums)) ∧
    (∀ (pPage : CPDF_Page) (page_dict : CPDF_Dictionary) (buffer : ObjNumBuffer)
        (contents_obj : CPDF_Object),
      page = some pPage → obj_nums = some buffer → 0 < max_count →
      pPage.GetDict = some page_dict →
      page_dict.entries.lookup "Contents" = some contents_obj →
      (∀ ref_obj_num : Nat, contents_obj = .kReference ref_obj_num →
        PdfiumEx_GetPageContentStreamObjects page obj_nums max_count
          = (1, some (written buffer [ref_obj_num]))) ∧
      (∀ contents_array : List CPDF_Object, contents_obj = .kArray contents_array →
        PdfiumEx_GetPageContentStreamObjects page obj_nums max_count
          = ((((refTargets contents_array).take max_count.toNat).length : Int),
              some (written buffer ((refTargets contents_array).take max_count.toNat)))) ∧
      ((∀ ref_obj_num : Nat, contents_obj ≠ .kReference ref_obj_num) →
        (∀ contents_array : List CPDF_Object, contents_obj ≠ .kArray contents_array) →
        PdfiumEx_GetPageContentStreamObjects page obj_nums max_count = (0, obj_nums))) := by
  constructor
  · intro h
    cases page with
    | none => cases obj_nums <;> rfl
    | some pPage =>
      cases obj_nums with
      | none => rfl
      | some buffer =>
        by_cases hmax : max_count ≤ 0
        · simp [PdfiumEx_GetPageContentStreamObjects, hmax]
        · cases hdict : pPage.GetDict with
          | none => simp [PdfiumEx_GetPageContentStreamObjects, hmax, hdict]
          | some page_dict =>
            rcases h with h | h | h | h
            · cases h
            · cases h
            · exact absurd h hmax
            · have hno := h pPage page_dict rfl hdict
              simp [PdfiumEx_GetPageContentStreamObjects, hmax, hdict, hno]
  · intro pPage page_dict buffer contents_obj hpage hbuf hmax hdict hcontents
    subst hpage
    subst hbuf
    have hmax2 : ¬ max_count ≤ 0 := by omega
    refine ⟨?_, ?_, ?_⟩
    · intro ref hc
      subst hc
      have hw : Function.update buffer 0 ref = written buffer [ref] := by
        have := written_update buffer [] ref
        rwa [written_nil] at this
      simp only [PdfiumEx_GetPageContentStreamObjects, hmax2, if_false, hdict, hcontents, hmax,
        if_true, hw]
    · intro elems hc
      subst hc
      have h := storeArrayRefs_eq max_count buffer elems []
      rw [written_nil] at h
      simp only [List.length_nil, List.nil_append, Nat.sub_zero] at h
      simp only [PdfiumEx_GetPageContentStreamObjects, hmax2, if_false, hdict, hcontents, h]
    · intro h1 h2
      cases contents_obj with
      | kReference n => exact absurd rfl (h1 n)
      | kArray elems => exact absurd rfl (h2 elems)
      | kBoolean b => simp only [PdfiumEx_GetPageContentStreamObjects, hmax2, if_false, hdict, hcontents]
      | kNumber b => simp only [PdfiumEx_GetPageContentStreamObjects, hmax2, if_false, hdict, hcontents]
      | kString b => simp only [PdfiumEx_GetPageContentStreamObjects, hmax2, if_false, hdict, hcontents]
      | kName b => simp only [PdfiumEx_GetPageContentStreamObjects, hmax2, if_false, hdict, hcontents]
      | kDictionary b => simp only [PdfiumEx_GetPageContentStreamObjects, hmax2, if_false, hdict, hcontents]
      | kStream b => simp only [PdfiumEx_GetPageContentStreamObjects, hmax2, if_false, hdict, hcontents]
      | kNullobj => simp only [PdfiumEx_GetPageContentStreamObjects, hmax2, if_false, hdict, hcontents]
      | kOther => simp only [PdfiumEx_GetPageContentStreamObjects, hmax2, if_false, hdict, hcontents]

/-- Instance of C13: the /Contents of `contentsPage` is an array with the references 4, 5
and 6; with room for 2 numbers the call stores 4 and 5 and returns 2, with `max_count = 0` it
returns 0, and on the page of the end-to-end scenario, whose /Contents is the reference to
object 6, it stores 6 and returns 1. -/
theorem C13_content_stream_objects_witness :
    PdfiumEx_GetPageContentStreamObjects (some contentsPage) (some (fun _ => 0)) 0
      = (0, some (fun _ => 0)) ∧
    PdfiumEx_GetPageContentStreamObjects (some contentsPage) (some (fun _ => 0)) 2
      = ((([4, 5] : List Nat).length : Int), some (written (fun _ => 0) [4, 5])) ∧
    PdfiumEx_GetPageContentStreamObjects (some scenarioPage) (some (fun _ => 0)) 2
      = (1, some (written (fun _ => 0) [6])) :=
  ⟨(C13_content_stream_objects (some contentsPage) (some (fun _ => 0)) 0).1
      (Or.inr (Or.inr (Or.inl (by decide)))),
    ((C13_content_stream_objects (some contentsPage) (some (fun _ => 0)) 2).2 contentsPage _
      (fun _ => 0) _ rfl rfl (by decide) rfl rfl).2.1 _ rfl,
    ((C13_content_stream_objects (some scenarioPage) (some (fun _ => 0)) 2).2 scenarioPage _
      (fun _ => 0) _ rfl rfl (by decide) rfl rfl).1 6 rfl⟩

/-- C14: for every page and every `max_count`, `PdfiumEx_GetPageReferencedObjects` returns a
count `k` with `0 <= k <= max_count` (0 when `max_count <= 0`), stores nothing outside the
cells `0..k-1`, and the `k` numbers stored are the first `k` of the numbers that the page
references, which is what a call with a limit as large as their number stores in full: the
result for a smaller limit is a prefix of the result for a larger one.  With a null buffer the
call returns 0. -/
theorem C14_referenced_objects_bounded (page : Option CPDF_Page) (buffer : ObjNumBuffer)
    (max_count : Int) :
    PdfiumEx_GetPageReferencedObjects page none max_count = (0, none) ∧
    ∃ (k : Nat) (after : ObjNumBuffer),
      PdfiumEx_GetPageReferencedObjects page (some buffer) max_count = ((k : Int), some after) ∧
      (k : Int) ≤ max max_count 0 ∧ (max_count ≤ 0 → k = 0) ∧
      (∀ i : Nat, k ≤ i → after i = buffer i) ∧
      k = min max_count.toNat (pageReferences page).length ∧
      firstCells after k = (pageReferences page).take k ∧
      (∀ (limit : Int) (buffer2 : ObjNumBuffer), max_count ≤ limit →
        ∃ (k2 : Nat) (after2 : ObjNumBuffer),
          PdfiumEx_GetPageReferencedObjects page (some buffer2) limit
            = ((k2 : Int), some after2) ∧
          k ≤ k2 ∧ firstCells after k = (firstCells after2 k2).take k) ∧
      (∀ (limit : Int) (buffer2 : ObjNumBuffer), ((pageReferences page).length : Int) ≤ limit →
        ∃ after2 : ObjNumBuffer,
          PdfiumEx_GetPageReferencedObjects page (some buffer2) limit
            = (((pageReferences page).length : Int), some after2) ∧
          firstCells after2 (pageReferences page).length = pageReferences page) := by
  constructor
  · cases page <;> rfl
  · refine ⟨((pageReferences page).take max_count.toNat).length,
      written buffer ((pageReferences page).take max_count.toNat),
      pageReferencedObjects_eq page buffer max_count, ?_, ?_, ?_, ?_, ?_, ?_, ?_⟩
    · rw [List.length_take]
      omega
    · intro h
      have h0 : max_count.toNat = 0 := by omega
      rw [h0]
      rfl
    · intro i hi
      exact written_beyond _ _ _ hi
    · rw [List.length_take]
    · rw [firstCells_written, List.length_take, take_min_length]
    · intro limit buffer2 hle
      have hnat : max_count.toNat ≤ limit.toNat := Int.toNat_le_toNat hle
      refine ⟨_, _, pageReferencedObjects_eq page buffer2 limit, ?_, ?_⟩
      · rw [List.length_take, List.length_take]
        exact min_le_min hnat le_rfl
      · rw [firstCells_written, firstCells_written, List.take_take, List.length_take]
        have hmin : min (min max_count.toNat (pageReferences page).length) limit.toNat
            = min max_count.toNat (pageReferences page).length :=
          min_eq_left (le_trans (min_le_left _ _) hnat)
        rw [hmin, take_min_length]
    · intro limit buffer2 hle
      have hall : (pageReferences page).take limit.toNat = pageReferences page :=
        List.take_of_length_le (by omega)
      refine ⟨written buffer2 (pageReferences page), ?_, firstCells_written _ _⟩
      rw [pageReferencedObjects_eq, hall]

/-- Instance of C14: `contentsPage` references 4, 5, 6, 2 and 9; the call with limit 3 stores
a prefix of what the call with limit 10 stores. -/
theorem C14_referenced_objects_bounded_witness :
    ∃ (k : Nat) (after : ObjNumBuffer) (k2 : Nat) (after2 : ObjNumBuffer),
      PdfiumEx_GetPageReferencedObjects (some contentsPage) (some (fun _ => 0)) 3
        = ((k : Int), some after) ∧
      PdfiumEx_GetPageReferencedObjects (some contentsPage) (some (fun _ => 7)) 10
        = ((k2 : Int), some after2) ∧
      k = min (3 : Int).toNat (pageReferences (some contentsPage)).length ∧
      k ≤ k2 ∧ firstCells after k = (firstCells after2 k2).take k := by
  obtain ⟨k, after, h1, _, _, _, h5, _, h7, _⟩ :=
    (C14_referenced_objects_bounded (some contentsPage) (fun _ => 0) 3).2
  obtain ⟨k2, after2, g1, g2, g3⟩ := h7 10 (fun _ => 7) (by decide)
  exact ⟨k, after, k2, after2, h1, g1, h5, g2, g3⟩

/-! ## The release of a built tree -/

theorem readPtrs_self {heap : Heap} {f ptr : Nat} (h : ptr < heap.length) :
    ptr ∈ readPtrs heap (f + 1) ptr := by
  rw [readPtrs_succ (List.getElem?_eq_getElem h)]
  exact List.mem_cons_self _ _

/-- With enough levels, the pointers visited from `ptr` are closed under taking children. -/
theorem readPtrs_closed {heap : Heap} {D : Int} (wf : HeapWF heap D) :
    ∀ (fuel ptr : Nat), ptr < heap.length → heap.length - ptr ≤ fuel →
      ∀ (q : Nat) (n : PDFIUM_EX_OBJECT_TREE_NODE) (c : Nat), q ∈ readPtrs heap fuel ptr →
        heap[q]? = some n → c ∈ n.children → c ∈ readPtrs heap fuel ptr := by
  intro fuel
  induction fuel with
  | zero => intro ptr h1 h2; omega
  | succ f ih =>
    intro ptr h1 h2 q n c hq hn hc
    obtain ⟨f', node, hf, hnode, hcase⟩ := readPtrs_cases hq
    obtain rfl : f = f' := by omega
    have htake : node.children.take node.child_count = node.children := by
      rw [wf.counts ptr node hnode]
      exact List.take_of_length_le le_rfl
    rw [readPtrs_succ hnode, htake]
    apply List.mem_cons_of_mem
    rw [List.mem_flatMap]
    rcases hcase with rfl | ⟨c2, hc2, hq2⟩
    · obtain rfl : node = n := by rw [hnode] at hn; exact Option.some.inj hn
      have hfw := wf.forward q node c hnode hc
      refine ⟨c, hc, ?_⟩
      obtain ⟨g, hg⟩ : ∃ g, f = g + 1 := ⟨f - 1, by omega⟩
      rw [hg]
      exact readPtrs_self hfw.2
    · have hfw := wf.forward ptr node c2 hnode hc2
      exact ⟨c2, hc2, ih c2 hfw.2 (by omega) q n c hq2 hn hc⟩

/-- Every node of a well-formed heap is visited from the first one. -/
theorem readPtrs_complete {heap : Heap} {D : Int} (wf : HeapWF heap D) :
    ∀ p : Nat, p < heap.length → p ∈ readPtrs heap heap.length 0 := by
  intro p
  induction p using Nat.strong_induction_on with
  | _ p ih =>
    intro hp
    by_cases h0 : p = 0
    · subst h0
      obtain ⟨g, hg⟩ : ∃ g, heap.length = g + 1 := ⟨heap.length - 1, by omega⟩
      rw [hg]
      exact readPtrs_self (by omega)
    · obtain ⟨q, n, hq, hc⟩ := wf.has_parent p (by omega) hp
      have hfw := wf.forward q n p hq hc
      exact readPtrs_closed wf heap.length 0 (by omega) (by omega) q n p
        (ih q hfw.1 (by omega)) hq hc

theorem firstOccurrences_filter (p : Nat → Bool) :
    ∀ l : List Nat, firstOccurrences (l.filter p) = (firstOccurrences l).filter p
  | [] => rfl
  | a :: rest => by
      have ih := firstOccurrences_filter p rest
      by_cases hp : p a = true
      · rw [List.filter_cons_of_pos hp]
        simp only [firstOccurrences]
        rw [List.filter_cons_of_pos hp, ih, List.filter_filter, List.filter_filter]
        congr 1
        apply List.filter_congr
        intro x _
        exact Bool.and_comm _ _
      · rw [List.filter_cons_of_neg hp]
        simp only [firstOccurrences]
        rw [List.filter_cons_of_neg hp, ih, List.filter_filter]
        apply List.filter_congr
        intro x _
        by_cases hx : x = a
        · subst hx
          simp [hp]
        · simp [hx]

theorem firstOccurrences_sublist : ∀ l : List Nat, (firstOccurrences l).Sublist l
  | [] => List.Sublist.slnil
  | a :: rest => by
      simp only [firstOccurrences]
      exact ((List.filter_sublist _).trans (firstOccurrences_sublist rest)).cons₂ a

theorem mem_firstOccurrences : ∀ (l : List Nat) (x : Nat), x ∈ firstOccurrences l ↔ x ∈ l
  | [], x => by simp [firstOccurrences]
  | a :: rest, x => by
      simp only [firstOccurrences, List.mem_cons, List.mem_filter, mem_firstOccurrences rest x,
        decide_eq_true_eq]
      constructor
      · rintro (h | ⟨h, _⟩)
        · exact Or.inl h
        · exact Or.inr h
      · intro h
        by_cases hx : x = a
        · exact Or.inl hx
        · rcases h with h | h
          · exact absurd h hx
          · exact Or.inr ⟨h, hx⟩

theorem firstOccurrences_nodup : ∀ l : List Nat, (firstOccurrences l).Nodup
  | [] => List.nodup_nil
  | a :: rest => by
      simp only [firstOccurrences]
      rw [List.nodup_cons]
      refine ⟨?_, (firstOccurrences_nodup rest).filter _⟩
      simp [List.mem_filter]

theorem firstOccurrences_of_nodup : ∀ l : List Nat, l.Nodup → firstOccurrences l = l
  | [], _ => rfl
  | a :: rest, h => by
      rw [List.nodup_cons] at h
      simp only [firstOccurrences]
      rw [firstOccurrences_of_nodup rest h.2]
      congr 1
      apply List.filter_eq_self.2
      intro x hx
      have : x ≠ a := fun e => h.1 (e ▸ hx)
      simpa using this

theorem expectedChildren_sublist (document : Option CPDF_Document)
    (object_tree_map : List (Nat × Option Nat)) (room : Nat) (refs : List Nat) :
    (expectedChildren document object_tree_map room refs).Sublist refs :=
  ((List.take_sublist _ _).trans (firstOccurrences_sublist _)).trans (List.filter_sublist _)

theorem expectedChildren_skip (document : Option CPDF_Document)
    (object_tree_map : List (Nat × Option Nat)) (room ref : Nat) (rest : List Nat)
    (h : creatable document object_tree_map ref = false) :
    expectedChildren document object_tree_map room (ref :: rest)
      = expectedChildren document object_tree_map room rest := by
  unfold expectedChildren
  rw [List.filter_cons_of_neg (by simp [h])]

theorem expectedChildren_create (document : Option CPDF_Document)
    (object_tree_map : List (Nat × Option Nat)) (room ref : Nat) (rest : List Nat)
    (child : Option Nat) (h : creatable document object_tree_map ref = true) :
    expectedChildren document object_tree_map (room + 1) (ref :: rest)
      = ref :: expectedChildren document ((ref, child) :: object_tree_map) room rest := by
  unfold expectedChildren
  rw [List.filter_cons_of_pos h]
  simp only [firstOccurrences]
  rw [List.take_succ_cons, ← firstOccurrences_filter, List.filter_filter]
  congr 3
  apply List.filter_congr
  intro x _
  simp only [creatable, lookup_cons_nat]
  by_cases hx : x = ref
  · subst hx
    simp
  · simp [hx]

/-- The children loop creates, in order, exactly the nodes of the expected children. -/
theorem createChildren_eq (document : Option CPDF_Document) (D : Int) (i : Nat) :
    ∀ (refs : List Nat) (st : WalkState) (node : PDFIUM_EX_OBJECT_TREE_NODE),
      st.heap[i]? = some node →
      createChildren document D i refs st
        = attachCreated document D i node.depth
            (expectedChildren document st.object_tree_map (1000000 - node.child_count) refs)
            st := by
  intro refs
  induction refs with
  | nil =>
    intro st node _
    simp [expectedChildren, firstOccurrences, createChildren, attachCreated]
  | cons ref rest ih =>
    intro st node hi
    unfold createChildren
    by_cases hseen : (st.object_tree_map.lookup ref).isSome = true
    · rw [if_pos hseen, expectedChildren_skip _ _ _ _ _ (by simp [creatable, hseen])]
      exact ih st node hi
    · rw [if_neg hseen, hi]
      simp only []
      by_cases hfull : node.child_count ≥ 1000000
      · rw [if_pos hfull]
        have h0 : 1000000 - node.child_count = 0 := by omega
        rw [h0]
        rfl
      · rw [if_neg hfull]
        cases hc : PdfiumEx_GetRawObjectContent document ref 0 with
        | none =>
          simp only []
          rw [expectedChildren_skip _ _ _ _ _ (by simp [creatable, hc])]
          exact ih st node hi
        | some content_str =>
          simp only []
          by_cases hempty : strlen content_str = 0
          · rw [if_pos hempty, expectedChildren_skip _ _ _ _ _ (by simp [creatable, hc, hempty])]
            exact ih st node hi
          · rw [if_neg hempty]
            have hroom : 1000000 - node.child_count = (1000000 - (node.child_count + 1)) + 1 := by
              omega
            have hcr : creatable document st.object_tree_map ref = true := by
              simp [creatable, hseen, hc, hempty]
            rw [hroom, expectedChildren_create _ _ _ _ _ (some st.heap.length) hcr]
            have hi2 : (AddChildNode (CreateTreeNode st.heap ref 0 (some content_str)
                (node.depth + 1)).2 i (CreateTreeNode st.heap ref 0 (some content_str)
                (node.depth + 1)).1)[i]? = some (attachChild node st.heap.length) := by
              simp only [CreateTreeNode]
              rw [addChild_get hi]
              simp
            rw [ih _ (attachChild node st.heap.length) hi2]
            simp only [attachCreated, hc, CreateTreeNode]
            rfl

theorem foldl_attachChild_cons (node : PDFIUM_EX_OBJECT_TREE_NODE) (s n : Nat) :
    (List.range' (s + 1) n).foldl attachChild (attachChild node s)
      = (List.range' s (n + 1)).foldl attachChild node := by
  rw [List.range'_succ, List.foldl_cons]

/-- The variables of the walk after `attachCreated`: the heap grows by one node for each
object number, in order; the node expanded receives the new pointers; the other nodes stay as
they were; the queue and the counter are as the children loop leaves them. -/
theorem attachCreated_spec (document : Option CPDF_Document) (D : Int) (i : Nat) (d : Int) :
    ∀ (E : List Nat) (st : WalkState) (node : PDFIUM_EX_OBJECT_TREE_NODE),
      st.heap[i]? = some node →
      (attachCreated document D i d E st).heap.length = st.heap.length + E.length ∧
      (attachCreated document D i d E st).heap[i]?
        = some ((List.range' st.heap.length E.length).foldl attachChild node) ∧
      (∀ p : Nat, p ≠ i → p < st.heap.length →
        (attachCreated document D i d E st).heap[p]? = st.heap[p]?) ∧
      (∀ (j ref : Nat), E[j]? = some ref →
        (attachCreated document D i d E st).heap[st.heap.length + j]?
          = some (newTreeNode ref 0 (PdfiumEx_GetRawObjectContent document ref 0) (d + 1))) ∧
      (attachCreated document D i d E st).analysis_queue
        = st.analysis_queue ++ (if d + 1 < D then E.map (fun ref => (ref, some i)) else []) ∧
      (attachCreated document D i d E st).processed_count = st.processed_count := by
  intro E
  induction E with
  | nil =>
    intro st node hi
    refine ⟨rfl, by simpa [attachCreated] using hi, fun _ _ _ => rfl, ?_, ?_, rfl⟩
    · intro j ref h; simp at h
    · simp [attachCreated]
  | cons ref rest ih =>
    intro st node hi
    have hlt : i < st.heap.length := (List.getElem?_eq_some.1 hi).1
    have hget := addChild_get hi
      (newTreeNode ref 0 (PdfiumEx_GetRawObjectContent document ref 0) (d + 1))
    have hi2 : (AddChildNode (st.heap ++ [newTreeNode ref 0
        (PdfiumEx_GetRawObjectContent document ref 0) (d + 1)]) i st.heap.length)[i]?
        = some (attachChild node st.heap.length) := by
      rw [hget]; simp
    have hlen2 : (AddChildNode (st.heap ++ [newTreeNode ref 0
        (PdfiumEx_GetRawObjectContent document ref 0) (d + 1)]) i st.heap.length).length
        = st.heap.length + 1 := by
      have h1 : (st.heap ++ [newTreeNode ref 0
          (PdfiumEx_GetRawObjectContent document ref 0) (d + 1)])[i]? = some node := by
        rw [List.getElem?_append_left hlt]; exact hi
      simp [AddChildNode, h1]
    obtain ⟨g1, g2, g3, g4, g5, g6⟩ := ih
      { heap := AddChildNode (st.heap ++ [newTreeNode ref 0
            (PdfiumEx_GetRawObjectContent document ref 0) (d + 1)]) i st.heap.length
        analysis_queue :=
          if d + 1 < D then st.analysis_queue ++ [(ref, some i)] else st.analysis_queue
        object_tree_map := (ref, some st.heap.length) :: st.object_tree_map
        processed_count := st.processed_count } (attachChild node st.heap.length) hi2
    simp only [hlen2] at g1 g2 g3 g4
    simp only [attachCreated]
    refine ⟨?_, ?_, ?_, ?_, ?_, g6⟩
    · rw [g1, List.length_cons]; omega
    · rw [g2, List.length_cons, foldl_attachChild_cons]
    · intro p hp hpl
      rw [g3 p hp (by omega), hget]
      have : p ≠ st.heap.length := by omega
      simp [hp, this]
    · intro j r hj
      cases j with
      | zero =>
        simp only [List.getElem?_cons_zero, Option.some.injEq] at hj
        subst hj
        rw [Nat.add_zero, g3 st.heap.length (by omega) (by omega), hget]
        have : st.heap.length ≠ i := by omega
        simp [this]
      | succ j =>
        simp only [List.getElem?_cons_succ] at hj
        have := g4 j r hj
        rw [show st.heap.length + (j + 1) = st.heap.length + 1 + j by omega]
        exact this
    · rw [g5]
      by_cases hd : d + 1 < D
      · simp [hd]
      · simp [hd]

/-- One expansion, seen from the node expanded: the loop appends to its child buffer the
pointers to the nodes it creates, one for each expected child, in order. -/
theorem createChildren_children (document : Option CPDF_Document) (D : Int) (i : Nat)
    (refs : List Nat) (st : WalkState) (node : PDFIUM_EX_OBJECT_TREE_NODE)
    (hi : st.heap[i]? = some node) :
    ∃ node2 : PDFIUM_EX_OBJECT_TREE_NODE,
      (createChildren document D i refs st).heap[i]? = some node2 ∧
      node2.children = node.children ++ List.range' st.heap.length
        (expectedChildren document st.object_tree_map (1000000 - node.child_count) refs).length ∧
      node2.child_count = node.child_count
        + (expectedChildren document st.object_tree_map (1000000 - node.child_count)
            refs).length ∧
      (List.range' st.heap.length
          (expectedChildren document st.object_tree_map (1000000 - node.child_count)
            refs).length).map
        (fun c => ((createChildren document D i refs st).heap[c]?).map (fun n => n.obj_num))
        = (expectedChildren document st.object_tree_map (1000000 - node.child_count)
            refs).map some := by
  rw [createChildren_eq document D i refs st node hi]
  generalize expectedChildren document st.object_tree_map (1000000 - node.child_count) refs = E
  obtain ⟨_, g2, _, g4, _, _⟩ := attachCreated_spec document D i node.depth E st node hi
  obtain ⟨f1, f2, _⟩ := foldl_attachChild (List.range' st.heap.length E.length) node
  refine ⟨_, g2, ?_, ?_, ?_⟩
  · rw [f2]
  · rw [f1, List.length_range']
  · apply List.ext_getElem?
    intro j
    rw [List.getElem?_map, List.getElem?_map]
    by_cases hj : j < E.length
    · rw [List.getElem?_range' _ _ hj, List.getElem?_eq_getElem hj]
      simp only [Option.map_some', Nat.one_mul]
      rw [g4 j E[j] (List.getElem?_eq_getElem hj)]
      rfl
    · rw [List.getElem?_eq_none (by rw [List.length_range']; omega),
        List.getElem?_eq_none (by omega)]
      rfl

/-- The children of the root of a built tree whose page object resolves to a dictionary:
pointers to the nodes 1, 2, ... of the heap, whose object numbers are the expected children
for the reference list of that dictionary, the map holding the root alone. -/
theorem build_root_children (pDoc : CPDF_Document) (pPage : CPDF_Page)
    (page_dict : CPDF_Dictionary) (hdict : pPage.GetDict = some page_dict)
    (hnum : page_dict.obj_num ≠ 0) (dict : List (String × CPDF_Object)) (gen : Nat)
    (hres : pDoc.GetOrParseIndirectObject page_dict.obj_num = some ⟨.kDictionary dict, gen⟩)
    (max_depth : Int) :
    ∃ (r : Nat × Heap) (root : PDFIUM_EX_OBJECT_TREE_NODE),
      PdfiumEx_BuildObjectTree (some pDoc) (some pPage) max_depth = some r ∧
      r.2[0]? = some root ∧
      root.children = List.range' 1
        (expectedChildren (some pDoc) [(page_dict.obj_num, some 0)] 1000000
          (collectRefs page_dict.obj_num 0 dict [])).length ∧
      root.child_count = (expectedChildren (some pDoc) [(page_dict.obj_num, some 0)] 1000000
          (collectRefs page_dict.obj_num 0 dict [])).length ∧
      root.children.map (fun c => (r.2[c]?).map (fun n => n.obj_num))
        = (expectedChildren (some pDoc) [(page_dict.obj_num, some 0)] 1000000
          (collectRefs page_dict.obj_num 0 dict [])).map some := by
  have hb := build_eq pDoc pPage page_dict hdict max_depth
  have hok : ¬ (page_dict.obj_num = 0 ∨
      (ObjectToPdfString (some (.kDictionary page_dict.entries)) 0).isEmpty = true) := by
    rintro (h | h)
    · exact hnum h
    · exact content_not_empty _ _ h
  rw [if_neg hok] at hb
  generalize hroot : newTreeNode page_dict.obj_num page_dict.gen_num
    (some (ObjectToPdfString (some (.kDictionary page_dict.entries)) 0)) 0 = root at hb
  have hD := (clampedDepth_range max_depth).1
  have hr1 : root.obj_num = page_dict.obj_num := by rw [← hroot]; rfl
  have hr2 : root.depth = 0 := by rw [← hroot]; rfl
  have hr3 : root.child_count = 0 := by rw [← hroot]; rfl
  have hr5 : root.children = [] := by rw [← hroot]; rfl
  have h0 : ([root] : Heap)[0]? = some root := rfl
  have inv0 := initial_inv root hr5 hr3 hr2 (clampedDepth max_depth) (by omega)
  have inv1 : WalkInv
      { heap := [root]
        analysis_queue := []
        object_tree_map := [(root.obj_num, some 0)]
        processed_count := 0 + 1 } (clampedDepth max_depth) :=
    { wf := inv0.wf
      map_sound := inv0.map_sound
      map_complete := inv0.map_complete
      queue_known := fun e he => by cases he }
  obtain ⟨inv2, _⟩ := createChildren_inv (some pDoc) (clampedDepth max_depth) 0
    (collectRefs page_dict.obj_num 0 dict []) _ inv1 (by
      intro node2 h2
      have h2b : ([root] : Heap)[0]? = some node2 := h2
      rw [h0] at h2b
      cases h2b
      rw [hr2]; omega)
  obtain ⟨node2, c1, c2, c3, c4⟩ := createChildren_children (some pDoc)
    (clampedDepth max_depth) 0 (collectRefs page_dict.obj_num 0 dict [])
    { heap := [root]
      analysis_queue := []
      object_tree_map := [(root.obj_num, some 0)]
      processed_count := 0 + 1 } root h0
  obtain ⟨q1, q2, _⟩ := createChildren_frame (some pDoc) (clampedDepth max_depth) 0
    (collectRefs page_dict.obj_num 0 dict [])
    { heap := [root]
      analysis_queue := []
      object_tree_map := [(root.obj_num, some 0)]
      processed_count := 0 + 1 } 1 (le_refl _) (fun e he => by cases he)
  obtain ⟨_, ext⟩ := walkLoop_inv (some pDoc) pDoc (clampedDepth max_depth) 999999 _ inv2
  have hrun : (BuildObjectTreeWithQueue (some pDoc) [root] (some 0) (clampedDepth max_depth))
      = (walkLoop (some pDoc) pDoc (clampedDepth max_depth) 999999
          (createChildren (some pDoc) (clampedDepth max_depth) 0
            (collectRefs page_dict.obj_num 0 dict [])
            { heap := [root]
              analysis_queue := []
              object_tree_map := [(root.obj_num, some 0)]
              processed_count := 0 + 1 })).heap := by
    simp only [BuildObjectTreeWithQueue, BuildObjectTreeWithQueue.run, h0]
    rw [walkLoop_expand (some pDoc) pDoc _ 999999 _ (root.obj_num, none) [] 0 root dict gen
      rfl (by simp [lookup_cons_nat]) h0 (by rw [hr2]; omega) (by rw [hr1]; exact hres)]
    simp only [hr1, hr2]
  have hframe := walkLoop_frame (some pDoc) pDoc (clampedDepth max_depth) 999999 _ 1 q2 q1 0
    (by norm_num)
  generalize createChildren (some pDoc) (clampedDepth max_depth) 0
    (collectRefs page_dict.obj_num 0 dict [])
    { heap := [root]
      analysis_queue := []
      object_tree_map := [(root.obj_num, some 0)]
      processed_count := 0 + 1 } = stE at c1 c2 c3 c4 ext hrun hframe
  simp only [hr3, hr5, hr1, Nat.sub_zero, List.nil_append, Nat.zero_add, List.length_singleton]
    at c2 c3 c4
  refine ⟨_, node2, hb, ?_, c2, c3, ?_⟩
  · show (BuildObjectTreeWithQueue (some pDoc) [root] (some 0) (clampedDepth max_depth))[0]? = _
    rw [hrun, hframe]
    exact c1
  · show node2.children.map (fun c => ((BuildObjectTreeWithQueue (some pDoc) [root] (some 0)
      (clampedDepth max_depth))[c]?).map (fun n => n.obj_num)) = _
    rw [hrun, c2, ← c4]
    apply List.map_congr_left
    intro c hc
    cases hn : stE.heap[c]? with
    | some n =>
      obtain ⟨n2, hn2, ho, _⟩ := ext c n hn
      rw [hn2]
      simp only [Option.map_some', ho]
    | none =>
      exfalso
      have hmem := congrArg (fun l => l[c - 1]?) c4
      simp only [List.getElem?_map] at hmem
      rw [List.mem_range'_1] at hc
      rw [List.getElem?_range' _ _ (by omega), List.getElem?_eq_getElem (by omega)] at hmem
      simp only [Option.map_some', Nat.one_mul] at hmem
      rw [show 1 + (c - 1) = c by omega, hn] at hmem
      simp at hmem

theorem collectRefs_references (current : Nat) (depth : Int) (key : Nat → String)
    (target : Nat → Nat) :
    ∀ (idx : List Nat) (acc : List Nat),
      (∀ i ∈ idx, target i > 0 ∧ target i ≠ current) →
      collectRefs current depth
          (idx.map (fun i => (key i, CPDF_Object.kReference (target i)))) acc
        = acc ++ idx.map target
  | [], acc, _ => by simp [collectRefs]
  | i :: idx, acc, h => by
      rw [List.map_cons]
      simp only [collectRefs]
      have hp : pushRef current (target i) acc = acc ++ [target i] := by
        simp [pushRef, h i (List.mem_cons_self _ _)]
      rw [hp, collectRefs_references current depth key target idx _
        (fun j hj => h j (List.mem_cons_of_mem _ hj))]
      simp

theorem manyRefs_collected :
    collectRefs 1 0 manyRefsEntries [] = (List.range 1000001).map (fun i => i + 2) := by
  unfold manyRefsEntries
  rw [collectRefs_references 1 0 (fun i => "K" ++ toString (i + 1000000)) (fun i => i + 2)
    (List.range 1000001) [] (fun i _ => ⟨Nat.succ_pos _, by show i + 2 ≠ 1; omega⟩),
    List.nil_append]

theorem manyRefs_creatable :
    (collectRefs 1 0 manyRefsEntries []).filter (creatable (some manyRefsDoc) [(1, some 0)])
      = (List.range 1000001).map (fun i => i + 2) := by
  rw [manyRefs_collected]
  apply List.filter_eq_self.2
  intro x hx
  obtain ⟨i, hi, rfl⟩ := List.mem_map.1 hx
  rw [List.mem_range] at hi
  have hres : manyRefsDoc.GetOrParseIndirectObject (i + 2) = some ⟨.kNullobj, 0⟩ := by
    have h1 : ¬ i + 2 = 1 := by omega
    have h2 : 2 ≤ i + 2 ∧ i + 2 ≤ 1000002 := ⟨by omega, by omega⟩
    simp only [manyRefsDoc, h1, h2, if_false, and_self, if_true]
  obtain ⟨hraw, hlen⟩ := rawContent_of_resolved hres rfl
  have hlook : List.lookup (i + 2) [(1, (some 0 : Option Nat))] = none := by
    have h1 : ¬ i + 2 = 1 := by omega
    simp [lookup_cons_nat, h1]
  simp only [creatable, hlook, hraw]
  simpa using hlen

theorem manyRefs_firstOccurrences :
    firstOccurrences ((collectRefs 1 0 manyRefsEntries []).filter
        (creatable (some manyRefsDoc) [(1, some 0)]))
      = (List.range 1000001).map (fun i => i + 2) := by
  rw [manyRefs_creatable]
  apply firstOccurrences_of_nodup
  exact (List.nodup_range _).map (fun a b h => by simpa using h)

/-- C16, amended: in every expansion the children loop appends to the child buffer of the
node expanded the nodes it creates for the expected children, in order: the first occurrence
of each reference of the list that is not yet a key of the map and whose object resolves to
content, in the unchanged relative order of the list, cut once the node has 1000000 children;
nothing is re-ordered.  As long as the node stays within 1000000 children nothing is cut.  In
particular the children of the root of a built tree whose page object resolves to a dictionary
are the expected children for the reference list of that dictionary. -/
theorem C16_children_in_order (pDoc : CPDF_Document) (D : Int) (i : Nat) (refs : List Nat)
    (st : WalkState) (node : PDFIUM_EX_OBJECT_TREE_NODE) (hi : st.heap[i]? = some node) :
    (expectedChildren (some pDoc) st.object_tree_map (1000000 - node.child_count) refs).Sublist
      refs ∧
    (node.child_count
        + (firstOccurrences (refs.filter (creatable (some pDoc) st.object_tree_map))).length
        ≤ 1000000 →
      expectedChildren (some pDoc) st.object_tree_map (1000000 - node.child_count) refs
        = firstOccurrences (refs.filter (creatable (some pDoc) st.object_tree_map))) ∧
    (∃ node2 : PDFIUM_EX_OBJECT_TREE_NODE,
      (createChildren (some pDoc) D i refs st).heap[i]? = some node2 ∧
      node2.children = node.children ++ List.range' st.heap.length
        (expectedChildren (some pDoc) st.object_tree_map (1000000 - node.child_count)
          refs).length ∧
      node2.child_count = node.child_count
        + (expectedChildren (some pDoc) st.object_tree_map (1000000 - node.child_count)
            refs).length ∧
      (List.range' st.heap.length
          (expectedChildren (some pDoc) st.object_tree_map (1000000 - node.child_count)
            refs).length).map
        (fun c => ((createChildren (some pDoc) D i refs st).heap[c]?).map (fun n => n.obj_num))
        = (expectedChildren (some pDoc) st.object_tree_map (1000000 - node.child_count)
            refs).map some) ∧
    (∀ (pPage : CPDF_Page) (page_dict : CPDF_Dictionary) (dict : List (String × CPDF_Object))
        (gen : Nat) (max_depth : Int),
      pPage.GetDict = some page_dict → page_dict.obj_num ≠ 0 →
      pDoc.GetOrParseIndirectObject page_dict.obj_num = some ⟨.kDictionary dict, gen⟩ →
      ∃ (r : Nat × Heap) (root : PDFIUM_EX_OBJECT_TREE_NODE),
        PdfiumEx_BuildObjectTree (some pDoc) (some pPage) max_depth = some r ∧
        r.2[0]? = some root ∧
        root.children.map (fun c => (r.2[c]?).map (fun n => n.obj_num))
          = (expectedChildren (some pDoc) [(page_dict.obj_num, some 0)] 1000000
              (collectRefs page_dict.obj_num 0 dict [])).map some) := by
  refine ⟨expectedChildren_sublist _ _ _ _, ?_, createChildren_children _ D i refs st node hi, ?_⟩
  · intro h
    unfold expectedChildren
    exact List.take_of_length_le (by omega)
  · intro pPage page_dict dict gen max_depth hdict hnum hres
    obtain ⟨r, root, h1, h2, _, _, h5⟩ :=
      build_root_children pDoc pPage page_dict hdict hnum dict gen hres max_depth
    exact ⟨r, root, h1, h2, h5⟩

/-- Instance of the amended C16: in the document of the end-to-end scenario, with the root
(object 5) alone in the map, the reference list 6, 7, 6, 5, 10 gives the children 6 and 7:
the second 6 is a repetition, 5 is in the map and object 10 does not resolve. -/
theorem C16_children_in_order_witness :
    expectedChildren (some scenarioDoc) [(5, some 0)] (1000000 - 0) [6, 7, 6, 5, 10] = [6, 7] ∧
    ∃ node2 : PDFIUM_EX_OBJECT_TREE_NODE,
      (createChildren (some scenarioDoc) 3 0 [6, 7, 6, 5, 10]
        { heap := [newTreeNode 5 0 (some "<< >>") 0]
          analysis_queue := []
          object_tree_map := [(5, some 0)]
          processed_count := 1 }).heap[0]? = some node2 ∧
      node2.children = [] ++ List.range' 1
        (expectedChildren (some scenarioDoc) [(5, some 0)] (1000000 - 0)
          [6, 7, 6, 5, 10]).length :=
  ⟨by decide,
    (C16_children_in_order scenarioDoc 3 0 [6, 7, 6, 5, 10]
      { heap := [newTreeNode 5 0 (some "<< >>") 0]
        analysis_queue := []
        object_tree_map := [(5, some 0)]
        processed_count := 1 } (newTreeNode 5 0 (some "<< >>") 0) rfl).2.2.1.elim
      (fun node2 h => ⟨node2, h.1, h.2.1⟩)⟩

/-- C16 as stated fails: the page dictionary of `manyRefsDoc` references the 1000001 objects
2 to 1000002, each once, none of them in the map and each resolving to content, and the root
of the tree built with depth 1 has 1000000 children: the last reference has no node. -/
theorem C16_counterexample :
    ∃ (r : Nat × Heap) (root : PDFIUM_EX_OBJECT_TREE_NODE),
      PdfiumEx_BuildObjectTree (some manyRefsDoc) (some manyRefsPage) 1 = some r ∧
      r.2[0]? = some root ∧ root.children.length = 1000000 ∧
      (firstOccurrences ((collectRefs 1 0 manyRefsEntries []).filter
        (creatable (some manyRefsDoc) [(1, some 0)]))).length = 1000001 ∧
      root.children.map (fun c => (r.2[c]?).map (fun n => n.obj_num))
        ≠ (firstOccurrences ((collectRefs 1 0 manyRefsEntries []).filter
            (creatable (some manyRefsDoc) [(1, some 0)]))).map some := by
  have hres : manyRefsDoc.GetOrParseIndirectObject 1
      = some ⟨.kDictionary manyRefsEntries, 0⟩ := by
    simp only [manyRefsDoc, if_true]
  obtain ⟨r, root, h1, h2, h3, _, _⟩ := build_root_children manyRefsDoc manyRefsPage
    { entries := manyRefsEntries, obj_num := 1, gen_num := 0 } rfl (by decide)
    manyRefsEntries 0 hres 1
  have hlenF : (firstOccurrences ((collectRefs 1 0 manyRefsEntries []).filter
      (creatable (some manyRefsDoc) [(1, some 0)]))).length = 1000001 := by
    rw [manyRefs_firstOccurrences, List.length_map, List.length_range]
  have hlenE : (expectedChildren (some manyRefsDoc) [(1, some 0)] 1000000
      (collectRefs 1 0 manyRefsEntries [])).length = 1000000 := by
    unfold expectedChildren
    rw [List.length_take, hlenF]
    rfl
  have hchildren : root.children.length = 1000000 := by
    rw [h3, List.length_range']
    exact hlenE
  refine ⟨r, root, h1, h2, hchildren, hlenF, ?_⟩
  intro heq
  have := congrArg List.length heq
  rw [List.length_map, List.length_map, hchildren, hlenF] at this
  omega

/-! ## The cap on the number of dequeued entries -/

theorem createChildren_count (document : Option CPDF_Document) (D : Int) (i : Nat) :
    ∀ (refs : List Nat) (st : WalkState),
      (createChildren document D i refs st).processed_count = st.processed_count := by
  intro refs
  induction refs with
  | nil => intro st; rfl
  | cons ref rest ih =>
    intro st
    unfold createChildren
    by_cases hseen : (st.object_tree_map.lookup ref).isSome = true
    · rw [if_pos hseen]; exact ih st
    · rw [if_neg hseen]
      cases hi : st.heap[i]? with
      | none => rfl
      | some node =>
        simp only []
        by_cases hfull : node.child_count ≥ 1000000
        · rw [if_pos hfull]
        · rw [if_neg hfull]
          cases hc : PdfiumEx_GetRawObjectContent document ref 0 with
          | none => exact ih st
          | some content_str =>
            simp only []
            by_cases hempty : strlen content_str = 0
            · rw [if_pos hempty]; exact ih st
            · rw [if_neg hempty]
              rw [ih]

/-- The loop run with budget `budget` dequeues at most `budget` entries. -/
theorem walkLoop_count (document : Option CPDF_Document) (pDoc : CPDF_Document) (D : Int) :
    ∀ (budget : Nat) (st : WalkState),
      (walkLoop document pDoc D budget st).processed_count ≤ st.processed_count + budget := by
  intro budget
  induction budget with
  | zero => intro st; exact le_refl _
  | succ b ih =>
    intro st
    unfold walkLoop
    cases hq : st.analysis_queue with
    | nil => simp only []; omega
    | cons current queue =>
      simp only []
      cases (mapIndex st.object_tree_map current.1).1 with
      | none =>
        simp only []
        refine le_trans (ih _) ?_
        simp only []
        omega
      | some current_node =>
        simp only []
        cases hn : st.heap[current_node]? with
        | none =>
          simp only []
          refine le_trans (ih _) ?_
          simp only []
          omega
        | some node =>
          simp only []
          split_ifs with hdeep
          · refine le_trans (ih _) ?_
            simp only []
            omega
          · split
            · refine le_trans (ih _) ?_
              rw [createChildren_count]
              simp only []
              omega
            · refine le_trans (ih _) ?_
              simp only []
              omega

/-- A queue of entries none of which resolves to a dictionary is consumed entry by entry,
as far as the budget goes, and nothing else changes. -/
theorem walkLoop_leaves (document : Option CPDF_Document) (pDoc : CPDF_Document) (D : Int) :
    ∀ (budget : Nat) (st : WalkState), WalkInv st D →
      (∀ e ∈ st.analysis_queue, ∀ (dict : List (String × CPDF_Object)) (gen : Nat),
        pDoc.GetOrParseIndirectObject e.1 ≠ some ⟨.kDictionary dict, gen⟩) →
      walkLoop document pDoc D budget st
        = { heap := st.heap
            analysis_queue := st.analysis_queue.drop budget
            object_tree_map := st.object_tree_map
            processed_count := st.processed_count + min budget st.analysis_queue.length } := by
  intro budget
  induction budget with
  | zero => intro st _ _; simp [walkLoop]
  | succ b ih =>
    intro st inv hleaf
    unfold walkLoop
    cases hq : st.analysis_queue with
    | nil =>
      cases st with
      | mk h q m c =>
        simp only [] at hq
        subst hq
        simp
    | cons current queue =>
      simp only []
      have hknown := inv.queue_known current (by rw [hq]; exact List.mem_cons_self _ _)
      obtain ⟨v, hv⟩ := Option.isSome_iff_exists.1 hknown
      have hfound : mapIndex st.object_tree_map current.1 = (v, st.object_tree_map) := by
        simp only [mapIndex, hv]
      rw [hfound]
      have inv1 : WalkInv
          { st with
            processed_count := st.processed_count + 1
            analysis_queue := queue
            object_tree_map := st.object_tree_map } D :=
        { wf := inv.wf
          map_sound := inv.map_sound
          map_complete := inv.map_complete
          queue_known := fun e he => inv.queue_known e (by
            rw [hq]; exact List.mem_cons_of_mem _ he) }
      have hleaf1 : ∀ e ∈ queue, ∀ (dict : List (String × CPDF_Object)) (gen : Nat),
          pDoc.GetOrParseIndirectObject e.1 ≠ some ⟨.kDictionary dict, gen⟩ :=
        fun e he => hleaf e (by rw [hq]; exact List.mem_cons_of_mem _ he)
      have hstep := ih _ inv1 hleaf1
      have hresult : walkLoop document pDoc D b
          { st with
            processed_count := st.processed_count + 1
            analysis_queue := queue
            object_tree_map := st.object_tree_map }
          = { heap := st.heap
              analysis_queue := (current :: queue).drop (b + 1)
              object_tree_map := st.object_tree_map
              processed_count := st.processed_count + min (b + 1) (current :: queue).length } := by
        rw [hstep]
        simp only [List.drop_succ_cons, List.length_cons, Nat.add_min_add_right]
        congr 1
        omega
      cases v with
      | none => exact hresult
      | some current_node =>
        simp only []
        cases hn : st.heap[current_node]? with
        | none => exact hresult
        | some node =>
          simp only []
          split_ifs with hdeep
          · exact hresult
          · split
            · rename_i dict gen hres
              exact absurd hres (hleaf current (by rw [hq]; exact List.mem_cons_self _ _) dict gen)
            · exact hresult

/-- The walk over `manyRefsDoc` with depth bound 2: the root receives 1000000 children, all of
them queued; the loop stops after 1000000 dequeued entries with one entry still queued. -/
theorem manyRefs_cap (root : PDFIUM_EX_OBJECT_TREE_NODE) (h1 : root.obj_num = 1)
    (h2 : root.depth = 0) (h3 : root.child_count = 0) (h5 : root.children = []) :
    (BuildObjectTreeWithQueue.run (some manyRefsDoc) [root] (some 0) 2).processed_count
      = 1000000 ∧
    (BuildObjectTreeWithQueue.run (some manyRefsDoc) [root] (some 0) 2).analysis_queue.length
      = 1 := by
  have h0 : ([root] : Heap)[0]? = some root := rfl
  have hres : manyRefsDoc.GetOrParseIndirectObject 1
      = some ⟨.kDictionary manyRefsEntries, 0⟩ := by
    simp only [manyRefsDoc, if_true]
  have inv0 := initial_inv root h5 h3 h2 2 (by norm_num)
  have inv1 : WalkInv
      { heap := [root]
        analysis_queue := []
        object_tree_map := [(root.obj_num, some 0)]
        processed_count := 0 + 1 } 2 :=
    { wf := inv0.wf
      map_sound := inv0.map_sound
      map_complete := inv0.map_complete
      queue_known := fun e he => by cases he }
  obtain ⟨inv2, _⟩ := createChildren_inv (some manyRefsDoc) 2 0
    (collectRefs 1 0 manyRefsEntries []) _ inv1 (by
      intro node2 hn2
      have h2b : ([root] : Heap)[0]? = some node2 := hn2
      rw [h0] at h2b
      cases h2b
      rw [h2]; norm_num)
  have hlenF : (firstOccurrences ((collectRefs 1 0 manyRefsEntries []).filter
      (creatable (some manyRefsDoc) [(1, some 0)]))).length = 1000001 := by
    rw [manyRefs_firstOccurrences, List.length_map, List.length_range]
  have hlenE : (expectedChildren (some manyRefsDoc) [(1, some 0)] 1000000
      (collectRefs 1 0 manyRefsEntries [])).length = 1000000 := by
    unfold expectedChildren
    rw [List.length_take, hlenF]
    rfl
  have hE := createChildren_eq (some manyRefsDoc) 2 0 (collectRefs 1 0 manyRefsEntries [])
    { heap := [root]
      analysis_queue := []
      object_tree_map := [(root.obj_num, some 0)]
      processed_count := 0 + 1 } root h0
  simp only [h1, h3, Nat.sub_zero] at hE
  obtain ⟨_, _, _, _, g5, g6⟩ := attachCreated_spec (some manyRefsDoc) 2 0 root.depth
    (expectedChildren (some manyRefsDoc) [(1, some 0)] 1000000
      (collectRefs 1 0 manyRefsEntries []))
    { heap := [root]
      analysis_queue := []
      object_tree_map := [(1, some 0)]
      processed_count := 0 + 1 } root h0
  rw [← hE] at g5 g6
  have hd : root.depth + 1 < 2 := by rw [h2]; norm_num
  rw [if_pos hd, List.nil_append] at g5
  have hrun : BuildObjectTreeWithQueue.run (some manyRefsDoc) [root] (some 0) 2
      = walkLoop (some manyRefsDoc) manyRefsDoc 2 999999
          (createChildren (some manyRefsDoc) 2 0 (collectRefs 1 0 manyRefsEntries [])
            { heap := [root]
              analysis_queue := []
              object_tree_map := [(1, some 0)]
              processed_count := 0 + 1 }) := by
    simp only [BuildObjectTreeWithQueue.run, h0]
    rw [walkLoop_expand (some manyRefsDoc) manyRefsDoc 2 999999 _ (root.obj_num, none) [] 0 root
      manyRefsEntries 0 rfl (by simp [lookup_cons_nat]) h0 (by rw [h2]; norm_num)
      (by rw [h1]; exact hres)]
    simp only [h1, h2]
  simp only [h1] at inv2
  have hleaf : ∀ e ∈ (createChildren (some manyRefsDoc) 2 0
      (collectRefs 1 0 manyRefsEntries [])
      { heap := [root]
        analysis_queue := []
        object_tree_map := [(1, some 0)]
        processed_count := 0 + 1 }).analysis_queue,
      ∀ (dict : List (String × CPDF_Object)) (gen : Nat),
        manyRefsDoc.GetOrParseIndirectObject e.1 ≠ some ⟨.kDictionary dict, gen⟩ := by
    intro e he dict gen
    rw [g5] at he
    obtain ⟨ref, href, rfl⟩ := List.mem_map.1 he
    have hin := (expectedChildren_sublist _ _ _ _).subset href
    rw [manyRefs_collected] at hin
    obtain ⟨j, hj, rfl⟩ := List.mem_map.1 hin
    rw [List.mem_range] at hj
    have e1 : ¬ j + 2 = 1 := by omega
    have e2 : 2 ≤ j + 2 ∧ j + 2 ≤ 1000002 := ⟨by omega, by omega⟩
    simp only [manyRefsDoc, e1, e2, if_false, and_self, if_true]
    intro hcontra
    cases hcontra
  rw [hrun, walkLoop_leaves (some manyRefsDoc) manyRefsDoc 2 999999 _ inv2 hleaf]
  simp only []
  rw [List.length_drop, g6, g5, List.length_map, hlenE]
  exact ⟨by norm_num, by norm_num⟩

/-- C21: whatever the document and `max_depth`, the loop of `BuildObjectTreeWithQueue`
dequeues at most 1000000 entries; and `PdfiumEx_BuildObjectTree`, given a document and a page
whose dictionary has a non-zero object number, returns the tree that the loop has built by
the time it stops, whether or not entries are still queued then: it does not return null. -/
theorem C21_dequeue_cap (document : Option CPDF_Document) (heap : Heap) (root : Option Nat)
    (max_depth : Int) :
    (BuildObjectTreeWithQueue.run document heap root max_depth).processed_count ≤ 1000000 ∧
    ∀ (pDoc : CPDF_Document) (pPage : CPDF_Page) (page_dict : CPDF_Dictionary),
      pPage.GetDict = some page_dict → page_dict.obj_num ≠ 0 →
      ∃ r : Nat × Heap,
        PdfiumEx_BuildObjectTree (some pDoc) (some pPage) max_depth = some r ∧
        r.2 = (BuildObjectTreeWithQueue.run (some pDoc)
          [newTreeNode page_dict.obj_num page_dict.gen_num
            (some (ObjectToPdfString (some (.kDictionary page_dict.entries)) 0)) 0] (some 0)
          (clampedDepth max_depth)).heap := by
  constructor
  · unfold BuildObjectTreeWithQueue.run
    cases document with
    | none => exact Nat.zero_le _
    | some pDoc =>
      cases root with
      | none => exact Nat.zero_le _
      | some root_ptr =>
        simp only []
        cases heap[root_ptr]? with
        | none => exact Nat.zero_le _
        | some root_node =>
          simp only []
          refine le_trans (walkLoop_count _ _ _ _ _) ?_
          simp
  · intro pDoc pPage page_dict hdict hnum
    have hb := build_eq pDoc pPage page_dict hdict max_depth
    have hok : ¬ (page_dict.obj_num = 0 ∨
        (ObjectToPdfString (some (.kDictionary page_dict.entries)) 0).isEmpty = true) := by
      rintro (h | h)
      · exact hnum h
      · exact content_not_empty _ _ h
    rw [if_neg hok] at hb
    exact ⟨_, hb, rfl⟩

/-- Instance of C21: on `manyRefsDoc` with `max_depth = 2` the loop stops after 1000000
dequeued entries with an entry still queued, and the tree is returned. -/
theorem C21_dequeue_cap_witness :
    (BuildObjectTreeWithQueue.run (some manyRefsDoc)
      [newTreeNode 1 0 (some (ObjectToPdfString (some (.kDictionary manyRefsEntries)) 0)) 0]
      (some 0) 2).processed_count = 1000000 ∧
    (BuildObjectTreeWithQueue.run (some manyRefsDoc)
      [newTreeNode 1 0 (some (ObjectToPdfString (some (.kDictionary manyRefsEntries)) 0)) 0]
      (some 0) 2).analysis_queue.length = 1 ∧
    (BuildObjectTreeWithQueue.run (some manyRefsDoc)
      [newTreeNode 1 0 (some (ObjectToPdfString (some (.kDictionary manyRefsEntries)) 0)) 0]
      (some 0) 2).processed_count ≤ 1000000 ∧
    ∃ r : Nat × Heap,
      PdfiumEx_BuildObjectTree (some manyRefsDoc) (some manyRefsPage) 2 = some r ∧
      r.2 = (BuildObjectTreeWithQueue.run (some manyRefsDoc)
        [newTreeNode 1 0 (some (ObjectToPdfString (some (.kDictionary manyRefsEntries)) 0)) 0]
        (some 0) (clampedDepth 2)).heap := by
  have hcap := manyRefs_cap
    (newTreeNode 1 0 (some (ObjectToPdfString (some (.kDictionary manyRefsEntries)) 0)) 0)
    rfl rfl rfl rfl
  have hnum : ({ entries := manyRefsEntries, obj_num := 1, gen_num := 0 } :
      CPDF_Dictionary).obj_num ≠ 0 := Nat.succ_ne_zero 0
  have hle := (C21_dequeue_cap (some manyRefsDoc)
    [newTreeNode 1 0 (some (ObjectToPdfString (some (.kDictionary manyRefsEntries)) 0)) 0]
    (some 0) 2).1
  have hbuild := (C21_dequeue_cap (some manyRefsDoc) [] none 2).2 manyRefsDoc manyRefsPage
    { entries := manyRefsEntries, obj_num := 1, gen_num := 0 } rfl hnum
  simp only [] at hbuild
  exact ⟨hcap.1, hcap.2, hle, hbuild⟩

/-! ## Facts on the final state of the walk, and on parents and children -/

/-- A tree node and its children, seen in the heap: the node is the record behind a pointer,
and each child is the record behind one of the child pointers of that record. -/
theorem subtree_children_in_heap {heap : Heap} {fuel ptr : Nat} {t : ObjectTree}
    (h : readTree heap fuel ptr = some t) :
    ∀ s ∈ t.subtrees, ∃ q : Nat, heap[q]? = some s.fields ∧
      ∀ c ∈ s.children, ∃ x : Nat, x ∈ s.fields.children ∧ heap[x]? = some c.fields := by
  intro s hs
  obtain ⟨q, f, hq⟩ := subtree_is_read fuel ptr t h s hs
  obtain ⟨f2, _, hn, hcs⟩ := readTree_eq_some hq
  refine ⟨q, hn, ?_⟩
  intro c hc
  obtain ⟨x, hx, hxc⟩ := forall₂_mem_right hcs c hc
  obtain ⟨_, _, hxn, _⟩ := readTree_eq_some hxc
  exact ⟨x, List.mem_of_mem_take hx, hxn⟩

/-- The loop stops on an empty queue or after `budget` dequeued entries. -/
theorem walkLoop_end (document : Option CPDF_Document) (pDoc : CPDF_Document) (D : Int) :
    ∀ (budget : Nat) (st : WalkState),
      (walkLoop document pDoc D budget st).analysis_queue = [] ∨
      (walkLoop document pDoc D budget st).processed_count = st.processed_count + budget := by
  intro budget
  induction budget with
  | zero => intro st; exact Or.inr rfl
  | succ b ih =>
    intro st
    unfold walkLoop
    cases hq : st.analysis_queue with
    | nil => exact Or.inl hq
    | cons current queue =>
      simp only []
      cases (mapIndex st.object_tree_map current.1).1 with
      | none =>
        simp only []
        rcases ih { st with
          processed_count := st.processed_count + 1
          analysis_queue := queue
          object_tree_map := (mapIndex st.object_tree_map current.1).2 } with h | h
        · exact Or.inl h
        · exact Or.inr (by rw [h]; simp only []; omega)
      | some current_node =>
        simp only []
        cases hn : st.heap[current_node]? with
        | none =>
          simp only []
          rcases ih { st with
            processed_count := st.processed_count + 1
            analysis_queue := queue
            object_tree_map := (mapIndex st.object_tree_map current.1).2 } with h | h
          · exact Or.inl h
          · exact Or.inr (by rw [h]; simp only []; omega)
        | some node =>
          simp only []
          split_ifs with hdeep
          · rcases ih { st with
              processed_count := st.processed_count + 1
              analysis_queue := queue
              object_tree_map := (mapIndex st.object_tree_map current.1).2 } with h | h
            · exact Or.inl h
            · exact Or.inr (by rw [h]; simp only []; omega)
          · split
            · rename_i dict gen hres
              rcases ih (createChildren document D current_node
                (collectRefs current.1 node.depth dict [])
                { st with
                  processed_count := st.processed_count + 1
                  analysis_queue := queue
                  object_tree_map := (mapIndex st.object_tree_map current.1).2 }) with h | h
              · exact Or.inl h
              · exact Or.inr (by rw [h, createChildren_count]; simp only []; omega)
            · rcases ih { st with
                processed_count := st.processed_count + 1
                analysis_queue := queue
                object_tree_map := (mapIndex st.object_tree_map current.1).2 } with h | h
              · exact Or.inl h
              · exact Or.inr (by rw [h]; simp only []; omega)

/-- The variables of the walk when `PdfiumEx_BuildObjectTree` returns: they satisfy the
invariant of the walk and every property that holds at the start and is kept by the steps of
the loop. -/
theorem build_stable {pDoc : CPDF_Document} {page : Option CPDF_Page}
    {max_depth : Int} {r : Nat × Heap}
    (h : PdfiumEx_BuildObjectTree (some pDoc) page max_depth = some r)
    (P : WalkState → Prop)
    (hinit : ∀ (obj_num gen_num : Nat) (content : String), 0 < obj_num →
      P { heap := [newTreeNode obj_num gen_num (some content) 0]
          analysis_queue := [(obj_num, none)]
          object_tree_map := [(obj_num, some 0)]
          processed_count := 0 })
    (hskip : ∀ (st : WalkState) (current : Nat × Option Nat) (queue : List (Nat × Option Nat)),
      WalkInv st (clampedDepth max_depth) → P st → st.analysis_queue = current :: queue →
      P { heap := st.heap
          analysis_queue := queue
          object_tree_map := st.object_tree_map
          processed_count := st.processed_count + 1 })
    (hexpand : ∀ (st : WalkState) (current : Nat × Option Nat)
      (queue : List (Nat × Option Nat)) (i : Nat) (node : PDFIUM_EX_OBJECT_TREE_NODE)
      (dict : List (String × CPDF_Object)) (gen : Nat),
      WalkInv st (clampedDepth max_depth) → P st → st.analysis_queue = current :: queue →
      st.object_tree_map.lookup current.1 = some (some i) → st.heap[i]? = some node →
      node.obj_num = current.1 → node.depth < clampedDepth max_depth →
      pDoc.GetOrParseIndirectObject current.1 = some ⟨.kDictionary dict, gen⟩ →
      P (createChildren (some pDoc) (clampedDepth max_depth) i
        (collectRefs current.1 node.depth dict [])
        { heap := st.heap
          analysis_queue := queue
          object_tree_map := st.object_tree_map
          processed_count := st.processed_count + 1 })) :
    ∃ st : WalkState, r = (0, st.heap) ∧ WalkInv st (clampedDepth max_depth) ∧ P st ∧
      (st.analysis_queue = [] ∨ st.processed_count = 1000000) := by
  cases page with
  | none => simp [PdfiumEx_BuildObjectTree] at h
  | some pPage =>
    cases hdict : pPage.GetDict with
    | none => simp [PdfiumEx_BuildObjectTree, hdict] at h
    | some page_dict =>
      rw [build_eq pDoc pPage page_dict hdict] at h
      split_ifs at h with hbad
      have hnz : page_dict.obj_num ≠ 0 := fun h0 => hbad (Or.inl h0)
      obtain rfl := Option.some.inj h
      have hD := clampedDepth_range max_depth
      have h0 : ([newTreeNode page_dict.obj_num page_dict.gen_num
          (some (ObjectToPdfString (some (.kDictionary page_dict.entries)) 0)) 0] : Heap)[0]?
          = some (newTreeNode page_dict.obj_num page_dict.gen_num
          (some (ObjectToPdfString (some (.kDictionary page_dict.entries)) 0)) 0) := rfl
      have inv0 := initial_inv (newTreeNode page_dict.obj_num page_dict.gen_num
          (some (ObjectToPdfString (some (.kDictionary page_dict.entries)) 0)) 0) rfl rfl rfl
          (clampedDepth max_depth) (by omega)
      have hP0 := hinit page_dict.obj_num page_dict.gen_num
        (ObjectToPdfString (some (.kDictionary page_dict.entries)) 0) (Nat.pos_of_ne_zero hnz)
      refine ⟨walkLoop (some pDoc) pDoc (clampedDepth max_depth) 1000000 _, ?_,
        (walkLoop_inv (some pDoc) pDoc (clampedDepth max_depth) 1000000 _ inv0).1,
        walkLoop_stable (some pDoc) pDoc (clampedDepth max_depth) P hskip hexpand 1000000 _
          inv0 hP0, ?_⟩
      · simp only [BuildObjectTreeWithQueue, BuildObjectTreeWithQueue.run, h0]
      · have hend := walkLoop_end (some pDoc) pDoc (clampedDepth max_depth) 1000000
          { heap := [newTreeNode page_dict.obj_num page_dict.gen_num
              (some (ObjectToPdfString (some (.kDictionary page_dict.entries)) 0)) 0]
            analysis_queue := [(page_dict.obj_num, none)]
            object_tree_map := [(page_dict.obj_num, some 0)]
            processed_count := 0 }
        simp only [Nat.zero_add] at hend
        exact hend

/-- A property kept when an entry leaves the queue and when a child is created under a node
that resolves to a dictionary is kept by the expansion of a dequeued node. -/
theorem expand_of_add (document : Option CPDF_Document) (pDoc : CPDF_Document) (D : Int)
    (P : WalkState → Prop)
    (hskip : ∀ (st : WalkState) (current : Nat × Option Nat) (queue : List (Nat × Option Nat)),
      WalkInv st D → P st → st.analysis_queue = current :: queue →
      P { heap := st.heap
          analysis_queue := queue
          object_tree_map := st.object_tree_map
          processed_count := st.processed_count + 1 })
    (hadd : ∀ (st : WalkState) (i : Nat) (node : PDFIUM_EX_OBJECT_TREE_NODE) (ref : Nat)
      (content_str : String) (dict : List (String × CPDF_Object)) (gen : Nat),
      WalkInv st D → P st → st.heap[i]? = some node → node.depth < D →
      (st.object_tree_map.lookup ref).isSome = false → node.child_count < 1000000 →
      PdfiumEx_GetRawObjectContent document ref 0 = some content_str →
      strlen content_str ≠ 0 →
      pDoc.GetOrParseIndirectObject node.obj_num = some ⟨.kDictionary dict, gen⟩ →
      ref ∈ collectRefs node.obj_num node.depth dict [] →
      P { heap := AddChildNode
            (st.heap ++ [newTreeNode ref 0 (some content_str) (node.depth + 1)]) i
            st.heap.length
          analysis_queue :=
            if node.depth + 1 < D then st.analysis_queue ++ [(ref, some i)]
            else st.analysis_queue
          object_tree_map := (ref, some st.heap.length) :: st.object_tree_map
          processed_count := st.processed_count })
    (st : WalkState) (current : Nat × Option Nat) (queue : List (Nat × Option Nat)) (i : Nat)
    (node : PDFIUM_EX_OBJECT_TREE_NODE) (dict : List (String × CPDF_Object)) (gen : Nat)
    (inv : WalkInv st D) (hP : P st) (hq : st.analysis_queue = current :: queue)
    (hn : st.heap[i]? = some node) (hnk : node.obj_num = current.1) (hd : node.depth < D)
    (hres : pDoc.GetOrParseIndirectObject current.1 = some ⟨.kDictionary dict, gen⟩) :
    P (createChildren document D i (collectRefs current.1 node.depth dict [])
      { heap := st.heap
        analysis_queue := queue
        object_tree_map := st.object_tree_map
        processed_count := st.processed_count + 1 }) := by
  have inv1 : WalkInv
      { heap := st.heap
        analysis_queue := queue
        object_tree_map := st.object_tree_map
        processed_count := st.processed_count + 1 } D :=
    { wf := inv.wf
      map_sound := inv.map_sound
      map_complete := inv.map_complete
      queue_known := fun e he => inv.queue_known e (by
        rw [hq]; exact List.mem_cons_of_mem _ he) }
  refine createChildren_stable document D i
    (fun s => P s ∧ ∀ node2, s.heap[i]? = some node2 → node2.depth = node.depth)
    current.1 (collectRefs current.1 node.depth dict []) ?_ _ _
    (fun r hr => hr) inv1 ⟨hskip st current queue inv hP hq, ?_⟩ ?_ |>.1
  · intro s node2 ref content_str invs hPs hi2 hk2 hd2 hnew hcount hc hne hmem
    have hdep := hPs.2 node2 hi2
    refine ⟨hadd s i node2 ref content_str dict gen invs hPs.1 hi2 hd2 hnew hcount hc hne
      (by rw [hk2]; exact hres) (by rw [hk2, hdep]; exact hmem), ?_⟩
    intro node3 h3
    rw [addChild_get hi2] at h3
    simp only [if_true] at h3
    cases h3
    exact hdep
  · intro node2 h2
    have h2b : st.heap[i]? = some node2 := h2
    rw [hn] at h2b
    cases h2b
    rfl
  · intro node2 h2
    have h2b : st.heap[i]? = some node2 := h2
    rw [hn] at h2b
    cases h2b
    exact ⟨hd, hnk⟩

/-- Every parent-child link of a built tree is a reference that the walker collected. -/
theorem build_edges {pDoc : CPDF_Document} {page : Option CPDF_Page}
    {max_depth : Int} {r : Nat × Heap}
    (h : PdfiumEx_BuildObjectTree (some pDoc) page max_depth = some r) :
    EdgesCollected pDoc r.2 := by
  obtain ⟨st, hr, _, hP, _⟩ := build_stable h (fun s => EdgesCollected pDoc s.heap)
    (by
      intro obj_num gen_num content _ p n c m hp hc _
      obtain ⟨_, rfl⟩ := singleton_get hp
      cases hc)
    (fun st current queue _ hP _ => hP)
    (by
      intro st current queue i node dict gen inv hP hq _ hn hnk hd hres
      refine expand_of_add (some pDoc) pDoc _ (fun s => EdgesCollected pDoc s.heap)
        (fun st current queue _ hP _ => hP) ?_
        st current queue i node dict gen inv hP hq hn hnk hd hres
      intro s i2 node2 ref content_str dict2 gen2 invs hPs hi2 hd2 hnew hcount hc hne hres2 hmem
      intro p n c m hp hcn hm
      have hp2 : (AddChildNode (s.heap ++ [newTreeNode ref 0 (some content_str)
          (node2.depth + 1)]) i2 s.heap.length)[p]? = some n := hp
      have hm2 : (AddChildNode (s.heap ++ [newTreeNode ref 0 (some content_str)
          (node2.depth + 1)]) i2 s.heap.length)[c]? = some m := hm
      rcases addChild_children hi2 rfl hp2 hcn with ⟨rfl, rfl, hdep⟩ | ⟨n0, h0, hc0, hdep⟩
      · have hnobj : n.obj_num = node2.obj_num := by
          rcases addChild_node hi2 _ hp2 with ⟨hlen, _⟩ | ⟨n0, h0, ho, _⟩
          · have := (List.getElem?_eq_some.1 hi2).1
            omega
          · rw [hi2] at h0
            cases h0
            exact ho
        have hmobj : m.obj_num = ref := by
          rcases addChild_node hi2 _ hm2 with ⟨_, rfl⟩ | ⟨n0, h0, _⟩
          · rfl
          · have := (List.getElem?_eq_some.1 h0).1
            omega
        rw [hnobj, hdep, hmobj]
        exact ⟨dict2, gen2, hres2, hmem⟩
      · have hcl := (invs.wf.forward p n0 c h0 hc0).2
        have hnobj : n.obj_num = n0.obj_num := by
          rcases addChild_node hi2 _ hp2 with ⟨hlen, _⟩ | ⟨n1, h1, ho, _⟩
          · have := (List.getElem?_eq_some.1 h0).1
            omega
          · rw [h0] at h1
            cases h1
            exact ho
        rcases addChild_node hi2 _ hm2 with ⟨hlen, _⟩ | ⟨m0, hm0, hmo, _⟩
        · omega
        · obtain ⟨d3, g3, e1, e2⟩ := hPs p n0 c m0 h0 hc0 hm0
          rw [hnobj, hdep, hmo]
          exact ⟨d3, g3, e1, e2⟩)
  rw [hr]
  exact hP

/-! ## Content is never empty; generation numbers of the nodes -/

theorem rawContent_some {pDoc : CPDF_Document} {n : Nat} {content_str : String}
    (h : PdfiumEx_GetRawObjectContent (some pDoc) n 0 = some content_str) :
    ∃ obj, pDoc.GetOrParseIndirectObject n = some obj ∧ obj.gen_num = 0 ∧
      content_str = ObjectToPdfString (some obj.value) 0 ∧ strlen content_str ≠ 0 := by
  cases hres : pDoc.GetOrParseIndirectObject n with
  | none => simp [PdfiumEx_GetRawObjectContent, hres] at h
  | some obj =>
    by_cases hg : obj.gen_num = 0
    · obtain ⟨h1, h2⟩ := rawContent_of_resolved hres hg
      rw [h1] at h
      cases h
      exact ⟨obj, rfl, hg, rfl, h2⟩
    · simp [PdfiumEx_GetRawObjectContent, hres, hg] at h

/-- C28: `ObjectToPdfString` never returns the empty string, whatever the object (a null
pointer included) and the depth; hence `PdfiumEx_BuildObjectTree` never fails on its
empty-content check (it returns null exactly for a null document, a null page, a page without
dictionary or of object number 0), the content that the walker fetches for a reference is
never empty, and a reference not yet in the map is skipped exactly when its object does not
resolve or has a generation number other than 0. -/
theorem C28_content_never_empty (obj : Option CPDF_Object) (depth : Int) :
    (ObjectToPdfString obj depth).length ≥ 1 ∧
    (∀ (document : Option CPDF_Document) (page : Option CPDF_Page) (max_depth : Int),
      PdfiumEx_BuildObjectTree document page max_depth = none ↔
        (document = none ∨ page = none ∨
          ∃ pPage, page = some pPage ∧
            (pPage.GetDict = none ∨
              ∃ page_dict, pPage.GetDict = some page_dict ∧ page_dict.obj_num = 0))) ∧
    (∀ (pDoc : CPDF_Document) (ref_obj_num : Nat),
      (∀ content_str : String,
        PdfiumEx_GetRawObjectContent (some pDoc) ref_obj_num 0 = some content_str →
        strlen content_str ≠ 0) ∧
      (PdfiumEx_GetRawObjectContent (some pDoc) ref_obj_num 0 = none ↔
        (pDoc.GetOrParseIndirectObject ref_obj_num = none ∨
          ∃ o, pDoc.GetOrParseIndirectObject ref_obj_num = some o ∧ o.gen_num ≠ 0)) ∧
      (∀ object_tree_map : List (Nat × Option Nat),
        (object_tree_map.lookup ref_obj_num).isSome = false →
        (creatable (some pDoc) object_tree_map ref_obj_num = false ↔
          (pDoc.GetOrParseIndirectObject ref_obj_num = none ∨
            ∃ o, pDoc.GetOrParseIndirectObject ref_obj_num = some o ∧ o.gen_num ≠ 0)))) := by
  have hnone : ∀ (pDoc : CPDF_Document) (ref : Nat),
      PdfiumEx_GetRawObjectContent (some pDoc) ref 0 = none ↔
        (pDoc.GetOrParseIndirectObject ref = none ∨
          ∃ o, pDoc.GetOrParseIndirectObject ref = some o ∧ o.gen_num ≠ 0) := by
    intro pDoc ref
    cases hres : pDoc.GetOrParseIndirectObject ref with
    | none => simp [PdfiumEx_GetRawObjectContent, hres]
    | some o =>
      by_cases hg : o.gen_num = 0
      · simp [PdfiumEx_GetRawObjectContent, hres, hg]
      · simp [PdfiumEx_GetRawObjectContent, hres, hg]
  refine ⟨ObjectToPdfString_length_pos obj depth, ?_, ?_⟩
  · intro document page max_depth
    cases document with
    | none => simp [PdfiumEx_BuildObjectTree]
    | some pDoc =>
      cases page with
      | none => simp [PdfiumEx_BuildObjectTree]
      | some pPage =>
        cases hdict : pPage.GetDict with
        | none => simp [PdfiumEx_BuildObjectTree, hdict]
        | some page_dict =>
          rw [build_eq pDoc pPage page_dict hdict]
          by_cases h0 : page_dict.obj_num = 0
          · simp [h0, hdict]
          · have hne := content_not_empty (some (.kDictionary page_dict.entries)) 0
            simp [h0, hne, hdict]
  · intro pDoc ref
    refine ⟨?_, hnone pDoc ref, ?_⟩
    · intro content_str h
      obtain ⟨_, _, _, _, h4⟩ := rawContent_some h
      exact h4
    · intro object_tree_map hnew
      rw [← hnone pDoc ref]
      cases hc : PdfiumEx_GetRawObjectContent (some pDoc) ref 0 with
      | none => simp [creatable, hc]
      | some content_str =>
        obtain ⟨_, _, _, _, h4⟩ := rawContent_some hc
        simp [creatable, hc, hnew, h4]

/-- Instance of C28: in `staleRefDoc` object 9 does not resolve and object 7 resolves with
generation 2, so neither is creatable; object 5 has content, which is not empty. -/
theorem C28_content_never_empty_witness :
    creatable (some staleRefDoc) [] 9 = false ∧ creatable (some staleRefDoc) [] 7 = false ∧
    strlen (ObjectToPdfString
      (some (.kDictionary [("A", .kReference 9), ("B", .kReference 7)])) 0) ≠ 0 :=
  ⟨(((C28_content_never_empty none 0).2.2 staleRefDoc 9).2.2 [] rfl).2 (Or.inl rfl),
    (((C28_content_never_empty none 0).2.2 staleRefDoc 7).2.2 [] rfl).2
      (Or.inr ⟨⟨.kDictionary [("C", .kReference 5)], 2⟩, rfl, by decide⟩),
    ((C28_content_never_empty none 0).2.2 staleRefDoc 5).1 _
      (@rawContent_of_resolved staleRefDoc 5 ⟨.kDictionary [("A", .kReference 9),
        ("B", .kReference 7)], 0⟩ rfl rfl).1⟩

/-- C29, amended: every non-root node of a built tree has `gen_num = 0` and a non-zero
`obj_num`, its object resolves with generation number 0, and it hangs under a node that
resolves to a dictionary whose reference list holds its object number; so an object whose
generation number is not 0 is never a non-root node, and nothing is reached through it.  The
root is made from the page dictionary and keeps the generation number of the page. -/
theorem C29_generation_zero (pDoc : CPDF_Document) (page : Option CPDF_Page)
    (max_depth : Int) (r : Nat × Heap)
    (h : PdfiumEx_BuildObjectTree (some pDoc) page max_depth = some r) :
    ∃ t, treeOf r = some t ∧
      ∀ s ∈ t.subtrees, ∀ c ∈ s.children,
        c.fields.gen_num = 0 ∧ c.fields.obj_num ≠ 0 ∧
        (∃ obj, pDoc.GetOrParseIndirectObject c.fields.obj_num = some obj ∧ obj.gen_num = 0) ∧
        ∃ (dict : List (String × CPDF_Object)) (gen : Nat),
          pDoc.GetOrParseIndirectObject s.fields.obj_num = some ⟨.kDictionary dict, gen⟩ ∧
          c.fields.obj_num ∈ collectRefs s.fields.obj_num s.fields.depth dict [] := by
  obtain ⟨_, _, _, _, _, _, _, _, h1, wf, _⟩ := build_result h
  obtain ⟨t, ht, _⟩ := build_tree h
  have hread : readTree r.2 r.2.length 0 = some t := by
    simpa only [treeOf, h1] using ht
  have hQ := build_nodes h
    (fun n => n.depth = 0 ∨ (n.gen_num = 0 ∧ n.obj_num ≠ 0 ∧
      ∃ obj, pDoc.GetOrParseIndirectObject n.obj_num = some obj ∧ obj.gen_num = 0))
    (fun _ _ _ _ => Or.inl rfl)
    (fun ref content_str d hc _ hpos _ => by
      obtain ⟨obj, hres, hg, _⟩ := rawContent_some hc
      exact Or.inr ⟨rfl, Nat.pos_iff_ne_zero.1 hpos, obj, hres, hg⟩)
    (fun _ node child _ _ _ hn _ _ _ => hn)
  have hE := build_edges h
  refine ⟨t, ht, ?_⟩
  intro s hs c hc
  obtain ⟨q, hq, hch⟩ := subtree_children_in_heap hread s hs
  obtain ⟨x, hx, hxc⟩ := hch c hc
  obtain ⟨hd0, _, _, hcd⟩ := tree_depths_of_wf wf hread s hs
  have hdepth := (hcd c hc).1
  obtain ⟨dict, gen, e1, e2⟩ := hE q s.fields x c.fields hq hx hxc
  rcases hQ x c.fields hxc with h0 | ⟨g1, g2, g3⟩
  · omega
  · exact ⟨g1, g2, g3, dict, gen, e1, e2⟩

/-- Instance of the amended C29: the tree of the end-to-end scenario. -/
theorem C29_generation_zero_witness :
    ∃ r, PdfiumEx_BuildObjectTree (some scenarioDoc) (some scenarioPage) 5 = some r ∧
      ∃ t, treeOf r = some t ∧
        ∀ s ∈ t.subtrees, ∀ c ∈ s.children,
          c.fields.gen_num = 0 ∧ c.fields.obj_num ≠ 0 ∧
          (∃ obj, scenarioDoc.GetOrParseIndirectObject c.fields.obj_num = some obj ∧
            obj.gen_num = 0) ∧
          ∃ (dict : List (String × CPDF_Object)) (gen : Nat),
            scenarioDoc.GetOrParseIndirectObject s.fields.obj_num
              = some ⟨.kDictionary dict, gen⟩ ∧
            c.fields.obj_num ∈ collectRefs s.fields.obj_num s.fields.depth dict [] :=
  ⟨_, rfl, C29_generation_zero scenarioDoc (some scenarioPage) 5 _ rfl⟩

/-- C29 as stated fails: in `rootGenDoc` object 5 has generation number 2 and is referenced
by object 6, whose node is in the tree, and object 5 is in the tree, as its root. -/
theorem C29_counterexample :
    ∃ r t, PdfiumEx_BuildObjectTree (some rootGenDoc) (some rootGenPage) 3 = some r ∧
      treeOf r = some t ∧ t.objNums = [5, 6] ∧
      rootGenDoc.GetOrParseIndirectObject 5 = some ⟨.kDictionary [("A", .kReference 6)], 2⟩ ∧
      rootGenDoc.GetOrParseIndirectObject 6 = some ⟨.kDictionary [("P", .kReference 5)], 0⟩ ∧
      5 ∈ collectRefs 6 1 [("P", .kReference 5)] [] ∧ 5 ∈ t.objNums :=
  ⟨_, _, rfl, rfl, by decide, rfl, rfl, by decide, by decide⟩

/-! ## The object-mapping cache stays empty -/

theorem analyzeContentStreams_eq (page : Option CPDF_Page) (cache : ObjectMappingCache) :
    AnalyzePageContentStreams page cache = cache := by
  unfold AnalyzePageContentStreams
  split
  · rfl
  · split
    · rfl
    · split <;> rfl

theorem analyzeResources_eq (page : Option CPDF_Page) (cache : ObjectMappingCache) :
    AnalyzePageResources page cache = cache := by
  unfold AnalyzePageResources
  split
  · rfl
  · split <;> rfl

theorem getMapping_nil (page_obj : Option CPDF_PageObject) (page : Option CPDF_Page) :
    GetAdvancedPageObjectMapping [] page_obj page = (none, []) := by
  cases page_obj with
  | none => rfl
  | some pPageObj =>
    cases page with
    | none => rfl
    | some pPage =>
      simp only [GetAdvancedPageObjectMapping, List.lookup_nil, analyzeContentStreams_eq,
        analyzeResources_eq]

theorem infoEx_nil (GetDocument : Option CPDF_Document) (page : Option CPDF_Page)
    (page_object : Option CPDF_PageObject) :
    (PdfiumEx_GetPageObjectInfoEx [] GetDocument page page_object).2 = [] := by
  cases page with
  | none => rfl
  | some pPage =>
    cases page_object with
    | none => rfl
    | some pPageObj =>
      simp only [PdfiumEx_GetPageObjectInfoEx, getMapping_nil]

theorem cacheCall_run_nil (call : CacheCall) : call.run [] = [] := by
  cases call with
  | ClearObjectMappingCache => rfl
  | AnalyzePageContentStreams page =>
    simp only [CacheCall.run, analyzeContentStreams_eq]
  | AnalyzePageResources page =>
    simp only [CacheCall.run, analyzeResources_eq]
  | GetAdvancedPageObjectMapping page_obj page =>
    simp only [CacheCall.run, getMapping_nil]
  | PdfiumEx_GetPageObjectInfoEx GetDocument page page_object =>
    simp only [CacheCall.run, infoEx_nil]

theorem cacheAfter_nil (calls : List CacheCall) : cacheAfter calls = [] := by
  unfold cacheAfter
  induction calls with
  | nil => rfl
  | cons call rest ih => rw [List.foldl_cons, cacheCall_run_nil, ih]

/-- C26: no call ever enters anything in the object-mapping cache: after any sequence of
calls made since the program started the cache is empty, so `GetAdvancedPageObjectMapping`
returns null for every page and page object, and `PdfiumEx_GetPageObjectInfoEx` returns, for
every valid page and page object, the snapshot of an inline object (`obj_num = 0`,
`gen_num = 0`, `is_indirect = 0`, `has_stream = 0`). -/
theorem C26_cache_never_populated (calls : List CacheCall)
    (GetDocument : Option CPDF_Document) (page : Option CPDF_Page)
    (page_object : Option CPDF_PageObject) :
    cacheAfter calls = [] ∧
    (GetAdvancedPageObjectMapping (cacheAfter calls) page_object page).1 = none ∧
    (∀ (pPage : CPDF_Page) (pPageObj : CPDF_PageObject),
      page = some pPage → page_object = some pPageObj →
      ∃ info : PDFIUM_EX_OBJECT_INFO,
        (PdfiumEx_GetPageObjectInfoEx (cacheAfter calls) GetDocument page page_object).1
          = some info ∧
        info.obj_num = 0 ∧ info.gen_num = 0 ∧ info.is_indirect = 0 ∧ info.has_stream = 0) := by
  rw [cacheAfter_nil]
  refine ⟨rfl, by rw [getMapping_nil], ?_⟩
  intro pPage pPageObj hpage hobj
  subst hpage
  subst hobj
  simp only [PdfiumEx_GetPageObjectInfoEx, getMapping_nil]
  exact ⟨_, rfl, rfl, rfl, rfl, rfl⟩

/-- Instance of C26: a text object on the page of the end-to-end scenario, after a lookup and
a clearing of the cache. -/
theorem C26_cache_never_populated_witness :
    ∃ info : PDFIUM_EX_OBJECT_INFO,
      (PdfiumEx_GetPageObjectInfoEx
        (cacheAfter [.GetAdvancedPageObjectMapping (some plainTextObject) (some scenarioPage),
          .ClearObjectMappingCache])
        (some scenarioDoc) (some scenarioPage) (some plainTextObject)).1 = some info ∧
      info.obj_num = 0 ∧ info.gen_num = 0 ∧ info.is_indirect = 0 ∧ info.has_stream = 0 :=
  (C26_cache_never_populated
    [.GetAdvancedPageObjectMapping (some plainTextObject) (some scenarioPage),
      .ClearObjectMappingCache]
    (some scenarioDoc) (some scenarioPage) (some plainTextObject)).2.2
    scenarioPage plainTextObject rfl rfl

/-- C27 fails on the code: for every valid page and page object the dictionary text of
`PdfiumEx_GetPageObjectInfoEx` lacks the two characters that close the /Matrix array in the
text of `PdfiumEx_GetPageObjectInfo`, so the lengths differ by 2; for the text object
`plainTextObject` the two texts are the ones shown. -/
theorem C27_matrix_not_closed :
    (∀ (calls : List CacheCall) (GetDocument : Option CPDF_Document) (pPage : CPDF_Page)
        (pPageObj : CPDF_PageObject),
      ∃ basic extended : PDFIUM_EX_OBJECT_INFO,
        PdfiumEx_GetPageObjectInfo (some pPageObj) = some basic ∧
        (PdfiumEx_GetPageObjectInfoEx (cacheAfter calls) GetDocument (some pPage)
          (some pPageObj)).1 = some extended ∧
        basic.dict_length = extended.dict_length + 2) ∧
    (PdfiumEx_GetPageObjectInfo (some plainTextObject)).map (fun info => info.raw_dict_content)
      = some (some
          "/Type /Text /BBox [ 0.0 0.0 0.0 0.0 ] /Matrix [ 1.00 0.00 0.00 1.00 0.00 0.00 ] ") ∧
    (PdfiumEx_GetPageObjectInfoEx [] (some scenarioDoc) (some scenarioPage)
        (some plainTextObject)).1.map (fun info => info.raw_dict_content)
      = some (some
          "/Type /Text /BBox [ 0.0 0.0 0.0 0.0 ] /Matrix [ 1.00 0.00 0.00 1.00 0.00 0.00 ") := by
  refine ⟨?_, by decide, by decide⟩
  intro calls GetDocument pPage pPageObj
  rw [cacheAfter_nil]
  simp only [PdfiumEx_GetPageObjectInfoEx, getMapping_nil, PdfiumEx_GetPageObjectInfo]
  refine ⟨_, _, rfl, rfl, ?_⟩
  simp only [String.length_append]
  have h1 : " ] ".length = 3 := by decide
  have h2 : " ".length = 1 := by decide
  rw [h1, h2]

/-! ## The image hit test -/

/-- The point `(pageX, pageY)` itself is not the point tested: on a page of height 100 with an
image over the square from (0, 0) to (10, 10) and tolerance 2, the point (5, 5), which lies in
the square, is not hit, and the point (5, 95), which lies far above the square extended by the
tolerance, is hit.  All the values are small integers, which the roundings to `float` and
`double` leave as they are. -/
theorem C22_counterexample :
    (PdfHitImageAt id id (some squareImagePage) 5 5 100 2).imageObj = none ∧
    ((0 : ℚ) - 2 ≤ 5 ∧ (5 : ℚ) ≤ 10 + 2) ∧
    (PdfHitImageAt id id (some squareImagePage) 5 95 100 2).imageObj = some 0 ∧
    ¬ ((95 : ℚ) ≤ 10 + 2) := by
  refine ⟨?_, ⟨by norm_num, by norm_num⟩, ?_, by norm_num⟩
  · simp only [PdfHitImageAt, squareImagePage, List.reverse_singleton, hitLoop,
      FPDF_PAGEOBJ_IMAGE, id]
    norm_num
  · simp only [PdfHitImageAt, squareImagePage, List.reverse_singleton, hitLoop,
      FPDF_PAGEOBJ_IMAGE, id]
    norm_num

/-- The loop of the hit test returns no object exactly when no object of the list satisfies
the condition of the test; the index it returns is that of an object that satisfies it. -/
theorem hitLoop_spec (toFloat : ℚ → ℚ) (px py tolerancePx : ℚ) :
    ∀ l : List (Option FPDF_PAGEOBJECT),
      ((hitLoop toFloat px py tolerancePx l).imageObj = none ↔
        ∀ obj ∈ l, ¬ boundsContain toFloat tolerancePx px py obj) ∧
      ∀ i : Nat, (hitLoop toFloat px py tolerancePx l).imageObj = some i →
        ∃ o, l.reverse[i]? = some (some o) ∧
          boundsContain toFloat tolerancePx px py (some o) := by
  intro l
  induction l with
  | nil =>
    refine ⟨⟨fun _ obj hobj => absurd hobj (List.not_mem_nil _), fun _ => rfl⟩, ?_⟩
    intro i hi
    simp [hitLoop] at hi
  | cons obj below ih =>
    have hskip : ¬ boundsContain toFloat tolerancePx px py obj →
        hitLoop toFloat px py tolerancePx (obj :: below)
          = hitLoop toFloat px py tolerancePx below →
        ((hitLoop toFloat px py tolerancePx (obj :: below)).imageObj = none ↔
          ∀ obj2 ∈ obj :: below, ¬ boundsContain toFloat tolerancePx px py obj2) ∧
        ∀ i : Nat, (hitLoop toFloat px py tolerancePx (obj :: below)).imageObj = some i →
          ∃ o, (obj :: below).reverse[i]? = some (some o) ∧
            boundsContain toFloat tolerancePx px py (some o) := by
      intro hno heq
      rw [heq]
      refine ⟨?_, ?_⟩
      · rw [ih.1]
        constructor
        · intro h obj2 hobj2
          rcases List.mem_cons.1 hobj2 with rfl | hobj2
          · exact hno
          · exact h obj2 hobj2
        · intro h obj2 hobj2
          exact h obj2 (List.mem_cons_of_mem _ hobj2)
      · intro i hi
        obtain ⟨o, ho, hc⟩ := ih.2 i hi
        refine ⟨o, ?_, hc⟩
        have hlt : i < below.reverse.length := (List.getElem?_eq_some.1 ho).1
        rw [List.reverse_cons, List.getElem?_append_left hlt]
        exact ho
    cases obj with
    | none => exact hskip (fun h => h) (by simp only [hitLoop])
    | some o =>
      by_cases htype : o.FPDFPageObj_GetType = FPDF_PAGEOBJ_IMAGE
      · cases hb : o.FPDFPageObj_GetRotatedBounds with
        | none =>
          refine hskip ?_ (by simp only [hitLoop, htype, hb, ne_eq, not_true_eq_false, if_false])
          intro h
          simp only [boundsContain, hb] at h
          exact h.2
        | some qp =>
          by_cases hin :
              px ≥ toFloat (min (min qp.x1 qp.x2) (min qp.x3 qp.x4) - tolerancePx) ∧
              px ≤ toFloat (max (max qp.x1 qp.x2) (max qp.x3 qp.x4) + tolerancePx) ∧
              py ≥ toFloat (min (min qp.y1 qp.y2) (min qp.y3 qp.y4) - tolerancePx) ∧
              py ≤ toFloat (max (max qp.y1 qp.y2) (max qp.y3 qp.y4) + tolerancePx)
          · have hc : boundsContain toFloat tolerancePx px py (some o) := by
              simp only [boundsContain, hb]
              exact ⟨htype, hin⟩
            have heq : (hitLoop toFloat px py tolerancePx (some o :: below)).imageObj
                = some below.length := by
              simp only [hitLoop, htype, hb, ne_eq, not_true_eq_false, if_false, hin,
                and_self, if_true]
            rw [heq]
            refine ⟨⟨fun h => (by cases h), fun h =>
              absurd hc (h (some o) (List.mem_cons_self _ _))⟩, ?_⟩
            intro i hi
            obtain rfl := Option.some.inj hi
            refine ⟨o, ?_, hc⟩
            rw [List.reverse_cons, List.getElem?_append_right (by rw [List.length_reverse]),
              List.length_reverse, Nat.sub_self]
            rfl
          · refine hskip ?_ (by
              simp only [hitLoop, htype, hb, ne_eq, not_true_eq_false, if_false, hin])
            intro h
            simp only [boundsContain, hb] at h
            exact hin h.2
      · refine hskip ?_ (by simp only [hitLoop, ne_eq, htype, not_false_eq_true, if_true])
        intro h
        exact htype h.1

/-- C22: `PdfHitImageAt` returns no object for a null page; for a page it returns an object
exactly when some object of the page is an image whose rotated bounds, expanded by
`tolerancePx` on every side, contain the point `(pageX, pageHeight - pageY)`, which is the
given point converted from the left-top origin to the left-bottom origin, all values being
those of the `float` computation; and the object it returns is such an image. -/
theorem C22_hit_test (toFloat toDouble : ℚ → ℚ) (pageX pageY pageHeight tolerancePx : ℚ) :
    (PdfHitImageAt toFloat toDouble none pageX pageY pageHeight tolerancePx).imageObj = none ∧
    ∀ objects : List (Option FPDF_PAGEOBJECT),
      ((PdfHitImageAt toFloat toDouble (some objects) pageX pageY pageHeight
          tolerancePx).imageObj ≠ none ↔
        ∃ obj ∈ objects, boundsContain toFloat tolerancePx (toFloat pageX)
          (toFloat (toDouble (pageHeight - pageY))) obj) ∧
      ∀ i : Nat,
        (PdfHitImageAt toFloat toDouble (some objects) pageX pageY pageHeight
          tolerancePx).imageObj = some i →
        ∃ o, objects[i]? = some (some o) ∧
          boundsContain toFloat tolerancePx (toFloat pageX)
            (toFloat (toDouble (pageHeight - pageY))) (some o) := by
  refine ⟨rfl, ?_⟩
  intro objects
  obtain ⟨h1, h2⟩ := hitLoop_spec toFloat (toFloat pageX)
    (toFloat (toDouble (pageHeight - pageY))) tolerancePx objects.reverse
  rw [List.reverse_reverse] at h2
  refine ⟨?_, h2⟩
  show ¬ (hitLoop toFloat (toFloat pageX) (toFloat (toDouble (pageHeight - pageY)))
    tolerancePx objects.reverse).imageObj = none ↔ _
  rw [h1]
  constructor
  · intro h
    by_contra hno
    apply h
    intro obj hobj hc
    exact hno ⟨obj, List.mem_reverse.1 hobj, hc⟩
  · rintro ⟨obj, hobj, hc⟩ h
    exact h obj (List.mem_reverse.2 hobj) hc

/-- Instance of C22: on a page of height 100 with an image over the square from (0, 0) to
(10, 10), the point given as (5, 95), five pixels above the lower edge of the page, is
converted to (5, 5) and hits the image. -/
theorem C22_hit_test_witness :
    (PdfHitImageAt id id (some squareImagePage) 5 95 100 2).imageObj ≠ none :=
  ((C22_hit_test id id 5 95 100 2).2 squareImagePage).1.2
    ⟨_, List.mem_singleton.2 rfl, by
      simp only [boundsContain, FPDF_PAGEOBJ_IMAGE, id]
      norm_num⟩

/-! ## Every object number is queued at most once -/

theorem nodup_length_le_of_lt {l : List Nat} {n : Nat} (hl : l.Nodup) (h : ∀ x ∈ l, x < n) :
    l.length ≤ n := by
  have hsub : l ⊆ List.range n := fun x hx => List.mem_range.2 (h x hx)
  have := (List.Nodup.subperm hl hsub).length_le
  rwa [List.length_range] at this

/-- The loop keeps the record of the pushes: a duplicate-free list of object numbers whose
first `processed_count` members have left the queue and whose other members are queued. -/
theorem walkLoop_pushedOnce (pDoc : CPDF_Document) (D : Int) (first : Nat) :
    ∀ (budget : Nat) (st : WalkState), WalkInv st D →
      (∃ pushed, PushedOnce st pushed ∧ pushed.head? = some first) →
      ∃ pushed, PushedOnce (walkLoop (some pDoc) pDoc D budget st) pushed ∧
        pushed.head? = some first := by
  apply walkLoop_stable_add (some pDoc) pDoc D
    (fun s => ∃ pushed, PushedOnce s pushed ∧ pushed.head? = some first)
  · rintro st current queue _ ⟨pushed, ⟨h1, h2, h3, h4⟩, h5⟩ hq
    refine ⟨pushed, ⟨h1, ?_, ?_, h4⟩, h5⟩
    · rw [hq] at h3
      by_contra hlt
      have hlen : pushed.length ≤ st.processed_count := by
        simp only [not_le] at hlt
        omega
      rw [List.drop_of_length_le hlen] at h3
      cases h3
    · rw [hq] at h3
      simp only [List.map_cons] at h3
      show queue.map (fun e => e.1) = pushed.drop (st.processed_count + 1)
      rw [← List.drop_drop, ← h3]
      rfl
  · rintro st i node ref content_str dict gen inv ⟨pushed, ⟨h1, h2, h3, h4⟩, h5⟩ hi hd hnew hcount
      hc hne hres hmem
    have hfresh : ref ∉ pushed := by
      intro hin
      have := h4 ref hin
      rw [hnew] at this
      cases this
    by_cases hdeep : node.depth + 1 < D
    · refine ⟨pushed ++ [ref], ⟨?_, ?_, ?_, ?_⟩, ?_⟩
      · exact List.Nodup.append h1 (List.nodup_singleton _) (by
          intro x hx hx2
          rw [List.mem_singleton] at hx2
          subst hx2
          exact hfresh hx)
      · simp only [List.length_append, List.length_singleton]
        omega
      · simp only [hdeep, if_true, List.map_append, List.map_cons, List.map_nil, h3]
        rw [List.drop_append_of_le_length h2]
      · intro k hk
        simp only [lookup_cons_nat]
        by_cases hkr : k = ref
        · simp [hkr]
        · simp only [hkr, if_false]
          rcases List.mem_append.1 hk with hk | hk
          · exact h4 k hk
          · rw [List.mem_singleton] at hk
            exact absurd hk hkr
      · cases pushed with
        | nil => cases h5
        | cons a rest => exact h5
    · refine ⟨pushed, ⟨h1, h2, ?_, ?_⟩, h5⟩
      · simp only [hdeep, if_false, h3]
      · intro k hk
        simp only [lookup_cons_nat]
        by_cases hkr : k = ref
        · simp [hkr]
        · simp only [hkr, if_false]
          exact h4 k hk

/-- The keys recorded as pushed are object numbers of distinct nodes: there are at most as
many as nodes. -/
theorem pushedOnce_length_le {st : WalkState} {D : Int} (inv : WalkInv st D)
    {pushed : List Nat} (h : PushedOnce st pushed) :
    pushed.length ≤ st.heap.length ∧
      ∀ k ∈ pushed, ∃ (p : Nat) (n : PDFIUM_EX_OBJECT_TREE_NODE),
        st.heap[p]? = some n ∧ n.obj_num = k := by
  obtain ⟨h1, _, _, h4⟩ := h
  have hnode : ∀ k ∈ pushed, ∃ (p : Nat) (n : PDFIUM_EX_OBJECT_TREE_NODE),
      st.heap[p]? = some n ∧ n.obj_num = k := by
    intro k hk
    obtain ⟨v, hv⟩ := Option.isSome_iff_exists.1 (h4 k hk)
    obtain ⟨p, n, _, hp, hn⟩ := inv.map_sound k v hv
    exact ⟨p, n, hp, hn⟩
  refine ⟨?_, hnode⟩
  have hmapped : (pushed.map (fun k => ((st.object_tree_map.lookup k).getD none).getD 0)).Nodup
      ∧ ∀ x ∈ pushed.map (fun k => ((st.object_tree_map.lookup k).getD none).getD 0),
          x < st.heap.length := by
    have hkey : ∀ k ∈ pushed, ∃ n : PDFIUM_EX_OBJECT_TREE_NODE,
        st.heap[((st.object_tree_map.lookup k).getD none).getD 0]? = some n ∧ n.obj_num = k := by
      intro k hk
      obtain ⟨v, hv⟩ := Option.isSome_iff_exists.1 (h4 k hk)
      obtain ⟨p, n, hvp, hp, hn⟩ := inv.map_sound k v hv
      refine ⟨n, ?_, hn⟩
      rw [hv, hvp]
      exact hp
    constructor
    · apply List.Nodup.map_on _ h1
      intro a ha b hb hab
      obtain ⟨na, hna, hka⟩ := hkey a ha
      obtain ⟨nb, hnb, hkb⟩ := hkey b hb
      simp only [] at hab
      rw [hab, hnb] at hna
      cases hna
      rw [← hka, ← hkb]
    · intro x hx
      obtain ⟨k, hk, rfl⟩ := List.mem_map.1 hx
      obtain ⟨n, hn, _⟩ := hkey k hk
      exact (List.getElem?_eq_some.1 hn).1
  have := nodup_length_le_of_lt hmapped.1 hmapped.2
  rwa [List.length_map] at this

theorem heap_objNums_nodup {heap : Heap} {D : Int} (wf : HeapWF heap D) :
    (heap.map (fun n => n.obj_num)).Nodup := by
  rw [List.nodup_iff_getElem?_ne_getElem?]
  intro i j hij hj
  rw [List.length_map] at hj
  rw [List.getElem?_map, List.getElem?_map, List.getElem?_eq_getElem hj,
    List.getElem?_eq_getElem (by omega : i < heap.length)]
  simp only [Option.map_some', ne_eq, Option.some.injEq]
  intro heq
  have := wf.obj_inj i j _ _ (List.getElem?_eq_getElem (by omega : i < heap.length))
    (List.getElem?_eq_getElem hj) heq
  omega

/-- A heap whose nodes other than the first carry the numbers of objects that resolve has at
most one node more than there are such objects. -/
theorem heap_length_le_objects {pDoc : CPDF_Document} {heap : Heap} {D : Int}
    (wf : HeapWF heap D)
    (hres : ∀ (p : Nat) (n : PDFIUM_EX_OBJECT_TREE_NODE), heap[p]? = some n →
      n.depth = 0 ∨ (pDoc.GetOrParseIndirectObject n.obj_num).isSome = true)
    (objs : Finset Nat)
    (hobjs : ∀ n : Nat, (pDoc.GetOrParseIndirectObject n).isSome = true → n ∈ objs) :
    heap.length ≤ objs.card + 1 := by
  have hnd : (heap.tail.map (fun n => n.obj_num)).Nodup :=
    ((heap_objNums_nodup wf).sublist ((List.tail_sublist heap).map _))
  have hsub : (heap.tail.map (fun n => n.obj_num)).toFinset ⊆ objs := by
    intro k hk
    rw [List.mem_toFinset, List.mem_map] at hk
    obtain ⟨n, hn, rfl⟩ := hk
    obtain ⟨j, hj, hget⟩ := List.mem_iff_getElem.1 hn
    rw [List.length_tail] at hj
    have hget2 : heap[j + 1]? = some n := by
      rw [List.getElem?_eq_getElem (by omega)]
      rw [← hget, List.getElem_tail]
    obtain ⟨q, m, hq, hc⟩ := wf.has_parent (j + 1) (by omega) (by omega)
    have hdep := wf.child_depth q m (j + 1) n hq hc hget2
    have hm := (wf.depth_range q m hq).1
    rcases hres (j + 1) n hget2 with h0 | h1
    · omega
    · exact hobjs _ h1
  have hcard := Finset.card_le_card hsub
  rw [List.toFinset_card_of_nodup hnd, List.length_map, List.length_tail] at hcard
  omega

/-- C25: each object number is pushed onto the queue at most once, the root first: whatever
the number of iterations allowed, the object numbers pushed so far form a list without
repetition, each the number of a node of the tree, of which the loop has dequeued the first
`processed_count`; so the loop makes at most as many iterations as the tree has nodes, and on
a document with finitely many objects it stops on an empty queue as soon as more iterations
are allowed than there are objects plus one, cycles or not: this is the case of the run of
`BuildObjectTreeWithQueue`, with its 1000000 iterations, on a document of fewer than 999999
objects. -/
theorem C25_cycle_safety (pDoc : CPDF_Document) (obj_num gen_num : Nat) (content : String)
    (max_depth : Int) (budget : Nat) :
    (∃ pushed : List Nat,
      PushedOnce (walkLoop (some pDoc) pDoc (clampedDepth max_depth) budget
        { heap := [newTreeNode obj_num gen_num (some content) 0]
          analysis_queue := [(obj_num, none)]
          object_tree_map := [(obj_num, some 0)]
          processed_count := 0 }) pushed ∧
      pushed.head? = some obj_num ∧
      (∀ k ∈ pushed, ∃ (p : Nat) (n : PDFIUM_EX_OBJECT_TREE_NODE),
        (walkLoop (some pDoc) pDoc (clampedDepth max_depth) budget
          { heap := [newTreeNode obj_num gen_num (some content) 0]
            analysis_queue := [(obj_num, none)]
            object_tree_map := [(obj_num, some 0)]
            processed_count := 0 }).heap[p]? = some n ∧ n.obj_num = k)) ∧
    (walkLoop (some pDoc) pDoc (clampedDepth max_depth) budget
        { heap := [newTreeNode obj_num gen_num (some content) 0]
          analysis_queue := [(obj_num, none)]
          object_tree_map := [(obj_num, some 0)]
          processed_count := 0 }).processed_count
      ≤ (walkLoop (some pDoc) pDoc (clampedDepth max_depth) budget
        { heap := [newTreeNode obj_num gen_num (some content) 0]
          analysis_queue := [(obj_num, none)]
          object_tree_map := [(obj_num, some 0)]
          processed_count := 0 }).heap.length ∧
    (∀ objs : Finset Nat,
      (∀ n : Nat, (pDoc.GetOrParseIndirectObject n).isSome = true → n ∈ objs) →
      (walkLoop (some pDoc) pDoc (clampedDepth max_depth) budget
        { heap := [newTreeNode obj_num gen_num (some content) 0]
          analysis_queue := [(obj_num, none)]
          object_tree_map := [(obj_num, some 0)]
          processed_count := 0 }).heap.length ≤ objs.card + 1 ∧
      (objs.card + 1 < budget →
        (walkLoop (some pDoc) pDoc (clampedDepth max_depth) budget
          { heap := [newTreeNode obj_num gen_num (some content) 0]
            analysis_queue := [(obj_num, none)]
            object_tree_map := [(obj_num, some 0)]
            processed_count := 0 }).analysis_queue = []) ∧
      (objs.card + 1 < 1000000 →
        (BuildObjectTreeWithQueue.run (some pDoc) [newTreeNode obj_num gen_num (some content) 0]
          (some 0) (clampedDepth max_depth)).analysis_queue = [] ∧
        (BuildObjectTreeWithQueue.run (some pDoc) [newTreeNode obj_num gen_num (some content) 0]
          (some 0) (clampedDepth max_depth)).processed_count ≤ objs.card + 1)) := by
  have hD := clampedDepth_range max_depth
  have inv0 : WalkInv
      { heap := [newTreeNode obj_num gen_num (some content) 0]
        analysis_queue := [(obj_num, none)]
        object_tree_map := [(obj_num, some 0)]
        processed_count := 0 } (clampedDepth max_depth) :=
    initial_inv (newTreeNode obj_num gen_num (some content) 0) rfl rfl rfl
      (clampedDepth max_depth) (by omega)
  have hP0 : ∃ pushed, PushedOnce
      { heap := [newTreeNode obj_num gen_num (some content) 0]
        analysis_queue := [(obj_num, none)]
        object_tree_map := [(obj_num, some 0)]
        processed_count := 0 } pushed ∧ pushed.head? = some obj_num :=
    ⟨[obj_num], ⟨List.nodup_singleton _, Nat.zero_le _, rfl, by
      intro k hk
      rw [List.mem_singleton] at hk
      simp [lookup_cons_nat, hk]⟩, rfl⟩
  have hall : ∀ b : Nat,
      (∃ pushed : List Nat,
        PushedOnce (walkLoop (some pDoc) pDoc (clampedDepth max_depth) b
          { heap := [newTreeNode obj_num gen_num (some content) 0]
            analysis_queue := [(obj_num, none)]
            object_tree_map := [(obj_num, some 0)]
            processed_count := 0 }) pushed ∧
        pushed.head? = some obj_num ∧
        (∀ k ∈ pushed, ∃ (p : Nat) (n : PDFIUM_EX_OBJECT_TREE_NODE),
          (walkLoop (some pDoc) pDoc (clampedDepth max_depth) b
            { heap := [newTreeNode obj_num gen_num (some content) 0]
              analysis_queue := [(obj_num, none)]
              object_tree_map := [(obj_num, some 0)]
              processed_count := 0 }).heap[p]? = some n ∧ n.obj_num = k)) ∧
      (walkLoop (some pDoc) pDoc (clampedDepth max_depth) b
          { heap := [newTreeNode obj_num gen_num (some content) 0]
            analysis_queue := [(obj_num, none)]
            object_tree_map := [(obj_num, some 0)]
            processed_count := 0 }).processed_count
        ≤ (walkLoop (some pDoc) pDoc (clampedDepth max_depth) b
          { heap := [newTreeNode obj_num gen_num (some content) 0]
            analysis_queue := [(obj_num, none)]
            object_tree_map := [(obj_num, some 0)]
            processed_count := 0 }).heap.length ∧
      (∀ objs : Finset Nat,
        (∀ n : Nat, (pDoc.GetOrParseIndirectObject n).isSome = true → n ∈ objs) →
        (walkLoop (some pDoc) pDoc (clampedDepth max_depth) b
          { heap := [newTreeNode obj_num gen_num (some content) 0]
            analysis_queue := [(obj_num, none)]
            object_tree_map := [(obj_num, some 0)]
            processed_count := 0 }).heap.length ≤ objs.card + 1 ∧
        (objs.card + 1 < b →
          (walkLoop (some pDoc) pDoc (clampedDepth max_depth) b
            { heap := [newTreeNode obj_num gen_num (some content) 0]
              analysis_queue := [(obj_num, none)]
              object_tree_map := [(obj_num, some 0)]
              processed_count := 0 }).analysis_queue = [])) := by
    intro b
    obtain ⟨invf, _⟩ := walkLoop_inv (some pDoc) pDoc (clampedDepth max_depth) b _ inv0
    obtain ⟨pushed, hpushed, hhead⟩ :=
      walkLoop_pushedOnce pDoc (clampedDepth max_depth) obj_num b _ inv0 hP0
    obtain ⟨hle, hnodes⟩ := pushedOnce_length_le invf hpushed
    have hresolves := walkLoop_nodes (some pDoc) pDoc (clampedDepth max_depth)
      (fun n => n.depth = 0 ∨ (pDoc.GetOrParseIndirectObject n.obj_num).isSome = true)
      (fun ref content_str d hc _ _ _ => by
        obtain ⟨obj, hres, _⟩ := rawContent_some hc
        exact Or.inr (by simp [newTreeNode, hres]))
      (fun node child _ _ hn _ _ _ => hn) b _ inv0
      (by
        intro p n hp
        obtain ⟨_, rfl⟩ := singleton_get hp
        exact Or.inl rfl)
    have hcount := hpushed.2.1
    refine ⟨⟨pushed, hpushed, hhead, hnodes⟩, le_trans hcount hle, ?_⟩
    intro objs hobjs
    have hheap := heap_length_le_objects invf.wf hresolves objs hobjs
    refine ⟨hheap, ?_⟩
    intro hb
    rcases walkLoop_end (some pDoc) pDoc (clampedDepth max_depth) b
      { heap := [newTreeNode obj_num gen_num (some content) 0]
        analysis_queue := [(obj_num, none)]
        object_tree_map := [(obj_num, some 0)]
        processed_count := 0 } with h | h
    · exact h
    · simp only [Nat.zero_add] at h
      have := le_trans hcount hle
      omega
  obtain ⟨a1, a2, a3⟩ := hall budget
  refine ⟨a1, a2, ?_⟩
  intro objs hobjs
  obtain ⟨b1, b2⟩ := a3 objs hobjs
  refine ⟨b1, b2, ?_⟩
  intro hsmall
  obtain ⟨_, c2, c3⟩ := hall 1000000
  obtain ⟨d1, d2⟩ := c3 objs hobjs
  have h0 : ([newTreeNode obj_num gen_num (some content) 0] : Heap)[0]?
      = some (newTreeNode obj_num gen_num (some content) 0) := rfl
  simp only [BuildObjectTreeWithQueue.run, h0]
  exact ⟨d2 hsmall, le_trans c2 d1⟩

/-- Instance of C25: the cyclic document, whose objects are 1, 2 and 3: the walk stops on an
empty queue after at most 4 iterations. -/
theorem C25_cycle_safety_witness :
    (BuildObjectTreeWithQueue.run (some cyclicDoc) [newTreeNode 1 0 (some "<< >>") 0]
      (some 0) (clampedDepth 1000000)).analysis_queue = [] ∧
    (BuildObjectTreeWithQueue.run (some cyclicDoc) [newTreeNode 1 0 (some "<< >>") 0]
      (some 0) (clampedDepth 1000000)).processed_count ≤ ({1, 2, 3} : Finset Nat).card + 1 :=
  ((C25_cycle_safety cyclicDoc 1 0 "<< >>" 1000000 0).2.2 {1, 2, 3} (by
    intro n hn
    by_cases h1 : n = 1
    · simp [h1]
    · by_cases h2 : n = 2
      · simp [h2]
      · by_cases h3 : n = 3
        · simp [h3]
        · simp [cyclicDoc, h1, h2, h3] at hn)).2.2 (by decide)

/-! ## Breadth-first order -/

/-- The nesting guard of the collection does not depend on the depth below 1000000. -/
theorem collectRefs_depth (u : Nat) (d : Int) (hd : d < 1000000) :
    ∀ (entries : List (String × CPDF_Object)) (acc : List Nat),
      collectRefs u d entries acc = collectRefs u 0 entries acc := by
  intro entries
  induction entries with
  | nil => intro acc; simp [collectRefs]
  | cons e rest ih =>
    intro acc
    obtain ⟨key, value⟩ := e
    cases value <;> simp [collectRefs, ih, hd]

theorem refsOf_dict {pDoc : CPDF_Document} {u : Nat} {dict : List (String × CPDF_Object)}
    {gen : Nat} (h : pDoc.GetOrParseIndirectObject u = some ⟨.kDictionary dict, gen⟩)
    (d : Int) (hd : d < 1000000) : refsOf pDoc u = collectRefs u d dict [] := by
  rw [collectRefs_depth u d hd]
  simp only [refsOf, h]

theorem refsOf_not_dict {pDoc : CPDF_Document} {u : Nat}
    (h : ∀ dict gen, pDoc.GetOrParseIndirectObject u ≠ some ⟨.kDictionary dict, gen⟩) :
    refsOf pDoc u = [] := by
  unfold refsOf
  split
  · rename_i dict gen hres
    exact absurd hres (h dict gen)
  · rfl

theorem hasNode_ext {heap heap2 : Heap} (ext : HeapExt heap heap2) {k : Nat} {d : Int}
    (h : HasNode heap k d) : HasNode heap2 k d := by
  obtain ⟨p, n, hp, hk, hd⟩ := h
  obtain ⟨n2, hn2, e1, _, _, _, e5⟩ := ext p n hp
  exact ⟨p, n2, hn2, e1.trans hk, e5.trans hd⟩

theorem hasNode_unique {heap : Heap} {D : Int} (wf : HeapWF heap D) {k : Nat} {d d2 : Int}
    (h : HasNode heap k d) (h2 : HasNode heap k d2) : d = d2 := by
  obtain ⟨p, n, hp, hk, hd⟩ := h
  obtain ⟨q, m, hq, hk2, hd2⟩ := h2
  obtain rfl := wf.obj_inj p q n m hp hq (hk.trans hk2.symm)
  rw [hp] at hq
  cases hq
  exact hd.symm.trans hd2

/-- A property of the variables of the walk holds after the loop when it holds before, is kept
when the entry of a node at the depth bound, or of a node that does not resolve to a
dictionary, leaves the queue, and is kept by the expansion of a node that resolves to a
dictionary. -/
theorem walkLoop_stable_skip (document : Option CPDF_Document) (pDoc : CPDF_Document) (D : Int)
    (P : WalkState → Prop)
    (hskip : ∀ (st : WalkState) (current : Nat × Option Nat) (queue : List (Nat × Option Nat))
      (i : Nat) (node : PDFIUM_EX_OBJECT_TREE_NODE),
      WalkInv st D → P st → st.analysis_queue = current :: queue →
      st.object_tree_map.lookup current.1 = some (some i) → st.heap[i]? = some node →
      node.obj_num = current.1 →
      (D ≤ node.depth ∨
        ∀ dict gen, pDoc.GetOrParseIndirectObject current.1 ≠ some ⟨.kDictionary dict, gen⟩) →
      P { heap := st.heap
          analysis_queue := queue
          object_tree_map := st.object_tree_map
          processed_count := st.processed_count + 1 })
    (hexpand : ∀ (st : WalkState) (current : Nat × Option Nat)
      (queue : List (Nat × Option Nat)) (i : Nat) (node : PDFIUM_EX_OBJECT_TREE_NODE)
      (dict : List (String × CPDF_Object)) (gen : Nat),
      WalkInv st D → P st → st.analysis_queue = current :: queue →
      st.object_tree_map.lookup current.1 = some (some i) → st.heap[i]? = some node →
      node.obj_num = current.1 → node.depth < D →
      pDoc.GetOrParseIndirectObject current.1 = some ⟨.kDictionary dict, gen⟩ →
      P (createChildren document D i (collectRefs current.1 node.depth dict [])
        { heap := st.heap
          analysis_queue := queue
          object_tree_map := st.object_tree_map
          processed_count := st.processed_count + 1 })) :
    ∀ (budget : Nat) (st : WalkState), WalkInv st D → P st →
      P (walkLoop document pDoc D budget st) := by
  intro budget
  induction budget with
  | zero => intro st _ hP; exact hP
  | succ b ih =>
    intro st inv hP
    unfold walkLoop
    cases hq : st.analysis_queue with
    | nil => exact hP
    | cons current queue =>
      simp only []
      have hknown := inv.queue_known current (by rw [hq]; exact List.mem_cons_self _ _)
      obtain ⟨v, hv⟩ := Option.isSome_iff_exists.1 hknown
      obtain ⟨p, n, hvp, hp, hnk⟩ := inv.map_sound current.1 _ hv
      subst hvp
      have hfound : mapIndex st.object_tree_map current.1 = (some p, st.object_tree_map) := by
        simp only [mapIndex, hv]
      rw [hfound]
      have inv1 : WalkInv
          { st with
            processed_count := st.processed_count + 1
            analysis_queue := queue
            object_tree_map := st.object_tree_map } D :=
        { wf := inv.wf
          map_sound := inv.map_sound
          map_complete := inv.map_complete
          queue_known := fun e he => inv.queue_known e (by
            rw [hq]; exact List.mem_cons_of_mem _ he) }
      simp only [hp]
      split_ifs with hdeep
      · exact ih _ inv1 (hskip st current queue p n inv hP hq hv hp hnk (Or.inl (by omega)))
      · split
        · rename_i dict gen hres
          have hdepth : ∀ node2, st.heap[p]? = some node2 → node2.depth < D := by
            intro node2 h2
            rw [hp] at h2
            cases h2
            omega
          obtain ⟨r1, _⟩ := createChildren_inv document D p
            (collectRefs current.1 n.depth dict []) _ inv1 hdepth
          exact ih _ r1 (hexpand st current queue p n dict gen inv hP hq hv hp
            hnk (by omega) hres)
        · rename_i hno
          exact ih _ inv1 (hskip st current queue p n inv hP hq hv hp hnk
            (Or.inr (fun dict gen hres => hno dict gen hres)))

/-- The children that an expansion creates carry distinct object numbers, taken from the
reference list, none of them in the map and each with content; they fill at most the room left
under the node; and unless they fill it, every creatable reference of the list is among
them. -/
theorem expectedChildren_props (document : Option CPDF_Document)
    (object_tree_map : List (Nat × Option Nat)) (room : Nat) (refs : List Nat) :
    (expectedChildren document object_tree_map room refs).Nodup ∧
    (∀ v ∈ expectedChildren document object_tree_map room refs,
      v ∈ refs ∧ creatable document object_tree_map v = true) ∧
    (expectedChildren document object_tree_map room refs).length ≤ room ∧
    ((expectedChildren document object_tree_map room refs).length < room →
      ∀ v ∈ refs, creatable document object_tree_map v = true →
        v ∈ expectedChildren document object_tree_map room refs) := by
  unfold expectedChildren
  refine ⟨(firstOccurrences_nodup _).sublist (List.take_sublist _ _), ?_, ?_, ?_⟩
  · intro v hv
    have h1 := (mem_firstOccurrences _ v).1 (List.mem_of_mem_take hv)
    rw [List.mem_filter] at h1
    exact h1
  · rw [List.length_take]
    exact min_le_left _ _
  · intro hlt v hv hc
    rw [List.length_take] at hlt
    have hle : (firstOccurrences (refs.filter (creatable document object_tree_map))).length
        ≤ room := by
      by_contra hgt
      rw [min_eq_left (by omega)] at hlt
      omega
    rw [List.take_of_length_le hle]
    exact (mem_firstOccurrences _ v).2 (List.mem_filter.2 ⟨hv, hc⟩)

/-- The variables of the walk after the expansion of the node `i` that heads the queue, for a
reference list `refs`: the invariant holds, the old nodes are kept, the node `i` has the
expected children appended to its child buffer, the other old nodes are unchanged, the new
nodes stand for the expected children, one level deeper, and they are queued in their order
when below the depth bound. -/
theorem expand_spec (document : Option CPDF_Document) (D : Int) {st : WalkState}
    (inv : WalkInv st D) {current : Nat × Option Nat} {queue : List (Nat × Option Nat)}
    (hq : st.analysis_queue = current :: queue) {i : Nat} {node : PDFIUM_EX_OBJECT_TREE_NODE}
    (hn : st.heap[i]? = some node) (hd : node.depth < D) (refs : List Nat)
    (stE : WalkState)
    (hE : stE = createChildren document D i refs
      { heap := st.heap
        analysis_queue := queue
        object_tree_map := st.object_tree_map
        processed_count := st.processed_count + 1 })
    (E : List Nat)
    (hexp : E = expectedChildren document st.object_tree_map (1000000 - node.child_count) refs) :
    WalkInv stE D ∧ HeapExt st.heap stE.heap ∧
    stE.heap.length = st.heap.length + E.length ∧
    (∃ node2, stE.heap[i]? = some node2 ∧ node2.obj_num = node.obj_num ∧
      node2.depth = node.depth ∧ node2.child_count = node.child_count + E.length ∧
      node2.children = node.children ++ List.range' st.heap.length E.length) ∧
    (∀ p : Nat, p ≠ i → p < st.heap.length → stE.heap[p]? = st.heap[p]?) ∧
    (∀ (j ref : Nat), E[j]? = some ref →
      stE.heap[st.heap.length + j]?
        = some (newTreeNode ref 0 (PdfiumEx_GetRawObjectContent document ref 0)
            (node.depth + 1))) ∧
    stE.analysis_queue
      = queue ++ (if node.depth + 1 < D then E.map (fun ref => (ref, some i)) else []) ∧
    stE.processed_count = st.processed_count + 1 := by
  have inv1 : WalkInv
      { heap := st.heap
        analysis_queue := queue
        object_tree_map := st.object_tree_map
        processed_count := st.processed_count + 1 } D :=
    { wf := inv.wf
      map_sound := inv.map_sound
      map_complete := inv.map_complete
      queue_known := fun e he => inv.queue_known e (by
        rw [hq]; exact List.mem_cons_of_mem _ he) }
  have hdepth : ∀ node2, st.heap[i]? = some node2 → node2.depth < D := by
    intro node2 h2
    rw [hn] at h2
    cases h2
    exact hd
  obtain ⟨r1, r2⟩ := createChildren_inv document D i refs _ inv1 hdepth
  have heq := createChildren_eq document D i refs
    { heap := st.heap
      analysis_queue := queue
      object_tree_map := st.object_tree_map
      processed_count := st.processed_count + 1 } node hn
  simp only [] at heq
  rw [← hexp] at heq
  rw [← hE] at r1 r2 heq
  obtain ⟨g1, g2, g3, g4, g5, g6⟩ := attachCreated_spec document D i node.depth E
    { heap := st.heap
      analysis_queue := queue
      object_tree_map := st.object_tree_map
      processed_count := st.processed_count + 1 } node hn
  rw [← heq] at g1 g2 g3 g4 g5 g6
  obtain ⟨f1, f2, _, f4, f5⟩ := foldl_attachChild (List.range' st.heap.length E.length) node
  refine ⟨r1, r2, g1, ⟨_, g2, f4, f5, ?_, f2⟩, g3, g4, g5, g6⟩
  rw [f1, List.length_range']

/-- Every node of the heap after an expansion is an old node, with the object number and the
depth it had, or the node created for one of the expected children. -/
theorem expand_nodes {heap heapE : Heap} {E : List Nat} {i : Nat}
    {node : PDFIUM_EX_OBJECT_TREE_NODE} {content : Nat → Option String}
    (hn : heap[i]? = some node)
    (hlen : heapE.length = heap.length + E.length)
    (hi : ∃ node2, heapE[i]? = some node2 ∧ node2.obj_num = node.obj_num ∧
      node2.depth = node.depth ∧ node2.child_count = node.child_count + E.length ∧
      node2.children = node.children ++ List.range' heap.length E.length)
    (hold : ∀ p : Nat, p ≠ i → p < heap.length → heapE[p]? = heap[p]?)
    (hnew : ∀ (j ref : Nat), E[j]? = some ref →
      heapE[heap.length + j]? = some (newTreeNode ref 0 (content ref) (node.depth + 1)))
    {p : Nat} {n : PDFIUM_EX_OBJECT_TREE_NODE} (hp : heapE[p]? = some n) :
    (∃ n0, heap[p]? = some n0 ∧ n.obj_num = n0.obj_num ∧ n.depth = n0.depth ∧
      (p ≠ i → n = n0)) ∨
    (∃ j ref, E[j]? = some ref ∧ p = heap.length + j ∧
      n = newTreeNode ref 0 (content ref) (node.depth + 1)) := by
  have hplt : p < heapE.length := (List.getElem?_eq_some.1 hp).1
  by_cases hpi : p = i
  · subst hpi
    obtain ⟨node2, h2, e1, e2, _⟩ := hi
    rw [hp] at h2
    cases h2
    exact Or.inl ⟨node, hn, e1, e2, fun h => absurd rfl h⟩
  · by_cases hpo : p < heap.length
    · rw [hold p hpi hpo] at hp
      exact Or.inl ⟨n, hp, rfl, rfl, fun _ => rfl⟩
    · have hj : p - heap.length < E.length := by omega
      have hget := hnew (p - heap.length) E[p - heap.length] (List.getElem?_eq_getElem hj)
      have hpe : heap.length + (p - heap.length) = p := by omega
      rw [hpe, hp] at hget
      exact Or.inr ⟨p - heap.length, _, List.getElem?_eq_getElem hj, hpe.symm,
        Option.some.inj hget⟩

/-- The breadth-first invariant is kept when the entry of a node at the depth bound, or of a
node that does not resolve to a dictionary, leaves the queue. -/
theorem bfs_skip (pDoc : CPDF_Document) (D : Int) (st : WalkState)
    (current : Nat × Option Nat) (queue : List (Nat × Option Nat))
    (i : Nat) (node : PDFIUM_EX_OBJECT_TREE_NODE)
    (inv : WalkInv st D) (hB : BfsInv pDoc D st) (hq : st.analysis_queue = current :: queue)
    (hn : st.heap[i]? = some node) (hnk : node.obj_num = current.1)
    (hwhy : D ≤ node.depth ∨
      ∀ dict gen, pDoc.GetOrParseIndirectObject current.1 ≠ some ⟨.kDictionary dict, gen⟩) :
    BfsInv pDoc D
      { heap := st.heap
        analysis_queue := queue
        object_tree_map := st.object_tree_map
        processed_count := st.processed_count + 1 } := by
  have hsorted := hB.sorted
  rw [hq, List.pairwise_cons] at hsorted
  refine ⟨hsorted.2, ?_, ?_⟩
  · intro p n hp e he de hde
    exact hB.near p n hp e (by rw [hq]; exact List.mem_cons_of_mem _ he) de hde
  · intro p n hp hdn
    rcases hB.done p n hp hdn with ⟨e, he, hek⟩ | hcap | hedges
    · rw [hq] at he
      rcases List.mem_cons.1 he with rfl | he
      · obtain rfl := inv.wf.obj_inj p i n node hp hn (hek.symm.trans hnk.symm)
        rw [hn] at hp
        cases hp
        rcases hwhy with hdeep | hno
        · omega
        · refine Or.inr (Or.inr ?_)
          intro v hv
          rw [hnk, Edge, refsOf_not_dict hno] at hv
          exact absurd hv.1 (List.not_mem_nil _)
      · exact Or.inl ⟨e, he, hek⟩
    · exact Or.inr (Or.inl hcap)
    · exact Or.inr (Or.inr hedges)

/-- The breadth-first invariant is kept by the expansion of the node that heads the queue. -/
theorem bfs_expand (pDoc : CPDF_Document) (D : Int) (hD : D ≤ 1000000) (st : WalkState)
    (current : Nat × Option Nat) (queue : List (Nat × Option Nat))
    (i : Nat) (node : PDFIUM_EX_OBJECT_TREE_NODE) (dict : List (String × CPDF_Object))
    (gen : Nat)
    (inv : WalkInv st D) (hB : BfsInv pDoc D st) (hq : st.analysis_queue = current :: queue)
    (hn : st.heap[i]? = some node) (hnk : node.obj_num = current.1) (hd : node.depth < D)
    (hres : pDoc.GetOrParseIndirectObject current.1 = some ⟨.kDictionary dict, gen⟩) :
    BfsInv pDoc D (createChildren (some pDoc) D i (collectRefs current.1 node.depth dict [])
      { heap := st.heap
        analysis_queue := queue
        object_tree_map := st.object_tree_map
        processed_count := st.processed_count + 1 }) := by
  obtain ⟨E, hEdef⟩ : ∃ E, E = expectedChildren (some pDoc) st.object_tree_map
      (1000000 - node.child_count) (collectRefs current.1 node.depth dict []) := ⟨_, rfl⟩
  obtain ⟨stE, hstE⟩ : ∃ stE, stE = createChildren (some pDoc) D i
      (collectRefs current.1 node.depth dict [])
      { heap := st.heap
        analysis_queue := queue
        object_tree_map := st.object_tree_map
        processed_count := st.processed_count + 1 } := ⟨_, rfl⟩
  obtain ⟨invE, ext, hlen, hi, hold, hnew, hqueue, _⟩ :=
    expand_spec (some pDoc) D inv hq hn hd (collectRefs current.1 node.depth dict []) stE hstE
      E hEdef
  obtain ⟨hEnd, hEmem, hEle, hEall⟩ := expectedChildren_props (some pDoc) st.object_tree_map
    (1000000 - node.child_count) (collectRefs current.1 node.depth dict [])
  rw [← hEdef] at hEnd hEmem hEle hEall
  rw [← hstE]
  clear hstE hEdef
  have hcur : HasNode st.heap current.1 node.depth := ⟨i, node, hn, hnk, rfl⟩
  have hsorted := hB.sorted
  rw [hq, List.pairwise_cons] at hsorted
  -- every old node is at most one level below the expanded node
  have ha : ∀ (p : Nat) (n : PDFIUM_EX_OBJECT_TREE_NODE), st.heap[p]? = some n →
      n.depth ≤ node.depth + 1 := fun p n hp =>
    hB.near p n hp current (by rw [hq]; exact List.mem_cons_self _ _) node.depth hcur
  -- every entry left in the queue is at least as deep as the expanded node
  have hb : ∀ e ∈ queue, ∀ de : Int, HasNode st.heap e.1 de → node.depth ≤ de :=
    fun e he de hde => hsorted.1 e he node.depth de hcur hde
  have holdkey : ∀ e ∈ queue, ∀ d : Int, HasNode stE.heap e.1 d → HasNode st.heap e.1 d := by
    intro e he d hde
    have hknown := inv.queue_known e (by rw [hq]; exact List.mem_cons_of_mem _ he)
    obtain ⟨v, hv⟩ := Option.isSome_iff_exists.1 hknown
    obtain ⟨p, n, _, hp, hpk⟩ := inv.map_sound e.1 v hv
    have h0 : HasNode st.heap e.1 n.depth := ⟨p, n, hp, hpk, rfl⟩
    rw [hasNode_unique invE.wf hde (hasNode_ext ext h0)]
    exact h0
  have hnewkey : ∀ ref ∈ E, HasNode stE.heap ref (node.depth + 1) := by
    intro ref href
    obtain ⟨j, hj⟩ := List.getElem?_of_mem href
    exact ⟨st.heap.length + j, _, hnew j ref hj, rfl, rfl⟩
  have hnodes : ∀ (p : Nat) (n : PDFIUM_EX_OBJECT_TREE_NODE), stE.heap[p]? = some n →
      n.depth ≤ node.depth + 1 := by
    intro p n hp
    rcases expand_nodes hn hlen hi hold hnew hp with ⟨n0, h0, _, e2, _⟩ | ⟨j, ref, _, _, rfl⟩
    · rw [e2]; exact ha p n0 h0
    · exact le_of_eq rfl
  have hqdepth : ∀ e ∈ stE.analysis_queue, ∀ de : Int, HasNode stE.heap e.1 de →
      node.depth ≤ de := by
    intro e he de hde
    rw [hqueue] at he
    rcases List.mem_append.1 he with he | he
    · exact hb e he de (holdkey e he de hde)
    · split_ifs at he with hlt
      · obtain ⟨ref, href, rfl⟩ := List.mem_map.1 he
        rw [hasNode_unique invE.wf hde (hnewkey ref href)]
        omega
      · exact absurd he (List.not_mem_nil _)
  refine ⟨?_, ?_, ?_⟩
  · rw [hqueue, List.pairwise_append]
    refine ⟨?_, ?_, ?_⟩
    · refine hsorted.2.imp_of_mem ?_
      intro a b ha2 hb2 hab da db hda hdb
      exact hab da db (holdkey a ha2 da hda) (holdkey b hb2 db hdb)
    · split_ifs with hlt
      · apply List.pairwise_of_forall_mem_list
        intro a ha2 b hb2 da db hda hdb
        obtain ⟨ra, hra, rfl⟩ := List.mem_map.1 ha2
        obtain ⟨rb, hrb, rfl⟩ := List.mem_map.1 hb2
        rw [hasNode_unique invE.wf hda (hnewkey ra hra),
          hasNode_unique invE.wf hdb (hnewkey rb hrb)]
      · exact List.Pairwise.nil
    · intro a ha2 b hb2 da db hda hdb
      split_ifs at hb2 with hlt
      · obtain ⟨rb, hrb, rfl⟩ := List.mem_map.1 hb2
        rw [hasNode_unique invE.wf hdb (hnewkey rb hrb)]
        obtain ⟨p, n, hp, _, hpd⟩ := holdkey a ha2 da hda
        rw [← hpd]
        exact ha p n hp
      · exact absurd hb2 (List.not_mem_nil _)
  · intro p n hp e he de hde
    have h1 := hnodes p n hp
    have h2 := hqdepth e he de hde
    omega
  · intro p n hp hdn
    rcases expand_nodes hn hlen hi hold hnew hp with ⟨n0, h0, e1, e2, e3⟩ | ⟨j, ref, hj, _, rfl⟩
    · by_cases hpi : p = i
      · subst hpi
        rw [hn] at h0
        cases h0
        obtain ⟨node2, h2, _, _, c1, _⟩ := hi
        rw [hp] at h2
        cases h2
        by_cases hfull : 1000000 ≤ n.child_count
        · exact Or.inr (Or.inl hfull)
        · refine Or.inr (Or.inr ?_)
          intro v hv
          rw [e1, hnk] at hv
          obtain ⟨hvmem, obj, hobj, hgen⟩ := hv
          rw [refsOf_dict hres node.depth (by omega)] at hvmem
          obtain ⟨hraw, hnonempty⟩ := rawContent_of_resolved hobj hgen
          by_cases hseen : (st.object_tree_map.lookup v).isSome = true
          · obtain ⟨w, hw⟩ := Option.isSome_iff_exists.1 hseen
            obtain ⟨q, m, _, hqm, hmk⟩ := inv.map_sound v w hw
            refine ⟨m.depth, hasNode_ext ext ⟨q, m, hqm, hmk, rfl⟩, ?_⟩
            rw [e2]
            exact ha q m hqm
          · have hc : creatable (some pDoc) st.object_tree_map v = true := by
              simp only [creatable, hraw]
              simpa [hseen] using hnonempty
            have hvE := hEall (by omega) v hvmem hc
            exact ⟨node.depth + 1, hnewkey v hvE, by omega⟩
      · obtain rfl := e3 hpi
        rcases hB.done p n h0 hdn with ⟨e, he, hek⟩ | hcap | hedges
        · rw [hq] at he
          rcases List.mem_cons.1 he with rfl | he
          · exact absurd (inv.wf.obj_inj p i n node h0 hn (hek.symm.trans hnk.symm)) hpi
          · refine Or.inl ⟨e, ?_, hek⟩
            rw [hqueue]
            exact List.mem_append_left _ he
        · exact Or.inr (Or.inl hcap)
        · refine Or.inr (Or.inr ?_)
          intro v hv
          obtain ⟨d, hvd, hle⟩ := hedges v hv
          exact ⟨d, hasNode_ext ext hvd, hle⟩
    · have hdn2 : node.depth + 1 < D := hdn
      refine Or.inl ⟨(ref, some i), ?_, rfl⟩
      rw [hqueue, if_pos hdn2]
      exact List.mem_append_right _ (List.mem_map.2 ⟨ref, List.getElem?_mem hj, rfl⟩)

/-- One iteration of the loop on a queue headed by a node above the depth bound that resolves
to a dictionary: the node is expanded. -/
theorem walkLoop_step (document : Option CPDF_Document) (pDoc : CPDF_Document) (D : Int)
    (budget : Nat) (st : WalkState) (current : Nat × Option Nat)
    (queue : List (Nat × Option Nat)) (i : Nat) (node : PDFIUM_EX_OBJECT_TREE_NODE)
    (dict : List (String × CPDF_Object)) (gen : Nat)
    (hq : st.analysis_queue = current :: queue)
    (hv : st.object_tree_map.lookup current.1 = some (some i))
    (hn : st.heap[i]? = some node) (hd : node.depth < D)
    (hres : pDoc.GetOrParseIndirectObject current.1 = some ⟨.kDictionary dict, gen⟩) :
    walkLoop document pDoc D (budget + 1) st
      = walkLoop document pDoc D budget
          (createChildren document D i (collectRefs current.1 node.depth dict [])
            { heap := st.heap
              analysis_queue := queue
              object_tree_map := st.object_tree_map
              processed_count := st.processed_count + 1 }) := by
  have hfound : mapIndex st.object_tree_map current.1 = (some i, st.object_tree_map) := by
    simp only [mapIndex, hv]
  have hnd : ¬ node.depth ≥ D := by omega
  rw [walkLoop]
  simp only [hq, hfound, hn, hnd, if_false, hres]

/-- The breadth-first invariant holds of the variables of the walk from a lone root, after
any number of iterations. -/
theorem walk_bfs (pDoc : CPDF_Document) (obj_num gen_num : Nat) (content : String)
    (max_depth : Int) (budget : Nat) :
    BfsInv pDoc (clampedDepth max_depth)
      (walkLoop (some pDoc) pDoc (clampedDepth max_depth) budget
        { heap := [newTreeNode obj_num gen_num (some content) 0]
          analysis_queue := [(obj_num, none)]
          object_tree_map := [(obj_num, some 0)]
          processed_count := 0 }) := by
  have hD := clampedDepth_range max_depth
  have inv0 : WalkInv
      { heap := [newTreeNode obj_num gen_num (some content) 0]
        analysis_queue := [(obj_num, none)]
        object_tree_map := [(obj_num, some 0)]
        processed_count := 0 } (clampedDepth max_depth) :=
    initial_inv (newTreeNode obj_num gen_num (some content) 0) rfl rfl rfl
      (clampedDepth max_depth) (by omega)
  refine walkLoop_stable_skip (some pDoc) pDoc (clampedDepth max_depth)
    (BfsInv pDoc (clampedDepth max_depth))
    (fun st current queue i node inv hB hq _ hn hnk hwhy =>
      bfs_skip pDoc _ st current queue i node inv hB hq hn hnk hwhy)
    (fun st current queue i node dict gen inv hB hq _ hn hnk hd hres =>
      bfs_expand pDoc _ hD.2 st current queue i node dict gen inv hB hq hn hnk hd hres)
    budget _ inv0 ⟨List.pairwise_singleton _ _, ?_, ?_⟩
  · intro p n hp e he de hde
    obtain ⟨_, rfl⟩ := singleton_get hp
    obtain ⟨q, m, hq, _, hmd⟩ := hde
    obtain ⟨_, rfl⟩ := singleton_get hq
    rw [← hmd]
    exact le_of_lt (Int.lt_succ_self _)
  · intro p n hp _
    obtain ⟨_, rfl⟩ := singleton_get hp
    exact Or.inl ⟨(obj_num, none), List.mem_singleton.2 rfl, rfl⟩

/-- Once the queue is empty, an object at the end of a path of `k` edges from the root has a
node of depth at most `k`, as long as `k` does not exceed a depth below which no node holds
1000000 children. -/
theorem reach_depth {pDoc : CPDF_Document} {D : Int} {st : WalkState}
    (hB : BfsInv pDoc D st) (hq : st.analysis_queue = []) {root : Nat}
    (hroot : HasNode st.heap root 0) (B : Int) (hBD : B ≤ D)
    (hroom : ∀ (p : Nat) (n : PDFIUM_EX_OBJECT_TREE_NODE), st.heap[p]? = some n →
      n.depth < B → n.child_count < 1000000) :
    ∀ (k v : Nat), Reach pDoc root k v → (k : Int) ≤ B →
      ∃ d : Int, HasNode st.heap v d ∧ d ≤ k := by
  intro k v hreach
  induction hreach with
  | start => intro _; exact ⟨0, hroot, le_refl _⟩
  | step hku huv ih =>
    rename_i k u v
    intro hk
    push_cast at hk
    obtain ⟨du, ⟨p, n, hp, hpk, hpd⟩, hdu⟩ := ih (by omega)
    rcases hB.done p n hp (by omega) with ⟨e, he, _⟩ | hcap | hedges
    · rw [hq] at he
      exact absurd he (List.not_mem_nil _)
    · have := hroom p n hp (by omega)
      omega
    · rw [hpk] at hedges
      obtain ⟨d, hvd, hle⟩ := hedges v huv
      refine ⟨d, hvd, ?_⟩
      push_cast
      omega

/-- Every node of a well-formed heap is a node of the tree read from its first node. -/
theorem heap_node_in_tree {heap : Heap} {D : Int} (wf : HeapWF heap D) {t : ObjectTree}
    (ht : treeOf (0, heap) = some t) {p : Nat} {n : PDFIUM_EX_OBJECT_TREE_NODE}
    (hp : heap[p]? = some n) : ∃ s ∈ t.subtrees, s.fields = n := by
  have hplt : p < heap.length := (List.getElem?_eq_some.1 hp).1
  have hmem := readPtrs_complete wf p hplt
  have heq := subtrees_fields_eq heap.length 0 t ht
  have h1 : some n ∈ (readPtrs heap heap.length 0).map (fun q => heap[q]?) :=
    List.mem_map.2 ⟨p, hmem, hp⟩
  rw [← heq] at h1
  obtain ⟨s, hs, hsn⟩ := List.mem_map.1 h1
  exact ⟨s, hs, Option.some.inj hsn⟩

/-- The run of `BuildObjectTreeWithQueue` from a lone root is the loop with 1000000
iterations allowed. -/
theorem run_eq_walkLoop (pDoc : CPDF_Document) (root : PDFIUM_EX_OBJECT_TREE_NODE) (D : Int) :
    BuildObjectTreeWithQueue.run (some pDoc) [root] (some 0) D
      = walkLoop (some pDoc) pDoc D 1000000
          { heap := [root]
            analysis_queue := [(root.obj_num, none)]
            object_tree_map := [(root.obj_num, some 0)]
            processed_count := 0 } := by
  have h0 : ([root] : Heap)[0]? = some root := rfl
  simp only [BuildObjectTreeWithQueue.run, h0]

/-- A built tree is the heap that the run of `BuildObjectTreeWithQueue` leaves from the lone
root made for the page dictionary. -/
theorem build_some_eq {pDoc : CPDF_Document} {pPage : CPDF_Page} {page_dict : CPDF_Dictionary}
    {max_depth : Int} {r : Nat × Heap} (hdict : pPage.GetDict = some page_dict)
    (h : PdfiumEx_BuildObjectTree (some pDoc) (some pPage) max_depth = some r) :
    r = (0, (BuildObjectTreeWithQueue.run (some pDoc)
      [newTreeNode page_dict.obj_num page_dict.gen_num
        (some (ObjectToPdfString (some (.kDictionary page_dict.entries)) 0)) 0] (some 0)
      (clampedDepth max_depth)).heap) := by
  rw [build_eq pDoc pPage page_dict hdict] at h
  split_ifs at h with hbad
  exact (Option.some.inj h).symm

/-- C24: when the walk stops before its 1000000th dequeue and no node of the built tree holds
1000000 children, every object that a path of at most `D` edges of the reference graph reaches
from the page object, `D` being the clamped depth argument, is a node of the tree, no deeper
than the path is long. -/
theorem C24_reachable_within_depth (pDoc : CPDF_Document) (pPage : CPDF_Page)
    (page_dict : CPDF_Dictionary) (max_depth : Int) (r : Nat × Heap)
    (hdict : pPage.GetDict = some page_dict)
    (h : PdfiumEx_BuildObjectTree (some pDoc) (some pPage) max_depth = some r)
    (hcap : (BuildObjectTreeWithQueue.run (some pDoc)
      [newTreeNode page_dict.obj_num page_dict.gen_num
        (some (ObjectToPdfString (some (.kDictionary page_dict.entries)) 0)) 0] (some 0)
      (clampedDepth max_depth)).processed_count < 1000000)
    (hroom : ∀ n ∈ r.2, n.child_count < 1000000) :
    ∃ t, treeOf r = some t ∧
      ∀ (k v : Nat), Reach pDoc page_dict.obj_num k v → (k : Int) ≤ clampedDepth max_depth →
        ∃ s ∈ t.subtrees, s.fields.obj_num = v ∧ s.fields.depth ≤ k := by
  obtain ⟨t, ht, _⟩ := build_tree h
  obtain ⟨_, _, _, _, _, _, _, _, hr1, wf, _⟩ := build_result h
  refine ⟨t, ht, ?_⟩
  rw [build_eq pDoc pPage page_dict hdict] at h
  split_ifs at h with hbad
  obtain rfl := Option.some.inj h
  simp only [BuildObjectTreeWithQueue] at wf hroom ht ⊢
  rw [run_eq_walkLoop] at hcap wf hroom ht
  simp only [newTreeNode] at hcap wf hroom ht
  have hB := walk_bfs pDoc page_dict.obj_num page_dict.gen_num
    (ObjectToPdfString (some (.kDictionary page_dict.entries)) 0) max_depth 1000000
  simp only [newTreeNode] at hB
  have hD := clampedDepth_range max_depth
  have hend := walkLoop_end (some pDoc) pDoc (clampedDepth max_depth) 1000000
    { heap := [newTreeNode page_dict.obj_num page_dict.gen_num
        (some (ObjectToPdfString (some (.kDictionary page_dict.entries)) 0)) 0]
      analysis_queue := [(page_dict.obj_num, none)]
      object_tree_map := [(page_dict.obj_num, some 0)]
      processed_count := 0 }
  simp only [newTreeNode, Nat.zero_add] at hend
  have hq := hend.resolve_right (by omega)
  have hext := (walkLoop_inv (some pDoc) pDoc (clampedDepth max_depth) 1000000 _
    (initial_inv (newTreeNode page_dict.obj_num page_dict.gen_num
      (some (ObjectToPdfString (some (.kDictionary page_dict.entries)) 0)) 0) rfl rfl rfl
      (clampedDepth max_depth) (by omega))).2
  simp only [newTreeNode] at hext
  obtain ⟨root2, hroot2, e1, _, _, _, e5⟩ := hext 0 _ rfl
  intro k v hreach hk
  obtain ⟨d, ⟨p, n, hp, hpk, hpd⟩, hle⟩ := reach_depth hB hq ⟨0, root2, hroot2, e1, e5⟩
    (clampedDepth max_depth) (le_refl _)
    (fun p n hp _ => hroom n (List.getElem?_mem hp)) k v hreach hk
  obtain ⟨s, hs, hsn⟩ := heap_node_in_tree wf ht hp
  exact ⟨s, hs, by rw [hsn]; exact hpk, by rw [hsn, hpd]; exact hle⟩

/-- Instance of C24: in the cyclic document, object 3 is one edge away from the page object
1, through the array of the page dictionary: it is a node of depth at most 1 of the tree. -/
theorem C24_reachable_within_depth_witness :
    ∃ r, PdfiumEx_BuildObjectTree (some cyclicDoc) (some cyclicPage) 5 = some r ∧
      ∃ t, treeOf r = some t ∧
        ∃ s ∈ t.subtrees, s.fields.obj_num = 3 ∧ s.fields.depth ≤ ((1 : Nat) : Int) :=
  ⟨_, rfl,
    (C24_reachable_within_depth cyclicDoc cyclicPage
      { entries := [("A", .kReference 2), ("B", .kReference 2),
          ("C", .kArray [.kReference 3, .kReference 2])]
        obj_num := 1
        gen_num := 0 } 5 _ rfl rfl (by decide) (by decide)).imp
      (fun _ ht => ⟨ht.1, ht.2 1 3
        (Reach.step Reach.start ⟨by decide, _, rfl, rfl⟩) (by decide)⟩)⟩

/-- The page of 1000001 references, built with depth argument 1: the walk stops after one
dequeue, object 1000002 is one edge away from the page object, and the tree has no node for
it. -/
theorem C24_counterexample :
    ∃ r, PdfiumEx_BuildObjectTree (some manyRefsDoc) (some manyRefsPage) 1 = some r ∧
      (BuildObjectTreeWithQueue.run (some manyRefsDoc)
        [newTreeNode 1 0 (some (ObjectToPdfString (some (.kDictionary manyRefsEntries)) 0)) 0]
        (some 0) (clampedDepth 1)).processed_count = 1 ∧
      Reach manyRefsDoc 1 1 1000002 ∧ ((1 : Nat) : Int) ≤ clampedDepth 1 ∧
      ∃ t, treeOf r = some t ∧ ∀ s ∈ t.subtrees, s.fields.obj_num ≠ 1000002 := by
  have hres : manyRefsDoc.GetOrParseIndirectObject 1
      = some ⟨.kDictionary manyRefsEntries, 0⟩ := by
    simp only [manyRefsDoc, if_true]
  have hD1 : clampedDepth 1 = 1 := by decide
  obtain ⟨r, _, h1, _⟩ := build_root_children manyRefsDoc manyRefsPage
    { entries := manyRefsEntries, obj_num := 1, gen_num := 0 } rfl (by decide)
    manyRefsEntries 0 hres 1
  obtain ⟨t, ht, _⟩ := build_tree h1
  -- the state after the only iteration
  have inv0 : WalkInv
      { heap := [newTreeNode 1 0
          (some (ObjectToPdfString (some (.kDictionary manyRefsEntries)) 0)) 0]
        analysis_queue := [(1, none)]
        object_tree_map := [(1, some 0)]
        processed_count := 0 } 1 :=
    initial_inv (newTreeNode 1 0
      (some (ObjectToPdfString (some (.kDictionary manyRefsEntries)) 0)) 0) rfl rfl rfl 1
      (by omega)
  have hn0 : ([newTreeNode 1 0
      (some (ObjectToPdfString (some (.kDictionary manyRefsEntries)) 0)) 0] : Heap)[0]?
      = some (newTreeNode 1 0
          (some (ObjectToPdfString (some (.kDictionary manyRefsEntries)) 0)) 0) := rfl
  obtain ⟨E, hEdef⟩ : ∃ E, E = expectedChildren (some manyRefsDoc) [(1, some 0)]
      (1000000 - 0) (collectRefs 1 0 manyRefsEntries []) := ⟨_, rfl⟩
  obtain ⟨stE, hstE⟩ : ∃ stE, stE = createChildren (some manyRefsDoc) 1 0
      (collectRefs 1 0 manyRefsEntries [])
      { heap := [newTreeNode 1 0
          (some (ObjectToPdfString (some (.kDictionary manyRefsEntries)) 0)) 0]
        analysis_queue := []
        object_tree_map := [(1, some 0)]
        processed_count := 0 + 1 } := ⟨_, rfl⟩
  obtain ⟨_, _, hlen, hi, hold, hnew, hqueue, hcount⟩ :=
    expand_spec (some manyRefsDoc) 1 inv0 rfl hn0
      (by decide) (collectRefs 1 0 manyRefsEntries []) stE hstE E hEdef
  have hrun : BuildObjectTreeWithQueue.run (some manyRefsDoc)
      [newTreeNode 1 0 (some (ObjectToPdfString (some (.kDictionary manyRefsEntries)) 0)) 0]
      (some 0) 1 = stE := by
    rw [run_eq_walkLoop]
    refine (walkLoop_step (some manyRefsDoc) manyRefsDoc 1 999999
      { heap := [newTreeNode 1 0
          (some (ObjectToPdfString (some (.kDictionary manyRefsEntries)) 0)) 0]
        analysis_queue := [(1, none)]
        object_tree_map := [(1, some 0)]
        processed_count := 0 } (1, none) [] 0
      (newTreeNode 1 0 (some (ObjectToPdfString (some (.kDictionary manyRefsEntries)) 0)) 0)
      manyRefsEntries 0 rfl rfl rfl (by decide) hres).trans ?_
    show walkLoop (some manyRefsDoc) manyRefsDoc 1 999999
      (createChildren (some manyRefsDoc) 1 0 (collectRefs 1 0 manyRefsEntries [])
        { heap := [newTreeNode 1 0
            (some (ObjectToPdfString (some (.kDictionary manyRefsEntries)) 0)) 0]
          analysis_queue := []
          object_tree_map := [(1, some 0)]
          processed_count := 0 + 1 }) = stE
    rw [← hstE]
    apply walkLoop_nil
    rw [hqueue]
    rfl
  have hE : E = (List.range 1000000).map (fun i => i + 2) := by
    rw [hEdef]
    unfold expectedChildren
    rw [manyRefs_firstOccurrences, ← List.map_take, List.take_range]
    rfl
  have hr : r = (0, stE.heap) := by
    have hb := build_some_eq (show manyRefsPage.GetDict
      = some { entries := manyRefsEntries, obj_num := 1, gen_num := 0 } from rfl) h1
    simp only [] at hb
    rw [hD1, hrun] at hb
    exact hb
  refine ⟨r, h1, ?_, ?_, by rw [hD1]; decide, t, ht, ?_⟩
  · rw [hD1, hrun, hcount]
  · refine Reach.step Reach.start ⟨?_, ⟨.kNullobj, 0⟩, ?_, rfl⟩
    · have href : refsOf manyRefsDoc 1 = collectRefs 1 0 manyRefsEntries [] := by
        simp only [refsOf, hres]
      rw [href, manyRefs_collected]
      exact List.mem_map.2 ⟨1000000, List.mem_range.2 (by norm_num), by norm_num⟩
    · have h1 : ¬ (1000002 : Nat) = 1 := by norm_num
      have h2 : (2 : Nat) ≤ 1000002 ∧ (1000002 : Nat) ≤ 1000002 := ⟨by norm_num, le_refl _⟩
      simp only [manyRefsDoc, h1, h2, if_false, and_self, if_true]
  · intro s hs hbad
    obtain ⟨q, hq⟩ := subtree_fields_in_heap ht s hs
    rw [hr] at hq
    rcases expand_nodes hn0 hlen hi hold hnew hq with ⟨n0, h0, e1, _, _⟩ | ⟨j, ref, hj, _, hs2⟩
    · obtain ⟨_, rfl⟩ := singleton_get h0
      rw [hbad] at e1
      exact absurd e1 (by norm_num [newTreeNode])
    · have href : ref ∈ E := List.getElem?_mem hj
      rw [hs2] at hbad
      have hbad2 : ref = 1000002 := hbad
      rw [hE, hbad2] at href
      obtain ⟨i, hi2, hi3⟩ := List.mem_map.1 href
      rw [List.mem_range] at hi2
      omega

/-! ## First-in first-out order -/

theorem queueOrder_of_keys (D : Int) (heap : Heap) :
    queueOrder D heap
      = ((heap.map (fun n => (n.obj_num, n.depth))).filter
          (fun x => decide (x.2 < D))).map (fun x => x.1) := by
  unfold queueOrder
  induction heap with
  | nil => rfl
  | cons n rest ih =>
    by_cases h : n.depth < D
    · simp only [List.map_cons, List.filter_cons, h, decide_True, if_true, ih]
    · simp only [List.map_cons, List.filter_cons, h, decide_False, Bool.false_eq_true,
        if_false]
      exact ih

/-- The object numbers and depths of the nodes after an expansion: those of the old nodes,
followed by those of the nodes created. -/
theorem expand_keys {heap heapE : Heap} {E : List Nat} {i : Nat}
    {node : PDFIUM_EX_OBJECT_TREE_NODE} {content : Nat → Option String}
    (hn : heap[i]? = some node)
    (hlen : heapE.length = heap.length + E.length)
    (hi : ∃ node2, heapE[i]? = some node2 ∧ node2.obj_num = node.obj_num ∧
      node2.depth = node.depth ∧ node2.child_count = node.child_count + E.length ∧
      node2.children = node.children ++ List.range' heap.length E.length)
    (hold : ∀ p : Nat, p ≠ i → p < heap.length → heapE[p]? = heap[p]?)
    (hnew : ∀ (j ref : Nat), E[j]? = some ref →
      heapE[heap.length + j]? = some (newTreeNode ref 0 (content ref) (node.depth + 1))) :
    heapE.map (fun n => (n.obj_num, n.depth))
      = heap.map (fun n => (n.obj_num, n.depth)) ++ E.map (fun ref => (ref, node.depth + 1)) := by
  apply List.ext_getElem?
  intro p
  rw [List.getElem?_map]
  by_cases hpo : p < heap.length
  · rw [List.getElem?_append_left (by rw [List.length_map]; exact hpo), List.getElem?_map]
    by_cases hpi : p = i
    · subst hpi
      obtain ⟨node2, h2, e1, e2, _⟩ := hi
      rw [h2, hn]
      simp only [Option.map_some', e1, e2]
    · rw [hold p hpi hpo]
  · rw [List.getElem?_append_right (by rw [List.length_map]; omega), List.length_map,
      List.getElem?_map]
    by_cases hj : p - heap.length < E.length
    · have hget := hnew (p - heap.length) E[p - heap.length] (List.getElem?_eq_getElem hj)
      have hpe : heap.length + (p - heap.length) = p := by omega
      rw [hpe] at hget
      rw [hget, List.getElem?_eq_getElem hj]
      rfl
    · rw [List.getElem?_eq_none (by omega), List.getElem?_eq_none (by omega)]
      rfl

/-- The nodes created by an expansion lengthen the creation order of the nodes above the depth
bound when they lie above it. -/
theorem queueOrder_expand {heap heapE : Heap} {E : List Nat} {d : Int} (D : Int)
    (hkeys : heapE.map (fun n => (n.obj_num, n.depth))
      = heap.map (fun n => (n.obj_num, n.depth)) ++ E.map (fun ref => (ref, d + 1))) :
    queueOrder D heapE = queueOrder D heap ++ (if d + 1 < D then E else []) := by
  rw [queueOrder_of_keys, queueOrder_of_keys, hkeys, List.filter_append, List.map_append]
  congr 1
  split_ifs with hlt
  · rw [List.filter_eq_self.2 (by
      intro x hx
      obtain ⟨ref, _, rfl⟩ := List.mem_map.1 hx
      simpa using hlt)]
    rw [List.map_map]
    exact (List.map_congr_left (fun _ _ => rfl)).trans (List.map_id _)
  · rw [List.filter_eq_nil_iff.2 (by
      intro x hx
      obtain ⟨ref, _, rfl⟩ := List.mem_map.1 hx
      simpa using hlt)]
    rfl

theorem creatable_true {pDoc : CPDF_Document} {object_tree_map : List (Nat × Option Nat)}
    {ref : Nat} (h : creatable (some pDoc) object_tree_map ref = true) :
    (object_tree_map.lookup ref).isSome = false ∧
      ∃ obj, pDoc.GetOrParseIndirectObject ref = some obj ∧ obj.gen_num = 0 := by
  unfold creatable at h
  rw [Bool.and_eq_true] at h
  obtain ⟨h1, h2⟩ := h
  refine ⟨by simpa using h1, ?_⟩
  cases hraw : PdfiumEx_GetRawObjectContent (some pDoc) ref 0 with
  | none => rw [hraw] at h2; cases h2
  | some content_str =>
    obtain ⟨obj, hobj, hgen, _⟩ := rawContent_some hraw
    exact ⟨obj, hobj, hgen⟩

/-- The first-in first-out invariant is kept when an entry leaves the queue without
expansion. -/
theorem order_skip (pDoc : CPDF_Document) (D : Int) (st : WalkState)
    (current : Nat × Option Nat) (queue : List (Nat × Option Nat))
    (hO : OrderInv pDoc D st) (hq : st.analysis_queue = current :: queue) :
    OrderInv pDoc D
      { heap := st.heap
        analysis_queue := queue
        object_tree_map := st.object_tree_map
        processed_count := st.processed_count + 1 } := by
  have hqe := hO.queue_eq
  rw [hq, List.map_cons] at hqe
  have hinc := hO.increasing
  rw [hq, List.pairwise_cons] at hinc
  refine ⟨?_, ?_, hinc.2, hO.few, hO.first⟩
  · show queue.map (fun e => e.1) = (queueOrder D st.heap).drop (st.processed_count + 1)
    rw [← List.tail_drop, ← hqe, List.tail_cons]
  · show st.processed_count + 1 ≤ (queueOrder D st.heap).length
    by_contra hlt
    rw [List.drop_eq_nil_of_le (by omega)] at hqe
    cases hqe

/-- The first-in first-out invariant is kept by the expansion of the node that heads the
queue. -/
theorem order_expand (pDoc : CPDF_Document) (D : Int) (st : WalkState)
    (current : Nat × Option Nat) (queue : List (Nat × Option Nat))
    (i : Nat) (node : PDFIUM_EX_OBJECT_TREE_NODE) (dict : List (String × CPDF_Object))
    (inv : WalkInv st D) (hB : BfsInv pDoc D st) (hO : OrderInv pDoc D st)
    (hq : st.analysis_queue = current :: queue)
    (hn : st.heap[i]? = some node) (hnk : node.obj_num = current.1) (hd : node.depth < D) :
    OrderInv pDoc D (createChildren (some pDoc) D i (collectRefs current.1 node.depth dict [])
      { heap := st.heap
        analysis_queue := queue
        object_tree_map := st.object_tree_map
        processed_count := st.processed_count + 1 }) := by
  obtain ⟨E, hEdef⟩ : ∃ E, E = expectedChildren (some pDoc) st.object_tree_map
      (1000000 - node.child_count) (collectRefs current.1 node.depth dict []) := ⟨_, rfl⟩
  obtain ⟨stE, hstE⟩ : ∃ stE, stE = createChildren (some pDoc) D i
      (collectRefs current.1 node.depth dict [])
      { heap := st.heap
        analysis_queue := queue
        object_tree_map := st.object_tree_map
        processed_count := st.processed_count + 1 } := ⟨_, rfl⟩
  obtain ⟨invE, ext, hlen, hi, hold, hnew, hqueue, hcount⟩ :=
    expand_spec (some pDoc) D inv hq hn hd (collectRefs current.1 node.depth dict []) stE hstE
      E hEdef
  obtain ⟨_, hEmem, _, _⟩ := expectedChildren_props (some pDoc) st.object_tree_map
    (1000000 - node.child_count) (collectRefs current.1 node.depth dict [])
  rw [← hEdef] at hEmem
  rw [← hstE]
  clear hstE hEdef
  have horder := queueOrder_expand D (expand_keys hn hlen hi hold hnew)
  have hskip := order_skip pDoc D st current queue hO hq
  have hqe : queue.map (fun e => e.1) = (queueOrder D st.heap).drop (st.processed_count + 1) :=
    hskip.queue_eq
  have hcl : st.processed_count + 1 ≤ (queueOrder D st.heap).length := hskip.count_le
  have hinc := hO.increasing
  rw [hq, List.pairwise_cons] at hinc
  have holdptr : ∀ e ∈ queue, ∀ (pa : Nat) (na : PDFIUM_EX_OBJECT_TREE_NODE),
      stE.heap[pa]? = some na → na.obj_num = e.1 →
      ∃ n0, st.heap[pa]? = some n0 ∧ n0.obj_num = e.1 := by
    intro e he pa na hpa hna
    have hknown := inv.queue_known e (by rw [hq]; exact List.mem_cons_of_mem _ he)
    obtain ⟨v, hv⟩ := Option.isSome_iff_exists.1 hknown
    obtain ⟨p, n, _, hp, hpk⟩ := inv.map_sound e.1 v hv
    obtain ⟨n2, hn2, e1, _⟩ := ext p n hp
    obtain rfl := invE.wf.obj_inj pa p na n2 hpa hn2 (hna.trans (e1.trans hpk).symm)
    exact ⟨n, hp, hpk⟩
  have hnewptr : ∀ ref ∈ E, ∀ (pa : Nat) (na : PDFIUM_EX_OBJECT_TREE_NODE),
      stE.heap[pa]? = some na → na.obj_num = ref →
      ∃ j, E[j]? = some ref ∧ pa = st.heap.length + j := by
    intro ref href pa na hpa hna
    obtain ⟨j, hj⟩ := List.getElem?_of_mem href
    have := invE.wf.obj_inj pa _ na _ hpa (hnew j ref hj) hna
    exact ⟨j, hj, this⟩
  refine ⟨?_, ?_, ?_, ?_, ?_⟩
  · rw [hqueue, hcount, horder, List.map_append, hqe, List.drop_append_of_le_length hcl]
    congr 1
    split_ifs with hlt
    · rw [List.map_map]
      exact (List.map_congr_left (fun _ _ => rfl)).trans (List.map_id _)
    · rfl
  · rw [hcount, horder, List.length_append]
    omega
  · rw [hqueue, List.pairwise_append]
    refine ⟨?_, ?_, ?_⟩
    · refine hinc.2.imp_of_mem ?_
      intro a b ha2 hb2 hab pa pb na nb hpa hna hpb hnb
      obtain ⟨na0, hpa0, hna0⟩ := holdptr a ha2 pa na hpa hna
      obtain ⟨nb0, hpb0, hnb0⟩ := holdptr b hb2 pb nb hpb hnb
      exact hab pa pb na0 nb0 hpa0 hna0 hpb0 hnb0
    · split_ifs with hlt
      · rw [List.pairwise_map, List.pairwise_iff_getElem]
        intro j1 j2 hj1 hj2 hlt12 pa pb na nb hpa hna hpb hnb
        have e1 := invE.wf.obj_inj pa _ na _ hpa
          (hnew j1 E[j1] (List.getElem?_eq_getElem hj1)) hna
        have e2 := invE.wf.obj_inj pb _ nb _ hpb
          (hnew j2 E[j2] (List.getElem?_eq_getElem hj2)) hnb
        omega
      · exact List.Pairwise.nil
    · intro a ha2 b hb2 pa pb na nb hpa hna hpb hnb
      split_ifs at hb2 with hlt
      · obtain ⟨rb, hrb, rfl⟩ := List.mem_map.1 hb2
        obtain ⟨j, _, hpbj⟩ := hnewptr rb hrb pb nb hpb hnb
        obtain ⟨na0, hpa0, _⟩ := holdptr a ha2 pa na hpa hna
        have := (List.getElem?_eq_some.1 hpa0).1
        omega
      · exact absurd hb2 (List.not_mem_nil _)
  · intro p n hp hdn
    rw [horder, List.length_append]
    rcases expand_nodes hn hlen hi hold hnew hp with ⟨n0, h0, _, e2, e3⟩ | ⟨j, ref, _, _, rfl⟩
    · by_cases hpi : p = i
      · subst hpi
        rw [hn] at h0
        cases h0
        obtain ⟨node2, h2, _, _, c1, _⟩ := hi
        rw [hp] at h2
        cases h2
        have hlt : node.depth + 1 < D := by rw [← e2]; exact hdn
        have := hO.few p node hn hlt
        rw [if_pos hlt, c1]
        omega
      · obtain rfl := e3 hpi
        have := hO.few p n h0 hdn
        omega
    · show 0 + 1 ≤ _
      omega
  · intro p c q n m nq hp hc hm hqp hqn hqd hqc
    have hclass := @expand_nodes st.heap stE.heap E i node
      (fun ref => PdfiumEx_GetRawObjectContent (some pDoc) ref 0) hn hlen hi hold hnew
    -- the node `q`, created before `p`, is an old node
    have hqold : ∃ nq0, st.heap[q]? = some nq0 ∧ nq.obj_num = nq0.obj_num ∧
        nq.depth = nq0.depth ∧ nq0.child_count ≤ nq.child_count := by
      rcases hclass hqn with ⟨nq0, h0, e1, e2, e3⟩ | ⟨j, ref, _, hqj, _⟩
      · refine ⟨nq0, h0, e1, e2, ?_⟩
        by_cases hqi : q = i
        · subst hqi
          rw [hn] at h0
          cases h0
          obtain ⟨node2, h2, _, _, c1, _⟩ := hi
          rw [hqn] at h2
          cases h2
          omega
        · rw [e3 hqi]
      · rcases hclass hp with ⟨n0, h0, _⟩ | ⟨j2, ref2, _, _, rfl⟩
        · have := (List.getElem?_eq_some.1 h0).1
          omega
        · cases hc
    obtain ⟨nq0, hq0, f1, f2, f3⟩ := hqold
    rw [f1]
    have hfirst_old : ∀ (n0 : PDFIUM_EX_OBJECT_TREE_NODE), st.heap[p]? = some n0 →
        c ∈ n0.children → m.obj_num ∉ refsOf pDoc nq0.obj_num := by
      intro n0 h0 hc0
      have hcold := (inv.wf.forward p n0 c h0 hc0).2
      rcases hclass hm with ⟨m0, hm0, g1, _, _⟩ | ⟨j, ref, _, hcj, _⟩
      · rw [g1]
        exact hO.first p c q n0 m0 nq0 h0 hc0 hm0 hqp hq0 (by omega) (by omega)
      · omega
    rcases hclass hp with ⟨n0, h0, _, _, e3⟩ | ⟨j2, ref2, _, _, rfl⟩
    · by_cases hpi : p = i
      · subst hpi
        rw [hn] at h0
        cases h0
        obtain ⟨node2, h2, _, _, _, c2⟩ := hi
        rw [hp] at h2
        cases h2
        rw [c2] at hc
        rcases List.mem_append.1 hc with hc | hc
        · exact hfirst_old node hn hc
        · rw [List.mem_range'_1] at hc
          have hj : c - st.heap.length < E.length := by omega
          have hget := hnew (c - st.heap.length) E[c - st.heap.length]
            (List.getElem?_eq_getElem hj)
          have hpe : st.heap.length + (c - st.heap.length) = c := by omega
          rw [hpe, hm] at hget
          obtain rfl := Option.some.inj hget
          obtain ⟨_, hcre⟩ := hEmem _ (List.getElem_mem hj)
          obtain ⟨hunseen, obj, hobj, hgen⟩ := creatable_true hcre
          intro hmem
          rcases hB.done q nq0 hq0 (by omega) with ⟨e, he, hek⟩ | hcap | hedges
          · rw [hq] at he
            rcases List.mem_cons.1 he with rfl | he
            · have := inv.wf.obj_inj q p nq0 node hq0 hn (hek.symm.trans hnk.symm)
              omega
            · have := hinc.1 e he p q node nq0 hn hnk hq0 hek.symm
              omega
          · omega
          · obtain ⟨d, ⟨x, nx, hx, hxk, _⟩, _⟩ := hedges _ ⟨hmem, obj, hobj, hgen⟩
            have hlook := inv.map_complete x nx hx
            rw [hxk] at hlook
            have hsome : (st.object_tree_map.lookup E[c - st.heap.length]).isSome = true :=
              Option.isSome_iff_exists.2 ⟨_, hlook⟩
            rw [hunseen] at hsome
            cases hsome
      · obtain rfl := e3 hpi
        exact hfirst_old n h0 hc
    · cases hc

/-- The breadth-first and the first-in first-out invariants hold of the variables of the walk
from a lone root, after any number of iterations. -/
theorem walk_order (pDoc : CPDF_Document) (obj_num gen_num : Nat) (content : String)
    (max_depth : Int) (budget : Nat) :
    OrderInv pDoc (clampedDepth max_depth)
      (walkLoop (some pDoc) pDoc (clampedDepth max_depth) budget
        { heap := [newTreeNode obj_num gen_num (some content) 0]
          analysis_queue := [(obj_num, none)]
          object_tree_map := [(obj_num, some 0)]
          processed_count := 0 }) := by
  have hD := clampedDepth_range max_depth
  have inv0 : WalkInv
      { heap := [newTreeNode obj_num gen_num (some content) 0]
        analysis_queue := [(obj_num, none)]
        object_tree_map := [(obj_num, some 0)]
        processed_count := 0 } (clampedDepth max_depth) :=
    initial_inv (newTreeNode obj_num gen_num (some content) 0) rfl rfl rfl
      (clampedDepth max_depth) (by omega)
  have hB0 := walk_bfs pDoc obj_num gen_num content max_depth 0
  have horder0 : queueOrder (clampedDepth max_depth)
      [newTreeNode obj_num gen_num (some content) 0] = [obj_num] := by
    have h0 : (0 : Int) < clampedDepth max_depth := by omega
    simp [queueOrder, newTreeNode, h0]
  have hO0 : OrderInv pDoc (clampedDepth max_depth)
      { heap := [newTreeNode obj_num gen_num (some content) 0]
        analysis_queue := [(obj_num, none)]
        object_tree_map := [(obj_num, some 0)]
        processed_count := 0 } := by
    refine ⟨?_, Nat.zero_le _, List.pairwise_singleton _ _, ?_, ?_⟩
    · show [obj_num] = (queueOrder _ _).drop 0
      rw [horder0]
      rfl
    · intro p n hp _
      obtain ⟨_, rfl⟩ := singleton_get hp
      show 0 + 1 ≤ (queueOrder _ _).length
      rw [horder0]
      exact le_refl _
    · intro p c q n m nq hp hc
      obtain ⟨_, rfl⟩ := singleton_get hp
      cases hc
  exact (walkLoop_stable_skip (some pDoc) pDoc (clampedDepth max_depth)
    (fun s => BfsInv pDoc (clampedDepth max_depth) s ∧ OrderInv pDoc (clampedDepth max_depth) s)
    (fun st current queue i node inv hP hq _ hn hnk hwhy =>
      ⟨bfs_skip pDoc _ st current queue i node inv hP.1 hq hn hnk hwhy,
        order_skip pDoc _ st current queue hP.2 hq⟩)
    (fun st current queue i node dict gen inv hP hq _ hn hnk hd hres =>
      ⟨bfs_expand pDoc _ hD.2 st current queue i node dict gen inv hP.1 hq hn hnk hd hres,
        order_expand pDoc _ st current queue i node dict inv hP.1 hP.2 hq hn hnk hd⟩)
    budget _ inv0 ⟨hB0, hO0⟩).2

/-- The path of tree edges from the root to a node is a path of the reference graph, as long
as the depth of the node. -/
theorem tree_path {pDoc : CPDF_Document} {heap : Heap} {D : Int} (wf : HeapWF heap D)
    (hD : D ≤ 1000000) (hE : EdgesCollected pDoc heap)
    (hQ : ∀ (p : Nat) (n : PDFIUM_EX_OBJECT_TREE_NODE), heap[p]? = some n →
      n.depth = 0 ∨ ∃ obj, pDoc.GetOrParseIndirectObject n.obj_num = some obj ∧ obj.gen_num = 0)
    {root : PDFIUM_EX_OBJECT_TREE_NODE} (hroot : heap[0]? = some root) (hrd : root.depth = 0) :
    ∀ (p : Nat) (n : PDFIUM_EX_OBJECT_TREE_NODE), heap[p]? = some n →
      ∃ k : Nat, (k : Int) = n.depth ∧ Reach pDoc root.obj_num k n.obj_num := by
  intro p
  induction p using Nat.strong_induction_on with
  | _ p ih =>
    intro n hp
    by_cases h0 : p = 0
    · subst h0
      rw [hroot] at hp
      cases hp
      exact ⟨0, by rw [hrd]; rfl, Reach.start⟩
    · have hplt : p < heap.length := (List.getElem?_eq_some.1 hp).1
      obtain ⟨q, nq, hq, hc⟩ := wf.has_parent p (by omega) hplt
      have hfw := wf.forward q nq p hq hc
      have hdep := wf.child_depth q nq p n hq hc hp
      have hr1 := wf.depth_range q nq hq
      have hr2 := wf.depth_range p n hp
      obtain ⟨k, hk, hreach⟩ := ih q hfw.1 nq hq
      obtain ⟨dict, gen, hres, hmem⟩ := hE q nq p n hq hc hp
      rw [← refsOf_dict hres nq.depth (by omega)] at hmem
      rcases hQ p n hp with hz | hobj
      · omega
      · refine ⟨k + 1, by push_cast; omega, Reach.step hreach ⟨hmem, hobj⟩⟩

/-- C23: when the walk stops before its 1000000th dequeue: at every stage the queue holds
the nodes above the depth bound in the order of their creation, less those already dequeued,
so that nodes are dequeued in the order of their creation; every child is in the reference
list of its parent and in the reference list of no node that was dequeued before its parent,
those that hold 1000000 children apart; and the depth of every node is the length of a
shortest path from the page object to its object in the reference graph. -/
theorem C23_first_discovery (pDoc : CPDF_Document) (pPage : CPDF_Page)
    (page_dict : CPDF_Dictionary) (max_depth : Int) (r : Nat × Heap)
    (hdict : pPage.GetDict = some page_dict)
    (h : PdfiumEx_BuildObjectTree (some pDoc) (some pPage) max_depth = some r)
    (hcap : (BuildObjectTreeWithQueue.run (some pDoc)
      [newTreeNode page_dict.obj_num page_dict.gen_num
        (some (ObjectToPdfString (some (.kDictionary page_dict.entries)) 0)) 0] (some 0)
      (clampedDepth max_depth)).processed_count < 1000000) :
    (∀ budget : Nat,
      (walkLoop (some pDoc) pDoc (clampedDepth max_depth) budget
        { heap := [newTreeNode page_dict.obj_num page_dict.gen_num
            (some (ObjectToPdfString (some (.kDictionary page_dict.entries)) 0)) 0]
          analysis_queue := [(page_dict.obj_num, none)]
          object_tree_map := [(page_dict.obj_num, some 0)]
          processed_count := 0 }).analysis_queue.map (fun e => e.1)
        = (queueOrder (clampedDepth max_depth)
            (walkLoop (some pDoc) pDoc (clampedDepth max_depth) budget
              { heap := [newTreeNode page_dict.obj_num page_dict.gen_num
                  (some (ObjectToPdfString (some (.kDictionary page_dict.entries)) 0)) 0]
                analysis_queue := [(page_dict.obj_num, none)]
                object_tree_map := [(page_dict.obj_num, some 0)]
                processed_count := 0 }).heap).drop
            (walkLoop (some pDoc) pDoc (clampedDepth max_depth) budget
              { heap := [newTreeNode page_dict.obj_num page_dict.gen_num
                  (some (ObjectToPdfString (some (.kDictionary page_dict.entries)) 0)) 0]
                analysis_queue := [(page_dict.obj_num, none)]
                object_tree_map := [(page_dict.obj_num, some 0)]
                processed_count := 0 }).processed_count) ∧
    (∀ (p c : Nat) (n m : PDFIUM_EX_OBJECT_TREE_NODE),
      r.2[p]? = some n → c ∈ n.children → r.2[c]? = some m →
      m.obj_num ∈ refsOf pDoc n.obj_num ∧
      ∀ (q : Nat) (nq : PDFIUM_EX_OBJECT_TREE_NODE), q < p → r.2[q]? = some nq →
        nq.depth < clampedDepth max_depth → nq.child_count < 1000000 →
        m.obj_num ∉ refsOf pDoc nq.obj_num) ∧
    ∃ t, treeOf r = some t ∧
      ∀ s ∈ t.subtrees,
        (∃ k : Nat, (k : Int) = s.fields.depth ∧
          Reach pDoc page_dict.obj_num k s.fields.obj_num) ∧
        ∀ k : Nat, Reach pDoc page_dict.obj_num k s.fields.obj_num → s.fields.depth ≤ k := by
  have hD := clampedDepth_range max_depth
  obtain ⟨t, ht, _⟩ := build_tree h
  obtain ⟨_, _, pd, root, _, e2, e3, _, hr1, wf, hroot, hrk, _, hrd, _⟩ := build_result h
  have hpd : pd = page_dict := by
    cases e2
    rw [hdict] at e3
    exact (Option.some.inj e3).symm
  rw [hpd] at hrk
  have hE := build_edges h
  have hQ := build_nodes h
    (fun n => n.depth = 0 ∨
      ∃ obj, pDoc.GetOrParseIndirectObject n.obj_num = some obj ∧ obj.gen_num = 0)
    (fun _ _ _ _ => Or.inl rfl)
    (fun ref content_str d hc _ _ _ => by
      obtain ⟨obj, hres, hg, _⟩ := rawContent_some hc
      exact Or.inr ⟨obj, hres, hg⟩)
    (fun _ node child _ _ _ hn _ _ _ => hn)
  have hr := build_some_eq hdict h
  rw [run_eq_walkLoop] at hr hcap
  simp only [newTreeNode] at hr hcap
  have hB := walk_bfs pDoc page_dict.obj_num page_dict.gen_num
    (ObjectToPdfString (some (.kDictionary page_dict.entries)) 0) max_depth 1000000
  have hO := walk_order pDoc page_dict.obj_num page_dict.gen_num
    (ObjectToPdfString (some (.kDictionary page_dict.entries)) 0) max_depth 1000000
  simp only [newTreeNode] at hB hO
  have hend := walkLoop_end (some pDoc) pDoc (clampedDepth max_depth) 1000000
    { heap := [newTreeNode page_dict.obj_num page_dict.gen_num
        (some (ObjectToPdfString (some (.kDictionary page_dict.entries)) 0)) 0]
      analysis_queue := [(page_dict.obj_num, none)]
      object_tree_map := [(page_dict.obj_num, some 0)]
      processed_count := 0 }
  simp only [newTreeNode, Nat.zero_add] at hend
  have hq := hend.resolve_right (by omega)
  have hfin : r.2 = (walkLoop (some pDoc) pDoc (clampedDepth max_depth) 1000000
      { heap := [{ obj_num := page_dict.obj_num
                   gen_num := page_dict.gen_num
                   raw_content := Option.map c_str
                     (some (ObjectToPdfString (some (.kDictionary page_dict.entries)) 0))
                   content_length := strlen
                     (ObjectToPdfString (some (.kDictionary page_dict.entries)) 0)
                   children := []
                   child_count := 0
                   max_children := 50
                   depth := 0 }]
        analysis_queue := [(page_dict.obj_num, none)]
        object_tree_map := [(page_dict.obj_num, some 0)]
        processed_count := 0 }).heap := by
    rw [hr]
  have hlenq := hO.queue_eq
  rw [hq, List.map_nil] at hlenq
  have hfew : ∀ (p : Nat) (n : PDFIUM_EX_OBJECT_TREE_NODE), r.2[p]? = some n →
      n.depth < clampedDepth max_depth - 1 → n.child_count < 1000000 := by
    intro p n hp hdn
    rw [hfin] at hp
    have h1 := hO.few p n hp (by omega)
    have h2 := List.drop_eq_nil_iff.1 hlenq.symm
    omega
  refine ⟨fun budget => (walk_order pDoc page_dict.obj_num page_dict.gen_num
    (ObjectToPdfString (some (.kDictionary page_dict.entries)) 0) max_depth budget).queue_eq,
    ?_, t, ht, ?_⟩
  · intro p c n m hp hc hm
    obtain ⟨dict, gen, hres, hmem⟩ := hE p n c m hp hc hm
    have hdp := wf.depth_range p n hp
    have hdc := wf.depth_range c m hm
    have hdep := wf.child_depth p n c m hp hc hm
    rw [← refsOf_dict hres n.depth (by omega)] at hmem
    refine ⟨hmem, ?_⟩
    intro q nq hqp hqn hqd hqc
    rw [hfin] at hp hm hqn
    exact hO.first p c q n m nq hp hc hm hqp hqn hqd hqc
  · intro s hs
    obtain ⟨p, hp⟩ := subtree_fields_in_heap ht s hs
    have hpath := tree_path wf hD.2 hE hQ hroot hrd p s.fields hp
    rw [hrk] at hpath
    refine ⟨hpath, ?_⟩
    intro k hreach
    have hdr := wf.depth_range p s.fields hp
    by_cases hk : (k : Int) ≤ clampedDepth max_depth - 1
    · have hroot2 : HasNode r.2 page_dict.obj_num 0 := ⟨0, root, hroot, hrk, hrd⟩
      rw [hfin] at hroot2
      obtain ⟨d, hvd, hle⟩ := reach_depth hB hq hroot2 (clampedDepth max_depth - 1)
        (by omega) (fun p n hp hdn => hfew p n (by rw [hfin]; exact hp) hdn) k _ hreach hk
      have hself : HasNode r.2 s.fields.obj_num s.fields.depth := ⟨p, s.fields, hp, rfl, rfl⟩
      rw [hfin] at hself wf
      rw [hasNode_unique wf hself hvd]
      exact hle
    · omega

/-- Instance of C23: in the tree of the cyclic document, the depth of every node is the
length of a shortest path from object 1 to its object. -/
theorem C23_first_discovery_witness :
    ∃ r, PdfiumEx_BuildObjectTree (some cyclicDoc) (some cyclicPage) 5 = some r ∧
      ∃ t, treeOf r = some t ∧
        ∀ s ∈ t.subtrees,
          (∃ k : Nat, (k : Int) = s.fields.depth ∧ Reach cyclicDoc 1 k s.fields.obj_num) ∧
          ∀ k : Nat, Reach cyclicDoc 1 k s.fields.obj_num → s.fields.depth ≤ k :=
  ⟨_, rfl,
    (C23_first_discovery cyclicDoc cyclicPage
      { entries := [("A", .kReference 2), ("B", .kReference 2),
          ("C", .kArray [.kReference 3, .kReference 2])]
        obj_num := 1
        gen_num := 0 } 5 _ rfl rfl (by decide)).2.2⟩

theorem creatable_of_resolved {pDoc : CPDF_Document} {object_tree_map : List (Nat × Option Nat)}
    {ref : Nat} {obj : IndirectObject}
    (hunseen : (object_tree_map.lookup ref).isSome = false)
    (hres : pDoc.GetOrParseIndirectObject ref = some obj) (hgen : obj.gen_num = 0) :
    creatable (some pDoc) object_tree_map ref = true := by
  obtain ⟨hraw, hlen⟩ := rawContent_of_resolved hres hgen
  simp only [creatable, hunseen, hraw]
  simpa using hlen

theorem unseen_of_no_node {st : WalkState} {D : Int} (inv : WalkInv st D) {ref : Nat}
    (h : ∀ (p : Nat) (n : PDFIUM_EX_OBJECT_TREE_NODE), st.heap[p]? = some n → n.obj_num ≠ ref) :
    (st.object_tree_map.lookup ref).isSome = false := by
  cases hl : st.object_tree_map.lookup ref with
  | none => rfl
  | some v =>
    obtain ⟨p, n, _, hp, hk⟩ := inv.map_sound ref v hl
    exact absurd hk (h p n hp)

theorem siblings_collected :
    collectRefs 2 1 siblingEntries [] = (List.range 1000001).map (fun i => i + 4) := by
  unfold siblingEntries
  rw [collectRefs_references 2 1 (fun i => "K" ++ toString (i + 1000000)) (fun i => i + 4)
    (List.range 1000001) [] (fun i _ => ⟨Nat.succ_pos _, by show i + 4 ≠ 2; omega⟩),
    List.nil_append]

theorem siblings_null (i : Nat) (hi : i < 1000001) :
    siblingsDoc.GetOrParseIndirectObject (i + 4) = some ⟨.kNullobj, 0⟩ := by
  have h1 : ¬ i + 4 = 1 := by omega
  have h2 : ¬ i + 4 = 2 := by omega
  have h3 : ¬ i + 4 = 3 := by omega
  have h4 : 4 ≤ i + 4 ∧ i + 4 ≤ 1000004 := ⟨by omega, by omega⟩
  simp only [siblingsDoc, h1, h2, h3, h4, if_false, and_self, if_true]

/-- The document of the two siblings, built with depth argument 2: the walk stops after three
dequeues. The node of object 2 is created before the node of object 3 and is dequeued second,
when object 3 is still queued; object 1000004 is in the reference list of object 2, yet its
node is a child of the node of object 3, because the node of object 2 holds 1000000 children
when it comes to this reference. -/
theorem C23_counterexample :
    ∃ r, PdfiumEx_BuildObjectTree (some siblingsDoc) (some siblingsPage) 2 = some r ∧
      (BuildObjectTreeWithQueue.run (some siblingsDoc)
        [newTreeNode 1 0 (some (ObjectToPdfString
          (some (.kDictionary [("A", .kReference 2), ("B", .kReference 3)])) 0)) 0]
        (some 0) (clampedDepth 2)).processed_count = 3 ∧
      (walkLoop (some siblingsDoc) siblingsDoc (clampedDepth 2) 2
        { heap := [newTreeNode 1 0 (some (ObjectToPdfString
            (some (.kDictionary [("A", .kReference 2), ("B", .kReference 3)])) 0)) 0]
          analysis_queue := [(1, none)]
          object_tree_map := [(1, some 0)]
          processed_count := 0 }).analysis_queue = [(3, some 0)] ∧
      ∃ (first second child : PDFIUM_EX_OBJECT_TREE_NODE),
        r.2[1]? = some first ∧ first.obj_num = 2 ∧ first.depth < clampedDepth 2 ∧
        r.2[2]? = some second ∧ second.obj_num = 3 ∧
        1000003 ∈ second.children ∧ r.2[1000003]? = some child ∧ child.obj_num = 1000004 ∧
        1000004 ∈ refsOf siblingsDoc 2 := by
  have hD2 : clampedDepth 2 = 2 := by decide
  have hres1 : siblingsDoc.GetOrParseIndirectObject 1
      = some ⟨.kDictionary [("A", .kReference 2), ("B", .kReference 3)], 0⟩ := by
    simp only [siblingsDoc, if_true]
  have hres2 : siblingsDoc.GetOrParseIndirectObject 2
      = some ⟨.kDictionary siblingEntries, 0⟩ := by
    have h1 : ¬ (2 : Nat) = 1 := by decide
    simp only [siblingsDoc, h1, if_false, if_true]
  have hres3 : siblingsDoc.GetOrParseIndirectObject 3
      = some ⟨.kDictionary [("C", .kReference 1000004)], 0⟩ := by
    have h1 : ¬ (3 : Nat) = 1 := by decide
    have h2 : ¬ (3 : Nat) = 2 := by decide
    simp only [siblingsDoc, h1, h2, if_false, if_true]
  -- the first iteration expands the root
  have inv0 : WalkInv
      { heap := [newTreeNode 1 0 (some (ObjectToPdfString
          (some (.kDictionary [("A", .kReference 2), ("B", .kReference 3)])) 0)) 0]
        analysis_queue := [(1, none)]
        object_tree_map := [(1, some 0)]
        processed_count := 0 } 2 :=
    initial_inv (newTreeNode 1 0 (some (ObjectToPdfString
      (some (.kDictionary [("A", .kReference 2), ("B", .kReference 3)])) 0)) 0) rfl rfl rfl 2
      (by omega)
  have hn0 : ([newTreeNode 1 0 (some (ObjectToPdfString
      (some (.kDictionary [("A", .kReference 2), ("B", .kReference 3)])) 0)) 0] : Heap)[0]?
      = some (newTreeNode 1 0 (some (ObjectToPdfString
          (some (.kDictionary [("A", .kReference 2), ("B", .kReference 3)])) 0)) 0) := rfl
  obtain ⟨E1, hE1⟩ : ∃ E, E = expectedChildren (some siblingsDoc) [(1, some 0)]
      (1000000 - 0) [2, 3] := ⟨_, rfl⟩
  obtain ⟨s1, hs1⟩ : ∃ s, s = createChildren (some siblingsDoc) 2 0 [2, 3]
      { heap := [newTreeNode 1 0 (some (ObjectToPdfString
          (some (.kDictionary [("A", .kReference 2), ("B", .kReference 3)])) 0)) 0]
        analysis_queue := []
        object_tree_map := [(1, some 0)]
        processed_count := 0 + 1 } := ⟨_, rfl⟩
  obtain ⟨inv1, _, hlen1, hi1, hold1, hnew1, hqueue1, hcount1⟩ :=
    expand_spec (some siblingsDoc) 2 inv0 rfl hn0 (by decide) [2, 3] s1 hs1 E1 hE1
  have hE1val : E1 = [2, 3] := by
    rw [hE1]
    unfold expectedChildren
    have c2 : creatable (some siblingsDoc) [(1, some 0)] 2 = true :=
      creatable_of_resolved rfl hres2 rfl
    have c3 : creatable (some siblingsDoc) [(1, some 0)] 3 = true :=
      creatable_of_resolved rfl hres3 rfl
    rw [List.filter_cons_of_pos c2, List.filter_cons_of_pos c3, List.filter_nil]
    exact List.take_of_length_le (by norm_num [firstOccurrences])
  have hstep1 : ∀ b : Nat, walkLoop (some siblingsDoc) siblingsDoc 2 (b + 1)
      { heap := [newTreeNode 1 0 (some (ObjectToPdfString
          (some (.kDictionary [("A", .kReference 2), ("B", .kReference 3)])) 0)) 0]
        analysis_queue := [(1, none)]
        object_tree_map := [(1, some 0)]
        processed_count := 0 } = walkLoop (some siblingsDoc) siblingsDoc 2 b s1 := by
    intro b
    refine (walkLoop_step (some siblingsDoc) siblingsDoc 2 b
      { heap := [newTreeNode 1 0 (some (ObjectToPdfString
          (some (.kDictionary [("A", .kReference 2), ("B", .kReference 3)])) 0)) 0]
        analysis_queue := [(1, none)]
        object_tree_map := [(1, some 0)]
        processed_count := 0 } (1, none) [] 0
      (newTreeNode 1 0 (some (ObjectToPdfString
        (some (.kDictionary [("A", .kReference 2), ("B", .kReference 3)])) 0)) 0)
      [("A", .kReference 2), ("B", .kReference 3)] 0 rfl rfl rfl (by decide) hres1).trans ?_
    rw [hs1]
    rfl
  rw [hE1val] at hlen1 hi1 hnew1 hqueue1
  have hnodes1 : ∀ (p : Nat) (n : PDFIUM_EX_OBJECT_TREE_NODE), s1.heap[p]? = some n →
      n.obj_num ≤ 3 := by
    intro p n hp
    rcases expand_nodes hn0 hlen1 hi1 hold1 hnew1 hp with ⟨n0, h0, e1, _, _⟩ | ⟨j, ref, hj, _, rfl⟩
    · obtain ⟨_, rfl⟩ := singleton_get h0
      rw [e1]
      exact (by decide : (1 : Nat) ≤ 3)
    · have href : ref ∈ [2, 3] := List.getElem?_mem hj
      simp only [List.mem_cons, List.mem_singleton, List.not_mem_nil, or_false] at href
      show ref ≤ 3
      omega
  -- the second iteration expands the node of object 2
  have hq1 : s1.analysis_queue = (2, some 0) :: [(3, some 0)] := by
    rw [hqueue1]
    rfl
  have hnode1 : s1.heap[1]? = some (newTreeNode 2 0
      (PdfiumEx_GetRawObjectContent (some siblingsDoc) 2 0) 1) := hnew1 0 2 rfl
  have hnode2 : s1.heap[2]? = some (newTreeNode 3 0
      (PdfiumEx_GetRawObjectContent (some siblingsDoc) 3 0) 1) := hnew1 1 3 rfl
  have hlook1 : s1.object_tree_map.lookup 2 = some (some 1) := inv1.map_complete 1 _ hnode1
  obtain ⟨E2, hE2⟩ : ∃ E, E = expectedChildren (some siblingsDoc) s1.object_tree_map
      (1000000 - 0) (collectRefs 2 1 siblingEntries []) := ⟨_, rfl⟩
  obtain ⟨s2, hs2⟩ : ∃ s, s = createChildren (some siblingsDoc) 2 1
      (collectRefs 2 1 siblingEntries [])
      { heap := s1.heap
        analysis_queue := [(3, some 0)]
        object_tree_map := s1.object_tree_map
        processed_count := s1.processed_count + 1 } := ⟨_, rfl⟩
  obtain ⟨inv2, _, hlen2, hi2, hold2, hnew2, hqueue2, hcount2⟩ :=
    expand_spec (some siblingsDoc) 2 inv1 hq1 hnode1 (by decide)
      (collectRefs 2 1 siblingEntries []) s2 hs2 E2 hE2
  have hE2val : E2 = (List.range 1000000).map (fun i => i + 4) := by
    rw [hE2]
    unfold expectedChildren
    rw [siblings_collected, List.filter_eq_self.2, firstOccurrences_of_nodup, ← List.map_take,
      List.take_range]
    · rfl
    · exact (List.nodup_range _).map (fun a b h => by simpa using h)
    · intro x hx
      obtain ⟨i, hi, rfl⟩ := List.mem_map.1 hx
      rw [List.mem_range] at hi
      refine creatable_of_resolved (unseen_of_no_node inv1 ?_) (siblings_null i hi) rfl
      intro p n hp hbad
      have := hnodes1 p n hp
      omega
  have hstep2 : ∀ b : Nat, walkLoop (some siblingsDoc) siblingsDoc 2 (b + 1) s1
      = walkLoop (some siblingsDoc) siblingsDoc 2 b s2 := by
    intro b
    refine (walkLoop_step (some siblingsDoc) siblingsDoc 2 b s1 (2, some 0) [(3, some 0)] 1
      (newTreeNode 2 0 (PdfiumEx_GetRawObjectContent (some siblingsDoc) 2 0) 1)
      siblingEntries 0 hq1 hlook1 hnode1 (by decide) hres2).trans ?_
    rw [hs2]
    rfl
  have hlen1v : s1.heap.length = 3 := hlen1
  have hlen2v : s2.heap.length = 1000003 := by
    rw [hlen2, hlen1v, hE2val, List.length_map, List.length_range]
  have hnodes2 : ∀ (p : Nat) (n : PDFIUM_EX_OBJECT_TREE_NODE), s2.heap[p]? = some n →
      n.obj_num ≤ 1000003 := by
    intro p n hp
    rcases expand_nodes hnode1 hlen2 hi2 hold2 hnew2 hp with
      ⟨n0, h0, e1, _, _⟩ | ⟨j, ref, hj, _, rfl⟩
    · have := hnodes1 p n0 h0
      omega
    · have href : ref ∈ E2 := List.getElem?_mem hj
      rw [hE2val] at href
      obtain ⟨i, hi, rfl⟩ := List.mem_map.1 href
      rw [List.mem_range] at hi
      show i + 4 ≤ 1000003
      omega
  -- the third iteration expands the node of object 3
  have hq2 : s2.analysis_queue = (3, some 0) :: [] := by
    rw [hqueue2]
    rfl
  have hnode2b : s2.heap[2]? = some (newTreeNode 3 0
      (PdfiumEx_GetRawObjectContent (some siblingsDoc) 3 0) 1) := by
    rw [hold2 2 (by decide) (by rw [hlen1v]; decide)]
    exact hnode2
  have hlook2 : s2.object_tree_map.lookup 3 = some (some 2) := inv2.map_complete 2 _ hnode2b
  obtain ⟨E3, hE3⟩ : ∃ E, E = expectedChildren (some siblingsDoc) s2.object_tree_map
      (1000000 - 0) [1000004] := ⟨_, rfl⟩
  obtain ⟨s3, hs3⟩ : ∃ s, s = createChildren (some siblingsDoc) 2 2 [1000004]
      { heap := s2.heap
        analysis_queue := []
        object_tree_map := s2.object_tree_map
        processed_count := s2.processed_count + 1 } := ⟨_, rfl⟩
  obtain ⟨_, _, _, hi3, hold3, hnew3, hqueue3, hcount3⟩ :=
    expand_spec (some siblingsDoc) 2 inv2 hq2 hnode2b (by decide) [1000004] s3 hs3 E3 hE3
  have hE3val : E3 = [1000004] := by
    rw [hE3]
    unfold expectedChildren
    have c : creatable (some siblingsDoc) s2.object_tree_map 1000004 = true := by
      refine creatable_of_resolved (unseen_of_no_node inv2 ?_) (siblings_null 1000000
        (by norm_num)) rfl
      intro p n hp hbad
      have := hnodes2 p n hp
      omega
    rw [List.filter_cons_of_pos c, List.filter_nil]
    exact List.take_of_length_le (by norm_num [firstOccurrences])
  have hstep3 : ∀ b : Nat, walkLoop (some siblingsDoc) siblingsDoc 2 (b + 1) s2
      = walkLoop (some siblingsDoc) siblingsDoc 2 b s3 := by
    intro b
    refine (walkLoop_step (some siblingsDoc) siblingsDoc 2 b s2 (3, some 0) [] 2
      (newTreeNode 3 0 (PdfiumEx_GetRawObjectContent (some siblingsDoc) 3 0) 1)
      [("C", .kReference 1000004)] 0 hq2 hlook2 hnode2b (by decide) hres3).trans ?_
    rw [hs3]
    rfl
  rw [hE3val] at hi3 hnew3 hqueue3
  have hq3 : s3.analysis_queue = [] := by
    rw [hqueue3]
    rfl
  have hrun : BuildObjectTreeWithQueue.run (some siblingsDoc)
      [newTreeNode 1 0 (some (ObjectToPdfString
        (some (.kDictionary [("A", .kReference 2), ("B", .kReference 3)])) 0)) 0]
      (some 0) 2 = s3 := by
    rw [run_eq_walkLoop]
    refine (hstep1 999999).trans ?_
    rw [hstep2 999998, hstep3 999997]
    exact walkLoop_nil _ _ _ _ _ hq3
  have hbuild := build_root_children siblingsDoc siblingsPage
    { entries := [("A", .kReference 2), ("B", .kReference 3)], obj_num := 1, gen_num := 0 }
    rfl (by decide) [("A", .kReference 2), ("B", .kReference 3)] 0 hres1 2
  obtain ⟨r, _, h1, _⟩ := hbuild
  have hr : r = (0, s3.heap) := by
    have hb := build_some_eq (show siblingsPage.GetDict
      = some { entries := [("A", .kReference 2), ("B", .kReference 3)], obj_num := 1,
               gen_num := 0 } from rfl) h1
    simp only [] at hb
    rw [hD2, hrun] at hb
    exact hb
  obtain ⟨n1, hn1, e1, e2, _⟩ := hi2
  obtain ⟨n2, hn2, g1, _, _, g4⟩ := hi3
  obtain ⟨child, hchild, hchildnum⟩ : ∃ child : PDFIUM_EX_OBJECT_TREE_NODE,
      s3.heap[1000003]? = some child ∧ child.obj_num = 1000004 := by
    have := hnew3 0 1000004 rfl
    rw [hlen2v] at this
    exact ⟨_, this, rfl⟩
  refine ⟨r, h1, ?_, ?_, n1, n2, child, ?_, e1, ?_, ?_, g1, ?_, ?_, hchildnum, ?_⟩
  · rw [hD2, hrun, hcount3, hcount2, hcount1]
  · rw [hD2, hstep1 1, hstep2 0]
    exact hq2
  · rw [hr]
    show s3.heap[1]? = some n1
    rw [hold3 1 (by decide) (by rw [hlen2v]; norm_num)]
    exact hn1
  · rw [hD2, e2]
    decide
  · rw [hr]
    exact hn2
  · rw [g4, hlen2v]
    simp
  · rw [hr]
    exact hchild
  · have href : refsOf siblingsDoc 2 = collectRefs 2 0 siblingEntries [] := by
      simp only [refsOf, hres2]
    rw [href, ← collectRefs_depth 2 1 (by decide), siblings_collected]
    exact List.mem_map.2 ⟨1000000, List.mem_range.2 (by norm_num), by norm_num⟩

end PdfiumEx
